import Mathlib

/-!
# daw_json_link: a shallow embedding of the contract-driven JSON codec

Bytes are natural numbers below 256.  A parse state is a cursor over a byte
buffer; every parser returns an `Outcome`, which is either a value, a call of
the error handler (`failed`), or `undefined` when the C++ code would read
outside of the buffer for ever (only possible under the unchecked policy) or
when a recursion budget is used up.

The checked / unchecked policy, `KnownBounds` and the other template
parameters of the C++ code are ordinary arguments here.
-/

namespace DawJson

/-! ## Errors and outcomes -/

/-- Error kinds handed to the error handler (the taxonomy of `ErrorReason`).
Where the sources hand a text message to the error handler, as the parsers of
the primitive values do, the model takes the kind of the taxonomy that the
message falls under; only the fact of the failure is taken from the sources
there. -/
inductive ErrorReason where
  | InvalidClassStart
  | InvalidArrayStart
  | UnexpectedEndOfData
  | AttemptToAccessPastEndOfValue
  | MissingMemberNameOrEndOfClass
  | OutOfOrderOrderedMembers
  | InvalidNumber
  | NumberOutOfRange
  | NumberIsNaN
  | NumberIsInf
  | InvalidLiteral
  | InvalidTimestamp
  | InvalidUTFEscape
  | InvalidUTFCodepoint
  | InvalidStringHighASCII
  | InvalidString
  | MissingMember
  | UnexpectedJsonType
  | MissingToken
  | UnexpectedNull
  deriving DecidableEq, Repr

/-- Result of running a piece of the parser or of the serializer. -/
inductive Outcome (α : Type) where
  | ok : α → Outcome α
  | failed : ErrorReason → Outcome α
  | undefined : Outcome α
  deriving DecidableEq, Repr

namespace Outcome

/-- Sequencing: the first `failed` or `undefined` wins. -/
def bind {α β : Type} (x : Outcome α) (f : α → Outcome β) : Outcome β :=
  match x with
  | ok a => f a
  | failed e => failed e
  | undefined => undefined

instance : Monad Outcome where
  pure := Outcome.ok
  bind := Outcome.bind

/-- The error handler was invoked. -/
def isFailed {α : Type} : Outcome α → Bool
  | failed _ => true
  | _ => false

/-- A value was returned. -/
def isOk {α : Type} : Outcome α → Bool
  | ok _ => true
  | _ => false

end Outcome

/-- The call `daw_json_error( reason )`: hand the reason to the error handler. -/
def daw_json_error {α : Type} (reason : ErrorReason) : Outcome α :=
  Outcome.failed reason

/-- The macro `daw_json_ensure( Bool, reason )`: checked under every policy. -/
def daw_json_ensure (b : Bool) (reason : ErrorReason) : Outcome Unit :=
  if b then Outcome.ok () else daw_json_error reason

/-- The macro `daw_json_assert( Bool, reason )`: checked under every policy. -/
def daw_json_assert (b : Bool) (reason : ErrorReason) : Outcome Unit :=
  if b then Outcome.ok () else daw_json_error reason

/-- The macro `daw_json_assert_weak( Bool, reason )`: the check exists only when
the policy is checked (`if constexpr( not is_unchecked_input )`). -/
def daw_json_assert_weak (unchecked : Bool) (b : Bool) (reason : ErrorReason) :
    Outcome Unit :=
  if unchecked then Outcome.ok ()
  else if b then Outcome.ok () else daw_json_error reason

/-! ## Bytes -/

/-- The bytes of a text. -/
def bytes (s : String) : List Nat := s.toList.map Char.toNat

/-- Modelled from the spec: the whitespace skipped by `trim_left`
(`' ' \t \n \r`); the header with the parse policy is not part of the
sources. -/
def is_space (c : Nat) : Bool := c == 32 || c == 9 || c == 10 || c == 13

/-- Modelled from the spec: `parse_policy_details::at_end_of_item`.  After a
primitive the cursor points at a comma, at a closing bracket or brace, or at the
buffer end, which `front( )` sees as the NUL behind the last byte of the
buffer; the message of the assertions that use it ("Expected whitespace or one
of \",}]\" at end of number") adds whitespace. -/
def at_end_of_item (c : Nat) : Bool :=
  c == 44 || c == 125 || c == 93 || is_space c || c == 0

/-- Modelled from the spec: `parse_policy_details::is_real_number_part`, from the
message of the assertions that use it ("Expected number to start with on of
\"0123456789eE+-\""). -/
def is_real_number_part (c : Nat) : Bool :=
  (48 ≤ c && c ≤ 57) || c == 101 || c == 69 || c == 43 || c == 45

/-- Modelled from the spec: `json_details::parse_digit`, the value of a decimal
digit character as an unsigned number (`c - '0'` in 32-bit unsigned
arithmetic, so every other byte gives a value of 10 or more). -/
def parse_digit (c : Nat) : Nat := (c + 2 ^ 32 - 48) % 2 ^ 32

/-! ## Parse state -/

/-- Modelled from the spec: the parse state (section 3).  `data` holds the bytes
from the cursor `first` up to the end of the buffer, so a read at the cursor is
the head of `data`; a read at the end of the buffer gives the terminating NUL.
`last` is the end of the range, `class_first` the position of the enclosing
`{`, `counter` the element count or escape position left by a skip routine,
`null_marked` the mark of a range that stands for a missing member. -/
structure Range where
  data : List Nat
  first : Nat
  last : Nat
  class_first : Nat := 0
  counter : Int := -1
  null_marked : Bool := false
  deriving DecidableEq, Repr

/-- A fresh parse state over a whole buffer. -/
def Range.ofBytes (b : List Nat) : Range :=
  { data := b, first := 0, last := b.length }

/-- Modelled from the spec: `has_more()` is `first < last`. -/
def Range.has_more (rng : Range) : Bool := decide (rng.first < rng.last)

/-- Modelled from the spec: `empty()`, the negation of `has_more()`. -/
def Range.empty (rng : Range) : Bool := !rng.has_more

/-- Modelled from the spec: `size()` is `last - first`. -/
def Range.size (rng : Range) : Nat := rng.last - rng.first

/-- Modelled from the spec: `front()` peeks the current byte.  The sources guard
it with explicit `has_more` assertions and also read the byte at `last` (the
closing quote of a skipped string), so the peek itself does not fail. -/
def Range.front (rng : Range) : Nat := rng.data.headD 0

/-- Modelled from the spec: `front( c )`, the range has more and its current
byte is `c`. -/
def Range.front_is (rng : Range) (c : Nat) : Bool :=
  rng.has_more && rng.front == c

/-- Modelled from the spec: `remove_prefix( n )` advances the cursor `n` bytes. -/
def remove_prefix (rng : Range) (n : Nat) : Range :=
  { rng with data := rng.data.drop n, first := rng.first + n }

/-- Modelled from the spec: `rng == "literal"`, the range has at least as many
bytes as the literal and starts with them. -/
def Range.starts_with (rng : Range) (lit : List Nat) : Bool :=
  decide (lit.length ≤ rng.size) && (rng.data.take lit.length == lit)

/-- Scan of `trim_left_checked`: skip whitespace, at most `n` bytes. -/
def trim_count : Nat → List Nat → Nat
  | 0, _ => 0
  | _ + 1, [] => 0
  | n + 1, c :: cs => if is_space c then trim_count n cs + 1 else 0

/-- Modelled from the spec: `trim_left_checked()` skips ASCII whitespace inside
`[first, last)`. -/
def trim_left_checked (rng : Range) : Range :=
  remove_prefix rng (trim_count rng.size rng.data)

/-- Modelled from the spec: `trim_left_unchecked()` skips ASCII whitespace
without looking at `last`; the NUL after the buffer stops it. -/
def trim_left_unchecked (rng : Range) : Range :=
  remove_prefix rng (trim_count rng.data.length rng.data)

/-- Modelled from the spec: `trim_left()` picks the variant of the policy. -/
def trim_left (unchecked : Bool) (rng : Range) : Range :=
  if unchecked then trim_left_unchecked rng else trim_left_checked rng

/-- Modelled from the spec: `clean_tail()` consumes the separator between
consecutive members or elements and any whitespace around it. -/
def clean_tail (unchecked : Bool) (rng : Range) : Range :=
  let r := trim_left unchecked rng
  if r.front == 44 then trim_left unchecked ( remove_prefix r 1) else r

/-- Modelled from the spec: `set_class_position()` snapshots `first` into
`class_first`. -/
def set_class_position (rng : Range) : Range :=
  { rng with class_first := rng.first }

/-- Modelled from the spec: `is_opening_brace_checked()` only tests for `{`. -/
def is_opening_brace_checked (rng : Range) : Bool := rng.front_is 123

/-- Modelled from the spec: `is_at_next_class_member()`, the current byte is
the `"` of a member name; the class parser reports a failure of this test as
`MissingMemberNameOrEndOfClass`, so the `}` that ends the class passes it as
well. -/
def is_at_next_class_member (rng : Range) : Bool := rng.front == 34 || rng.front == 125

/-- Number of bytes before the first byte accepted by `key`, looking at no more
than `n` bytes; `none` when there is no such byte in the data. -/
def find_key (key : Nat → Bool) : Nat → List Nat → Option Nat
  | 0, _ => some 0
  | _ + 1, [] => none
  | n + 1, c :: cs =>
    if key c then some 0 else (find_key key n cs).map (· + 1)

/-- Modelled from the spec: `move_to_next_of<K...>` advances to the first byte of
the key set.  Under the checked policy it stops at `last`; under the unchecked
policy no bound is checked, and without such a byte the scan leaves the
buffer. -/
def move_to_next_of (unchecked : Bool) (key : Nat → Bool) (rng : Range) :
    Outcome Range :=
  if unchecked then
    match find_key key (rng.data.length + 1) rng.data with
    | some n => Outcome.ok ( remove_prefix rng n)
    | none => Outcome.undefined
  else
    match find_key key rng.size rng.data with
    | some n => Outcome.ok ( remove_prefix rng n)
    | none => Outcome.ok ( remove_prefix rng rng.size)

/-! ## Skip routines -/

/-- Modelled from the spec: the scanner `skip_until_end_of_string_with_escape_pos`
on the bytes of a window.  It gives the offset of the closing `"` (a `"` that is
not preceded by an odd-length run of backslashes) and records the offset of the
first backslash met; `off` is the offset of the head of the list. -/
def scan_string : Nat → List Nat → Nat → Option Nat → Option (Nat × Option Nat)
  | 0, _, _, _ => none
  | _ + 1, [], _, _ => none
  | fuel + 1, c :: cs, off, esc =>
    if c == 34 then some (off, esc)
    else if c == 92 then
      scan_string fuel (cs.drop 1) (off + 2) (if esc.isNone then some off else esc)
    else scan_string fuel cs (off + 1) esc

/-- The bytes a scanner may look at: the range itself under the checked policy,
everything up to the end of the buffer under the unchecked policy. -/
def Range.window (unchecked : Bool) (rng : Range) : List Nat :=
  if unchecked then rng.data else rng.data.take rng.size

/-- A sub-range of `n` bytes that starts at the cursor of `rng`. -/
def Range.sub (rng : Range) (n : Nat) (counter : Int) : Range :=
  { rng with last := rng.first + n, counter := counter, null_marked := false }

/-- Modelled from the spec: `skip_string`.  Consume the opening `"`, run the
scanner, consume the closing `"`.  The result is the sub-range of the string
body (the quotes are not part of it), whose `counter` is the offset of the first
backslash, or negative when the body has none; the second component is the
parse state after the closing quote. -/
def skip_string (unchecked : Bool) (rng : Range) : Outcome (Range × Range) :=
  let r := if rng.front == 34 then remove_prefix rng 1 else rng
  let w := r.window unchecked
  match scan_string (w.length + 1) w 0 none with
  | some (n, esc) =>
    Outcome.ok (r.sub n (match esc with | some e => (e : Int) | none => -1),
      remove_prefix r (n + 1))
  | none => if unchecked then Outcome.undefined
            else daw_json_error ErrorReason.InvalidString

/-- Modelled from the spec: the fast zero-copy path of a skipped string is taken
only when no escape was seen, which a negative `counter` records. -/
def needs_slow_path (counter : Int) : Bool := decide (0 ≤ counter)

/-- Scanner states of `skip_bracketed_len`. -/
inductive ScanMode where
  | normal
  | in_string
  | escaped
  deriving DecidableEq, Repr

/-- Modelled from the spec: the nesting counter of `skip_class` / `skip_array`:
count `left` / `right` pairs, passing through strings, and give the number of
bytes up to and including the bracket that closes depth 1. -/
def skip_bracketed_len (left right : Nat) : List Nat → Nat → ScanMode → Option Nat
  | [], _, _ => none
  | c :: cs, depth, ScanMode.normal =>
    if c == 34 then
      (skip_bracketed_len left right cs depth ScanMode.in_string).map (· + 1)
    else if c == left then
      (skip_bracketed_len left right cs (depth + 1) ScanMode.normal).map (· + 1)
    else if c == right then
      if depth ≤ 1 then some 1
      else (skip_bracketed_len left right cs (depth - 1) ScanMode.normal).map (· + 1)
    else (skip_bracketed_len left right cs depth ScanMode.normal).map (· + 1)
  | c :: cs, depth, ScanMode.in_string =>
    (skip_bracketed_len left right cs depth
        (if c == 92 then ScanMode.escaped
         else if c == 34 then ScanMode.normal else ScanMode.in_string)).map (· + 1)
  | _ :: cs, depth, ScanMode.escaped =>
    (skip_bracketed_len left right cs depth ScanMode.in_string).map (· + 1)

/-- Modelled from the spec: `skip_bracketed_item`, shared by `skip_class` and
`skip_array`.  The opening bracket is consumed when the cursor is on it (the
class parser also calls it from inside the class, after the members it
wanted), then the scan runs at depth 1.  The result is the sub-range of the
item and the parse state after its closing bracket.  The element count that the
array skip leaves in `counter` only drives preallocation and is not modelled. -/
def skip_bracketed_item (left right : Nat) (unchecked : Bool) (rng : Range) :
    Outcome (Range × Range) :=
  let w := rng.window unchecked
  let opened := if w.headD 0 == left then 1 else 0
  match skip_bracketed_len left right (w.drop opened) 1 ScanMode.normal with
  | some n => Outcome.ok (rng.sub (opened + n) (-1), remove_prefix rng (opened + n))
  | none => if unchecked then Outcome.undefined
            else daw_json_error ErrorReason.UnexpectedEndOfData

/-- Modelled from the spec: `skip_class()`. -/
def skip_class (unchecked : Bool) (rng : Range) : Outcome (Range × Range) :=
  skip_bracketed_item 123 125 unchecked rng

/-- Modelled from the spec: `skip_array()`. -/
def skip_array (unchecked : Bool) (rng : Range) : Outcome (Range × Range) :=
  skip_bracketed_item 91 93 unchecked rng

/-- Modelled from the spec: the character class `[0-9eE+\-.]` of a number. -/
def is_number_char (c : Nat) : Bool := is_real_number_part c || c == 46

/-- Modelled from the spec: skip of a number, the character class consumed
greedily. -/
def skip_number (unchecked : Bool) (rng : Range) : Outcome (Range × Range) :=
  let n := ((rng.window unchecked).takeWhile is_number_char).length
  Outcome.ok (rng.sub n (-1), remove_prefix rng n)

/-- Modelled from the spec: skip of a literal of `lit.length` bytes (`true`,
`false`, `null`); the bytes are verified under the checked policy. -/
def skip_literal (lit : List Nat) (unchecked : Bool) (rng : Range) :
    Outcome (Range × Range) := do
  daw_json_assert_weak unchecked (rng.starts_with lit) ErrorReason.InvalidLiteral
  Outcome.ok (rng.sub lit.length (-1), remove_prefix rng lit.length)

/-- Modelled from the spec: `skip_value()` dispatches on the first byte of the
value to the skip routine of its kind. -/
def skip_value (unchecked : Bool) (rng : Range) : Outcome (Range × Range) :=
  let c := rng.front
  if c == 34 then skip_string unchecked rng
  else if c == 91 then skip_array unchecked rng
  else if c == 123 then skip_class unchecked rng
  else if c == 116 then skip_literal (bytes "true") unchecked rng
  else if c == 102 then skip_literal (bytes "false") unchecked rng
  else if c == 110 then skip_literal (bytes "null") unchecked rng
  else if is_number_char c then skip_number unchecked rng
  else if unchecked then Outcome.undefined
  else daw_json_error ErrorReason.UnexpectedEndOfData

/-- Modelled from the spec: `is_null()`, the range is the mark of a missing
member or spells `null`. -/
def Range.is_null (rng : Range) : Bool :=
  rng.null_marked || (rng.size == 4 && rng.data.take 4 == bytes "null")

/-! ## Numbers, booleans, null -/

/-- The option `LiteralAsStringOpt` of a member. -/
inductive LiteralAsStringOpt where
  | Never
  | Maybe
  | Always
  deriving DecidableEq, Repr

/-- The option `EightBitModes` of a string member. -/
inductive EightBitModes where
  | DisallowHigh
  | AllowFull
  deriving DecidableEq, Repr

/-- `skip_quote_when_literal_as_string` (daw_json_parse_value.h). -/
def skip_quote_when_literal_as_string (las : LiteralAsStringOpt) (unchecked : Bool)
    (rng : Range) : Outcome Range :=
  match las with
  | LiteralAsStringOpt.Always => do
    daw_json_assert_weak unchecked (rng.front_is 34) ErrorReason.InvalidNumber
    Outcome.ok ( remove_prefix rng 1)
  | LiteralAsStringOpt.Maybe => do
    daw_json_assert_weak unchecked (!rng.empty) ErrorReason.UnexpectedEndOfData
    Outcome.ok (if rng.front == 34 then remove_prefix rng 1 else rng)
  | LiteralAsStringOpt.Never => do
    daw_json_assert_weak unchecked (rng.front != 34) ErrorReason.InvalidNumber
    Outcome.ok rng

/-- Is the byte a decimal digit. -/
def is_digit (c : Nat) : Bool := 48 ≤ c && c ≤ 57

/-- Base-10 accumulation of a run of digit characters. -/
def digits_value (ds : List Nat) : Nat :=
  ds.foldl (fun acc c => acc * 10 + (c - 48)) 0

/-- Modelled from the spec: `parse_unsigned_integer`.  Consume digits and
accumulate base-10; with `range_check` an overflow of the destination (largest
value `max`) fails with `NumberOutOfRange`; the value is kept in the `bits`-bit
destination. -/
def parse_unsigned_integer (bits max : Nat) (range_check : Bool) (unchecked : Bool)
    (rng : Range) : Outcome (Nat × Range) :=
  let ds := (rng.window unchecked).takeWhile is_digit
  if range_check && decide (max < digits_value ds) then
    daw_json_error ErrorReason.NumberOutOfRange
  else Outcome.ok (digits_value ds % 2 ^ bits, remove_prefix rng ds.length)

/-- The value of a `bits`-bit two's complement pattern. -/
def to_signed (bits : Nat) (n : Int) : Int :=
  if n % 2 ^ bits < 2 ^ (bits - 1) then n % 2 ^ bits else n % 2 ^ bits - 2 ^ bits

/-- `parse_value( ParseTag<JsonParseTypes::Real>, rng )`; the number parser
`parse_real` is not part of the sources and is an argument. -/
def parse_value_Real {R : Type} (parse_real : Range → Outcome (R × Range))
    (las : LiteralAsStringOpt) (known_bounds unchecked : Bool) (rng : Range) :
    Outcome (R × Range) :=
  if known_bounds then do
    daw_json_assert_weak unchecked (is_real_number_part rng.front)
      ErrorReason.InvalidNumber
    parse_real rng
  else do
    daw_json_assert_weak unchecked rng.has_more ErrorReason.UnexpectedEndOfData
    let rng ← skip_quote_when_literal_as_string las unchecked rng
    daw_json_assert_weak unchecked (is_real_number_part rng.front)
      ErrorReason.InvalidNumber
    let (result, rng) ← parse_real rng
    let rng ← skip_quote_when_literal_as_string las unchecked rng
    daw_json_assert_weak unchecked (at_end_of_item rng.front) ErrorReason.InvalidNumber
    Outcome.ok (result, rng)

/-- `parse_value( ParseTag<JsonParseTypes::Signed>, rng )` for a `bits`-bit
signed destination. -/
def parse_value_Signed (bits : Nat) (las : LiteralAsStringOpt) (range_check : Bool)
    (known_bounds unchecked : Bool) (rng : Range) : Outcome (Int × Range) := do
  let rng ←
    if known_bounds then do
      daw_json_assert_weak unchecked (is_real_number_part rng.front)
        ErrorReason.InvalidNumber
      Outcome.ok rng
    else do
      daw_json_assert_weak unchecked rng.has_more ErrorReason.UnexpectedEndOfData
      let rng ← skip_quote_when_literal_as_string las unchecked rng
      daw_json_assert_weak unchecked (is_real_number_part rng.front)
        ErrorReason.InvalidNumber
      Outcome.ok rng
  let (sign, rng) : Int × Range :=
    if rng.front == 45 then (-1, remove_prefix rng 1)
    else if rng.front == 43 then (1, remove_prefix rng 1)
    else (1, rng)
  let (v, rng) ← parse_unsigned_integer bits (2 ^ (bits - 1) - 1) range_check unchecked rng
  let result := to_signed bits (sign * to_signed bits v)
  if known_bounds then Outcome.ok (result, rng)
  else do
    let rng ← skip_quote_when_literal_as_string las unchecked rng
    let rng := trim_left unchecked rng
    daw_json_assert_weak unchecked (at_end_of_item rng.front) ErrorReason.InvalidNumber
    Outcome.ok (result, rng)

/-- `parse_value( ParseTag<JsonParseTypes::Unsigned>, rng )` for a `bits`-bit
unsigned destination. -/
def parse_value_Unsigned (bits : Nat) (las : LiteralAsStringOpt) (range_check : Bool)
    (known_bounds unchecked : Bool) (rng : Range) : Outcome (Nat × Range) :=
  if known_bounds then do
    daw_json_assert_weak unchecked (is_real_number_part rng.front)
      ErrorReason.InvalidNumber
    parse_unsigned_integer bits (2 ^ bits - 1) range_check unchecked rng
  else do
    daw_json_assert_weak unchecked rng.has_more ErrorReason.UnexpectedEndOfData
    let rng ← skip_quote_when_literal_as_string las unchecked rng
    daw_json_assert_weak unchecked (is_real_number_part rng.front)
      ErrorReason.InvalidNumber
    let (result, rng) ←
      parse_unsigned_integer bits (2 ^ bits - 1) range_check unchecked rng
    let rng ← skip_quote_when_literal_as_string las unchecked rng
    daw_json_assert_weak unchecked (at_end_of_item rng.front) ErrorReason.InvalidNumber
    Outcome.ok (result, rng)

/-- `parse_value( ParseTag<JsonParseTypes::Null>, rng )`: `empty` is what the
constructor of the member gives without arguments, `base` the parser of the
wrapped kind (its first argument is `KnownBounds`). -/
def parse_value_Null {V : Type} (empty : V) (base : Bool → Range → Outcome (V × Range))
    (known_bounds unchecked : Bool) (rng : Range) : Outcome (V × Range) :=
  if known_bounds then
    if rng.is_null then Outcome.ok (empty, rng) else base true rng
  else if unchecked then
    if !rng.has_more then Outcome.ok (empty, rng)
    else if rng.front == 110 then
      Outcome.ok (empty, remove_prefix (trim_left_unchecked ( remove_prefix rng 4)) 1)
    else base false rng
  else
    if !rng.has_more then Outcome.ok (empty, rng)
    else if rng.starts_with (bytes "null") then do
      let rng := remove_prefix rng 4
      daw_json_assert_weak unchecked (at_end_of_item rng.front) ErrorReason.InvalidLiteral
      Outcome.ok (empty, trim_left_checked rng)
    else base false rng

/-- `parse_value( ParseTag<JsonParseTypes::Bool>, rng )`. -/
def parse_value_Bool (las : LiteralAsStringOpt) (known_bounds unchecked : Bool)
    (rng : Range) : Outcome (Bool × Range) := do
  daw_json_assert_weak unchecked (decide (4 ≤ rng.size)) ErrorReason.InvalidLiteral
  if known_bounds then
    if unchecked then Outcome.ok (rng.front == 116, rng)
    else if rng.front == 116 then Outcome.ok (true, rng)
    else if rng.front == 102 then Outcome.ok (false, rng)
    else daw_json_error ErrorReason.InvalidLiteral
  else do
    let rng ← skip_quote_when_literal_as_string las unchecked rng
    let (result, rng) ←
      if unchecked then
        if rng.front == 116 then Outcome.ok (true, remove_prefix rng 4)
        else Outcome.ok (false, remove_prefix rng 5)
      else
        if rng.starts_with (bytes "true") then Outcome.ok (true, remove_prefix rng 4)
        else if rng.starts_with (bytes "false") then
          Outcome.ok (false, remove_prefix rng 5)
        else daw_json_error ErrorReason.InvalidLiteral
    let rng ← skip_quote_when_literal_as_string las unchecked rng
    let rng := trim_left unchecked rng
    daw_json_assert_weak unchecked (at_end_of_item rng.front) ErrorReason.InvalidLiteral
    Outcome.ok (result, rng)

/-! ## Strings -/

/-- `to_nibble` (daw_json_parse_value.h).  `b` is the character as a signed
`int`; `( '9' - b ) >> 31` is all ones when `b` is above `'9'` and zero
otherwise, so the masks select the offsets of the upper and lower case letters;
the result is `b - offset` as a 32-bit unsigned number. -/
def to_nibble (unchecked : Bool) (chr : Nat) : Outcome Nat :=
  let b : Int := chr
  let maskLetter : Int := if 57 - b < 0 then 65 - 48 - 10 else 0
  let maskSmall : Int := if 90 - b < 0 then 97 - 65 else 0
  let offset : Int := 48 + maskLetter + maskSmall
  let result : Nat := ((b - offset) % 2 ^ 32).toNat
  do
    daw_json_assert_weak unchecked (decide (result < 16)) ErrorReason.InvalidUTFEscape
    Outcome.ok result

/-- `byte_from_nibbles` (daw_json_parse_value.h): two hexadecimal digits, as a
16-bit number. -/
def byte_from_nibbles (unchecked : Bool) (rng : Range) : Outcome (Nat × Range) := do
  let n0 ← to_nibble unchecked rng.front
  let rng := remove_prefix rng 1
  let n1 ← to_nibble unchecked rng.front
  let rng := remove_prefix rng 1
  Outcome.ok (((n0 <<< 4) ||| n1) % 2 ^ 16, rng)

/-- A value stored into a `char`: the low eight bits. -/
def to_char (n : Nat) : Nat := n % 256

/-- `decode_utf16` (daw_json_parse_value.h): the cursor is on the `u` of an
escape; the UTF-8 bytes of the code point are returned together with the parse
state after the escape. -/
def decode_utf16 (unchecked : Bool) (rng : Range) : Outcome (List Nat × Range) := do
  daw_json_assert_weak unchecked (rng.front_is 117 || rng.front_is 85)
    ErrorReason.InvalidUTFEscape
  let rng := remove_prefix rng 1
  let (hi, rng) ← byte_from_nibbles unchecked rng
  let (lo, rng) ← byte_from_nibbles unchecked rng
  let cp : Nat := ((hi <<< 8) % 2 ^ 32) ||| lo
  if cp ≤ 0x7F then Outcome.ok ([to_char cp], rng)
  else do
    let (cp, rng) ←
      if 0xD800 ≤ cp ∧ cp ≤ 0xDBFF then do
        let cp := (cp - 0xD800) * 0x400
        let rng := remove_prefix rng 1
        daw_json_assert_weak unchecked (rng.front_is 117 || rng.front_is 85)
          ErrorReason.InvalidUTFEscape
        let rng := remove_prefix rng 1
        let (thi, rng) ← byte_from_nibbles unchecked rng
        let (tlo, rng) ← byte_from_nibbles unchecked rng
        let trailing : Nat := ((thi <<< 8) % 2 ^ 32) ||| tlo
        let trailing : Nat := (trailing + 2 ^ 32 - 0xDC00) % 2 ^ 32
        Outcome.ok ((cp + trailing + 0x10000) % 2 ^ 32, rng)
      else Outcome.ok (cp, rng)
    if cp ≥ 0x10000 then
      Outcome.ok ([to_char ((cp >>> 18) ||| 0xF0),
                   to_char (((cp >>> 12) &&& 0x3F) ||| 0x80),
                   to_char (((cp >>> 6) &&& 0x3F) ||| 0x80),
                   to_char ((cp &&& 0x3F) ||| 0x80)], rng)
    else if cp ≥ 0x800 then
      Outcome.ok ([to_char ((cp >>> 12) ||| 0xE0),
                   to_char (((cp >>> 6) &&& 0x3F) ||| 0x80),
                   to_char ((cp &&& 0x3F) ||| 0x80)], rng)
    else
      Outcome.ok ([to_char ((cp >>> 6) ||| 0xC0),
                   to_char ((cp &&& 0x3F) ||| 0x80)], rng)

/-- The `switch( rng.front( ) )` of `parse_string_known_stdstring` after the
backslash of an escape has been consumed: the bytes written for the escape and
the parse state after it. -/
def parse_escape (mode : EightBitModes) (unchecked : Bool) (rng : Range) :
    Outcome (List Nat × Range) :=
  let c := rng.front
  if c == 98 then Outcome.ok ([8], remove_prefix rng 1)
  else if c == 102 then Outcome.ok ([12], remove_prefix rng 1)
  else if c == 110 then Outcome.ok ([10], remove_prefix rng 1)
  else if c == 114 then Outcome.ok ([13], remove_prefix rng 1)
  else if c == 116 then Outcome.ok ([9], remove_prefix rng 1)
  else if c == 85 || c == 117 then decode_utf16 unchecked rng
  else if c == 92 || c == 47 || c == 34 then Outcome.ok ([c], remove_prefix rng 1)
  else do
    if mode == EightBitModes.DisallowHigh then
      daw_json_assert_weak unchecked (decide (0x20 ≤ c) && decide (c ≤ 0x7F))
        ErrorReason.InvalidStringHighASCII
    Outcome.ok ([c], remove_prefix rng 1)

/-- The loops of `parse_string_known_stdstring` (daw_json_parse_value.h).  One
step handles one plain byte of the inner loop or one escape of the outer loop;
`inner` tells that the inner loop has copied a byte since the last test of the
outer loop, in which case reaching the `"` runs the two assertions at the end of
the outer body.  The bytes written through `it` are returned. -/
def parse_string_loop (mode : EightBitModes) (unchecked has_quote : Bool) :
    Nat → Bool → Range → Outcome (List Nat × Range)
  | 0, _, _ => Outcome.undefined
  | fuel + 1, inner, rng =>
    if rng.front == 34 then
      if inner then do
        daw_json_assert_weak unchecked (!has_quote || rng.front_is 34)
          ErrorReason.InvalidString
        daw_json_assert_weak unchecked (!has_quote || rng.has_more)
          ErrorReason.UnexpectedEndOfData
        Outcome.ok ([], rng)
      else Outcome.ok ([], rng)
    else if rng.front != 92 then do
      daw_json_assert_weak unchecked (!rng.empty) ErrorReason.UnexpectedEndOfData
      let (out, r) ←
        parse_string_loop mode unchecked has_quote fuel true ( remove_prefix rng 1)
      Outcome.ok (rng.front :: out, r)
    else do
      daw_json_assert_weak unchecked (decide (0x20 ≤ rng.front))
        ErrorReason.InvalidUTFCodepoint
      let (esc, rng) ← parse_escape mode unchecked ( remove_prefix rng 1)
      daw_json_assert_weak unchecked (!has_quote || rng.has_more)
        ErrorReason.UnexpectedEndOfData
      let (out, r) ← parse_string_loop mode unchecked has_quote fuel false rng
      Outcome.ok (esc ++ out, r)

/-- `parse_string_known_stdstring` (daw_json_parse_value.h): the unescaping
parser for a `std::string` destination.  The buffer `result` is given the
`rng.size( )` bytes of the range at entry; the loops collect the bytes written
through `it`, and the final `daw_json_assert_weak( result.size( ) >= sz, ... )`
compares their number `sz` with the size of the buffer. -/
def parse_string_known_stdstring (mode : EightBitModes) (unchecked : Bool)
    (rng : Range) : Outcome (List Nat × Range) :=
  let size := rng.size
  let has_quote := rng.front_is 34
  let rng := if has_quote then remove_prefix rng 1 else rng
  do
    let (out, rng) ←
      parse_string_loop mode unchecked has_quote (rng.data.length + 1) false rng
    daw_json_assert_weak unchecked (decide (out.length ≤ size)) ErrorReason.InvalidString
    Outcome.ok (out, rng)

/-- `parse_value( ParseTag<JsonParseTypes::StringRaw>, rng )`: the bytes of the
string body, or nothing for an empty body when `empty_is_null` is set. -/
def parse_value_StringRaw (empty_is_null : Bool) (known_bounds unchecked : Bool)
    (rng : Range) : Outcome (Option (List Nat) × Range) :=
  if known_bounds then
    if empty_is_null && rng.empty then Outcome.ok (none, rng)
    else Outcome.ok (some (rng.data.take rng.size), rng)
  else do
    let (str, rng) ← skip_string unchecked rng
    if empty_is_null && str.empty then Outcome.ok (none, rng)
    else Outcome.ok (some (str.data.take str.size), rng)

/-- `parse_value( ParseTag<JsonParseTypes::StringEscaped>, rng )` on its fast
path (`can_fast_path_v`: the destination is a `std::string` with the default
constructor and appender). -/
def parse_value_StringEscaped (mode : EightBitModes) (known_bounds unchecked : Bool)
    (rng : Range) : Outcome (List Nat × Range) :=
  if known_bounds then
    if needs_slow_path rng.counter then do
      let (str, _) ← parse_string_known_stdstring mode unchecked rng
      Outcome.ok (str, rng)
    else Outcome.ok (rng.data.take rng.size, rng)
  else do
    let (rng2, rng) ← skip_string unchecked rng
    if needs_slow_path rng2.counter then do
      let (str, _) ← parse_string_known_stdstring mode unchecked rng2
      Outcome.ok (str, rng)
    else Outcome.ok (rng2.data.take rng2.size, rng)

/-! ## ISO 8601 timestamps (daw_json_parse_iso8601_utils.h) -/

/-- Modelled from the spec: `daw::string_view`, a view of `size` bytes; `data`
holds the bytes of the buffer from the start of the view on, so that reads
through `std::data` see the bytes that follow the view. -/
structure StrView where
  data : List Nat
  size : Nat
  deriving DecidableEq, Repr

/-- A view of a whole text. -/
def StrView.ofBytes (b : List Nat) : StrView := { data := b, size := b.length }

/-- The bytes inside the view. -/
def StrView.toList (sv : StrView) : List Nat := sv.data.take sv.size

/-- Modelled from the spec: `empty()`. -/
def StrView.empty (sv : StrView) : Bool := sv.size == 0

/-- Modelled from the spec: `front()`. -/
def StrView.front (sv : StrView) : Nat := sv.data.headD 0

/-- Modelled from the spec: `back()`. -/
def StrView.back (sv : StrView) : Nat := sv.data.getD (sv.size - 1) 0

/-- Modelled from the spec: `remove_prefix( n )` of a view, `n` at most the
size. -/
def StrView.drop (sv : StrView) (n : Nat) : StrView :=
  { data := sv.data.drop (min n sv.size), size := sv.size - n }

/-- Modelled from the spec: `remove_suffix( n )`. -/
def StrView.drop_back (sv : StrView) (n : Nat) : StrView :=
  { sv with size := sv.size - n }

/-- Modelled from the spec: `pop_front( n )`, the first `n` bytes as a view and
the rest. -/
def StrView.pop_front (sv : StrView) (n : Nat) : StrView × StrView :=
  ({ data := sv.data, size := min n sv.size }, sv.drop n)

/-- Modelled from the spec: `pop_back( n )`, the last `n` bytes as a view and the
rest. -/
def StrView.pop_back (sv : StrView) (n : Nat) : StrView × StrView :=
  ({ data := sv.data.drop (sv.size - n), size := min n sv.size }, sv.drop_back n)

/-- Modelled from the spec: `pop_front_until( "T" )`: the bytes before the first
occurrence of the byte as a view; the byte itself is dropped from the rest,
which is empty when the byte does not occur. -/
def StrView.pop_front_until_char (sv : StrView) (c : Nat) : StrView × StrView :=
  let n := (sv.toList.takeWhile (· != c)).length
  ({ data := sv.data, size := n }, sv.drop (n + 1))

/-- Modelled from the spec: `pop_front_until( pred )`: the bytes before the
first byte accepted by `pred` as a view; the rest starts at that byte (the
caller reads the `Z` or the sign of the offset from it). -/
def StrView.pop_front_until_pred (sv : StrView) (pred : Nat → Bool) :
    StrView × StrView :=
  let n := (sv.toList.takeWhile (fun c => !pred c)).length
  ({ data := sv.data, size := n }, sv.drop n)

/-- Loop of `parse_utils::parse_unsigned`: the accumulator is a 64-bit unsigned
number. -/
def parse_unsigned_loop : Nat → List Nat → Nat → Nat
  | 0, _, result => result
  | n + 1, digit_str, result =>
    let dig := parse_digit (digit_str.headD 0)
    if dig ≥ 10 then result
    else parse_unsigned_loop n (digit_str.drop 1) ((result * 10 + dig) % 2 ^ 64)

/-- `parse_utils::parse_unsigned<Result, count>` for a 32-bit unsigned
`Result`. -/
def parse_unsigned (count : Nat) (digit_str : List Nat) : Nat :=
  parse_unsigned_loop count digit_str 0 % 2 ^ 32

/-- `parse_utils::is_number`. -/
def is_number (c : Nat) : Bool := decide (parse_digit c < 10)

/-- Loop of `datetime_details::parse_number`: every byte of the view has to be a
digit; the accumulator wraps at `bits` bits. -/
def parse_number_loop (bits : Nat) : List Nat → Nat → Outcome Nat
  | [], result => Outcome.ok result
  | c :: cs, result => do
    let dig := parse_digit c
    daw_json_ensure (decide (dig < 10)) ErrorReason.InvalidNumber
    parse_number_loop bits cs ((result * 10 + dig) % 2 ^ bits)

/-- `datetime_details::parse_number<Result>` for a `bits`-bit `Result`; the
outcome is the bit pattern of the result (a leading `-` negates it only for a
signed `Result`). -/
def parse_number (bits : Nat) (is_signed : Bool) (sv : StrView) : Outcome Nat := do
  daw_json_ensure (!sv.empty) ErrorReason.InvalidNumber
  let negative := sv.front == 45 && is_signed
  let sv := if sv.front == 45 || sv.front == 43 then sv.drop 1 else sv
  let result ← parse_number_loop bits sv.toList 0
  Outcome.ok (if negative then (2 ^ bits - result) % 2 ^ bits else result)

/-- The lambda `calc` of `civil_to_time_point` up to the day count:
`days_since_epoch`, a 64-bit signed number.  `yr` is a 32-bit signed value, `mo`
and `dy` are 32-bit unsigned values. -/
def days_from_civil (yr : Int) (mo dy : Nat) : Int :=
  let m : Int := to_signed 32 mo
  let d : Int := to_signed 32 dy
  let y : Int := to_signed 32 (yr - (if m ≤ 2 then 1 else 0))
  let era : Int := to_signed 32 (Int.tdiv (if y ≥ 0 then y else to_signed 32 (y - 399)) 400)
  let yoe : Nat := ((y - to_signed 32 (era * 400)) % 2 ^ 32).toNat
  let doy : Nat :=
    ((to_signed 32 (Int.tdiv (to_signed 32 (153 * (m + (if m > 2 then -3 else 9)) + 2)) 5
        + d - 1)) % 2 ^ 32).toNat
  let doe : Nat := (yoe * 365 + yoe / 4 + 2 ^ 32 - yoe / 100 + doy) % 2 ^ 32
  to_signed 64 (era * 146097 + (doe : Int) - 719468)

/-- `civil_to_time_point` for the default time point (system clock,
milliseconds): the count of milliseconds since the epoch, a 64-bit signed
number.  The day count goes through the 32-bit representation of `Days`, the
nanoseconds are floored to milliseconds. -/
def civil_to_time_point (yr : Int) (mo dy hr mn se ns : Nat) : Int :=
  let days : Int := to_signed 32 (days_from_civil yr mo dy)
  let dur : Int := (to_signed 64 ns) / 1000000
  to_signed 64 (days * 86400000 + (hr : Int) * 3600000 + (mn : Int) * 60000
    + (se : Int) * 1000 + dur)

/-- The structure `date_parts`. -/
structure date_parts where
  year : Int
  month : Nat
  day : Nat
  deriving DecidableEq, Repr

/-- `parse_iso_8601_date`. -/
def parse_iso_8601_date (timestamp_str : StrView) : Outcome date_parts := do
  let (day_str, timestamp_str) := timestamp_str.pop_back 2
  let day := parse_unsigned 2 day_str.data
  daw_json_ensure (decide (1 ≤ day) && decide (day ≤ 31)) ErrorReason.InvalidTimestamp
  let timestamp_str :=
    if !is_number timestamp_str.back then timestamp_str.drop_back 1 else timestamp_str
  let (month_str, timestamp_str) := timestamp_str.pop_back 2
  let month := parse_unsigned 2 month_str.data
  daw_json_ensure (decide (1 ≤ month) && decide (month ≤ 12))
    ErrorReason.InvalidTimestamp
  let timestamp_str :=
    if !is_number timestamp_str.back then timestamp_str.drop_back 1 else timestamp_str
  let year ← parse_number 32 true timestamp_str
  Outcome.ok { year := to_signed 32 year, month := month, day := day }

/-- The structure `time_parts`. -/
structure time_parts where
  hour : Nat
  minute : Nat
  second : Nat
  nanosecond : Nat
  deriving DecidableEq, Repr

/-- Modelled from the spec: `daw::cxmath::pow10`, the power of ten of a 64-bit
unsigned exponent. -/
def pow10 (n : Nat) : Nat := 10 ^ n

/-- `parse_iso_8601_time`. -/
def parse_iso_8601_time (timestamp_str : StrView) : Outcome time_parts := do
  let (hour_str, timestamp_str) := timestamp_str.pop_front 2
  let hour := parse_unsigned 2 hour_str.data
  daw_json_ensure (decide (hour ≤ 24)) ErrorReason.InvalidTimestamp
  let timestamp_str :=
    if !is_number timestamp_str.front then timestamp_str.drop 1 else timestamp_str
  let (minute_str, timestamp_str) := timestamp_str.pop_front 2
  let minute := parse_unsigned 2 minute_str.data
  daw_json_ensure (decide (minute ≤ 59)) ErrorReason.InvalidTimestamp
  if timestamp_str.empty then
    Outcome.ok { hour := hour, minute := minute, second := 0, nanosecond := 0 }
  else do
    let timestamp_str :=
      if !is_number timestamp_str.front then timestamp_str.drop 1 else timestamp_str
    let (second_str, timestamp_str) := timestamp_str.pop_front 2
    let second := parse_unsigned 2 second_str.data
    daw_json_ensure (decide (second ≤ 60)) ErrorReason.InvalidTimestamp
    if timestamp_str.empty then
      Outcome.ok { hour := hour, minute := minute, second := second, nanosecond := 0 }
    else do
      let timestamp_str :=
        if !is_number timestamp_str.front then timestamp_str.drop 1 else timestamp_str
      let nanosecond_str : StrView :=
        { data := timestamp_str.data, size := min timestamp_str.size 9 }
      let nanosecond ← parse_number 64 false nanosecond_str
      let nanosecond :=
        (nanosecond * pow10 ((9 + 2 ^ 64 - timestamp_str.size) % 2 ^ 64)) % 2 ^ 64
      Outcome.ok { hour := hour, minute := minute, second := second,
                   nanosecond := nanosecond }

/-- `parse_iso8601_timestamp` for the default time point: the count of
milliseconds since the epoch. -/
def parse_iso8601_timestamp (ts : StrView) : Outcome Int := do
  let (date_str, ts) := ts.pop_front_until_char 84
  if ts.empty then daw_json_error ErrorReason.InvalidTimestamp
  else do
    let ymd ← parse_iso_8601_date date_str
    let (time_str, ts) :=
      ts.pop_front_until_pred (fun c => !(is_number c || c == 58 || c == 46))
    let hms ← parse_iso_8601_time time_str
    let hms ←
      if !(ts.empty || ts.front == 90) then do
        daw_json_ensure (ts.size == 5 || ts.size == 6) ErrorReason.InvalidTimestamp
        daw_json_ensure (!ts.empty) ErrorReason.InvalidTimestamp
        let sign ←
          if ts.front == 43 then Outcome.ok true
          else if ts.front == 45 then Outcome.ok false
          else daw_json_error ErrorReason.InvalidTimestamp
        let ts := ts.drop 1
        let hr_offset := parse_unsigned 2 ts.data
        daw_json_ensure (decide (hr_offset ≤ 24)) ErrorReason.InvalidTimestamp
        let ts := if ts.front == 58 then ts.drop 1 else ts
        let mn_offset := parse_unsigned 2 ts.data
        daw_json_ensure (decide (mn_offset ≤ 61)) ErrorReason.InvalidTimestamp
        if sign then
          Outcome.ok { hms with hour := (hms.hour + 2 ^ 32 - hr_offset) % 2 ^ 32,
                                minute := (hms.minute + 2 ^ 32 - mn_offset) % 2 ^ 32 }
        else
          Outcome.ok { hms with hour := (hms.hour + hr_offset) % 2 ^ 32,
                                minute := (hms.minute + mn_offset) % 2 ^ 32 }
      else Outcome.ok hms
    Outcome.ok (civil_to_time_point ymd.year ymd.month ymd.day hms.hour hms.minute
      hms.second hms.nanosecond)

/-- The structure `ymdhms`. -/
structure ymdhms where
  year : Int
  month : Nat
  day : Nat
  hour : Nat
  minute : Nat
  second : Nat
  nanosecond : Nat
  deriving DecidableEq, Repr

/-- Modelled from the spec: the member `millisecond` that the Date serializer
reads (the structure of the sources keeps the sub-second part in
nanoseconds): the whole milliseconds of the sub-second part. -/
def ymdhms.millisecond (civil : ymdhms) : Nat := civil.nanosecond / 1000000

/-- `time_point_to_civil` for a time point counted in milliseconds (a 64-bit
signed count).  `duration_cast` truncates towards zero; the day count is a
32-bit signed number, the civil fields are 32-bit unsigned numbers. -/
def time_point_to_civil (tp : Int) : ymdhms :=
  let dur_from_epoch : Int := tp
  let days_since_epoch : Int := to_signed 32 (Int.tdiv dur_from_epoch 86400000)
  let z : Int := to_signed 32 (days_since_epoch + 719468)
  let era : Int :=
    to_signed 32 (Int.tdiv (if z ≥ 0 then z else to_signed 32 (z - 146096)) 146097)
  let doe : Nat := ((z - to_signed 32 (era * 146097)) % 2 ^ 32).toNat
  let yoe : Nat :=
    ((doe + 2 ^ 32 - doe / 1460 + doe / 36524 + 2 ^ 32 - doe / 146096) % 2 ^ 32) / 365
  let y : Int := to_signed 32 (to_signed 32 yoe + to_signed 32 (era * 400))
  let doy : Nat := (doe + 2 ^ 32 - (365 * yoe + yoe / 4 - yoe / 100) % 2 ^ 32) % 2 ^ 32
  let mp : Nat := ((5 * doy + 2) % 2 ^ 32) / 153
  let d : Nat := (doy + 2 ^ 32 - ((153 * mp + 2) % 2 ^ 32) / 5 + 1) % 2 ^ 32
  let m : Nat :=
    ((to_signed 32 mp + (if to_signed 32 mp < 10 then 3 else -9)) % 2 ^ 32).toNat
  let dur_from_epoch := dur_from_epoch - days_since_epoch * 86400000
  let hrs : Int := Int.tdiv dur_from_epoch 3600000
  let dur_from_epoch := dur_from_epoch - hrs * 3600000
  let min : Int := Int.tdiv dur_from_epoch 60000
  let dur_from_epoch := dur_from_epoch - min * 60000
  let sec : Int := Int.tdiv dur_from_epoch 1000
  let dur_from_epoch := dur_from_epoch - sec * 1000
  let dur : Int := to_signed 64 (dur_from_epoch * 1000000)
  { year := to_signed 32 (y + (if m ≤ 2 then 1 else 0))
    month := m
    day := d
    hour := (hrs % 2 ^ 32).toNat
    minute := (min % 2 ^ 32).toNat
    second := (sec % 2 ^ 32).toNat
    nanosecond := (dur % 2 ^ 64).toNat }

/-! ## Serializer: numbers, strings, dates (to_daw_json_string.h) -/

/-- `to_nibble_char`: the upper case hexadecimal digit of a value below 16. -/
def to_nibble_char (c : Nat) : Outcome Nat := do
  daw_json_assert (decide (c < 16)) ErrorReason.InvalidUTFEscape
  if c < 10 then Outcome.ok (c + 48) else Outcome.ok ((c - 10) + 65)

/-- `output_hex`: the escape `\uXXXX` of a 16-bit value. -/
def output_hex (c : Nat) : Outcome (List Nat) := do
  let n0 ← to_nibble_char ((c >>> 12) &&& 0xF)
  let n1 ← to_nibble_char ((c >>> 8) &&& 0xF)
  let n2 ← to_nibble_char ((c >>> 4) &&& 0xF)
  let n3 ← to_nibble_char (c &&& 0xF)
  Outcome.ok [92, 117, n0, n1, n2, n3]

/-- `utf32_to_utf8`: the UTF-8 bytes of a code point. -/
def utf32_to_utf8 (cp : Nat) : Outcome (List Nat) :=
  if cp ≤ 0x7F then Outcome.ok [to_char cp]
  else if cp ≤ 0x7FF then
    Outcome.ok [to_char ((cp >>> 6) ||| 0xC0), to_char ((cp &&& 0x3F) ||| 0x80)]
  else if cp ≤ 0xFFFF then
    Outcome.ok [to_char ((cp >>> 12) ||| 0xE0),
                to_char (((cp >>> 6) &&& 0x3F) ||| 0x80),
                to_char ((cp &&& 0x3F) ||| 0x80)]
  else if cp ≤ 0x10FFFF then
    Outcome.ok [to_char ((cp >>> 18) ||| 0xF0),
                to_char (((cp >>> 12) &&& 0x3F) ||| 0x80),
                to_char (((cp >>> 6) &&& 0x3F) ||| 0x80),
                to_char ((cp &&& 0x3F) ||| 0x80)]
  else daw_json_error ErrorReason.InvalidUTFCodepoint

/-- Modelled from the spec: the UTF-8 iteration helper (decode one code point,
advance), the way `utf8::unchecked::next` does it: the lead byte gives the
length of the sequence, the payload bits of the bytes are added up. -/
def utf8_next (s : List Nat) : Nat × List Nat :=
  let b0 := s.headD 0
  let b1 := s.getD 1 0
  let b2 := s.getD 2 0
  let b3 := s.getD 3 0
  if b0 < 0x80 then (b0, s.drop 1)
  else if b0 >>> 5 == 0x6 then
    (((b0 <<< 6) &&& 0x7FF) + (b1 &&& 0x3F), s.drop 2)
  else if b0 >>> 4 == 0xE then
    (((b0 <<< 12) &&& 0xFFFF) + ((b1 <<< 6) &&& 0xFFF) + (b2 &&& 0x3F), s.drop 3)
  else if b0 >>> 3 == 0x1E then
    (((b0 <<< 18) &&& 0x1FFFFF) + ((b1 <<< 12) &&& 0x3FFFF) + ((b2 <<< 6) &&& 0xFFF)
      + (b3 &&& 0x3F), s.drop 4)
  else (b0, s.drop 1)

/-- The code points that the UTF-8 iterator yields over a byte string. -/
def utf8_iterate : Nat → List Nat → List Nat
  | 0, _ => []
  | _ + 1, [] => []
  | fuel + 1, c :: cs =>
    (utf8_next (c :: cs)).1 :: utf8_iterate fuel (utf8_next (c :: cs)).2

/-- One turn of the escaping loop of `utils::copy_to_iterator<do_escape = true,
EightBitMode>`: the bytes written for the code point `cp`. -/
def escape_code_point (mode : EightBitModes) (cp : Nat) : Outcome (List Nat) :=
  if cp == 34 then Outcome.ok [92, 34]
  else if cp == 92 then Outcome.ok [92, 92]
  else if cp == 8 then Outcome.ok [92, 98]
  else if cp == 12 then Outcome.ok [92, 102]
  else if cp == 10 then Outcome.ok [92, 110]
  else if cp == 13 then Outcome.ok [92, 114]
  else if cp == 9 then Outcome.ok [92, 116]
  else if cp < 0x20 then output_hex (cp % 2 ^ 16)
  else if mode == EightBitModes.DisallowHigh ∧ cp ≥ 0x7F ∧ cp ≤ 0xFFFF then
    output_hex (cp % 2 ^ 16)
  else if mode == EightBitModes.DisallowHigh ∧ cp > 0xFFFF then do
    let hi ← output_hex ((0xD7C0 + (cp >>> 10)) % 2 ^ 16)
    let lo ← output_hex ((0xDC00 + (cp &&& 0x3FF)) % 2 ^ 16)
    Outcome.ok (hi ++ lo)
  else utf32_to_utf8 cp

/-- The escaping loop of `copy_to_iterator` over the code points of the
container. -/
def escape_code_points (mode : EightBitModes) : List Nat → Outcome (List Nat)
  | [] => Outcome.ok []
  | cp :: cps => do
    let head ← escape_code_point mode cp
    let tail ← escape_code_points mode cps
    Outcome.ok (head ++ tail)

/-- The plain loop of `copy_to_iterator<do_escape = false, EightBitMode>`: the
bytes are copied; under `DisallowHigh` each one has to lie in `[0x20, 0x7F]`. -/
def copy_plain (mode : EightBitModes) : List Nat → Outcome (List Nat)
  | [] => Outcome.ok []
  | c :: cs => do
    if mode == EightBitModes.DisallowHigh then
      daw_json_assert (decide (0x20 ≤ c) && decide (c ≤ 0x7F))
        ErrorReason.InvalidStringHighASCII
    let tail ← copy_plain mode cs
    Outcome.ok (c :: tail)

/-- `utils::copy_to_iterator<do_escape, EightBitMode>( it, container )`: the
bytes appended to the output. -/
def copy_to_iterator (do_escape : Bool) (mode : EightBitModes) (container : List Nat) :
    Outcome (List Nat) :=
  if do_escape then escape_code_points mode (utf8_iterate container.length container)
  else copy_plain mode container

/-- The table `digits100`: the low and the high decimal digit of `n`. -/
def digits100 (n : Nat) : Nat × Nat := (n % 10 + 48, n / 10 + 48)

/-- The loop `while( v >= 10 )` of the integer serializers: two digits per
step, least significant first, appended to the buffer. -/
def digit_pairs : Nat → Nat → List Nat → Nat × List Nat
  | 0, v, buff => (v, buff)
  | fuel + 1, v, buff =>
    if v ≥ 10 then
      digit_pairs fuel (v / 100) (buff ++ [(digits100 (v % 100)).1, (digits100 (v % 100)).2])
    else (v, buff)

/-- The digits of a non-negative `v` as the integer serializers leave them in
`buff` (least significant first), after the bytes already in `buff`. -/
def fill_buff (v : Nat) (buff : List Nat) : List Nat :=
  let buff := if v == 0 then buff ++ [48] else buff
  let (v, buff) := digit_pairs 64 v buff
  if v > 0 then buff ++ [48 + v] else buff

/-- The quote written around a literal when `literal_as_string` is `Always`. -/
def quote_when_always (las : LiteralAsStringOpt) : List Nat :=
  if las == LiteralAsStringOpt.Always then [34] else []

/-- `to_daw_json_string( ParseTag<JsonParseTypes::Signed>, it, value )` for an
integral `value`: the bytes written. -/
def to_daw_json_string_Signed (las : LiteralAsStringOpt) (value : Int) : List Nat :=
  if value < 0 then
    let buff : List Nat := [(48 - Int.tmod value 10).toNat]
    let v : Int := Int.tdiv value (-10)
    if v == 0 then quote_when_always las ++ [45] ++ buff ++ quote_when_always las
    else
      quote_when_always las ++ [45] ++ (fill_buff v.toNat buff).reverse
        ++ quote_when_always las
  else
    quote_when_always las ++ (fill_buff value.toNat []).reverse ++ quote_when_always las

/-- `to_daw_json_string( ParseTag<JsonParseTypes::Unsigned>, it, value )` for an
integral `value`: the bytes written. -/
def to_daw_json_string_Unsigned (las : LiteralAsStringOpt) (value : Int) :
    Outcome (List Nat) := do
  daw_json_assert (decide (0 ≤ value)) ErrorReason.NumberOutOfRange
  Outcome.ok (quote_when_always las ++ (fill_buff value.toNat []).reverse
    ++ quote_when_always las)

/-- `utils::integer_to_string`. -/
def integer_to_string (is_unsigned : Bool) (value : Int) : Outcome (List Nat) :=
  if is_unsigned then to_daw_json_string_Unsigned LiteralAsStringOpt.Never value
  else Outcome.ok (to_daw_json_string_Signed LiteralAsStringOpt.Never value)

/-- `to_daw_json_string( ParseTag<JsonParseTypes::Bool>, it, value )`. -/
def to_daw_json_string_Bool (las : LiteralAsStringOpt) (value : Bool) : List Nat :=
  quote_when_always las ++ (if value then bytes "true" else bytes "false")
    ++ quote_when_always las

/-- `to_daw_json_string( ParseTag<JsonParseTypes::StringRaw>, it, value )`. -/
def to_daw_json_string_StringRaw (mode : EightBitModes) (value : List Nat) :
    Outcome (List Nat) := do
  let body ← if value.length > 0 then copy_to_iterator false mode value
             else Outcome.ok []
  Outcome.ok ([34] ++ body ++ [34])

/-- `to_daw_json_string( ParseTag<JsonParseTypes::StringEscaped>, it, value )`. -/
def to_daw_json_string_StringEscaped (mode : EightBitModes) (value : List Nat) :
    Outcome (List Nat) := do
  let body ← copy_to_iterator true mode value
  Outcome.ok ([34] ++ body ++ [34])

/-- A civil field written with two digits: `if( field < 10 ) *it++ = '0'` and
then `integer_to_string`. -/
def two_digits (field : Nat) : Outcome (List Nat) := do
  let digits ← integer_to_string true field
  Outcome.ok ((if field < 10 then [48] else []) ++ digits)

/-- `to_daw_json_string( ParseTag<JsonParseTypes::Date>, it, value )` for a time
point that is present: `"YYYY-MM-DDTHH:MM:SS[.fff]Z"`. -/
def to_daw_json_string_Date (value : Int) : Outcome (List Nat) := do
  let civil := time_point_to_civil value
  let year ← integer_to_string false civil.year
  let month ← two_digits civil.month
  let day ← two_digits civil.day
  let hour ← two_digits civil.hour
  let minute ← two_digits civil.minute
  let second ← two_digits civil.second
  let fraction ←
    if civil.millisecond > 0 then do
      let ms ← integer_to_string true civil.millisecond
      Outcome.ok ([46] ++ ms)
    else Outcome.ok []
  Outcome.ok ([34] ++ year ++ [45] ++ month ++ [45] ++ day ++ [84] ++ hour ++ [58]
    ++ minute ++ [58] ++ second ++ fraction ++ [90, 34])

/-- `parse_value( ParseTag<JsonParseTypes::Date>, rng )` with the default
constructor of the member, which hands the skipped string to
`parse_iso8601_timestamp`. -/
def parse_value_Date (unchecked : Bool) (rng : Range) : Outcome (Int × Range) := do
  daw_json_assert_weak unchecked rng.has_more ErrorReason.UnexpectedEndOfData
  let (str, rng) ← skip_string unchecked rng
  let tp ← parse_iso8601_timestamp { data := str.data, size := str.size }
  Outcome.ok (tp, rng)

/-! ## Contracts and values -/

/-- The base JSON shapes (`JsonBaseParseTypes`) the untagged variant dispatches
on. -/
inductive JsonBaseParseTypes where
  | Number
  | Bool
  | String
  | Class
  | Array
  | Null
  | None
  deriving DecidableEq, Repr

/-- A member descriptor without its name: the kind tag together with the
options of the kind.  `Class` lists the named members of the contract of the
class, `Variant` the alternatives of the variant. -/
inductive Kind where
  | Signed (bits : Nat) (literal_as_string : LiteralAsStringOpt) (range_check : Bool)
  | Unsigned (bits : Nat) (literal_as_string : LiteralAsStringOpt) (range_check : Bool)
  | Bool (literal_as_string : LiteralAsStringOpt)
  | Null (base : Kind)
  | StringRaw (empty_is_null : Bool) (eight_bit_mode : EightBitModes)
  | StringEscaped (eight_bit_mode : EightBitModes)
  | Date
  | Class (members : List (List Nat × Kind))
  | KeyValue (key : Kind) (value : Kind)
  | Array (element : Kind)
  | Variant (alternatives : List Kind)

/-- Parsed values: what the constructors of the members are called with. -/
inductive JValue where
  | null
  | boolean (b : Bool)
  | number (n : Int)
  | string (s : List Nat)
  | time_point (ms : Int)
  | object (members : List JValue)
  | key_values (entries : List (JValue × JValue))
  | array (elements : List JValue)
  | alternative (index : Nat) (value : JValue)

/-- The base shape of a kind (`base_expected_type` mapped to
`JsonBaseParseTypes`). -/
def base_type_of : Kind → JsonBaseParseTypes
  | Kind.Signed _ _ _ => JsonBaseParseTypes.Number
  | Kind.Unsigned _ _ _ => JsonBaseParseTypes.Number
  | Kind.Bool _ => JsonBaseParseTypes.Bool
  | Kind.Null _ => JsonBaseParseTypes.Null
  | Kind.StringRaw _ _ => JsonBaseParseTypes.String
  | Kind.StringEscaped _ => JsonBaseParseTypes.String
  | Kind.Date => JsonBaseParseTypes.String
  | Kind.Class _ => JsonBaseParseTypes.Class
  | Kind.KeyValue _ _ => JsonBaseParseTypes.Class
  | Kind.Array _ => JsonBaseParseTypes.Array
  | Kind.Variant _ => JsonBaseParseTypes.None

/-- The trait `is_json_nullable_v`. -/
def is_json_nullable : Kind → Bool
  | Kind.Null _ => true
  | _ => false

/-- The type of the recursive calls `parse_value<JsonMember, KnownBounds>`. -/
abbrev ValueParser := Kind → Bool → Range → Outcome (JValue × Range)

/-! ## Class parser (daw_json_parse_class.h) -/

/-- Modelled from the spec: the location table of a class parse, one entry per
member of the contract: the name and the sub-range of the value once it has
been seen. -/
abbrev Locations := List (List Nat × Option Range)

/-- Modelled from the spec: `make_locations_info`, the table with no member
seen. -/
def make_locations_info (members : List (List Nat × Kind)) : Locations :=
  members.map (fun m => (m.1, none))

/-- Modelled from the spec: the first entry of that name that has not been seen
records the sub-range. -/
def record_location (name : List Nat) (r : Range) : Locations → Locations
  | [] => []
  | (n, seen) :: rest =>
    if n == name && seen.isNone then (n, some r) :: rest
    else (n, seen) :: record_location name r rest

/-- Modelled from the spec: the range that stands for a member that is missing
(the null pointer range). -/
def null_range : Range :=
  { data := [], first := 0, last := 0, null_marked := true }

/-- Modelled from the spec: `name::name_parser::trim_end_of_name`, the `:`
between a name and its value together with the whitespace around it. -/
def trim_end_of_name (unchecked : Bool) (rng : Range) : Outcome Range := do
  let rng := trim_left unchecked rng
  daw_json_assert_weak unchecked (rng.front == 58) ErrorReason.MissingToken
  Outcome.ok (trim_left unchecked ( remove_prefix rng 1))

/-- Modelled from the spec: the name parser.  The cursor is on the `"` that
opens a member name; the bytes of the name are returned with the parse state
at the value of the member. -/
def parse_name (unchecked : Bool) (rng : Range) : Outcome (List Nat × Range) := do
  daw_json_assert_weak unchecked (rng.front == 34)
    ErrorReason.MissingMemberNameOrEndOfClass
  let r := remove_prefix rng 1
  let w := r.window unchecked
  match scan_string (w.length + 1) w 0 none with
  | some (n, _) => do
    let rng ← trim_end_of_name unchecked ( remove_prefix r (n + 1))
    Outcome.ok (r.data.take n, rng)
  | none => if unchecked then Outcome.undefined
            else daw_json_error ErrorReason.UnexpectedEndOfData

/-- Modelled from the spec: the scan of `find_class_member` (section 4.6).  From
the cursor on, member after member: when the name is the wanted one the scan
stops with the cursor on its value; otherwise the value is skipped and its
sub-range recorded in the table.  When the class ends first, the result is the
null-marked range. -/
def find_class_member_scan (unchecked : Bool) (name : List Nat) :
    Nat → Locations → Range → Outcome (Range × Locations × Range)
  | 0, _, _ => Outcome.undefined
  | fuel + 1, locations, rng =>
    let rng := clean_tail unchecked rng
    if rng.front == 125 || (!unchecked && !rng.has_more) then
      Outcome.ok (null_range, locations, rng)
    else do
      let (n, rng) ← parse_name unchecked rng
      if n == name then Outcome.ok (rng, locations, rng)
      else do
        let (r, rng) ← skip_value unchecked rng
        find_class_member_scan unchecked name fuel (record_location n r locations) rng

/-- Modelled from the spec: `find_class_member<I>( table, state, is_nullable,
name )`: the sub-range of entry `I`, from the table when the member has been
seen, otherwise by scanning forward from the cursor. -/
def find_class_member (unchecked : Bool) (pos : Nat) (locations : Locations)
    (rng : Range) (name : List Nat) : Outcome (Range × Locations × Range) :=
  match locations.get? pos with
  | some (_, some r) => Outcome.ok (r, locations, rng)
  | _ => find_class_member_scan unchecked name (rng.data.length + 1) locations rng

/-- `parse_class_member<member_position, JsonMember>( locations, rng )`. -/
def parse_class_member (pv : ValueParser) (unchecked : Bool) (pos : Nat)
    (name : List Nat) (k : Kind) (locations : Locations) (rng : Range) :
    Outcome (JValue × Locations × Range) := do
  let rng := clean_tail unchecked rng
  daw_json_assert_weak unchecked (is_at_next_class_member rng)
    ErrorReason.MissingMemberNameOrEndOfClass
  let (loc, locations, rng) ← find_class_member unchecked pos locations rng name
  if loc.first == rng.first then do
    let (v, rng) ← pv k false rng
    Outcome.ok (v, locations, rng)
  else if is_json_nullable k && loc.is_null then do
    let (v, _) ← pv k true loc
    Outcome.ok (v, locations, rng)
  else do
    if !is_json_nullable k then
      daw_json_assert_weak unchecked (!loc.is_null) ErrorReason.MissingMember
    let (v, _) ← pv k true loc
    Outcome.ok (v, locations, rng)

/-- Modelled from the spec: `move_to_next_class_member()`, the next `"` of a
member name or the `}` of the class. -/
def move_to_next_class_member (unchecked : Bool) (rng : Range) : Outcome Range :=
  move_to_next_of unchecked (fun c => c == 34 || c == 125) rng

/-- `class_cleanup_now( rng )`. -/
def class_cleanup_now (unchecked : Bool) (rng : Range) : Outcome Range := do
  daw_json_assert_weak unchecked rng.has_more ErrorReason.UnexpectedEndOfData
  let rng := clean_tail unchecked rng
  let rng ← move_to_next_class_member unchecked rng
  let (_, rng) ← skip_class unchecked rng
  Outcome.ok (trim_left_checked rng)

/-- The pack expansion `parse_class_member<Is, ...>( known_locations, rng )...`
of `parse_json_class`: the members of the contract, left to right. -/
def parse_class_members (pv : ValueParser) (unchecked : Bool) :
    List (List Nat × Kind) → Nat → Locations → Range → Outcome (List JValue × Range)
  | [], _, _, rng => Outcome.ok ([], rng)
  | (name, k) :: members, pos, locations, rng => do
    let (v, locations, rng) ← parse_class_member pv unchecked pos name k locations rng
    let (vs, rng) ← parse_class_members pv unchecked members (pos + 1) locations rng
    Outcome.ok (v :: vs, rng)

/-- `parse_json_class<JsonClass, JsonMembers...>( rng, ... )`: the constructor of
the class is called with the values of the members in contract order. -/
def parse_json_class (pv : ValueParser) (unchecked : Bool)
    (members : List (List Nat × Kind)) (rng : Range) : Outcome (JValue × Range) := do
  let rng := trim_left unchecked rng
  daw_json_assert_weak unchecked (is_opening_brace_checked rng)
    ErrorReason.InvalidClassStart
  let rng := set_class_position rng
  let rng := remove_prefix rng 1
  let rng := trim_left unchecked rng
  if members.isEmpty then do
    let rng ← class_cleanup_now unchecked rng
    Outcome.ok (JValue.object [], rng)
  else do
    let (vs, rng) ←
      parse_class_members pv unchecked members 0 (make_locations_info members) rng
    let rng ← class_cleanup_now unchecked rng
    Outcome.ok (JValue.object vs, rng)

/-- `parse_value( ParseTag<JsonParseTypes::Class>, rng )` (the branch without
`__cpp_constexpr_dynamic_alloc`). -/
def parse_value_Class (pv : ValueParser) (members : List (List Nat × Kind))
    (known_bounds unchecked : Bool) (rng : Range) : Outcome (JValue × Range) := do
  daw_json_assert_weak unchecked rng.has_more ErrorReason.UnexpectedEndOfData
  if known_bounds then parse_json_class pv unchecked members rng
  else do
    let (result, rng) ← parse_json_class pv unchecked members rng
    Outcome.ok (result, trim_left_checked rng)

/-! ## Key-value maps, arrays, variants (daw_json_parse_value.h) -/

/-- The loop `while( rng.front( ) != '}' )` of the Key-Value map parser: the
calls of the container appender, in order. -/
def parse_key_values (pv : ValueParser) (key value : Kind)
    (known_bounds unchecked : Bool) :
    Nat → Range → Outcome (List (JValue × JValue) × Range)
  | 0, _ => Outcome.undefined
  | fuel + 1, rng =>
    if rng.front != 125 then do
      daw_json_assert_weak unchecked rng.has_more ErrorReason.UnexpectedEndOfData
      let (k, rng) ← pv key false rng
      let rng ← trim_end_of_name unchecked rng
      let (v, rng) ← pv value false rng
      let rng := clean_tail unchecked rng
      if !known_bounds then
        daw_json_assert_weak unchecked rng.has_more ErrorReason.UnexpectedEndOfData
      let (entries, rng) ←
        parse_key_values pv key value known_bounds unchecked fuel rng
      Outcome.ok ((k, v) :: entries, rng)
    else Outcome.ok ([], rng)

/-- `parse_value( ParseTag<JsonParseTypes::KeyValue>, rng )`. -/
def parse_value_KeyValue (pv : ValueParser) (key value : Kind)
    (known_bounds unchecked : Bool) (rng : Range) : Outcome (JValue × Range) := do
  daw_json_assert_weak unchecked (rng.front_is 123) ErrorReason.InvalidClassStart
  let rng := remove_prefix rng 1
  let rng ← move_to_next_of unchecked (fun c => c == 34) rng
  let (entries, rng) ←
    parse_key_values pv key value known_bounds unchecked (rng.data.length + 1) rng
  if known_bounds then Outcome.ok (JValue.key_values entries, rng)
  else do
    daw_json_assert_weak unchecked (rng.front_is 125) ErrorReason.MissingToken
    Outcome.ok (JValue.key_values entries, trim_left_checked ( remove_prefix rng 1))

/-- The end of an array seen by `json_parse_array_iterator`: with unknown bounds
the `]` is consumed and the whitespace after it trimmed. -/
def array_iterator_at_end (known_bounds : Bool) (rng : Range) : Range :=
  if known_bounds then rng else trim_left_checked ( remove_prefix rng 1)

/-- Modelled from the spec: `is_at_next_array_element()`, the current byte is
`,` or `]`. -/
def is_at_next_array_element (rng : Range) : Bool := rng.front == 44 || rng.front == 93

/-- Modelled from the spec: `move_next_member_or_end()`, after an element
consume the optional `,` and trim. -/
def move_next_member_or_end (unchecked : Bool) (rng : Range) : Range :=
  let rng := if rng.front == 44 then remove_prefix rng 1 else rng
  trim_left unchecked rng

/-- The loop `while( first != last )` over a `json_parse_array_iterator` that is
not at the end: `operator*` parses one element, `operator++` moves to the next
element or to the end. -/
def parse_array_elements (pv : ValueParser) (element : Kind)
    (known_bounds unchecked : Bool) : Nat → Range → Outcome (List JValue × Range)
  | 0, _ => Outcome.undefined
  | fuel + 1, rng => do
    daw_json_assert_weak unchecked rng.has_more ErrorReason.UnexpectedEndOfData
    let (v, rng) ← pv element false rng
    let rng := trim_left unchecked rng
    daw_json_assert_weak unchecked (rng.has_more && is_at_next_array_element rng)
      ErrorReason.UnexpectedEndOfData
    let rng := move_next_member_or_end unchecked rng
    daw_json_assert_weak unchecked rng.has_more ErrorReason.UnexpectedEndOfData
    if rng.front == 93 then
      Outcome.ok ([v], array_iterator_at_end known_bounds rng)
    else do
      let (vs, rng) ← parse_array_elements pv element known_bounds unchecked fuel rng
      Outcome.ok (v :: vs, rng)

/-- `parse_value( ParseTag<JsonParseTypes::Array>, rng )`. -/
def parse_value_Array (pv : ValueParser) (element : Kind)
    (known_bounds unchecked : Bool) (rng : Range) : Outcome (JValue × Range) := do
  let rng := trim_left unchecked rng
  daw_json_assert_weak unchecked (rng.front_is 91) ErrorReason.InvalidArrayStart
  let rng := remove_prefix rng 1
  let rng := trim_left_unchecked rng
  if rng.front == 93 then
    Outcome.ok (JValue.array [], array_iterator_at_end known_bounds rng)
  else do
    let (vs, rng) ←
      parse_array_elements pv element known_bounds unchecked (rng.data.length + 1) rng
    Outcome.ok (JValue.array vs, rng)

/-- Modelled from the spec: the table `base_map` of a variant, the index of the
alternative whose base shape is `bpt`. -/
def base_map (alternatives : List Kind) (bpt : JsonBaseParseTypes) : Nat :=
  alternatives.findIdx (fun k => base_type_of k == bpt)

/-- `parse_variant_value<BPT, JsonMembers>( rng )`. -/
def parse_variant_value (pv : ValueParser) (bpt : JsonBaseParseTypes)
    (alternatives : List Kind) (rng : Range) : Outcome (JValue × Range) :=
  match alternatives.get? (base_map alternatives bpt) with
  | some k => do
    let (v, rng) ← pv k false rng
    Outcome.ok (JValue.alternative (base_map alternatives bpt) v, rng)
  | none => daw_json_error ErrorReason.UnexpectedJsonType

/-- `parse_value( ParseTag<JsonParseTypes::Variant>, rng )`. -/
def parse_value_Variant (pv : ValueParser) (alternatives : List Kind) (rng : Range) :
    Outcome (JValue × Range) :=
  let c := rng.front
  if c == 123 then parse_variant_value pv JsonBaseParseTypes.Class alternatives rng
  else if c == 91 then parse_variant_value pv JsonBaseParseTypes.Array alternatives rng
  else if c == 116 || c == 102 then
    parse_variant_value pv JsonBaseParseTypes.Bool alternatives rng
  else if c == 34 then parse_variant_value pv JsonBaseParseTypes.String alternatives rng
  else if is_digit c || c == 43 || c == 45 then
    parse_variant_value pv JsonBaseParseTypes.Number alternatives rng
  else daw_json_error ErrorReason.UnexpectedJsonType

/-- `parse_visit<Result, TypeList, pos>( idx, rng )`: the alternative at the
index `idx` is parsed; an index behind the last alternative ends in
`std::abort( )`. -/
def parse_visit (pv : ValueParser) : List Kind → Nat → Nat → Range → Outcome (JValue × Range)
  | [], _, _, _ => Outcome.undefined
  | k :: ks, pos, idx, rng =>
    if idx == pos then do
      let (v, rng) ← pv k false rng
      Outcome.ok (JValue.alternative pos v, rng)
    else parse_visit pv ks (pos + 1) idx rng

/-- `parse_value( ParseTag<JsonParseTypes::VariantTagged>, rng )`.  The search
`find_range` for the tag member in the enclosing class (from `class_first` to
`last`) is not part of the sources and is an argument, as is the `switcher` of
the contract; `tag_name` and `tag_member` are the name and the kind of the tag
member.  The test that the tag member was found is a `daw_json_assert`. -/
def parse_value_VariantTagged (pv : ValueParser)
    (find_range : Range → List Nat → Bool × Range) (tag_name : List Nat) (tag_member : Kind)
    (switcher : JValue → Nat) (alternatives : List Kind) (rng : Range) :
    Outcome (JValue × Range) := do
  let (is_found, rng2) := find_range rng tag_name
  daw_json_assert is_found ErrorReason.MissingMember
  let (tag, _) ← pv tag_member false rng2
  parse_visit pv alternatives 0 (switcher tag) rng

/-- `parse_value<JsonMember, KnownBounds>( ParseTag<...>, rng )`: the dispatch on
the kind tag of the member.  `fuel` bounds the nesting of the contract. -/
def parse_value : Nat → Bool → ValueParser
  | 0, _, _, _, _ => Outcome.undefined
  | fuel + 1, unchecked, k, known_bounds, rng =>
    match k with
    | Kind.Signed bits las range_check => do
      let (v, rng) ← parse_value_Signed bits las range_check known_bounds unchecked rng
      Outcome.ok (JValue.number v, rng)
    | Kind.Unsigned bits las range_check => do
      let (v, rng) ← parse_value_Unsigned bits las range_check known_bounds unchecked rng
      Outcome.ok (JValue.number v, rng)
    | Kind.Bool las => do
      let (v, rng) ← parse_value_Bool las known_bounds unchecked rng
      Outcome.ok (JValue.boolean v, rng)
    | Kind.Null base =>
      parse_value_Null JValue.null (fun kb r => parse_value fuel unchecked base kb r)
        known_bounds unchecked rng
    | Kind.StringRaw empty_is_null _ => do
      let (v, rng) ← parse_value_StringRaw empty_is_null known_bounds unchecked rng
      match v with
      | some str => Outcome.ok (JValue.string str, rng)
      | none => Outcome.ok (JValue.null, rng)
    | Kind.StringEscaped mode => do
      let (v, rng) ← parse_value_StringEscaped mode known_bounds unchecked rng
      Outcome.ok (JValue.string v, rng)
    | Kind.Date => do
      let (v, rng) ← parse_value_Date unchecked rng
      Outcome.ok (JValue.time_point v, rng)
    | Kind.Class members =>
      parse_value_Class (parse_value fuel unchecked) members known_bounds unchecked rng
    | Kind.KeyValue key value =>
      parse_value_KeyValue (parse_value fuel unchecked) key value known_bounds unchecked
        rng
    | Kind.Array element =>
      parse_value_Array (parse_value fuel unchecked) element known_bounds unchecked rng
    | Kind.Variant alternatives =>
      parse_value_Variant (parse_value fuel unchecked) alternatives rng

/-- Modelled from the spec: `from_json<T>( bytes )`: construct a parse state
over the bytes and dispatch on the kind tag of the root contract. -/
def from_json_state (unchecked : Bool) (k : Kind) (text : List Nat) :
    Outcome (JValue × Range) :=
  parse_value (text.length + 1) unchecked k false (Range.ofBytes text)

/-- Modelled from the spec: `from_json<T>( bytes )`, the parsed value. -/
def from_json (unchecked : Bool) (k : Kind) (text : List Nat) : Outcome JValue := do
  let (v, _) ← from_json_state unchecked k text
  Outcome.ok v

/-! ## Serializer: composite kinds (to_daw_json_string.h) -/

/-- The type of the recursive calls `to_daw_json_string<JsonMember>`. -/
abbrev ValueWriter := Kind → JValue → Outcome (List Nat)

/-- State threaded through the member serializers: `is_first`, the bytes
written so far and `visited_members`. -/
structure WriterState where
  is_first : Bool
  out : List Nat
  visited_members : List (List Nat)

/-- The trait `is_null` of a member value (an empty optional). -/
def JValue.is_empty : JValue → Bool
  | JValue.null => true
  | _ => false

/-- `to_json_str<pos, JsonMember>( is_first, it, tp, value, visited_members )`:
one member of a class. -/
def to_json_str (w : ValueWriter) (name : List Nat) (k : Kind) (value : JValue)
    (st : WriterState) : Outcome WriterState :=
  if st.visited_members.contains name then Outcome.ok st
  else
    let st := { st with visited_members := st.visited_members ++ [name] }
    if is_json_nullable k && value.is_empty then Outcome.ok st
    else do
      let sep := if !st.is_first then [44] else []
      let member_name ← copy_to_iterator false EightBitModes.AllowFull name
      let colon ← copy_to_iterator false EightBitModes.AllowFull (bytes "\":")
      let text ← w k value
      Outcome.ok { st with is_first := false,
                           out := st.out ++ sep ++ [34] ++ member_name ++ colon ++ text }

/-- The pack expansion of `to_json_str` over the members of a contract and the
tuple of `to_json_data`. -/
def to_json_members (w : ValueWriter) :
    List (List Nat × Kind) → List JValue → WriterState → Outcome WriterState
  | (name, k) :: members, value :: values, st => do
    let st ← to_json_str w name k value st
    to_json_members w members values st
  | _, _, st => Outcome.ok st

/-- Modelled from the spec: `serialize` of a class contract: emit `{`, the
members with commas between them, and `}`. -/
def serialize_class (w : ValueWriter) (members : List (List Nat × Kind))
    (values : List JValue) : Outcome (List Nat) := do
  let st ← to_json_members w members values
    { is_first := true, out := [123], visited_members := [] }
  Outcome.ok (st.out ++ [125])

/-- The loop of `to_daw_json_string( ParseTag<JsonParseTypes::Array>, ... )`:
the elements with a comma after each one but the last. -/
def to_json_elements (w : ValueWriter) (element : Kind) : List JValue → Outcome (List Nat)
  | [] => Outcome.ok []
  | [v] => w element v
  | v :: vs => do
    let head ← w element v
    let tail ← to_json_elements w element vs
    Outcome.ok (head ++ [44] ++ tail)

/-- The loop of `to_daw_json_string( ParseTag<JsonParseTypes::KeyValue>, ... )`:
`key:value` with a comma after each entry but the last. -/
def to_json_entries (w : ValueWriter) (key value : Kind) :
    List (JValue × JValue) → Outcome (List Nat)
  | [] => Outcome.ok []
  | [e] => do
    let k ← w key e.1
    let v ← w value e.2
    Outcome.ok (k ++ [58] ++ v)
  | e :: es => do
    let k ← w key e.1
    let v ← w value e.2
    let tail ← to_json_entries w key value es
    Outcome.ok (k ++ [58] ++ v ++ [44] ++ tail)

/-- `to_daw_json_string<JsonMember>( ParseTag<...>, it, value )`: the dispatch on
the kind tag; the outcome is the text appended to the output.  A value that is
not of the type of the member has no text (`undefined`); C++ rules it out
statically. -/
def to_daw_json_string : Nat → ValueWriter
  | 0, _, _ => Outcome.undefined
  | fuel + 1, k, value =>
    match k, value with
    | Kind.Signed _ las _, JValue.number n => Outcome.ok (to_daw_json_string_Signed las n)
    | Kind.Unsigned _ las _, JValue.number n => to_daw_json_string_Unsigned las n
    | Kind.Bool las, JValue.boolean b => Outcome.ok (to_daw_json_string_Bool las b)
    | Kind.Null _, JValue.null => daw_json_error ErrorReason.UnexpectedNull
    | Kind.Null base, v => to_daw_json_string fuel base v
    | Kind.StringRaw _ mode, JValue.string str => to_daw_json_string_StringRaw mode str
    | Kind.StringEscaped mode, JValue.string str =>
      to_daw_json_string_StringEscaped mode str
    | Kind.Date, JValue.time_point tp => to_daw_json_string_Date tp
    | Kind.Class members, JValue.object values =>
      serialize_class (to_daw_json_string fuel) members values
    | Kind.KeyValue key val, JValue.key_values entries => do
      let body ← to_json_entries (to_daw_json_string fuel) key val entries
      Outcome.ok ([123] ++ body ++ [125])
    | Kind.Array element, JValue.array elements => do
      let body ← to_json_elements (to_daw_json_string fuel) element elements
      Outcome.ok ([91] ++ body ++ [93])
    | Kind.Variant alternatives, JValue.alternative index v =>
      match alternatives.get? index with
      | some alt => to_daw_json_string fuel alt v
      | none => Outcome.ok []
    | _, _ => Outcome.undefined

/-- Modelled from the spec: `to_json( value )`, the text of a value under its
contract.  The budget `fuel` has to cover the nesting of the contract. -/
def to_json (fuel : Nat) (k : Kind) (value : JValue) : Outcome (List Nat) :=
  to_daw_json_string fuel k value

/-! ## Contracts of the tests -/

/-- The contract of `MyClass1` (cookbook_class2_test.cpp): a string, an `int`
and a `bool`. -/
def MyClass1 : Kind :=
  Kind.Class [(bytes "member0", Kind.StringEscaped EightBitModes.AllowFull),
              (bytes "member1", Kind.Signed 32 LiteralAsStringOpt.Never false),
              (bytes "member2", Kind.Bool LiteralAsStringOpt.Never)]

/-- The contract of `MyClass2` (cookbook_class2_test.cpp): a `MyClass1` and an
`unsigned`. -/
def MyClass2 : Kind :=
  Kind.Class [(bytes "a", MyClass1),
              (bytes "b", Kind.Unsigned 32 LiteralAsStringOpt.Never false)]

/-- The contract `json_key_value<..., std::map<std::string, std::string>,
std::string>` (cookbook_kv4_test.cpp, issue_462_test.cpp): string keys and
string values. -/
def string_map : Kind :=
  Kind.KeyValue (Kind.StringEscaped EightBitModes.AllowFull)
    (Kind.StringEscaped EightBitModes.AllowFull)

/-- The contract of `request` (issue_462_test.cpp): one member `header`, a map
from strings to strings. -/
def request : Kind := Kind.Class [(bytes "header", string_map)]

/-- A class with an unsigned member `a` and a member `v` that is a variant of a
number and a string. -/
def number_and_variant : Kind :=
  Kind.Class [(bytes "a", Kind.Unsigned 32 LiteralAsStringOpt.Never false),
              (bytes "v", Kind.Variant [Kind.Unsigned 32 LiteralAsStringOpt.Never false,
                                        Kind.StringRaw false EightBitModes.AllowFull])]

/-- A class with one nullable unsigned member `a`. -/
def nullable_member : Kind :=
  Kind.Class [(bytes "a", Kind.Null (Kind.Unsigned 32 LiteralAsStringOpt.Never false))]

/-- The cursor contract of a primitive parser: the cursor rests on a comma, on a
closing bracket or brace, or at the buffer end, that is on the NUL behind the
last byte of the buffer or at the end of the range. -/
def rests_on_separator (rng : Range) : Prop :=
  rng.front = 44 ∨ rng.front = 93 ∨ rng.front = 125 ∨ rng.front = 0 ∨ rng.has_more = false

instance (rng : Range) : Decidable (rests_on_separator rng) := by
  unfold rests_on_separator
  infer_instance

/-- The kinds whose parsers check their input with `daw_json_assert_weak` only:
numbers without range check, booleans, strings, nullable members, and classes,
key-value maps and arrays of such kinds.  Dates and variants are not among
them: their parsers call `daw_json_error` / `daw_json_ensure` under every
policy. -/
inductive weakly_checked : Kind → Prop where
  | signed (bits : Nat) (las : LiteralAsStringOpt) :
    weakly_checked (Kind.Signed bits las false)
  | unsigned (bits : Nat) (las : LiteralAsStringOpt) :
    weakly_checked (Kind.Unsigned bits las false)
  | bool (las : LiteralAsStringOpt) : weakly_checked (Kind.Bool las)
  | null {base : Kind} : weakly_checked base → weakly_checked (Kind.Null base)
  | string_raw (empty_is_null : Bool) (mode : EightBitModes) :
    weakly_checked (Kind.StringRaw empty_is_null mode)
  | string_escaped (mode : EightBitModes) : weakly_checked (Kind.StringEscaped mode)
  | class_of {members : List (List Nat × Kind)} :
    (∀ m, m ∈ members → weakly_checked m.2) → weakly_checked (Kind.Class members)
  | key_value {key value : Kind} :
    weakly_checked key → weakly_checked value → weakly_checked (Kind.KeyValue key value)
  | array {element : Kind} : weakly_checked element → weakly_checked (Kind.Array element)

/-- A stand-in for the number parser `parse_real`, which is not part of the
sources: it reads an unsigned integer. -/
def parse_real_stand_in (rng : Range) : Outcome (Nat × Range) :=
  parse_unsigned_integer 64 (2 ^ 64 - 1) false false rng

/-! ## Unicode text -/

/-- A Unicode scalar value: a code point up to 0x10FFFF that is not a
surrogate. -/
def is_scalar_value (cp : Nat) : Prop := cp < 0xD800 ∨ (0xE000 ≤ cp ∧ cp ≤ 0x10FFFF)

instance (cp : Nat) : Decidable (is_scalar_value cp) := by
  unfold is_scalar_value
  infer_instance

/-- The UTF-8 encoding of a scalar value (RFC 3629), in arithmetic form. -/
def utf8_encode (cp : Nat) : List Nat :=
  if cp < 0x80 then [cp]
  else if cp < 0x800 then [0xC0 + cp / 64, 0x80 + cp % 64]
  else if cp < 0x10000 then [0xE0 + cp / 4096, 0x80 + cp / 64 % 64, 0x80 + cp % 64]
  else [0xF0 + cp / 262144, 0x80 + cp / 4096 % 64, 0x80 + cp / 64 % 64, 0x80 + cp % 64]

/-- The UTF-8 encoding of a sequence of scalar values: a string `s` of the
claims about text. -/
def utf8_string : List Nat → List Nat
  | [] => []
  | cp :: cps => utf8_encode cp ++ utf8_string cps

/-- The upper case hexadecimal digit of a value below 16. -/
def hex_char (n : Nat) : Nat := if n < 10 then n + 48 else n - 10 + 65

/-- The four hexadecimal digits of a 16-bit value. -/
def hex4 (c : Nat) : List Nat :=
  [hex_char (c / 4096), hex_char (c / 256 % 16), hex_char (c / 16 % 16), hex_char (c % 16)]

/-- The text that the escaping serializer writes for a scalar value, case by
case, in arithmetic form. -/
def escape_text (mode : EightBitModes) (cp : Nat) : List Nat :=
  if cp = 34 then [92, 34]
  else if cp = 92 then [92, 92]
  else if cp = 8 then [92, 98]
  else if cp = 12 then [92, 102]
  else if cp = 10 then [92, 110]
  else if cp = 13 then [92, 114]
  else if cp = 9 then [92, 116]
  else if cp < 0x20 then 92 :: 117 :: hex4 cp
  else if mode = EightBitModes.DisallowHigh ∧ 0x7F ≤ cp ∧ cp ≤ 0xFFFF then
    92 :: 117 :: hex4 cp
  else if mode = EightBitModes.DisallowHigh ∧ 0xFFFF < cp then
    92 :: 117 :: hex4 (0xD7C0 + cp / 1024) ++ 92 :: 117 :: hex4 (0xDC00 + cp % 1024)
  else utf8_encode cp

/-- The escaped text of a sequence of scalar values. -/
def escape_texts (mode : EightBitModes) : List Nat → List Nat
  | [] => []
  | cp :: cps => escape_text mode cp ++ escape_texts mode cps

/-- The body of a JSON string as the scanner reads it: plain bytes other than
`"` and `\`, and pairs of a backslash and the byte it escapes. -/
inductive escaped_body : List Nat → Prop where
  | nil : escaped_body []
  | plain (c : Nat) (t : List Nat) : c ≠ 34 → c ≠ 92 → escaped_body t →
    escaped_body (c :: t)
  | pair (x : Nat) (t : List Nat) : escaped_body t → escaped_body (92 :: x :: t)

/-- The escape `e` (the bytes behind a backslash) is read by `parse_escape` as
the bytes `out`, wherever it stands inside the range. -/
def escape_decodes (mode : EightBitModes) (e out : List Nat) : Prop :=
  e ≠ [] ∧ ∀ (unchecked : Bool) (tail : List Nat) (f l cf : Nat) (ctr : Int) (nm : Bool),
    f + e.length ≤ l →
    parse_escape mode unchecked
        { data := e ++ tail, first := f, last := l, class_first := cf, counter := ctr,
          null_marked := nm }
      = Outcome.ok (out, { data := tail, first := f + e.length, last := l,
                           class_first := cf, counter := ctr, null_marked := nm })

/-- The string body `t` is made of plain bytes and escapes that the unescaping
parser reads as the bytes `b`. -/
inductive decodes (mode : EightBitModes) : List Nat → List Nat → Prop where
  | nil : decodes mode [] []
  | plain (c : Nat) (t b : List Nat) : c ≠ 34 → c ≠ 92 → decodes mode t b →
    decodes mode (c :: t) (c :: b)
  | escape (e out t b : List Nat) : escape_decodes mode e out → decodes mode t b →
    decodes mode (92 :: (e ++ t)) (out ++ b)

/-! ## Texts and values of the round trips -/

/-- The parse state over a buffer of `total` bytes whose cursor has the bytes
`rest` left up to the end of the buffer: `first` is `total - rest.length` and
`last` the end of the buffer. -/
def Range.tail_of (total : Nat) (rest : List Nat) (class_first : Nat) (counter : Int)
    (null_marked : Bool) : Range :=
  ⟨rest, total - rest.length, total, class_first, counter, null_marked⟩

/-- A run of the whitespace bytes that `trim_left` skips. -/
def whitespace (ws : List Nat) : Prop := ∀ c, c ∈ ws → is_space c = true

instance (ws : List Nat) : Decidable (whitespace ws) := by
  unfold whitespace
  infer_instance

/-- The text of a `MyClass1` object with the string body `E` (the bytes between
the quotes), the number text `N` and the literal `B`, followed by `rest`. -/
def MyClass1_text (E N B rest : List Nat) : List Nat :=
  123 :: 34 :: (bytes "member0" ++ 34 :: 58 :: 34 :: (E ++ 34 :: 44 :: 34 ::
    (bytes "member1" ++ 34 :: 58 :: (N ++ 44 :: 34 ::
      (bytes "member2" ++ 34 :: 58 :: (B ++ 125 :: rest))))))

/-- The text of a `MyClass2` object: the member `a` is the `MyClass1` text,
the member `b` the number text `U`; `rest` follows the object. -/
def MyClass2_text (E N B U rest : List Nat) : List Nat :=
  123 :: 34 :: (bytes "a" ++ 34 :: 58 ::
    MyClass1_text E N B (44 :: 34 :: (bytes "b" ++ 34 :: 58 :: (U ++ 125 :: rest))))

/-- The value of a `MyClass2`: the members of `a` and the member `b`. -/
def MyClass2_value (s : List Nat) (n : Int) (b : Bool) (u : Int) : JValue :=
  JValue.object [JValue.object [JValue.string s, JValue.number n, JValue.boolean b],
    JValue.number u]

/-- The document of issue_462_test.cpp with the run `w i` of bytes inserted at
the `i`-th place between its structural tokens (before the first and after the
last one as well). -/
def request_document (w : Nat → List Nat) : List Nat :=
  w 0 ++ 123 :: (w 1 ++ 34 :: (bytes "header" ++ 34 :: (w 2 ++ 58 :: (w 3 ++ 123 ::
    (w 4 ++ 34 :: (bytes "field1" ++ 34 :: (w 5 ++ 58 :: (w 6 ++ 34 :: (bytes "a" ++ 34 ::
      (w 7 ++ 44 :: (w 8 ++ 34 :: (bytes "field2" ++ 34 :: (w 9 ++ 58 :: (w 10 ++ 34 ::
        (bytes "b" ++ 34 :: (w 11 ++ 125 :: (w 12 ++ 125 :: w 13)))))))))))))))))

/-- The value of the `request` of issue_462_test.cpp: the map of `header` holds
`field1 -> a` and `field2 -> b`. -/
def request_value : JValue :=
  JValue.object [JValue.key_values
    [(JValue.string (bytes "field1"), JValue.string (bytes "a")),
     (JValue.string (bytes "field2"), JValue.string (bytes "b"))]]

/-- The whitespace of the document of issue_462_test.cpp,
`{  "header": { "field1":  "a", "field2": "b" } }`, by place. -/
def issue_462_spacing : Nat → List Nat
  | 1 => [32, 32]
  | 3 => [32]
  | 4 => [32]
  | 6 => [32, 32]
  | 8 => [32]
  | 10 => [32]
  | 11 => [32]
  | 12 => [32]
  | _ => []

/-! ## Tables, texts and calendar of the later claims -/

/-- The dispatch table of the untagged variant in the words of the spec: the
base kind that the byte at the cursor selects (`{` Class, `[` Array, `t` and
`f` Bool, `"` String, a digit, `+` or `-` Number), if any. -/
def variant_base_type (c : Nat) : Option JsonBaseParseTypes :=
  if c = 123 then some JsonBaseParseTypes.Class
  else if c = 91 then some JsonBaseParseTypes.Array
  else if c = 116 ∨ c = 102 then some JsonBaseParseTypes.Bool
  else if c = 34 then some JsonBaseParseTypes.String
  else if (48 ≤ c ∧ c ≤ 57) ∨ c = 43 ∨ c = 45 then some JsonBaseParseTypes.Number
  else none

/-- The value of a hexadecimal digit, of either case, in the words of the spec. -/
def hex_value (d : Nat) : Option Nat :=
  if 48 ≤ d ∧ d ≤ 57 then some (d - 48)
  else if 65 ≤ d ∧ d ≤ 70 then some (d - 55)
  else if 97 ≤ d ∧ d ≤ 102 then some (d - 87)
  else none

/-- The 16-bit value of the four hexadecimal digits `XXXX` of an escape. -/
def hex4_value (d3 d2 d1 d0 : Nat) : Option Nat := do
  let v3 ← hex_value d3
  let v2 ← hex_value d2
  let v1 ← hex_value d1
  let v0 ← hex_value d0
  some (v3 * 4096 + v2 * 256 + v1 * 16 + v0)

/-- The text `YYYY-MM-DDThh:mm:ssZ` with the given decimal digits (values below
ten) in its fields. -/
def timestamp_text (y3 y2 y1 y0 mo1 mo0 d1 d0 h1 h0 mi1 mi0 s1 s0 : Nat) : List Nat :=
  [y3 + 48, y2 + 48, y1 + 48, y0 + 48, 45, mo1 + 48, mo0 + 48, 45, d1 + 48, d0 + 48, 84,
    h1 + 48, h0 + 48, 58, mi1 + 48, mi0 + 48, 58, s1 + 48, s0 + 48, 90]

/-- The leap years of the proleptic Gregorian calendar. -/
def is_leap_year (y : Int) : Bool :=
  decide (y % 4 = 0) && (decide (y % 100 ≠ 0) || decide (y % 400 = 0))

/-- The number of days of month `m` of year `y` in the proleptic Gregorian
calendar. -/
def days_in_month (y : Int) (m : Nat) : Nat :=
  if m = 2 then (if is_leap_year y then 29 else 28)
  else if m = 4 ∨ m = 6 ∨ m = 9 ∨ m = 11 then 30
  else 31

/-- A valid calendar date. -/
def valid_date (y : Int) (m d : Nat) : Prop :=
  1 ≤ m ∧ m ≤ 12 ∧ 1 ≤ d ∧ d ≤ days_in_month y m

instance (y : Int) (m d : Nat) : Decidable (valid_date y m d) := by
  unfold valid_date
  infer_instance

/-- The calendar date that follows a valid date. -/
def next_date (y : Int) (m d : Nat) : Int × Nat × Nat :=
  if d < days_in_month y m then (y, m, d + 1)
  else if m < 12 then (y, m + 1, 1)
  else (y + 1, 1, 1)

/-- The quote that `literal_as_string` puts around a literal: none for `Never`,
one `"` for `Always`, either for `Maybe`. -/
def quote_allowed (las : LiteralAsStringOpt) (q : List Nat) : Prop :=
  match las with
  | LiteralAsStringOpt.Never => q = []
  | LiteralAsStringOpt.Maybe => q = [] ∨ q = [34]
  | LiteralAsStringOpt.Always => q = [34]

instance (las : LiteralAsStringOpt) (q : List Nat) : Decidable (quote_allowed las q) := by
  unfold quote_allowed
  cases las <;> infer_instance

/-- The text of a Bool literal. -/
def bool_literal (b : Bool) : List Nat := if b then bytes "true" else bytes "false"

/-- The input without the `"` it may start with. -/
def strip_quote (d : List Nat) : List Nat := if d.headD 0 = 34 then d.drop 1 else d

/-! ## Ordered class parser (daw_json_parse_class.h) -/

/-- Modelled from the spec: `is_opening_bracket_checked()` tests for `[`. -/
def is_opening_bracket_checked (rng : Range) : Bool := rng.front_is 91

/-- The loop of `pocm_details::maybe_skip_members<Nullable>`; `n` is the
distance `desired_position - current_position`, which the loop counts down. -/
def maybe_skip_members_loop (nullable unchecked : Bool) :
    Nat → Range → Nat → Nat → Outcome (Nat × Range)
  | 0, rng, current_position, _ => Outcome.ok (current_position, rng)
  | n + 1, rng, current_position, desired_position =>
    let skip_check_end := unchecked && nullable
    if decide (current_position < desired_position)
        && (skip_check_end || rng.front != 93) then do
      let (_, rng) ← skip_value unchecked rng
      let rng := clean_tail unchecked rng
      let current_position := current_position + 1
      daw_json_assert_weak unchecked rng.has_more ErrorReason.UnexpectedEndOfData
      maybe_skip_members_loop nullable unchecked n rng current_position desired_position
    else Outcome.ok (current_position, rng)

/-- `pocm_details::maybe_skip_members<Nullable>( rng, current_position,
desired_position )`: the new `current_position` and parse state. -/
def maybe_skip_members (nullable unchecked : Bool) (rng : Range)
    (current_position desired_position : Nat) : Outcome (Nat × Range) := do
  let rng := clean_tail unchecked rng
  daw_json_assert_weak unchecked rng.has_more ErrorReason.UnexpectedEndOfData
  daw_json_assert_weak unchecked (decide (current_position ≤ desired_position))
    ErrorReason.OutOfOrderOrderedMembers
  maybe_skip_members_loop nullable unchecked (desired_position - current_position) rng
    current_position desired_position

/-- `parse_ordered_class_member<JsonMember>( member_index, rng )`: `index` is the
declared index of an `ordered_json_member`, `none` for a plain member, `k` the
kind of the member.  The outcome is the value, the new `member_index` and the
parse state. -/
def parse_ordered_class_member (pv : ValueParser) (unchecked : Bool) (index : Option Nat)
    (k : Kind) (member_index : Nat) (rng : Range) : Outcome (JValue × Nat × Range) := do
  let (member_index, rng) ←
    match index with
    | some i => maybe_skip_members (is_json_nullable k) unchecked rng member_index i
    | none => Outcome.ok (member_index, clean_tail unchecked rng)
  let member_index := member_index + 1
  if unchecked then
    if is_json_nullable k && rng.front == 93 then Outcome.ok (JValue.null, member_index, rng)
    else do
      let (v, rng) ← pv k false rng
      Outcome.ok (v, member_index, rng)
  else
    if rng.front == 93 then
      if is_json_nullable k then Outcome.ok (JValue.null, member_index, rng)
      else daw_json_error ErrorReason.MissingMember
    else do
      let (v, rng) ← pv k false rng
      Outcome.ok (v, member_index, rng)

/-- The pack expansion `parse_ordered_class_member<JsonMembers>( current_idx,
rng )...` of `parse_ordered_json_class`, member by member. -/
def parse_ordered_class_members (pv : ValueParser) (unchecked : Bool) :
    List (Option Nat × Kind) → Nat → Range → Outcome (List JValue × Nat × Range)
  | [], current_idx, rng => Outcome.ok ([], current_idx, rng)
  | (index, k) :: members, current_idx, rng => do
    let (v, current_idx, rng) ← parse_ordered_class_member pv unchecked index k current_idx rng
    let (vs, current_idx, rng) ← parse_ordered_class_members pv unchecked members current_idx rng
    Outcome.ok (v :: vs, current_idx, rng)

/-- `parse_ordered_json_class<JsonClass, JsonMembers...>( rng )`. -/
def parse_ordered_json_class (pv : ValueParser) (unchecked : Bool)
    (members : List (Option Nat × Kind)) (rng : Range) : Outcome (JValue × Range) := do
  let rng := trim_left unchecked rng
  daw_json_assert_weak unchecked (is_opening_bracket_checked rng) ErrorReason.InvalidArrayStart
  let rng := set_class_position rng
  let rng := remove_prefix rng 1
  let rng := trim_left unchecked rng
  let (vs, _, rng) ← parse_ordered_class_members pv unchecked members 0 rng
  let (_, rng) ← skip_array unchecked rng
  Outcome.ok (JValue.object vs, rng)

/-! ## Texts of arrays -/

/-- An element of a JSON array as it is written: the whitespace before it, its
text and the whitespace after it. -/
structure ArrayElement where
  before : List Nat
  text : List Nat
  after : List Nat
  deriving DecidableEq, Repr

/-- The text of an array from behind an element on: for each further element a
comma, the whitespace and the element, then the closing bracket and `rest`. -/
def array_tail (rest : List Nat) : List ArrayElement → List Nat
  | [] => 93 :: rest
  | el :: els => 44 :: (el.before ++ (el.text ++ (el.after ++ array_tail rest els)))

/-- The text of an array from the first byte of the first of the elements `els`
on; for no elements it is the closing bracket and `rest`. -/
def array_from (rest : List Nat) : List ArrayElement → List Nat
  | [] => 93 :: rest
  | el :: els => el.text ++ (el.after ++ array_tail rest els)

/-- A text that `skip_value` passes over: with the cursor on its first byte and
a byte that ends an item behind it, the skip leaves the cursor behind the
text. -/
def skips_over (unchecked : Bool) (e : List Nat) : Prop :=
  ∀ (total : Nat) (t : List Nat) (cf : Nat) (ctr : Int) (nm : Bool),
    (e ++ t).length ≤ total → at_end_of_item (t.headD 0) = true →
    ∃ sub, skip_value unchecked (Range.tail_of total (e ++ t) cf ctr nm)
      = Outcome.ok (sub, Range.tail_of total t cf ctr nm)

/-- The first byte of a value: the text is not empty and does not start with
whitespace, a comma or a closing bracket. -/
def value_start (e : List Nat) : Prop :=
  e ≠ [] ∧ is_space (e.headD 0) = false ∧ e.headD 0 ≠ 44 ∧ e.headD 0 ≠ 93

/-- A well-formed element: whitespace around a value that `skip_value` passes
over. -/
def element_ok (unchecked : Bool) (el : ArrayElement) : Prop :=
  whitespace el.before ∧ whitespace el.after ∧ value_start el.text
    ∧ skips_over unchecked el.text

/-- What may stand between the cursor and the next element: whitespace, or
whitespace, a comma and whitespace. -/
def separator_run (pre : List Nat) : Prop :=
  ∃ ws wa, whitespace ws ∧ whitespace wa ∧ (pre = ws ∨ pre = ws ++ 44 :: wa)

/-- A bracketed text, an array or a class: it starts with the bracket `left` and
the nesting scanner of `skip_array` / `skip_class` closes it at its last byte. -/
def closes_at_end (left right : Nat) (e : List Nat) : Prop :=
  e.headD 0 = left
    ∧ skip_bracketed_len left right (e.drop 1) 1 ScanMode.normal = some (e.length - 1)

instance (left right : Nat) (e : List Nat) : Decidable (closes_at_end left right e) := by
  unfold closes_at_end
  infer_instance

/-- The array index that a member of an ordered class is parsed from, in the words
of the spec: its declared index, or without one the index right after the
element of the previous member (`cur`). -/
def member_position (index : Option Nat) (cur : Nat) : Nat := index.getD cur

/-- The members fit an array of `n` elements: the declared indices increase
strictly and every member has an element. -/
def positions_fit (n : Nat) : List (Option Nat × Kind) → Nat → Bool
  | [], _ => true
  | (index, _) :: members, cur =>
    decide (cur ≤ member_position index cur) && decide (member_position index cur < n)
      && positions_fit n members (member_position index cur + 1)

/-- The values of the members in the words of the spec: each member parsed by
the parser of its kind with the cursor on the element at its position;
`at_element p` is the parse state with the cursor on the first byte of the
element at index `p`. -/
def parse_at_positions (pv : ValueParser) (at_element : Nat → Range) :
    List (Option Nat × Kind) → Nat → Outcome (List JValue)
  | [], _ => Outcome.ok []
  | (index, k) :: members, cur => do
    let (v, _) ← pv k false (at_element (member_position index cur))
    let vs ← parse_at_positions pv at_element members (member_position index cur + 1)
    Outcome.ok (v :: vs)

/-- The elements of the array `[1, [3,"]"],40 ]`. -/
def ordered_example_elements : List ArrayElement :=
  [⟨[], bytes "1", []⟩, ⟨[32], bytes "[3,\"]\"]", []⟩, ⟨[], bytes "40", [32]⟩]

/-- An ordered class of two numbers, the second one declared at index 2. -/
def ordered_example_members : List (Option Nat × Kind) :=
  [(none, Kind.Unsigned 32 LiteralAsStringOpt.Never false),
    (some 2, Kind.Unsigned 32 LiteralAsStringOpt.Never false)]

/-! ## Array iterator (daw_json_parse_array_iterator.h) -/

/-- The iterator `json_parse_array_iterator`: `rng` is the parse state that the
pointer `parse_state` refers to, as the iterator left it, and `parse_state`
tells whether the pointer is set (a default-constructed iterator, the end
iterator, has `nullptr`).  The element counter of an iterator with known
bounds is checked in debug builds only and is not part of the model. -/
structure json_parse_array_iterator where
  rng : Range
  parse_state : Bool
  deriving DecidableEq, Repr

/-- The constructor `json_parse_array_iterator( parse_state_t &r )`. -/
def json_parse_array_iterator.ctor (known_bounds : Bool) (r : Range) :
    json_parse_array_iterator :=
  if r.front == 93 then
    { rng := array_iterator_at_end known_bounds r, parse_state := false }
  else { rng := r, parse_state := true }

/-- The comparison `operator==` with the default-constructed iterator: the
pointers are compared. -/
def json_parse_array_iterator.is_end (it : json_parse_array_iterator) : Bool :=
  !it.parse_state

/-- The non-const `operator*`: the element at the cursor is parsed.  With a null
`parse_state` the pointer is dereferenced under both policies: under the
unchecked policy by the parser, under the checked policy by the failing
assertion, which passes `*base::parse_state` to the error handler. -/
def json_parse_array_iterator.deref (pv : ValueParser) (element : Kind) (unchecked : Bool)
    (it : json_parse_array_iterator) : Outcome (JValue × json_parse_array_iterator) :=
  if it.parse_state then do
    daw_json_assert_weak unchecked it.rng.has_more ErrorReason.UnexpectedEndOfData
    let (v, rng) ← pv element false it.rng
    Outcome.ok (v, { it with rng := rng })
  else Outcome.undefined

/-- The increment `operator++`.  With a null `parse_state` the pointer is
dereferenced under both policies, under the checked policy by the failing first
assertion, which passes `*base::parse_state` to the error handler. -/
def json_parse_array_iterator.incr (known_bounds unchecked : Bool)
    (it : json_parse_array_iterator) : Outcome json_parse_array_iterator :=
  if it.parse_state then do
    let rng := trim_left unchecked it.rng
    daw_json_assert_weak unchecked (rng.has_more && is_at_next_array_element rng)
      ErrorReason.UnexpectedEndOfData
    let rng := move_next_member_or_end unchecked rng
    daw_json_assert_weak unchecked rng.has_more ErrorReason.UnexpectedEndOfData
    if rng.front == 93 then
      Outcome.ok { rng := array_iterator_at_end known_bounds rng, parse_state := false }
    else Outcome.ok { rng := rng, parse_state := true }
  else Outcome.undefined

/-- The iterator as `parse_value( ParseTag<JsonParseTypes::Array>, rng )` makes
it, with the cursor of `rng` on the opening bracket: the bracket is consumed, the
whitespace trimmed and the iterator constructed. -/
def json_parse_array_iterator.at_array (known_bounds : Bool) (rng : Range) :
    json_parse_array_iterator :=
  json_parse_array_iterator.ctor known_bounds (trim_left_unchecked ( remove_prefix rng 1))

/-- The use of the iterator `k` times: dereference once, then increment. -/
def json_parse_array_iterator.steps (pv : ValueParser) (element : Kind)
    (known_bounds unchecked : Bool) :
    Nat → json_parse_array_iterator → Outcome (List JValue × json_parse_array_iterator)
  | 0, it => Outcome.ok ([], it)
  | k + 1, it => do
    let (v, it) ← json_parse_array_iterator.deref pv element unchecked it
    let it ← json_parse_array_iterator.incr known_bounds unchecked it
    let (vs, it) ← json_parse_array_iterator.steps pv element known_bounds unchecked k it
    Outcome.ok (v :: vs, it)

/-- The elements of the array `[ 1 , 2]`. -/
def iterator_example_elements : List ArrayElement :=
  [⟨[], bytes "1", [32]⟩, ⟨[32], bytes "2", []⟩]

/-- The decimal digits of `n`, least significant first and without leading
zeros; `fuel` bounds the number of digits. -/
def decimal_digits_rev : Nat → Nat → List Nat
  | 0, _ => []
  | fuel + 1, n => if n = 0 then [] else (n % 10 + 48) :: decimal_digits_rev fuel (n / 10)

/-- The canonical decimal digits of a natural number, most significant first:
the single digit 0 for zero, otherwise no leading zero. -/
def decimal_text (n : Nat) : List Nat :=
  if n = 0 then [48] else (decimal_digits_rev n n).reverse

/-- The canonical decimal representation of an integer: a leading `-` exactly for
a negative value, then the digits of its magnitude. -/
def integer_text (v : Int) : List Nat :=
  if v < 0 then 45 :: decimal_text v.natAbs else decimal_text v.natAbs

/-- Modelled from the spec: `numeric_limits<T>::digits10` of an integer type with
`value_bits` value bits (one less than the width for a signed type): one less
than the number of decimal digits of `2 ^ value_bits`. -/
def digits10 (value_bits : Nat) : Nat := (decimal_text (2 ^ value_bits)).length - 1

/-- The contents of the temporary buffer `buff` of the integer serializers when
the digits have been produced (least significant digit first). -/
def integer_buff (value : Int) : List Nat :=
  if value < 0 then
    let buff : List Nat := [(48 - Int.tmod value 10).toNat]
    let v : Int := Int.tdiv value (-10)
    if v == 0 then buff else fill_buff v.toNat buff
  else fill_buff value.toNat []

/-! ## Real numbers (to_daw_json_string.h) -/

/-- A floating point value as the Real serializer sees it: not a number, an
infinity with its sign, or a finite number.  A finite number is given by the
text that `real2string`, which is not part of the sources, writes for it. -/
inductive RealValue where
  | nan
  | infinity (negative : Bool)
  | finite (text : List Nat)
  deriving DecidableEq, Repr

/-- Modelled from the spec: `daw::cxmath::is_nan`. -/
def is_nan : RealValue → Bool
  | RealValue.nan => true
  | _ => false

/-- Modelled from the spec: `daw::cxmath::is_inf`, true for the positive and for
the negative infinity. -/
def is_inf : RealValue → Bool
  | RealValue.infinity _ => true
  | _ => false

/-- Modelled from the spec: `real2string`, the text of a finite number. -/
def real2string : RealValue → List Nat
  | RealValue.finite text => text
  | _ => []

/-- `to_daw_json_string( ParseTag<JsonParseTypes::Real>, it, value )` for a
floating point `value`: the bytes written. -/
def to_daw_json_string_Real (las : LiteralAsStringOpt) (value : RealValue) :
    Outcome (List Nat) :=
  if is_nan value then
    if las == LiteralAsStringOpt.Never then daw_json_error ErrorReason.NumberIsNaN
    else Outcome.ok ([34] ++ bytes "NaN" ++ [34])
  else if is_inf value then
    if las == LiteralAsStringOpt.Never then daw_json_error ErrorReason.NumberIsInf
    else Outcome.ok ([34] ++ bytes "Infinity" ++ [34])
  else
    Outcome.ok (quote_when_always las ++ real2string value ++ quote_when_always las)

/-! ## Serializer: ordered classes (to_daw_json_string.h) -/

/-- The loop `for( ; array_idx < JsonMember::member_index; ++array_idx )` of
`to_json_ordered_str`: a `null` for each index below the declared one, with a
comma before it unless it is the first element.  The state is `array_idx` and the
bytes written so far; `fuel` bounds the number of rounds. -/
def to_json_ordered_nulls (member_index : Nat) : Nat → Nat × List Nat → Nat × List Nat
  | 0, st => st
  | fuel + 1, (array_idx, out) =>
    if array_idx < member_index then
      to_json_ordered_nulls member_index fuel
        (array_idx + 1, out ++ (if array_idx > 0 then [44] else []) ++ bytes "null")
    else (array_idx, out)

/-- `to_json_ordered_str<TupleIdx, JsonMember>( array_idx, it, tp )`: one member of
an ordered class.  `index` is the declared index of an `ordered_json_member`,
`none` for a plain member; the state is `array_idx` and the bytes written so
far. -/
def to_json_ordered_str (w : ValueWriter) (index : Option Nat) (k : Kind) (value : JValue)
    (st : Nat × List Nat) : Outcome (Nat × List Nat) :=
  let st :=
    match index with
    | some member_index => to_json_ordered_nulls member_index (member_index - st.1) st
    | none => st
  let sep := if st.1 > 0 then [44] else []
  do
    let text ← w k value
    Outcome.ok (st.1 + 1, st.2 ++ sep ++ text)

/-- The pack expansion of `to_json_ordered_str` over the members of an ordered
contract and the tuple of `to_json_data`. -/
def to_json_ordered_members (w : ValueWriter) :
    List (Option Nat × Kind) → List JValue → Nat × List Nat → Outcome (Nat × List Nat)
  | (index, k) :: members, value :: values, st => do
    let st ← to_json_ordered_str w index k value st
    to_json_ordered_members w members values st
  | _, _, st => Outcome.ok st

/-- Modelled from the spec: `serialize` of an ordered class contract: emit `[`,
the members from `array_idx = 0` on, and `]`. -/
def serialize_ordered_class (w : ValueWriter) (members : List (Option Nat × Kind))
    (values : List JValue) : Outcome (List Nat) := do
  let st ← to_json_ordered_members w members values (0, [91])
  Outcome.ok (st.2 ++ [93])

/-- The index each member of an ordered contract declares: the index of an
`ordered_json_member`, and for a plain member the index after the one of the
member before it (`start` for the first member). -/
def member_positions : Nat → List (Option Nat) → List Nat
  | _, [] => []
  | start, none :: indices => start :: member_positions (start + 1) indices
  | _, some i :: indices => i :: member_positions (i + 1) indices

/-- Each declared index is at least `start` and the declared indices increase
strictly. -/
def indices_increase (start : Nat) (indices : List (Option Nat)) : Prop :=
  (member_positions start indices).Pairwise (· < ·)
    ∧ ∀ p ∈ member_positions start indices, start ≤ p

/-- The elements of the array an ordered class is written as, from position
`start` on: for each member the `null`s of the positions before its index,
then its text. -/
def ordered_cells : Nat → List (Option Nat × List Nat) → List (List Nat)
  | _, [] => []
  | start, (none, text) :: items => text :: ordered_cells (start + 1) items
  | start, (some i, text) :: items =>
    List.replicate (i - start) (bytes "null") ++ text :: ordered_cells (i + 1) items

/-- A writer that knows the numbers 10, 20 and 30 only. -/
def ordered_example_writer : ValueWriter := fun _ value =>
  match value with
  | JValue.number 10 => Outcome.ok (bytes "10")
  | JValue.number 20 => Outcome.ok (bytes "20")
  | JValue.number 30 => Outcome.ok (bytes "30")
  | _ => Outcome.undefined

/-! ## Serializer: tag members (to_daw_json_string.h) -/

/-- `tags_to_json_str<pos, JsonMember>( is_first, it, args, v, visited_members )`:
the tag member of one member of a class.  `tag_member` is `tag_member_t` of
a member with `has_tag_member_v` (name and kind), `none` for the overload of the
other members, which is empty; `value` is `std::get<pos>( args )` and
`tag_value` is `JsonMember::switcher{ }( v )`.  `is_first` and
`visited_members` are references, `it` is a copy of the iterator of the caller:
the bytes written through it are part of the output when the copies of the
iterator write to one sink (`shared_sink`, as `std::back_insert_iterator`); an
iterator that is a position (`char *`) is not moved for the caller, who writes
from the old position on. -/
def tags_to_json_str (w : ValueWriter) (shared_sink : Bool) (k : Kind)
    (tag_member : Option (List Nat × Kind)) (value tag_value : JValue) (st : WriterState) :
    Outcome WriterState :=
  match tag_member with
  | none => Outcome.ok st
  | some (tag_member_name, tag_kind) =>
    if is_json_nullable k && value.is_empty then Outcome.ok st
    else if st.visited_members.contains tag_member_name then Outcome.ok st
    else do
      let st := { st with visited_members := st.visited_members ++ [tag_member_name] }
      let sep := if !st.is_first then [44] else []
      let member_name ← copy_to_iterator false EightBitModes.AllowFull tag_member_name
      let colon ← copy_to_iterator false EightBitModes.AllowFull (bytes "\":")
      let text ← w tag_kind tag_value
      Outcome.ok { st with is_first := false,
                           out := if shared_sink
                                  then st.out ++ sep ++ [34] ++ member_name ++ colon ++ text
                                  else st.out }

/-- The pack expansion of `tags_to_json_str` over the members of a contract;
a member is its name and kind with its tag member, a value is the one of
`to_json_data` with the one of the switcher. -/
def tags_to_json_members (w : ValueWriter) (shared_sink : Bool) :
    List ((List Nat × Kind) × Option (List Nat × Kind)) → List (JValue × JValue) →
      WriterState → Outcome WriterState
  | (member, tag_member) :: members, (value, tag_value) :: values, st => do
    let st ← tags_to_json_str w shared_sink member.2 tag_member value tag_value st
    tags_to_json_members w shared_sink members values st
  | _, _, st => Outcome.ok st

/-- Modelled from the spec: `serialize` of a class contract with tag members:
emit `\x7b`, the tag members, the members, and `\x7d`. -/
def serialize_json_class (w : ValueWriter) (shared_sink : Bool)
    (members : List ((List Nat × Kind) × Option (List Nat × Kind)))
    (values : List (JValue × JValue)) : Outcome (List Nat) := do
  let st ← tags_to_json_members w shared_sink members values
    { is_first := true, out := [123], visited_members := [] }
  let st ← to_json_members w (members.map Prod.fst) (values.map Prod.fst) st
  Outcome.ok (st.out ++ [125])

/-- The text of a member: `"name":value`. -/
def member_text (pair : List Nat × List Nat) : List Nat :=
  [34] ++ pair.1 ++ bytes "\":" ++ pair.2

/-- A member of a class with its tag member, its value, the value of the
switcher, and the texts of the two values. -/
structure WrittenMember where
  name : List Nat
  kind : Kind
  tag_member : Option (List Nat × Kind)
  value : JValue
  tag_value : JValue
  text : List Nat
  tag_text : List Nat

/-- The state of the member serializers after the members `pairs` (name and
text) have been written behind the opening brace: they stand in the output
with one comma between consecutive ones, `is_first` tells that there is none,
and their names are distinct and visited. -/
def writer_invariant (st : WriterState) (pairs : List (List Nat × List Nat)) : Prop :=
  st.out = [123] ++ List.intercalate [44] (pairs.map member_text)
    ∧ st.is_first = pairs.isEmpty
    ∧ (∀ p ∈ pairs, p.1 ∈ st.visited_members)
    ∧ (pairs.map Prod.fst).Nodup

/-- A class with a tagged member `v` whose tag member is `type`, and a
member `n`; the kinds of the three texts are numbers. -/
def tagged_example_members : List ((List Nat × Kind) × Option (List Nat × Kind)) :=
  [((bytes "v", Kind.Signed 32 LiteralAsStringOpt.Never false),
      some (bytes "type", Kind.Signed 32 LiteralAsStringOpt.Never false)),
   ((bytes "n", Kind.Signed 32 LiteralAsStringOpt.Never false), none)]

/-- Values of the class `tagged_example_members`: `v` is 5 with the tag 0, `n`
is 7. -/
def tagged_example_values : List (JValue × JValue) :=
  [(JValue.number 5, JValue.number 0), (JValue.number 7, JValue.null)]

/-! ## Error context (daw_json_assert.h) -/

/-- The length `len` computed in `daw_json_error( json_details::missing_member,
ParseState const & )`.  Pointers are addresses, `none` is `nullptr`; the
difference `class_first - first + 1` is converted to `std::size_t` (64 bits). -/
def missing_member_context_len (first class_first class_last : Option Nat) : Nat :=
  let max_len := 150
  match first, class_first with
  | some first, some class_first =>
    let dist := (((class_first : Int) - (first : Int) + 1) % (2 : Int) ^ 64).toNat
    if dist < max_len then dist else max_len
  | _, _ =>
    match class_first, class_last with
    | some class_first, some class_last =>
      let dist := (((class_last : Int) - (class_first : Int)) % (2 : Int) ^ 64).toNat
      if dist < max_len then dist else max_len
    | _, _ => 0

/-- The context of `daw_json_error( json_details::missing_member, ParseState const
& )`: start and length of the `std::string_view( location.class_first, len )`
handed to the exception, `none` when the exception has the reason only. -/
def missing_member_context (first class_first class_last : Option Nat) :
    Option (Nat × Nat) :=
  match class_first, first with
  | some start, some _ =>
    some (start, missing_member_context_len first class_first class_last)
  | _, _ => none

/-! ## Byte search (daw_not_const_ex_functions.h) -/

/-- `std::memchr( first, key, last - first )` over the bytes of `[first, last)`:
the offset of the first byte equal to `key`, `none` for the null pointer. -/
def memchr (key : Nat) : List Nat → Option Nat
  | [] => none
  | c :: cs => if c == key then some 0 else (memchr key cs).map (· + 1)

/-- The loop `while( is_unchecked_input or first < last )` of
`mem_move_to_next_of` for more than one key, over the bytes from `first` to
`last`; the outcome is the number of bytes `first` is advanced.  Without a key
byte the unchecked loop reads behind `last`. -/
def mem_move_to_next_of_loop (unchecked : Bool) (keys : List Nat) : List Nat → Outcome Nat
  | [] => if unchecked then Outcome.undefined else Outcome.ok 0
  | c :: cs =>
    if keys.contains c then Outcome.ok 0
    else do
      let n ← mem_move_to_next_of_loop unchecked keys cs
      Outcome.ok (n + 1)

/-- `mem_move_to_next_of<is_unchecked_input, keys...>( runtime_exec_tag, first,
last )` over the bytes `data` of `[first, last)`: the number of bytes between
`first` and the pointer returned.  One key is looked for with `std::memchr`,
and `last` is returned when it is not found. -/
def mem_move_to_next_of (unchecked : Bool) (keys : List Nat) (data : List Nat) :
    Outcome Nat :=
  match keys with
  | [key] =>
    match memchr key data with
    | some n => Outcome.ok n
    | none => Outcome.ok data.length
  | _ => mem_move_to_next_of_loop unchecked keys data

/-- The loop `while( is_unchecked_input or first < last )` of
`mem_skip_until_end_of_string( tag, first, last )`.  `data` holds the bytes
from `first` to `last` (none when `first` is at or behind `last`), `pos` is
the position `first`; `fuel` bounds the number of rounds. -/
def mem_skip_until_end_of_string_loop (unchecked : Bool) :
    Nat → List Nat → Nat → Outcome Nat
  | 0, _, _ => Outcome.undefined
  | fuel + 1, data, pos =>
    if unchecked || !data.isEmpty then
      match data with
      | [] => Outcome.undefined
      | c :: _ =>
        if c == 34 then Outcome.ok pos
        else do
          let step := if c == 92 then 2 else 1
          let n ← mem_move_to_next_of unchecked [92, 34] (data.drop step)
          mem_skip_until_end_of_string_loop unchecked fuel (data.drop (step + n))
            (pos + step + n)
    else Outcome.ok pos

/-- `mem_skip_until_end_of_string<is_unchecked_input>( tag, first, last )`, the
overload without `first_escape`: `data` holds the bytes of `[first, last)`,
`first` is the position of the first of them, the outcome is the position
returned. -/
def mem_skip_until_end_of_string (unchecked : Bool) (data : List Nat) (first : Nat) :
    Outcome Nat := do
  if !unchecked then
    daw_json_assert (!data.isEmpty) ErrorReason.UnexpectedEndOfData
  let n ← mem_move_to_next_of unchecked [92, 34] data
  mem_skip_until_end_of_string_loop unchecked (data.length + 1) (data.drop n) (first + n)

/-- The number of backslashes that stand directly before the position `j` of
the range `data`. -/
def backslashes_before (data : List Nat) : Nat → Nat
  | 0 => 0
  | j + 1 => if data[j]? = some 92 then backslashes_before data j + 1 else 0

/-! ## String scan with SSE 4.2 (daw_not_const_ex_functions.h) -/

/-- `find_eq_sse42<k>( block )`: the mask of the bytes of the block that are
equal to `k`, bit `i` for byte `i`. -/
def find_eq_sse42 (k : Nat) : List Nat → Nat
  | [] => 0
  | c :: block => (if c == k then 1 else 0) + 2 * find_eq_sse42 k block

/-- `find_escaped_branchless( prev_escaped, backslashes )` in 32-bit unsigned
arithmetic: the new value of `prev_escaped` and the mask returned. -/
def find_escaped_branchless (prev_escaped backslashes : Nat) : Nat × Nat :=
  let backslashes := backslashes &&& (prev_escaped ^^^ 0xFFFFFFFF)
  let follow_escape := ((backslashes <<< 1) % 2 ^ 32) ||| prev_escaped
  let even_bits := 0x55555555
  let odd_seq_start :=
    backslashes &&& (even_bits ^^^ 0xFFFFFFFF) &&& (follow_escape ^^^ 0xFFFFFFFF)
  let r := (odd_seq_start + backslashes) % 2 ^ 32
  let seq_start_on_even_bits := 0x0000FFFF &&& r
  let r := r >>> 16
  let invert_mask := (seq_start_on_even_bits <<< 1) % 2 ^ 32
  (r, (even_bits ^^^ invert_mask) &&& follow_escape)

/-- The carry-less product of a mask with a word of ones, bit by bit from bit
`j` on: bit `j` is the parity of the bits of the mask up to `j`. -/
def prefix_xor_from (bitmask : Nat) : Nat → Bool → Nat → Nat
  | 0, _, _ => 0
  | n + 1, parity, j =>
    let parity := parity ^^ bitmask.testBit j
    (if parity then 2 ^ j else 0) + prefix_xor_from bitmask n parity (j + 1)

/-- `prefix_xor( bitmask )`: the low 32 bits of `_mm_clmulepi64_si128` of the
mask and a word of ones. -/
def prefix_xor (bitmask : Nat) : Nat := prefix_xor_from bitmask 32 false 0

/-- Search of `__builtin_ffs` from bit `i` on. -/
def builtin_ffs_from (x : Nat) : Nat → Nat → Nat
  | 0, _ => 0
  | n + 1, i => if x.testBit i then i + 1 else builtin_ffs_from x n (i + 1)

/-- `__builtin_ffs( x )`: one plus the index of the least significant bit set
in the 32-bit value, 0 when there is none. -/
def builtin_ffs (x : Nat) : Nat := builtin_ffs_from x 32 0

/-- The loop of the checked tail of the SSE 4.2 `mem_skip_until_end_of_string`,
`while( first < last and *first != '"' )`.  `data` holds the bytes from `first`
on up to `last`, `pos` is `first`; `first_escape` is the variable of the
overload that records it (`record`), untouched by the other overload.  The
outcome is the position returned and `first_escape`. -/
def sse42_tail_checked (record : Bool) (first_first last : Nat) :
    Nat → List Nat → Nat → Int → Outcome (Nat × Int)
  | 0, _, _, _ => Outcome.undefined
  | fuel + 1, data, pos, first_escape =>
    if decide (pos < last) && data.headD 0 != 34 then
      let n := (data.takeWhile (fun c => !(c == 34 || c == 92))).length
      let data := data.drop n
      let pos := pos + n
      if pos ≥ last then Outcome.ok (last, first_escape)
      else if data.headD 0 == 34 then Outcome.ok (pos, first_escape)
      else
        let first_escape :=
          if record && decide (first_escape < 0) then (first_first : Int) - (pos : Int)
          else first_escape
        sse42_tail_checked record first_first last fuel (data.drop 2) (pos + 2) first_escape
    else Outcome.ok (if pos < last then pos else last, first_escape)

/-- The loop of the unchecked tail of the SSE 4.2 `mem_skip_until_end_of_string`,
`while( *first != '"' )`; a read behind the bytes of `data` is undefined. -/
def sse42_tail_unchecked (record : Bool) (first_first : Nat) :
    Nat → List Nat → Nat → Int → Outcome (Nat × Int)
  | 0, _, _, _ => Outcome.undefined
  | fuel + 1, data, pos, first_escape =>
    match data with
    | [] => Outcome.undefined
    | c :: _ =>
      if c != 34 then
        let n := (data.takeWhile (fun c => !(c == 34 || c == 92))).length
        let data := data.drop n
        let pos := pos + n
        match data with
        | [] => Outcome.undefined
        | c :: _ =>
          if c == 34 then Outcome.ok (pos, first_escape)
          else
            let first_escape :=
              if record && decide (first_escape < 0) then (first_first : Int) - (pos : Int)
              else first_escape
            sse42_tail_unchecked record first_first fuel (data.drop 2) (pos + 2) first_escape
      else Outcome.ok (pos, first_escape)

/-- The loop `while( last - first >= 16 )` of the SSE 4.2
`mem_skip_until_end_of_string` followed by the tail.  `data` holds the bytes of
`[first, last)`, `pos` is `first`, `prev_escapes` the carry of
`find_escaped_branchless`. -/
def sse42_windows (unchecked record : Bool) (first_first last : Nat) :
    Nat → List Nat → Nat → Nat → Int → Outcome (Nat × Int)
  | 0, _, _, _, _ => Outcome.undefined
  | fuel + 1, data, pos, prev_escapes, first_escape =>
    if 16 ≤ data.length then
      let val0 := data.take 16
      let backslashes := find_eq_sse42 92 val0
      let first_escape :=
        if record && (decide (backslashes > 0) && decide (first_escape < 0)) then
          (builtin_ffs backslashes : Int) - 1
        else first_escape
      let (prev_escapes, escaped) := find_escaped_branchless prev_escapes backslashes
      let quotes := find_eq_sse42 34 val0 &&& (escaped ^^^ 0xFFFFFFFF)
      let in_string := prefix_xor quotes
      if in_string != 0 then Outcome.ok (pos + (builtin_ffs in_string - 1), first_escape)
      else
        sse42_windows unchecked record first_first last fuel (data.drop 16) (pos + 16)
          prev_escapes first_escape
    else if unchecked then
      sse42_tail_unchecked record first_first (data.length + 1) data pos first_escape
    else
      sse42_tail_checked record first_first last (data.length + 1) data pos first_escape

/-- `mem_skip_until_end_of_string<is_unchecked_input>( sse42_exec_tag, first,
last )`: `data` holds the bytes of `[first, last)`, the outcome is the position
returned. -/
def mem_skip_until_end_of_string_sse42 (unchecked : Bool) (data : List Nat) (first : Nat) :
    Outcome Nat := do
  let (p, _) ←
    sse42_windows unchecked false first (first + data.length) (data.length + 1) data first 0 0
  Outcome.ok p

/-- `mem_skip_until_end_of_string<is_unchecked_input>( sse42_exec_tag, first,
last, first_escape )`: the position returned and `first_escape`. -/
def mem_skip_until_end_of_string_sse42_escape (unchecked : Bool) (data : List Nat)
    (first : Nat) (first_escape : Int) : Outcome (Nat × Int) :=
  sse42_windows unchecked true first (first + data.length) (data.length + 1) data first 0
    first_escape

/-! ## String scan that records the first escape (daw_not_const_ex_functions.h) -/

/-- The loop `while( is_unchecked_input or first < last )` of
`mem_skip_until_end_of_string( tag, first, last, first_escape )`; `first_first`
is the position at entry. -/
def mem_skip_until_end_of_string_escape_loop (unchecked : Bool) (first_first : Nat) :
    Nat → List Nat → Nat → Int → Outcome (Nat × Int)
  | 0, _, _, _ => Outcome.undefined
  | fuel + 1, data, pos, first_escape =>
    if unchecked || !data.isEmpty then
      match data with
      | [] => Outcome.undefined
      | c :: _ =>
        if c == 34 then Outcome.ok (pos, first_escape)
        else do
          let first_escape :=
            if c == 92 && decide (first_escape < 0) then (first_first : Int) - (pos : Int)
            else first_escape
          let step := if c == 92 then 2 else 1
          let n ← mem_move_to_next_of unchecked [92, 34] (data.drop step)
          mem_skip_until_end_of_string_escape_loop unchecked first_first fuel
            (data.drop (step + n)) (pos + step + n) first_escape
    else Outcome.ok (pos, first_escape)

/-- `mem_skip_until_end_of_string<is_unchecked_input>( runtime_exec_tag, first,
last, first_escape )`: `data` holds the bytes of `[first, last)`, the outcome is
the position returned and `first_escape`. -/
def mem_skip_until_end_of_string_escape (unchecked : Bool) (data : List Nat) (first : Nat)
    (first_escape : Int) : Outcome (Nat × Int) := do
  if !unchecked then
    daw_json_assert (!data.isEmpty) ErrorReason.UnexpectedEndOfData
  let n ← mem_move_to_next_of unchecked [92, 34] data
  mem_skip_until_end_of_string_escape_loop unchecked first (data.length + 1) (data.drop n)
    (first + n) first_escape

/-- Byte `i` of a window is escaped: the byte before it is a backslash that is not
itself escaped.  `b` is the mask of the backslashes of the window, `carry`
tells whether the byte before the window is such a backslash. -/
def escaped_at (b : Nat) (carry : Bool) : Nat → Bool
  | 0 => carry
  | i + 1 => b.testBit i && !escaped_at b carry i

/-! # Theorems -/

/-! ## Outcomes -/

namespace Outcome

@[simp] theorem bind_ok {α β : Type} (a : α) (f : α → Outcome β) :
    (ok a).bind f = f a := rfl

@[simp] theorem bind_failed {α β : Type} (e : ErrorReason) (f : α → Outcome β) :
    (failed e : Outcome α).bind f = failed e := rfl

@[simp] theorem bind_undefined {α β : Type} (f : α → Outcome β) :
    (undefined : Outcome α).bind f = undefined := rfl

theorem bind_eq_ok_iff {α β : Type} {x : Outcome α} {f : α → Outcome β} {b : β} :
    x.bind f = ok b ↔ ∃ a, x = ok a ∧ f a = ok b := by
  cases x <;> simp [bind]

end Outcome

@[simp] theorem bind_eq_outcome_bind {α β : Type} (x : Outcome α) (f : α → Outcome β) :
    (x >>= f) = x.bind f := rfl

@[simp] theorem pure_eq_outcome_ok {α : Type} (a : α) :
    (pure a : Outcome α) = Outcome.ok a := rfl

theorem assert_weak_checked_eq_ok_iff {b : Bool} {e : ErrorReason} {u : Unit} :
    daw_json_assert_weak false b e = Outcome.ok u ↔ b = true := by
  cases b <;> simp [daw_json_assert_weak, daw_json_error]

@[simp] theorem assert_weak_unchecked (b : Bool) (e : ErrorReason) :
    daw_json_assert_weak true b e = Outcome.ok () := rfl

@[simp] theorem assert_weak_true (unchecked : Bool) (e : ErrorReason) :
    daw_json_assert_weak unchecked true e = Outcome.ok () := by
  cases unchecked <;> rfl


/-! ## Cursor of the number parsers -/

theorem trim_count_le (n : Nat) (data : List Nat) : trim_count n data ≤ n := by
  induction n generalizing data with
  | zero => simp [trim_count]
  | succ n ih =>
    cases data with
    | nil => simp [trim_count]
    | cons c cs =>
      simp only [trim_count]
      split
      · have := ih cs; omega
      · omega

theorem trim_count_stops (n : Nat) (data : List Nat) (h : trim_count n data < n) :
    is_space ((data.drop (trim_count n data)).headD 0) = false := by
  induction n generalizing data with
  | zero => simp at h
  | succ n ih =>
    cases data with
    | nil => simp [trim_count, is_space]
    | cons c cs =>
      simp only [trim_count] at h ⊢
      split
      · rename_i hc
        simp only [hc, if_true] at h
        have := ih cs (by omega)
        simpa using this
      · rename_i hc
        simpa using hc

theorem trim_left_checked_front (rng : Range)
    (h : (trim_left_checked rng).has_more = true) :
    is_space (trim_left_checked rng).front = false := by
  unfold trim_left_checked at h ⊢
  simp only [Range.has_more, remove_prefix, Range.size, decide_eq_true_eq] at h
  simp only [Range.front, remove_prefix]
  apply trim_count_stops
  simp only [Range.size]
  omega

theorem at_end_of_item_cases {c : Nat} (h : at_end_of_item c = true) :
    c = 44 ∨ c = 93 ∨ c = 125 ∨ c = 0 ∨ is_space c = true := by
  simp only [at_end_of_item, Bool.or_eq_true, beq_iff_eq] at h
  tauto

theorem signed_cursor (bits : Nat) (las : LiteralAsStringOpt) (rc : Bool)
    (rng : Range) (v : Int) (r : Range)
    (h : parse_value_Signed bits las rc false false rng = Outcome.ok (v, r)) :
    rests_on_separator r := by
  simp only [parse_value_Signed, Bool.false_eq_true, if_false, bind_eq_outcome_bind,
    Outcome.bind_eq_ok_iff, assert_weak_checked_eq_ok_iff, Prod.exists, trim_left] at h
  obtain ⟨_, _, _, _, _, _, _, _, _, _, _, a, _, _, h6, _, rfl⟩ := h
  rcases at_end_of_item_cases h6 with h | h | h | h | h
  · exact Or.inl h
  · exact Or.inr (Or.inl h)
  · exact Or.inr (Or.inr (Or.inl h))
  · exact Or.inr (Or.inr (Or.inr (Or.inl h)))
  · right; right; right; right
    by_contra hm
    have := trim_left_checked_front a (by simpa using hm)
    rw [this] at h
    exact Bool.false_ne_true h

/-! ## Parsers under the unchecked policy -/

theorem no_fail_bind {α β : Type} {x : Outcome α} {f : α → Outcome β}
    (hx : x.isFailed = false) (hf : ∀ a, (f a).isFailed = false) :
    (x.bind f).isFailed = false := by
  cases x with
  | ok a => exact hf a
  | failed e => simp [Outcome.isFailed] at hx
  | undefined => rfl

theorem no_fail_ok {α : Type} (a : α) : (Outcome.ok a).isFailed = false := rfl
theorem no_fail_undefined {α : Type} : (Outcome.undefined : Outcome α).isFailed = false := rfl

theorem no_fail_assert_weak (b : Bool) (e : ErrorReason) :
    (daw_json_assert_weak true b e).isFailed = false := rfl

theorem no_fail_skip_quote (las : LiteralAsStringOpt) (rng : Range) :
    (skip_quote_when_literal_as_string las true rng).isFailed = false := by
  cases las <;> rfl

theorem no_fail_parse_unsigned_integer (bits max : Nat) (rng : Range) :
    (parse_unsigned_integer bits max false true rng).isFailed = false := by
  simp [parse_unsigned_integer, Outcome.isFailed]

theorem no_fail_Signed (bits : Nat) (las : LiteralAsStringOpt) (kb : Bool) (rng : Range) :
    (parse_value_Signed bits las false kb true rng).isFailed = false := by
  unfold parse_value_Signed
  simp only [bind_eq_outcome_bind]
  repeat (first
    | split
    | with_reducible refine no_fail_bind ?_ ?_
    | intro _
    | with_reducible exact no_fail_ok _
    | with_reducible exact no_fail_undefined
    | with_reducible exact no_fail_assert_weak _ _
    | with_reducible exact no_fail_skip_quote _ _
    | with_reducible exact no_fail_parse_unsigned_integer _ _ _)

theorem no_fail_Unsigned (bits : Nat) (las : LiteralAsStringOpt) (kb : Bool) (rng : Range) :
    (parse_value_Unsigned bits las false kb true rng).isFailed = false := by
  unfold parse_value_Unsigned
  simp only [bind_eq_outcome_bind]
  repeat (first
    | split
    | with_reducible refine no_fail_bind ?_ ?_
    | intro _
    | with_reducible exact no_fail_ok _
    | with_reducible exact no_fail_undefined
    | with_reducible exact no_fail_assert_weak _ _
    | with_reducible exact no_fail_skip_quote _ _
    | with_reducible exact no_fail_parse_unsigned_integer _ _ _)

theorem no_fail_Bool (las : LiteralAsStringOpt) (kb : Bool) (rng : Range) :
    (parse_value_Bool las kb true rng).isFailed = false := by
  unfold parse_value_Bool
  simp only [bind_eq_outcome_bind, ↓reduceIte]
  repeat (first
    | split
    | with_reducible refine no_fail_bind ?_ ?_
    | intro _
    | with_reducible exact no_fail_ok _
    | with_reducible exact no_fail_undefined
    | with_reducible exact no_fail_assert_weak _ _
    | with_reducible exact no_fail_skip_quote _ _)

theorem no_fail_Null {V : Type} (empty : V) (base : Bool → Range → Outcome (V × Range))
    (hbase : ∀ kb r, (base kb r).isFailed = false) (kb : Bool) (rng : Range) :
    (parse_value_Null empty base kb true rng).isFailed = false := by
  unfold parse_value_Null
  simp only [bind_eq_outcome_bind]
  repeat (first
    | split
    | with_reducible refine no_fail_bind ?_ ?_
    | intro _
    | with_reducible exact no_fail_ok _
    | with_reducible exact no_fail_undefined
    | with_reducible exact no_fail_assert_weak _ _
    | with_reducible exact hbase _ _)

theorem no_fail_skip_string (rng : Range) : (skip_string true rng).isFailed = false := by
  unfold skip_string
  simp only [↓reduceIte]
  repeat (first
    | split
    | with_reducible refine no_fail_bind ?_ ?_
    | intro _
    | with_reducible exact no_fail_ok _
    | with_reducible exact no_fail_undefined
    | with_reducible exact no_fail_assert_weak _ _)

theorem no_fail_to_nibble (c : Nat) : (to_nibble true c).isFailed = false := rfl

theorem no_fail_byte_from_nibbles (rng : Range) :
    (byte_from_nibbles true rng).isFailed = false := rfl

theorem no_fail_decode_utf16 (rng : Range) : (decode_utf16 true rng).isFailed = false := by
  unfold decode_utf16
  simp only [bind_eq_outcome_bind]
  repeat (first
    | split
    | with_reducible refine no_fail_bind ?_ ?_
    | intro _
    | with_reducible exact no_fail_ok _
    | with_reducible exact no_fail_undefined
    | with_reducible exact no_fail_assert_weak _ _
    | with_reducible exact no_fail_byte_from_nibbles _)

theorem no_fail_parse_escape (mode : EightBitModes) (rng : Range) :
    (parse_escape mode true rng).isFailed = false := by
  unfold parse_escape
  simp only [bind_eq_outcome_bind, pure_eq_outcome_ok]
  repeat (first
    | split
    | with_reducible refine no_fail_bind ?_ ?_
    | intro _
    | with_reducible exact no_fail_ok _
    | with_reducible exact no_fail_undefined
    | with_reducible exact no_fail_assert_weak _ _
    | with_reducible exact no_fail_decode_utf16 _)

theorem no_fail_parse_string_loop (mode : EightBitModes) (hq : Bool) (fuel : Nat)
    (inner : Bool) (rng : Range) :
    (parse_string_loop mode true hq fuel inner rng).isFailed = false := by
  induction fuel generalizing inner rng with
  | zero => rfl
  | succ fuel ih =>
    unfold parse_string_loop
    simp only [bind_eq_outcome_bind, pure_eq_outcome_ok]
    repeat (first
      | split
      | with_reducible refine no_fail_bind ?_ ?_
      | intro _
      | with_reducible exact no_fail_ok _
      | with_reducible exact no_fail_undefined
      | with_reducible exact no_fail_assert_weak _ _
      | with_reducible exact no_fail_parse_escape _ _
      | with_reducible exact ih _ _)

theorem no_fail_parse_string_known_stdstring (mode : EightBitModes) (rng : Range) :
    (parse_string_known_stdstring mode true rng).isFailed = false := by
  unfold parse_string_known_stdstring
  simp only [bind_eq_outcome_bind]
  refine no_fail_bind (no_fail_parse_string_loop _ _ _ _ _) ?_
  intro a
  exact no_fail_bind (no_fail_assert_weak _ _) (fun _ => no_fail_ok _)

theorem no_fail_StringRaw (e : Bool) (kb : Bool) (rng : Range) :
    (parse_value_StringRaw e kb true rng).isFailed = false := by
  unfold parse_value_StringRaw
  simp only [bind_eq_outcome_bind]
  repeat (first
    | split
    | with_reducible refine no_fail_bind ?_ ?_
    | intro _
    | with_reducible exact no_fail_ok _
    | with_reducible exact no_fail_undefined
    | with_reducible exact no_fail_assert_weak _ _
    | with_reducible exact no_fail_skip_string _)

theorem no_fail_StringEscaped (mode : EightBitModes) (kb : Bool) (rng : Range) :
    (parse_value_StringEscaped mode kb true rng).isFailed = false := by
  unfold parse_value_StringEscaped
  simp only [bind_eq_outcome_bind]
  repeat (first
    | split
    | with_reducible refine no_fail_bind ?_ ?_
    | intro _
    | with_reducible exact no_fail_ok _
    | with_reducible exact no_fail_undefined
    | with_reducible exact no_fail_assert_weak _ _
    | with_reducible exact no_fail_skip_string _
    | with_reducible exact no_fail_parse_string_known_stdstring _ _)

theorem no_fail_skip_bracketed_item (left right : Nat) (rng : Range) :
    (skip_bracketed_item left right true rng).isFailed = false := by
  unfold skip_bracketed_item
  simp only [↓reduceIte]
  repeat (first
    | split
    | with_reducible refine no_fail_bind ?_ ?_
    | intro _
    | with_reducible exact no_fail_ok _
    | with_reducible exact no_fail_undefined
    | with_reducible exact no_fail_assert_weak _ _)

theorem no_fail_skip_literal (lit : List Nat) (rng : Range) :
    (skip_literal lit true rng).isFailed = false := rfl

theorem no_fail_skip_number (rng : Range) : (skip_number true rng).isFailed = false := rfl

theorem no_fail_skip_value (rng : Range) : (skip_value true rng).isFailed = false := by
  unfold skip_value skip_array skip_class
  simp only [↓reduceIte]
  repeat (first
    | split
    | with_reducible refine no_fail_bind ?_ ?_
    | intro _
    | with_reducible exact no_fail_ok _
    | with_reducible exact no_fail_undefined
    | with_reducible exact no_fail_assert_weak _ _
    | with_reducible exact no_fail_skip_string _
    | with_reducible exact no_fail_skip_bracketed_item _ _ _
    | with_reducible exact no_fail_skip_literal _ _
    | with_reducible exact no_fail_skip_number _)

theorem no_fail_move_to_next_of (key : Nat → Bool) (rng : Range) :
    (move_to_next_of true key rng).isFailed = false := by
  unfold move_to_next_of
  simp only [↓reduceIte]
  repeat (first
    | split
    | with_reducible refine no_fail_bind ?_ ?_
    | intro _
    | with_reducible exact no_fail_ok _
    | with_reducible exact no_fail_undefined
    | with_reducible exact no_fail_assert_weak _ _)

theorem no_fail_trim_end_of_name (rng : Range) :
    (trim_end_of_name true rng).isFailed = false := rfl

theorem no_fail_parse_name (rng : Range) : (parse_name true rng).isFailed = false := by
  unfold parse_name
  simp only [bind_eq_outcome_bind, ↓reduceIte]
  repeat (first
    | split
    | with_reducible refine no_fail_bind ?_ ?_
    | intro _
    | with_reducible exact no_fail_ok _
    | with_reducible exact no_fail_undefined
    | with_reducible exact no_fail_assert_weak _ _
    | with_reducible exact no_fail_trim_end_of_name _)

theorem no_fail_find_class_member_scan (name : List Nat) (fuel : Nat)
    (locations : Locations) (rng : Range) :
    (find_class_member_scan true name fuel locations rng).isFailed = false := by
  induction fuel generalizing locations rng with
  | zero => rfl
  | succ fuel ih =>
    unfold find_class_member_scan
    simp only [bind_eq_outcome_bind]
    repeat (first
      | split
      | with_reducible refine no_fail_bind ?_ ?_
      | intro _
      | with_reducible exact no_fail_ok _
      | with_reducible exact no_fail_undefined
      | with_reducible exact no_fail_assert_weak _ _
      | with_reducible exact no_fail_parse_name _
      | with_reducible exact no_fail_skip_value _
      | with_reducible exact ih _ _)

theorem no_fail_find_class_member (pos : Nat) (locations : Locations) (rng : Range)
    (name : List Nat) : (find_class_member true pos locations rng name).isFailed = false := by
  unfold find_class_member
  repeat (first
    | split
    | with_reducible refine no_fail_bind ?_ ?_
    | intro _
    | with_reducible exact no_fail_ok _
    | with_reducible exact no_fail_undefined
    | with_reducible exact no_fail_assert_weak _ _
    | with_reducible exact no_fail_find_class_member_scan _ _ _ _)

theorem no_fail_parse_class_member (pv : ValueParser) (pos : Nat) (name : List Nat)
    (k : Kind) (hpv : ∀ kb r, (pv k kb r).isFailed = false) (locations : Locations)
    (rng : Range) :
    (parse_class_member pv true pos name k locations rng).isFailed = false := by
  unfold parse_class_member
  simp only [bind_eq_outcome_bind, pure_eq_outcome_ok]
  repeat (first
    | split
    | with_reducible refine no_fail_bind ?_ ?_
    | intro _
    | with_reducible exact no_fail_ok _
    | with_reducible exact no_fail_undefined
    | with_reducible exact no_fail_assert_weak _ _
    | with_reducible exact no_fail_find_class_member _ _ _ _
    | with_reducible exact hpv _ _)

theorem no_fail_parse_class_members (pv : ValueParser) (members : List (List Nat × Kind))
    (hpv : ∀ m, m ∈ members → ∀ kb r, (pv m.2 kb r).isFailed = false) (pos : Nat)
    (locations : Locations) (rng : Range) :
    (parse_class_members pv true members pos locations rng).isFailed = false := by
  induction members generalizing pos locations rng with
  | nil => rfl
  | cons m members ih =>
    obtain ⟨name, k⟩ := m
    unfold parse_class_members
    simp only [bind_eq_outcome_bind]
    refine no_fail_bind ?_ ?_
    · exact no_fail_parse_class_member pv pos name k
        (hpv (name, k) (List.mem_cons_self _ _)) locations rng
    · intro a
      refine no_fail_bind ?_ ?_
      · exact ih (fun m hm => hpv m (List.mem_cons_of_mem _ hm)) _ _ _
      · intro _
        exact no_fail_ok _

theorem no_fail_class_cleanup_now (rng : Range) :
    (class_cleanup_now true rng).isFailed = false := by
  unfold class_cleanup_now
  simp only [bind_eq_outcome_bind, move_to_next_class_member, skip_class]
  repeat (first
    | split
    | with_reducible refine no_fail_bind ?_ ?_
    | intro _
    | with_reducible exact no_fail_ok _
    | with_reducible exact no_fail_undefined
    | with_reducible exact no_fail_assert_weak _ _
    | with_reducible exact no_fail_move_to_next_of _ _
    | with_reducible exact no_fail_skip_bracketed_item _ _ _)

theorem no_fail_parse_json_class (pv : ValueParser) (members : List (List Nat × Kind))
    (hpv : ∀ m, m ∈ members → ∀ kb r, (pv m.2 kb r).isFailed = false) (rng : Range) :
    (parse_json_class pv true members rng).isFailed = false := by
  unfold parse_json_class
  simp only [bind_eq_outcome_bind]
  repeat (first
    | split
    | with_reducible refine no_fail_bind ?_ ?_
    | intro _
    | with_reducible exact no_fail_ok _
    | with_reducible exact no_fail_undefined
    | with_reducible exact no_fail_assert_weak _ _
    | with_reducible exact no_fail_class_cleanup_now _
    | with_reducible exact no_fail_parse_class_members pv members hpv _ _ _)

theorem no_fail_Class (pv : ValueParser) (members : List (List Nat × Kind))
    (hpv : ∀ m, m ∈ members → ∀ kb r, (pv m.2 kb r).isFailed = false) (kb : Bool)
    (rng : Range) : (parse_value_Class pv members kb true rng).isFailed = false := by
  unfold parse_value_Class
  simp only [bind_eq_outcome_bind]
  repeat (first
    | split
    | with_reducible refine no_fail_bind ?_ ?_
    | intro _
    | with_reducible exact no_fail_ok _
    | with_reducible exact no_fail_undefined
    | with_reducible exact no_fail_assert_weak _ _
    | with_reducible exact no_fail_parse_json_class pv members hpv _)

theorem no_fail_parse_key_values (pv : ValueParser) (key value : Kind)
    (hk : ∀ kb r, (pv key kb r).isFailed = false)
    (hv : ∀ kb r, (pv value kb r).isFailed = false) (kb : Bool) (fuel : Nat)
    (rng : Range) : (parse_key_values pv key value kb true fuel rng).isFailed = false := by
  induction fuel generalizing rng with
  | zero => rfl
  | succ fuel ih =>
    unfold parse_key_values
    simp only [bind_eq_outcome_bind, pure_eq_outcome_ok]
    repeat (first
      | split
      | with_reducible refine no_fail_bind ?_ ?_
      | intro _
      | with_reducible exact no_fail_ok _
      | with_reducible exact no_fail_undefined
      | with_reducible exact no_fail_assert_weak _ _
      | with_reducible exact no_fail_trim_end_of_name _
      | with_reducible exact hk _ _
      | with_reducible exact hv _ _
      | with_reducible exact ih _)

theorem no_fail_KeyValue (pv : ValueParser) (key value : Kind)
    (hk : ∀ kb r, (pv key kb r).isFailed = false)
    (hv : ∀ kb r, (pv value kb r).isFailed = false) (kb : Bool) (rng : Range) :
    (parse_value_KeyValue pv key value kb true rng).isFailed = false := by
  unfold parse_value_KeyValue
  simp only [bind_eq_outcome_bind]
  repeat (first
    | split
    | with_reducible refine no_fail_bind ?_ ?_
    | intro _
    | with_reducible exact no_fail_ok _
    | with_reducible exact no_fail_undefined
    | with_reducible exact no_fail_assert_weak _ _
    | with_reducible exact no_fail_move_to_next_of _ _
    | with_reducible exact no_fail_parse_key_values pv key value hk hv _ _ _)

theorem no_fail_parse_array_elements (pv : ValueParser) (element : Kind)
    (he : ∀ kb r, (pv element kb r).isFailed = false) (kb : Bool) (fuel : Nat)
    (rng : Range) : (parse_array_elements pv element kb true fuel rng).isFailed = false := by
  induction fuel generalizing rng with
  | zero => rfl
  | succ fuel ih =>
    unfold parse_array_elements
    simp only [bind_eq_outcome_bind]
    repeat (first
      | split
      | with_reducible refine no_fail_bind ?_ ?_
      | intro _
      | with_reducible exact no_fail_ok _
      | with_reducible exact no_fail_undefined
      | with_reducible exact no_fail_assert_weak _ _
      | with_reducible exact he _ _
      | with_reducible exact ih _)

theorem no_fail_Array (pv : ValueParser) (element : Kind)
    (he : ∀ kb r, (pv element kb r).isFailed = false) (kb : Bool) (rng : Range) :
    (parse_value_Array pv element kb true rng).isFailed = false := by
  unfold parse_value_Array
  simp only [bind_eq_outcome_bind]
  repeat (first
    | split
    | with_reducible refine no_fail_bind ?_ ?_
    | intro _
    | with_reducible exact no_fail_ok _
    | with_reducible exact no_fail_undefined
    | with_reducible exact no_fail_assert_weak _ _
    | with_reducible exact no_fail_parse_array_elements pv element he _ _ _)

theorem no_fail_parse_value (fuel : Nat) (k : Kind) (hk : weakly_checked k) (kb : Bool)
    (rng : Range) : (parse_value fuel true k kb rng).isFailed = false := by
  induction fuel generalizing k kb rng with
  | zero => rfl
  | succ fuel ih =>
    cases hk with
    | signed bits las =>
      simp only [parse_value, bind_eq_outcome_bind]
      exact no_fail_bind (no_fail_Signed _ _ _ _) (fun _ => no_fail_ok _)
    | unsigned bits las =>
      simp only [parse_value, bind_eq_outcome_bind]
      exact no_fail_bind (no_fail_Unsigned _ _ _ _) (fun _ => no_fail_ok _)
    | bool las =>
      simp only [parse_value, bind_eq_outcome_bind]
      exact no_fail_bind (no_fail_Bool _ _ _) (fun _ => no_fail_ok _)
    | null hbase =>
      simp only [parse_value]
      exact no_fail_Null _ _ (fun kb r => ih _ hbase kb r) _ _
    | string_raw e mode =>
      simp only [parse_value, bind_eq_outcome_bind]
      refine no_fail_bind (no_fail_StringRaw _ _ _) (fun a => ?_)
      split <;> exact no_fail_ok _
    | string_escaped mode =>
      simp only [parse_value, bind_eq_outcome_bind]
      exact no_fail_bind (no_fail_StringEscaped _ _ _) (fun _ => no_fail_ok _)
    | class_of hm =>
      simp only [parse_value]
      exact no_fail_Class _ _ (fun m hmem kb r => ih _ (hm m hmem) kb r) _ _
    | key_value hkey hval =>
      simp only [parse_value]
      exact no_fail_KeyValue _ _ _ (fun kb r => ih _ hkey kb r) (fun kb r => ih _ hval kb r) _ _
    | array he =>
      simp only [parse_value]
      exact no_fail_Array _ _ (fun kb r => ih _ he kb r) _ _

theorem weakly_checked_MyClass2 : weakly_checked MyClass2 := by
  unfold MyClass2 MyClass1
  refine weakly_checked.class_of (fun m hm => ?_)
  simp only [List.mem_cons, List.mem_singleton, List.not_mem_nil, or_false] at hm
  rcases hm with rfl | rfl
  · refine weakly_checked.class_of (fun m hm => ?_)
    simp only [List.mem_cons, List.mem_singleton, List.not_mem_nil, or_false] at hm
    rcases hm with rfl | rfl | rfl
    · exact weakly_checked.string_escaped _
    · exact weakly_checked.signed _ _
    · exact weakly_checked.bool _
  · exact weakly_checked.unsigned _ _

/-! ## The claims -/

/-- C3: member-order independence fails for a class with a variant member that
holds a string.  With the members in contract order the object is parsed; with
the variant member first, its value is skipped and recorded without its quotes,
and the variant parser, which dispatches on the first byte of the recorded
range, rejects it. -/
theorem C3_variant_member_out_of_order :
    from_json false number_and_variant (bytes "\x7b\"a\":1,\"v\":\"x\"\x7d")
        = Outcome.ok (JValue.object [JValue.number 1,
            JValue.alternative 1 (JValue.string (bytes "x"))])
      ∧ from_json false number_and_variant (bytes "\x7b\"v\":\"x\",\"a\":1\x7d")
        = Outcome.failed ErrorReason.UnexpectedJsonType :=
  ⟨rfl, rfl⟩

/-- C5: the Key-Value map parser does not accept the well-formed object `{}`
(zero members, zero appender calls expected): it looks for the `"` of a first
key and fails at the end of the data; an object with two members of the same
key gives two appender calls in document order. -/
theorem C5_empty_map_fails :
    from_json false string_map (bytes "\x7b\x7d")
        = Outcome.failed ErrorReason.UnexpectedEndOfData
      ∧ from_json false string_map (bytes "\x7b\"a\":\"x\",\"a\":\"y\"\x7d")
        = Outcome.ok (JValue.key_values
            [(JValue.string (bytes "a"), JValue.string (bytes "x")),
             (JValue.string (bytes "a"), JValue.string (bytes "y"))]) :=
  ⟨rfl, rfl⟩

/-- C7: on the input `null,` the checked Null parser returns the empty value with
the cursor on the comma (position 4), the unchecked Null parser returns the
empty value with the cursor behind the comma (position 5); on the document
`{"a":null}` the unchecked class parser therefore consumes the closing brace
and leaves the buffer, while the checked one succeeds. -/
theorem C7_unchecked_null_consumes_separator :
    parse_value 2 false (Kind.Null (Kind.Unsigned 32 LiteralAsStringOpt.Never false)) false
        (Range.ofBytes (bytes "null,"))
        = Outcome.ok (JValue.null, { data := [44], first := 4, last := 5 })
      ∧ parse_value 2 true (Kind.Null (Kind.Unsigned 32 LiteralAsStringOpt.Never false)) false
        (Range.ofBytes (bytes "null,"))
        = Outcome.ok (JValue.null, { data := [], first := 5, last := 5 })
      ∧ from_json false nullable_member (bytes "\x7b\"a\":null\x7d")
        = Outcome.ok (JValue.object [JValue.null])
      ∧ from_json true nullable_member (bytes "\x7b\"a\":null\x7d") = Outcome.undefined :=
  ⟨rfl, rfl, rfl, rfl⟩

/-- C8 (as stated, refuted): after the checked parse of the Unsigned value in
`12 ,` the cursor rests on the space behind the number: not on a comma or a
closing bracket, not at the end of the range, and the whitespace is not
skipped. -/
theorem C8_unsigned_cursor_on_whitespace :
    parse_value_Unsigned 32 LiteralAsStringOpt.Never false false false
        (Range.ofBytes (bytes "12 ,"))
        = Outcome.ok (12, { data := [32, 44], first := 2, last := 4 })
      ∧ ¬ rests_on_separator { data := [32, 44], first := 2, last := 4 } := by
  decide

theorem skip_quote_consumes (las : LiteralAsStringOpt) (rng r0 : Range)
    (h : skip_quote_when_literal_as_string las false rng = Outcome.ok r0) :
    ∃ q, quote_allowed las q ∧ rng.data = q ++ r0.data ∧ r0.first = rng.first + q.length
      ∧ r0.last = rng.last := by
  cases las
  · -- Never
    unfold skip_quote_when_literal_as_string at h
    simp only [bind_eq_outcome_bind, Outcome.bind_eq_ok_iff, assert_weak_checked_eq_ok_iff] at h
    obtain ⟨_, _, h⟩ := h
    injection h with h
    subst h
    exact ⟨[], rfl, rfl, rfl, rfl⟩
  · -- Maybe
    unfold skip_quote_when_literal_as_string at h
    simp only [bind_eq_outcome_bind, Outcome.bind_eq_ok_iff, assert_weak_checked_eq_ok_iff] at h
    obtain ⟨_, _, h⟩ := h
    injection h with h
    by_cases hq : (rng.front == 34) = true
    · rw [if_pos hq] at h
      subst h
      refine ⟨[34], Or.inr rfl, ?_, rfl, rfl⟩
      have hf : rng.data.headD 0 = 34 := by simpa [Range.front] using hq
      cases hd : rng.data with
      | nil => rw [hd] at hf; exact absurd hf (by decide)
      | cons c cs =>
        rw [hd] at hf
        simp only [List.headD_cons] at hf
        subst hf
        simp [ remove_prefix, hd]
    · rw [if_neg hq] at h
      subst h
      exact ⟨[], Or.inl rfl, rfl, rfl, rfl⟩
  · -- Always
    unfold skip_quote_when_literal_as_string at h
    simp only [bind_eq_outcome_bind, Outcome.bind_eq_ok_iff, assert_weak_checked_eq_ok_iff] at h
    obtain ⟨_, hq, h⟩ := h
    injection h with h
    subst h
    refine ⟨[34], rfl, ?_, rfl, rfl⟩
    have hf : rng.data.headD 0 = 34 := by
      simp only [Range.front_is, Bool.and_eq_true, beq_iff_eq] at hq
      exact hq.2
    cases hd : rng.data with
    | nil => rw [hd] at hf; exact absurd hf (by decide)
    | cons c cs =>
      rw [hd] at hf
      simp only [List.headD_cons] at hf
      subst hf
      simp [ remove_prefix, hd]

theorem takeWhile_take_prefix (p : Nat → Bool) (n : Nat) (data : List Nat) :
    data = (data.take n).takeWhile p ++ data.drop ((data.take n).takeWhile p).length := by
  have h1 : (data.take n).takeWhile p <+: data :=
    (List.takeWhile_prefix p).trans (List.take_prefix n data)
  generalize (data.take n).takeWhile p = D at h1 ⊢
  obtain ⟨t, ht⟩ := h1
  subst ht
  simp

theorem parse_unsigned_integer_consumes (bits max : Nat) (rc : Bool) (r0 r2 : Range) (v : Nat)
    (h : parse_unsigned_integer bits max rc false r0 = Outcome.ok (v, r2)) :
    ∃ D, (∀ c, c ∈ D → is_digit c = true) ∧ r0.data = D ++ r2.data
      ∧ r2.first = r0.first + D.length ∧ r2.last = r0.last
      ∧ v = digits_value D % 2 ^ bits := by
  unfold parse_unsigned_integer at h
  dsimp only at h
  split at h
  · exact Outcome.noConfusion h
  · injection h with h
    injection h with hv hr
    refine ⟨(r0.window false).takeWhile is_digit, ?_, ?_, ?_, ?_, hv.symm⟩
    · intro c hc
      exact (List.mem_takeWhile_imp hc)
    · rw [← hr]
      simp only [Range.window, Bool.false_eq_true, if_false, remove_prefix]
      exact takeWhile_take_prefix is_digit r0.size r0.data
    · rw [← hr]; rfl
    · rw [← hr]; rfl

theorem unsigned_cursor_behind_number (bits : Nat) (las : LiteralAsStringOpt) (rc : Bool)
    (rng : Range) (v : Nat) (r : Range)
    (h : parse_value_Unsigned bits las rc false false rng = Outcome.ok (v, r)) :
    ∃ q1 D q2, quote_allowed las q1 ∧ quote_allowed las q2
      ∧ (∀ c, c ∈ D → is_digit c = true)
      ∧ rng.data = q1 ++ (D ++ (q2 ++ r.data))
      ∧ r.first = rng.first + (q1.length + D.length + q2.length)
      ∧ r.last = rng.last
      ∧ v = digits_value D % 2 ^ bits
      ∧ at_end_of_item r.front = true := by
  simp only [parse_value_Unsigned, Bool.false_eq_true, if_false, bind_eq_outcome_bind,
    Outcome.bind_eq_ok_iff, assert_weak_checked_eq_ok_iff, Prod.exists] at h
  obtain ⟨_, _, r0, hq1, _, _, x, r2, hp, r3, hq2, _, h6, h7⟩ := h
  simp only [Outcome.ok.injEq, Prod.mk.injEq] at h7
  obtain ⟨hx, hr⟩ := h7
  subst hx hr
  obtain ⟨q1, a1, a2, a3, a4⟩ := skip_quote_consumes las rng r0 hq1
  obtain ⟨D, b1, b2, b3, b4, b5⟩ := parse_unsigned_integer_consumes bits _ rc r0 r2 x hp
  obtain ⟨q2, c1, c2, c3, c4⟩ := skip_quote_consumes las r2 r3 hq2
  refine ⟨q1, D, q2, a1, c1, b1, ?_, ?_, ?_, b5, h6⟩
  · rw [a2, b2, c2]
  · omega
  · rw [c4, b4, a4]

theorem real_cursor_behind_number {R : Type} (parse_real : Range → Outcome (R × Range))
    (las : LiteralAsStringOpt) (rng : Range) (v : R) (r : Range)
    (h : parse_value_Real parse_real las false false rng = Outcome.ok (v, r)) :
    ∃ q1 q2 r0 r1, quote_allowed las q1 ∧ quote_allowed las q2
      ∧ rng.data = q1 ++ r0.data ∧ r0.first = rng.first + q1.length ∧ r0.last = rng.last
      ∧ parse_real r0 = Outcome.ok (v, r1)
      ∧ r1.data = q2 ++ r.data ∧ r.first = r1.first + q2.length ∧ r.last = r1.last
      ∧ at_end_of_item r.front = true := by
  simp only [parse_value_Real, Bool.false_eq_true, if_false, bind_eq_outcome_bind,
    Outcome.bind_eq_ok_iff, assert_weak_checked_eq_ok_iff, Prod.exists] at h
  obtain ⟨_, _, r0, hq1, _, _, x, r1, hp, r3, hq2, _, h6, h7⟩ := h
  simp only [Outcome.ok.injEq, Prod.mk.injEq] at h7
  obtain ⟨hx, hr⟩ := h7
  subst hx hr
  obtain ⟨q1, a1, a2, a3, a4⟩ := skip_quote_consumes las rng r0 hq1
  obtain ⟨q2, c1, c2, c3, c4⟩ := skip_quote_consumes las r1 r3 hq2
  exact ⟨q1, q2, r0, r1, a1, c1, a2, a3, a4, hp, c2, c3, c4, h6⟩

/-- C8 (amended): after a non-failing checked parse with unknown bounds, the
cursor of the Signed parser rests on a comma, on a closing bracket or brace, or
at the buffer end, the whitespace behind the number being skipped.  The
Unsigned parser consumes exactly the quote `q1` that `literal_as_string` requires
or allows, the digits `D` of the number and the closing quote `q2` on the same
terms; the Real parser consumes the opening quote, what the number routine
`parse_real` consumes, and the closing quote.  Neither skips whitespace: the
cursor is right behind the number and its closing quote, on a byte that ends an
item: a comma, a closing bracket or brace, the NUL at the buffer end, or
whitespace. -/
theorem C8_cursor_after_checked_number {R : Type}
    (parse_real : Range → Outcome (R × Range)) (bits : Nat) (las : LiteralAsStringOpt)
    (range_check : Bool) (rng r : Range) :
    (∀ v : Int, parse_value_Signed bits las range_check false false rng = Outcome.ok (v, r)
        → rests_on_separator r)
      ∧ (∀ v : Nat,
          parse_value_Unsigned bits las range_check false false rng = Outcome.ok (v, r)
        → ∃ q1 D q2, quote_allowed las q1 ∧ quote_allowed las q2
          ∧ (∀ c, c ∈ D → is_digit c = true)
          ∧ rng.data = q1 ++ (D ++ (q2 ++ r.data))
          ∧ r.first = rng.first + (q1.length + D.length + q2.length)
          ∧ r.last = rng.last
          ∧ v = digits_value D % 2 ^ bits
          ∧ at_end_of_item r.front = true)
      ∧ (∀ v : R, parse_value_Real parse_real las false false rng = Outcome.ok (v, r)
        → ∃ q1 q2 r0 r1, quote_allowed las q1 ∧ quote_allowed las q2
          ∧ rng.data = q1 ++ r0.data ∧ r0.first = rng.first + q1.length ∧ r0.last = rng.last
          ∧ parse_real r0 = Outcome.ok (v, r1)
          ∧ r1.data = q2 ++ r.data ∧ r.first = r1.first + q2.length ∧ r.last = r1.last
          ∧ at_end_of_item r.front = true) :=
  ⟨fun v h => signed_cursor bits las range_check rng v r h,
   fun v h => unsigned_cursor_behind_number bits las range_check rng v r h,
   fun v h => real_cursor_behind_number parse_real las rng v r h⟩

/-- Witness of C8 (amended): the Signed parser on `-7 ]`, the Unsigned parser on
the quoted number `"12" ,` and the Real parser, with an integer parser in the
place of `parse_real`, on `12 ,`. -/
theorem C8_cursor_after_checked_number_witness :
    rests_on_separator { data := [93], first := 3, last := 4 }
      ∧ (∃ q1 D q2, quote_allowed LiteralAsStringOpt.Always q1
          ∧ quote_allowed LiteralAsStringOpt.Always q2
          ∧ (∀ c, c ∈ D → is_digit c = true)
          ∧ (Range.ofBytes (bytes "\"12\" ,")).data
            = q1 ++ (D ++ (q2 ++ (⟨[32, 44], 4, 6, 0, -1, false⟩ : Range).data))
          ∧ (⟨[32, 44], 4, 6, 0, -1, false⟩ : Range).first
            = (Range.ofBytes (bytes "\"12\" ,")).first + (q1.length + D.length + q2.length)
          ∧ (⟨[32, 44], 4, 6, 0, -1, false⟩ : Range).last
            = (Range.ofBytes (bytes "\"12\" ,")).last
          ∧ 12 = digits_value D % 2 ^ 32
          ∧ at_end_of_item (Range.front ⟨[32, 44], 4, 6, 0, -1, false⟩) = true)
      ∧ (∃ q1 q2 r0 r1, quote_allowed LiteralAsStringOpt.Never q1
          ∧ quote_allowed LiteralAsStringOpt.Never q2
          ∧ (Range.ofBytes (bytes "12 ,")).data = q1 ++ r0.data
          ∧ r0.first = (Range.ofBytes (bytes "12 ,")).first + q1.length
          ∧ r0.last = (Range.ofBytes (bytes "12 ,")).last
          ∧ parse_real_stand_in r0 = Outcome.ok (12, r1)
          ∧ r1.data = q2 ++ (⟨[32, 44], 2, 4, 0, -1, false⟩ : Range).data
          ∧ (⟨[32, 44], 2, 4, 0, -1, false⟩ : Range).first = r1.first + q2.length
          ∧ (⟨[32, 44], 2, 4, 0, -1, false⟩ : Range).last = r1.last
          ∧ at_end_of_item (Range.front ⟨[32, 44], 2, 4, 0, -1, false⟩) = true) :=
  ⟨(C8_cursor_after_checked_number parse_real_stand_in 32 LiteralAsStringOpt.Never false
      (Range.ofBytes (bytes "-7 ]")) { data := [93], first := 3, last := 4 }).1 (-7)
      (by decide),
   (C8_cursor_after_checked_number parse_real_stand_in 32 LiteralAsStringOpt.Always false
      (Range.ofBytes (bytes "\"12\" ,")) ⟨[32, 44], 4, 6, 0, -1, false⟩).2.1 12
      (by decide),
   (C8_cursor_after_checked_number parse_real_stand_in 32 LiteralAsStringOpt.Never false
      (Range.ofBytes (bytes "12 ,")) ⟨[32, 44], 2, 4, 0, -1, false⟩).2.2 12
      (by decide)⟩

/-- C9 (as stated, refuted): under the unchecked policy the Variant parser
invokes the error handler on an input whose first byte selects no alternative,
and the Date parser on a string that is no timestamp. -/
theorem C9_unchecked_variant_and_date_fail :
    parse_value 2 true (Kind.Variant [Kind.Bool LiteralAsStringOpt.Never]) false
        (Range.ofBytes (bytes "x")) = Outcome.failed ErrorReason.UnexpectedJsonType
      ∧ parse_value 2 true (Kind.Variant [Kind.Bool LiteralAsStringOpt.Never]) false
        (Range.ofBytes (bytes "12")) = Outcome.failed ErrorReason.UnexpectedJsonType
      ∧ parse_value 2 true Kind.Date false (Range.ofBytes (bytes "\"2020\""))
        = Outcome.failed ErrorReason.InvalidTimestamp :=
  ⟨rfl, rfl, rfl⟩

/-- C10: the time point 5 ms after the epoch is written as
`"1970-01-01T00:00:00.5Z"` (the milliseconds are not padded to three digits),
which `parse_iso8601_timestamp` reads as 500 ms after the epoch. -/
theorem C10_date_milliseconds_not_padded :
    to_daw_json_string_Date 5 = Outcome.ok (bytes "\"1970-01-01T00:00:00.5Z\"")
      ∧ parse_iso8601_timestamp (StrView.ofBytes (bytes "1970-01-01T00:00:00.5Z"))
        = Outcome.ok 500
      ∧ parse_value_Date false (Range.ofBytes (bytes "\"1970-01-01T00:00:00.5Z\""))
        = Outcome.ok (500, { data := [], first := 24, last := 24 }) := by
  decide

/-! ## Escaped strings: the serializer and the parser are inverse -/

theorem or_eq_add_of_lt (i a b : Nat) (h : b < 2 ^ i) : (2 ^ i * a) ||| b = 2 ^ i * a + b :=
  (Nat.mul_add_lt_is_or h a).symm

theorem or_const_eq_add (i a b : Nat) (h : b < 2 ^ i) : b ||| (2 ^ i * a) = 2 ^ i * a + b := by
  rw [Nat.or_comm]; exact or_eq_add_of_lt i a b h

theorem and_mask_eq_mod (x n : Nat) : x &&& (2 ^ n - 1) = x % 2 ^ n :=
  Nat.and_pow_two_sub_one_eq_mod x n

theorem and_0x3F (x : Nat) : x &&& 0x3F = x % 64 := and_mask_eq_mod x 6
theorem and_0xF (x : Nat) : x &&& 0xF = x % 16 := and_mask_eq_mod x 4
theorem and_0x3FF (x : Nat) : x &&& 0x3FF = x % 1024 := and_mask_eq_mod x 10

theorem or_0x80 (y : Nat) (h : y < 64) : y ||| 0x80 = 0x80 + y := or_const_eq_add 6 2 y h
theorem or_0xC0 (y : Nat) (h : y < 32) : y ||| 0xC0 = 0xC0 + y := or_const_eq_add 5 6 y h
theorem or_0xE0 (y : Nat) (h : y < 16) : y ||| 0xE0 = 0xE0 + y := or_const_eq_add 4 14 y h
theorem or_0xF0 (y : Nat) (h : y < 8) : y ||| 0xF0 = 0xF0 + y := or_const_eq_add 3 30 y h

theorem to_nibble_hex_char (unchecked : Bool) :
    ∀ n, n < 16 → to_nibble_char n = Outcome.ok (hex_char n)
      ∧ to_nibble unchecked (hex_char n) = Outcome.ok n
      ∧ hex_char n ≠ 34 ∧ hex_char n ≠ 92 := by
  cases unchecked <;> decide

theorem output_hex_eq (c : Nat) (hc : c < 65536) :
    output_hex c = Outcome.ok (92 :: 117 :: hex4 c) := by
  unfold output_hex hex4
  simp only [and_0xF, Nat.shiftRight_eq_div_pow, bind_eq_outcome_bind]
  have h0 : c / 2 ^ 12 % 16 = c / 4096 := by omega
  have h1 : c / 2 ^ 8 % 16 = c / 256 % 16 := by omega
  have h2 : c / 2 ^ 4 % 16 = c / 16 % 16 := by omega
  rw [h0, h1, h2]
  rw [(to_nibble_hex_char false (c / 4096) (by omega)).1,
    (to_nibble_hex_char false (c / 256 % 16) (by omega)).1,
    (to_nibble_hex_char false (c / 16 % 16) (by omega)).1,
    (to_nibble_hex_char false (c % 16) (by omega)).1]
  rfl

theorem utf32_to_utf8_eq (cp : Nat) (h : cp ≤ 0x10FFFF) :
    utf32_to_utf8 cp = Outcome.ok (utf8_encode cp) := by
  unfold utf32_to_utf8 utf8_encode to_char
  simp only [and_0x3F, Nat.shiftRight_eq_div_pow]
  by_cases h1 : cp ≤ 0x7F
  · rw [if_pos h1, if_pos (show cp < 0x80 by omega)]
    congr 2
    omega
  · rw [if_neg h1, if_neg (show ¬ cp < 0x80 by omega)]
    by_cases h2 : cp ≤ 0x7FF
    · rw [if_pos h2, if_pos (show cp < 0x800 by omega)]
      rw [or_0xC0 _ (by omega), or_0x80 _ (by omega)]
      congr 2
      · omega
      · congr 1; omega
    · rw [if_neg h2, if_neg (show ¬ cp < 0x800 by omega)]
      by_cases h3 : cp ≤ 0xFFFF
      · rw [if_pos h3, if_pos (show cp < 0x10000 by omega)]
        rw [or_0xE0 _ (by omega), or_0x80 _ (by omega), or_0x80 _ (by omega)]
        congr 2
        · omega
        · congr 1
          · omega
          · congr 1; omega
      · rw [if_neg h3, if_neg (show ¬ cp < 0x10000 by omega), if_pos h]
        rw [or_0xF0 _ (by omega), or_0x80 _ (by omega), or_0x80 _ (by omega),
          or_0x80 _ (by omega)]
        congr 2
        · omega
        · congr 1
          · omega
          · congr 1
            · omega
            · congr 1; omega

theorem ite_ok {α : Type} (c : Prop) [Decidable c] {x y : Outcome α} {a b : α}
    (h1 : c → x = Outcome.ok a) (h2 : ¬ c → y = Outcome.ok b) :
    (if c then x else y) = Outcome.ok (if c then a else b) := by
  by_cases h : c
  · rw [if_pos h, if_pos h]; exact h1 h
  · rw [if_neg h, if_neg h]; exact h2 h

theorem escape_code_point_eq (mode : EightBitModes) (cp : Nat) (h : is_scalar_value cp) :
    escape_code_point mode cp = Outcome.ok (escape_text mode cp) := by
  have hle : cp ≤ 0x10FFFF := by
    unfold is_scalar_value at h; omega
  unfold escape_code_point escape_text
  simp only [beq_iff_eq, gt_iff_lt, ge_iff_le, bind_eq_outcome_bind]
  refine ite_ok _ (fun _ => rfl) (fun _ => ?_)
  refine ite_ok _ (fun _ => rfl) (fun _ => ?_)
  refine ite_ok _ (fun _ => rfl) (fun _ => ?_)
  refine ite_ok _ (fun _ => rfl) (fun _ => ?_)
  refine ite_ok _ (fun _ => rfl) (fun _ => ?_)
  refine ite_ok _ (fun _ => rfl) (fun _ => ?_)
  refine ite_ok _ (fun _ => rfl) (fun _ => ?_)
  refine ite_ok _ (fun h8 => ?_) (fun _ => ?_)
  · rw [Nat.mod_eq_of_lt (show cp < 2 ^ 16 by omega)]; exact output_hex_eq _ (by omega)
  refine ite_ok _ (fun h9 => ?_) (fun _ => ?_)
  · rw [Nat.mod_eq_of_lt (show cp < 2 ^ 16 by omega)]; exact output_hex_eq _ (by omega)
  refine ite_ok _ (fun h10 => ?_) (fun _ => ?_)
  · simp only [Nat.shiftRight_eq_div_pow, and_0x3FF]
    rw [Nat.mod_eq_of_lt (show 0xD7C0 + cp / 2 ^ 10 < 2 ^ 16 by omega),
      Nat.mod_eq_of_lt (show 0xDC00 + cp % 1024 < 2 ^ 16 by omega)]
    rw [output_hex_eq _ (by omega), output_hex_eq _ (by omega)]
    rfl
  · exact utf32_to_utf8_eq cp hle

theorem escape_code_points_eq (mode : EightBitModes) (cps : List Nat)
    (h : ∀ cp, cp ∈ cps → is_scalar_value cp) :
    escape_code_points mode cps = Outcome.ok (escape_texts mode cps) := by
  induction cps with
  | nil => rfl
  | cons cp cps ih =>
    simp only [escape_code_points, escape_texts, bind_eq_outcome_bind]
    rw [escape_code_point_eq mode cp (h cp (List.mem_cons_self _ _)),
      ih (fun c hc => h c (List.mem_cons_of_mem _ hc))]
    rfl

theorem nibbles_to_byte (n0 n1 : Nat) (h1 : n1 < 16) (h0 : n0 < 16) :
    ((n0 <<< 4) ||| n1) % 2 ^ 16 = n0 * 16 + n1 := by
  have : (n0 <<< 4) ||| n1 = 2 ^ 4 * n0 + n1 := by
    rw [Nat.shiftLeft_eq, Nat.mul_comm]; exact or_eq_add_of_lt 4 n0 n1 h1
  rw [this]; omega

theorem bytes_to_code (hi lo : Nat) (h0 : hi < 256) (h1 : lo < 256) :
    ((hi <<< 8) % 2 ^ 32) ||| lo = hi * 256 + lo := by
  have h : (hi <<< 8) % 2 ^ 32 = 2 ^ 8 * hi := by
    rw [Nat.shiftLeft_eq]; omega
  rw [h]; rw [or_eq_add_of_lt 8 hi lo h1]; omega

theorem byte_from_nibbles_hex (unchecked : Bool) (a b : Nat) (ha : a < 16) (hb : b < 16)
    (tail : List Nat) (f l cf : Nat) (ctr : Int) (nm : Bool) :
    byte_from_nibbles unchecked ⟨hex_char a :: hex_char b :: tail, f, l, cf, ctr, nm⟩
      = Outcome.ok (a * 16 + b, ⟨tail, f + 2, l, cf, ctr, nm⟩) := by
  unfold byte_from_nibbles
  simp only [Range.front, remove_prefix, List.headD_cons, List.drop_succ_cons, List.drop_zero,
    bind_eq_outcome_bind]
  rw [(to_nibble_hex_char unchecked a ha).2.1, (to_nibble_hex_char unchecked b hb).2.1]
  simp only [Outcome.bind_ok, nibbles_to_byte a b hb ha]

theorem utf8_tail_bytes (cp : Nat) (h1 : 0x7F < cp) (h : cp ≤ 0x10FFFF) :
    (if cp ≥ 0x10000 then
        [to_char ((cp >>> 18) ||| 0xF0), to_char (((cp >>> 12) &&& 0x3F) ||| 0x80),
          to_char (((cp >>> 6) &&& 0x3F) ||| 0x80), to_char ((cp &&& 0x3F) ||| 0x80)]
      else if cp ≥ 0x800 then
        [to_char ((cp >>> 12) ||| 0xE0), to_char (((cp >>> 6) &&& 0x3F) ||| 0x80),
          to_char ((cp &&& 0x3F) ||| 0x80)]
      else [to_char ((cp >>> 6) ||| 0xC0), to_char ((cp &&& 0x3F) ||| 0x80)])
      = utf8_encode cp := by
  unfold utf8_encode to_char
  simp only [and_0x3F, Nat.shiftRight_eq_div_pow]
  rw [if_neg (show ¬ cp < 0x80 by omega)]
  by_cases h3 : cp ≥ 0x10000
  · rw [if_pos h3, if_neg (show ¬ cp < 0x800 by omega), if_neg (show ¬ cp < 0x10000 by omega)]
    rw [or_0xF0 _ (by omega), or_0x80 _ (by omega), or_0x80 _ (by omega),
      or_0x80 _ (by omega)]
    congr 1
    · omega
    · congr 1
      · omega
      · congr 1
        · omega
        · congr 1; omega
  · rw [if_neg h3]
    by_cases h2 : cp ≥ 0x800
    · rw [if_pos h2, if_neg (show ¬ cp < 0x800 by omega), if_pos (show cp < 0x10000 by omega)]
      rw [or_0xE0 _ (by omega), or_0x80 _ (by omega), or_0x80 _ (by omega)]
      congr 1
      · omega
      · congr 1
        · omega
        · congr 1; omega
    · rw [if_neg h2, if_pos (show cp < 0x800 by omega)]
      rw [or_0xC0 _ (by omega), or_0x80 _ (by omega)]
      congr 1
      · omega
      · congr 1; omega

theorem decode_utf16_hex (unchecked : Bool) (c : Nat) (hc : c < 65536)
    (hns : ¬ (0xD800 ≤ c ∧ c ≤ 0xDBFF)) (tail : List Nat) (f l cf : Nat) (ctr : Int)
    (nm : Bool) (hl : f < l) :
    decode_utf16 unchecked ⟨117 :: (hex4 c ++ tail), f, l, cf, ctr, nm⟩
      = Outcome.ok (utf8_encode c, ⟨tail, f + 5, l, cf, ctr, nm⟩) := by
  unfold decode_utf16 hex4
  have hfront : (Range.front_is ⟨117 :: ([hex_char (c / 4096), hex_char (c / 256 % 16),
      hex_char (c / 16 % 16), hex_char (c % 16)] ++ tail), f, l, cf, ctr, nm⟩ 117) = true := by
    simp [Range.front_is, Range.has_more, Range.front, hl]
  rw [hfront]
  simp only [Bool.true_or]
  simp only [assert_weak_true]
  simp only [bind_eq_outcome_bind]
  rw [Outcome.bind_ok]
  have hrp : remove_prefix ⟨117 :: ([hex_char (c / 4096), hex_char (c / 256 % 16),
      hex_char (c / 16 % 16), hex_char (c % 16)] ++ tail), f, l, cf, ctr, nm⟩ 1
      = ⟨hex_char (c / 4096) :: hex_char (c / 256 % 16) ::
          hex_char (c / 16 % 16) :: hex_char (c % 16) :: tail, f + 1, l, cf, ctr, nm⟩ := rfl
  rw [hrp, byte_from_nibbles_hex unchecked _ _ (by omega) (by omega), Outcome.bind_ok]
  simp only []
  rw [byte_from_nibbles_hex unchecked _ _ (by omega) (by omega), Outcome.bind_ok]
  simp only []
  rw [bytes_to_code _ _ (by omega) (by omega)]
  have hcode : (c / 4096 * 16 + c / 256 % 16) * 256 + (c / 16 % 16 * 16 + c % 16) = c := by
    omega
  rw [hcode]
  by_cases h7 : c ≤ 0x7F
  · rw [if_pos h7]
    simp only [utf8_encode, to_char]
    rw [if_pos (show c < 0x80 by omega), Nat.mod_eq_of_lt (show c < 256 by omega)]
  · rw [if_neg h7, if_neg hns, Outcome.bind_ok]
    simp only []
    have := utf8_tail_bytes c (by omega) (by omega)
    rw [← this]
    by_cases h3 : c ≥ 0x10000
    · omega
    · rw [if_neg h3, if_neg h3]
      by_cases h2 : c ≥ 0x800
      · rw [if_pos h2, if_pos h2]
      · rw [if_neg h2, if_neg h2]

theorem decode_utf16_surrogates (unchecked : Bool) (cp : Nat) (h1 : 0x10000 ≤ cp)
    (h2 : cp ≤ 0x10FFFF) (tail : List Nat) (f l cf : Nat) (ctr : Int) (nm : Bool)
    (hl : f + 11 ≤ l) :
    decode_utf16 unchecked
        ⟨117 :: (hex4 (0xD7C0 + cp / 1024) ++ 92 :: 117 :: (hex4 (0xDC00 + cp % 1024) ++ tail)),
          f, l, cf, ctr, nm⟩
      = Outcome.ok (utf8_encode cp, ⟨tail, f + 11, l, cf, ctr, nm⟩) := by
  unfold decode_utf16
  have hfront : ∀ d, (Range.front_is ⟨117 :: d, f, l, cf, ctr, nm⟩ 117) = true := by
    intro d
    simp [Range.front_is, Range.has_more, Range.front]; omega
  rw [hfront]
  simp only [Bool.true_or]
  simp only [assert_weak_true]
  simp only [bind_eq_outcome_bind]
  rw [Outcome.bind_ok]
  have hrp : ∀ d (g : Nat), remove_prefix ⟨117 :: d, g, l, cf, ctr, nm⟩ 1
      = ⟨d, g + 1, l, cf, ctr, nm⟩ := fun _ _ => rfl
  have hrp2 : ∀ d (g : Nat), remove_prefix ⟨92 :: d, g, l, cf, ctr, nm⟩ 1
      = ⟨d, g + 1, l, cf, ctr, nm⟩ := fun _ _ => rfl
  have hx : ∀ (c : Nat) (d : List Nat), hex4 c ++ d
      = hex_char (c / 4096) :: hex_char (c / 256 % 16) :: hex_char (c / 16 % 16)
          :: hex_char (c % 16) :: d := fun _ _ => rfl
  rw [hrp, hx, byte_from_nibbles_hex unchecked _ _ (by omega) (by omega), Outcome.bind_ok]
  simp only []
  rw [byte_from_nibbles_hex unchecked _ _ (by omega) (by omega), Outcome.bind_ok]
  simp only []
  rw [bytes_to_code _ _ (by omega) (by omega)]
  have hcode : ∀ c, c < 65536 →
      (c / 4096 * 16 + c / 256 % 16) * 256 + (c / 16 % 16 * 16 + c % 16) = c := by
    intro c hc; omega
  rw [hcode _ (by omega)]
  rw [if_neg (show ¬ (0xD7C0 + cp / 1024 ≤ 0x7F) by omega),
    if_pos (show 0xD800 ≤ 0xD7C0 + cp / 1024 ∧ 0xD7C0 + cp / 1024 ≤ 0xDBFF by omega)]
  rw [hrp2]
  have hfront2 : ∀ d (g : Nat), g < l → (Range.front_is ⟨117 :: d, g, l, cf, ctr, nm⟩ 117) = true := by
    intro d g hg
    simp [Range.front_is, Range.has_more, Range.front]; omega
  rw [hfront2 _ _ (by omega)]
  simp only [Bool.true_or]
  simp only [assert_weak_true]
  rw [Outcome.bind_ok, hrp, hx,
    byte_from_nibbles_hex unchecked _ _ (by omega) (by omega), Outcome.bind_ok]
  simp only []
  rw [byte_from_nibbles_hex unchecked _ _ (by omega) (by omega), Outcome.bind_ok]
  simp only []
  rw [bytes_to_code _ _ (by omega) (by omega), hcode _ (by omega), Outcome.bind_ok]
  simp only []
  have hval : ((0xD7C0 + cp / 1024 - 0xD800) * 0x400
      + (0xDC00 + cp % 1024 + 2 ^ 32 - 0xDC00) % 2 ^ 32 + 0x10000) % 2 ^ 32 = cp := by
    omega
  rw [hval, if_pos (show cp ≥ 0x10000 by omega)]
  have := utf8_tail_bytes cp (by omega) h2
  rw [if_pos (show cp ≥ 0x10000 by omega)] at this
  rw [this]

theorem escape_decodes_simple (mode : EightBitModes) (x out : Nat)
    (h : (x = 34 ∧ out = 34) ∨ (x = 92 ∧ out = 92) ∨ (x = 98 ∧ out = 8) ∨ (x = 102 ∧ out = 12)
      ∨ (x = 110 ∧ out = 10) ∨ (x = 114 ∧ out = 13) ∨ (x = 116 ∧ out = 9)) :
    escape_decodes mode [x] [out] := by
  refine ⟨by simp, ?_⟩
  intro unchecked tail f l cf ctr nm _
  rcases h with ⟨rfl, rfl⟩ | ⟨rfl, rfl⟩ | ⟨rfl, rfl⟩ | ⟨rfl, rfl⟩ | ⟨rfl, rfl⟩ | ⟨rfl, rfl⟩
    | ⟨rfl, rfl⟩ <;> rfl

theorem escape_decodes_hex (mode : EightBitModes) (c : Nat) (hc : c < 65536)
    (hns : ¬ (0xD800 ≤ c ∧ c ≤ 0xDBFF)) :
    escape_decodes mode (117 :: hex4 c) (utf8_encode c) := by
  refine ⟨by simp, ?_⟩
  intro unchecked tail f l cf ctr nm hl
  have hlen : (117 :: hex4 c).length = 5 := rfl
  rw [hlen] at hl ⊢
  have : parse_escape mode unchecked ⟨117 :: hex4 c ++ tail, f, l, cf, ctr, nm⟩
      = decode_utf16 unchecked ⟨117 :: (hex4 c ++ tail), f, l, cf, ctr, nm⟩ := rfl
  rw [this]
  exact decode_utf16_hex unchecked c hc hns tail f l cf ctr nm (by omega)

theorem escape_decodes_surrogates (mode : EightBitModes) (cp : Nat) (h1 : 0x10000 ≤ cp)
    (h2 : cp ≤ 0x10FFFF) :
    escape_decodes mode
      (117 :: hex4 (0xD7C0 + cp / 1024) ++ 92 :: 117 :: hex4 (0xDC00 + cp % 1024))
      (utf8_encode cp) := by
  refine ⟨by simp, ?_⟩
  intro unchecked tail f l cf ctr nm hl
  have hlen : (117 :: hex4 (0xD7C0 + cp / 1024)
      ++ 92 :: 117 :: hex4 (0xDC00 + cp % 1024)).length = 11 := rfl
  rw [hlen] at hl ⊢
  have : parse_escape mode unchecked
      ⟨(117 :: hex4 (0xD7C0 + cp / 1024) ++ 92 :: 117 :: hex4 (0xDC00 + cp % 1024)) ++ tail,
        f, l, cf, ctr, nm⟩
      = decode_utf16 unchecked
        ⟨117 :: (hex4 (0xD7C0 + cp / 1024) ++ 92 :: 117 :: (hex4 (0xDC00 + cp % 1024) ++ tail)),
          f, l, cf, ctr, nm⟩ := by
    simp only [List.cons_append, List.append_assoc]
    rfl
  rw [this]
  exact decode_utf16_surrogates unchecked cp h1 h2 tail f l cf ctr nm hl

theorem decodes_plain_list (mode : EightBitModes) (t : List Nat)
    (h : ∀ c, c ∈ t → c ≠ 34 ∧ c ≠ 92) : decodes mode t t := by
  induction t with
  | nil => exact decodes.nil
  | cons c t ih =>
    exact decodes.plain c t t (h c (List.mem_cons_self _ _)).1 (h c (List.mem_cons_self _ _)).2
      (ih (fun x hx => h x (List.mem_cons_of_mem _ hx)))

theorem decodes_append (mode : EightBitModes) {t1 b1 t2 b2 : List Nat}
    (h1 : decodes mode t1 b1) (h2 : decodes mode t2 b2) :
    decodes mode (t1 ++ t2) (b1 ++ b2) := by
  induction h1 with
  | nil => exact h2
  | plain c t b hq hb _ ih => exact decodes.plain c _ _ hq hb ih
  | escape e out t b he _ ih =>
    have := decodes.escape e out _ _ he ih
    simpa [List.append_assoc] using this

theorem utf8_encode_plain (cp : Nat) (h0 : cp ≠ 34) (h1 : cp ≠ 92) :
    ∀ c, c ∈ utf8_encode cp → c ≠ 34 ∧ c ≠ 92 := by
  intro c hc
  unfold utf8_encode at hc
  split_ifs at hc <;> simp only [List.mem_cons, List.mem_singleton, List.not_mem_nil, or_false] at hc
    <;> omega

theorem decodes_single_escape (mode : EightBitModes) (x out : Nat)
    (h : escape_decodes mode [x] [out]) : decodes mode [92, x] [out] := by
  have := decodes.escape [x] [out] [] [] h decodes.nil
  simpa using this

theorem utf8_encode_ascii (cp : Nat) (h : cp < 0x80) : utf8_encode cp = [cp] := by
  unfold utf8_encode
  rw [if_pos h]

theorem decodes_escape_text (mode : EightBitModes) (cp : Nat) (h : is_scalar_value cp) :
    decodes mode (escape_text mode cp) (utf8_encode cp) := by
  have hle : cp ≤ 0x10FFFF := by unfold is_scalar_value at h; omega
  unfold escape_text
  by_cases c1 : cp = 34
  · rw [if_pos c1, utf8_encode_ascii cp (by omega), c1]
    exact decodes_single_escape _ _ _ (escape_decodes_simple mode 34 34 (Or.inl ⟨rfl, rfl⟩))
  rw [if_neg c1]
  by_cases c2 : cp = 92
  · rw [if_pos c2, utf8_encode_ascii cp (by omega), c2]
    exact decodes_single_escape _ _ _
      (escape_decodes_simple mode 92 92 (Or.inr (Or.inl ⟨rfl, rfl⟩)))
  rw [if_neg c2]
  by_cases c3 : cp = 8
  · rw [if_pos c3, utf8_encode_ascii cp (by omega), c3]
    exact decodes_single_escape _ _ _
      (escape_decodes_simple mode 98 8 (Or.inr (Or.inr (Or.inl ⟨rfl, rfl⟩))))
  rw [if_neg c3]
  by_cases c4 : cp = 12
  · rw [if_pos c4, utf8_encode_ascii cp (by omega), c4]
    exact decodes_single_escape _ _ _
      (escape_decodes_simple mode 102 12 (Or.inr (Or.inr (Or.inr (Or.inl ⟨rfl, rfl⟩)))))
  rw [if_neg c4]
  by_cases c5 : cp = 10
  · rw [if_pos c5, utf8_encode_ascii cp (by omega), c5]
    exact decodes_single_escape _ _ _
      (escape_decodes_simple mode 110 10
        (Or.inr (Or.inr (Or.inr (Or.inr (Or.inl ⟨rfl, rfl⟩))))))
  rw [if_neg c5]
  by_cases c6 : cp = 13
  · rw [if_pos c6, utf8_encode_ascii cp (by omega), c6]
    exact decodes_single_escape _ _ _
      (escape_decodes_simple mode 114 13
        (Or.inr (Or.inr (Or.inr (Or.inr (Or.inr (Or.inl ⟨rfl, rfl⟩)))))))
  rw [if_neg c6]
  by_cases c7 : cp = 9
  · rw [if_pos c7, utf8_encode_ascii cp (by omega), c7]
    exact decodes_single_escape _ _ _
      (escape_decodes_simple mode 116 9
        (Or.inr (Or.inr (Or.inr (Or.inr (Or.inr (Or.inr ⟨rfl, rfl⟩)))))))
  rw [if_neg c7]
  by_cases c8 : cp < 0x20
  · rw [if_pos c8]
    have := decodes.escape _ _ [] [] (escape_decodes_hex mode cp (by omega) (by omega))
      decodes.nil
    simpa using this
  rw [if_neg c8]
  by_cases c9 : mode = EightBitModes.DisallowHigh ∧ 0x7F ≤ cp ∧ cp ≤ 0xFFFF
  · rw [if_pos c9]
    have := decodes.escape _ _ [] [] (escape_decodes_hex mode cp (by omega)
      (by unfold is_scalar_value at h; omega)) decodes.nil
    simpa using this
  rw [if_neg c9]
  by_cases c10 : mode = EightBitModes.DisallowHigh ∧ 0xFFFF < cp
  · rw [if_pos c10]
    have := decodes.escape _ _ [] [] (escape_decodes_surrogates mode cp (by omega) hle)
      decodes.nil
    simpa using this
  rw [if_neg c10]
  exact decodes_plain_list mode _ (utf8_encode_plain cp c1 c2)

theorem decodes_escape_texts (mode : EightBitModes) (cps : List Nat)
    (h : ∀ cp, cp ∈ cps → is_scalar_value cp) :
    decodes mode (escape_texts mode cps) (utf8_string cps) := by
  induction cps with
  | nil => exact decodes.nil
  | cons cp cps ih =>
    exact decodes_append mode (decodes_escape_text mode cp (h cp (List.mem_cons_self _ _)))
      (ih (fun c hc => h c (List.mem_cons_of_mem _ hc)))

theorem to_nibble_checked_lt (chr n : Nat) (h : to_nibble false chr = Outcome.ok n) : n < 16 := by
  unfold to_nibble at h
  simp only [bind_eq_outcome_bind] at h
  by_cases hlt : ((((chr : Int) - (48 + (if 57 - (chr : Int) < 0 then 65 - 48 - 10 else 0)
      + (if 90 - (chr : Int) < 0 then 97 - 65 else 0))) % 2 ^ 32).toNat) < 16
  · have e : decide ((((chr : Int) - (48 + (if 57 - (chr : Int) < 0 then 65 - 48 - 10 else 0)
      + (if 90 - (chr : Int) < 0 then 97 - 65 else 0))) % 2 ^ 32).toNat < 16) = true :=
      decide_eq_true hlt
    rw [e, assert_weak_true, Outcome.bind_ok] at h
    injection h with h
    omega
  · have e : decide ((((chr : Int) - (48 + (if 57 - (chr : Int) < 0 then 65 - 48 - 10 else 0)
      + (if 90 - (chr : Int) < 0 then 97 - 65 else 0))) % 2 ^ 32).toNat < 16) = false :=
      decide_eq_false hlt
    rw [e] at h
    exact Outcome.noConfusion h

theorem byte_from_nibbles_checked (rng r : Range) (v : Nat)
    (h : byte_from_nibbles false rng = Outcome.ok (v, r)) :
    v < 256 ∧ r.first = rng.first + 2 := by
  unfold byte_from_nibbles at h
  simp only [bind_eq_outcome_bind] at h
  cases h0 : to_nibble false rng.front with
  | ok n0 =>
    rw [h0, Outcome.bind_ok] at h
    cases h1 : to_nibble false (Range.front ( remove_prefix rng 1)) with
    | ok n1 =>
      rw [h1, Outcome.bind_ok] at h
      injection h with h
      injection h with hv hr
      have l0 := to_nibble_checked_lt _ _ h0
      have l1 := to_nibble_checked_lt _ _ h1
      constructor
      · rw [← hv]
        have : (n0 <<< 4 ||| n1) < 2 ^ 8 := by
          apply Nat.or_lt_two_pow
          · rw [Nat.shiftLeft_eq]; omega
          · omega
        omega
      · rw [← hr]
        simp only [ remove_prefix]
    | failed e => rw [h1] at h; exact Outcome.noConfusion h
    | undefined => rw [h1] at h; exact Outcome.noConfusion h
  | failed e => rw [h0] at h; exact Outcome.noConfusion h
  | undefined => rw [h0] at h; exact Outcome.noConfusion h


theorem utf16_code_unit_lt (hi lo : Nat) (h1 : hi < 256) (h2 : lo < 256) :
    ((hi <<< 8) % 2 ^ 32 ||| lo) < 65536 := by
  have : ((hi <<< 8) % 2 ^ 32 ||| lo) < 2 ^ 16 := by
    apply Nat.or_lt_two_pow
    · rw [Nat.shiftLeft_eq]; omega
    · omega
  omega

theorem decode_utf16_length (rng r : Range) (out : List Nat)
    (h : decode_utf16 false rng = Outcome.ok (out, r)) :
    out.length + rng.first ≤ r.first := by
  unfold decode_utf16 at h
  simp only [bind_eq_outcome_bind, Outcome.bind_eq_ok_iff] at h
  obtain ⟨_, _, ⟨hi, r1⟩, hb1, ⟨lo, r2⟩, hb2, h⟩ := h
  dsimp only at hb2 h
  obtain ⟨l1, f1⟩ := byte_from_nibbles_checked _ _ _ hb1
  obtain ⟨l2, f2⟩ := byte_from_nibbles_checked _ _ _ hb2
  have hcp := utf16_code_unit_lt hi lo l1 l2
  have f0 : ( remove_prefix rng 1).first = rng.first + 1 := rfl
  have fin : ∀ (o : List Nat) (q : Range), o.length + rng.first ≤ q.first →
      (Outcome.ok (o, q) : Outcome (List Nat × Range)) = Outcome.ok (out, r) →
      out.length + rng.first ≤ r.first := by
    intro o q hq e
    injection e with e
    injection e with ho hr
    rw [← ho, ← hr]
    exact hq
  split at h
  · exact fin _ _ (by simp only [List.length_cons, List.length_nil]; omega) h
  · split at h
    · simp only [Outcome.bind_eq_ok_iff] at h
      obtain ⟨_, _, ⟨thi, r4⟩, hb3, ⟨tlo, r5⟩, hb4, y, hy, h⟩ := h
      dsimp only at hb4 hy
      obtain ⟨_, f3⟩ := byte_from_nibbles_checked _ _ _ hb3
      obtain ⟨_, f4⟩ := byte_from_nibbles_checked _ _ _ hb4
      injection hy with hy
      have f5 : ( remove_prefix ( remove_prefix r2 1) 1).first = r2.first + 2 := rfl
      have hy2 : y.2.first = rng.first + 11 := by rw [← hy]; dsimp only; omega
      split at h
      · exact fin _ _ (by simp only [List.length_cons, List.length_nil]; omega) h
      · split at h <;>
          exact fin _ _ (by simp only [List.length_cons, List.length_nil]; omega) h
    · simp only [Outcome.bind_ok] at h
      split at h
      · omega
      · split at h <;>
          exact fin _ _ (by simp only [List.length_cons, List.length_nil]; omega) h

theorem parse_escape_length (mode : EightBitModes) (rng r : Range) (out : List Nat)
    (h : parse_escape mode false rng = Outcome.ok (out, r)) :
    out.length + rng.first ≤ r.first := by
  unfold parse_escape at h
  have one : ∀ c : Nat, (Outcome.ok ([c], remove_prefix rng 1) : Outcome (List Nat × Range))
      = Outcome.ok (out, r) → out.length + rng.first ≤ r.first := by
    intro c h
    injection h with h
    injection h with ho hr
    rw [← ho, ← hr]
    simp only [List.length_cons, List.length_nil, remove_prefix]
    omega
  dsimp only at h
  split at h
  · exact one _ h
  split at h
  · exact one _ h
  split at h
  · exact one _ h
  split at h
  · exact one _ h
  split at h
  · exact one _ h
  split at h
  · exact decode_utf16_length _ _ _ h
  split at h
  · exact one _ h
  split at h
  · simp only [bind_eq_outcome_bind, Outcome.bind_eq_ok_iff] at h
    obtain ⟨_, _, h⟩ := h
    exact one _ h
  · simp only [bind_eq_outcome_bind, pure_eq_outcome_ok, Outcome.bind_ok] at h
    exact one _ h

theorem parse_string_loop_length (mode : EightBitModes) (has_quote : Bool) :
    ∀ (fuel : Nat) (inner : Bool) (rng r : Range) (out : List Nat),
      parse_string_loop mode false has_quote fuel inner rng = Outcome.ok (out, r) →
      out.length + rng.first ≤ r.first := by
  intro fuel
  induction fuel with
  | zero =>
    intro inner rng r out h
    exact Outcome.noConfusion h
  | succ n ih =>
    intro inner rng r out h
    unfold parse_string_loop at h
    split at h
    · have done : ∀ x : Outcome (List Nat × Range), x = Outcome.ok (out, r) →
          (x = Outcome.ok ([], rng) ∨ ∃ e, x = Outcome.failed e) →
          out.length + rng.first ≤ r.first := by
        intro x hx hor
        rcases hor with h1 | ⟨e, h1⟩
        · rw [h1] at hx
          injection hx with hx
          injection hx with ho hr
          rw [← ho, ← hr]
          simp
        · rw [h1] at hx
          exact Outcome.noConfusion hx
      split at h
      · simp only [bind_eq_outcome_bind, Outcome.bind_eq_ok_iff] at h
        obtain ⟨_, _, _, _, h⟩ := h
        exact done _ h (Or.inl rfl)
      · exact done _ h (Or.inl rfl)
    · split at h
      · simp only [bind_eq_outcome_bind, Outcome.bind_eq_ok_iff] at h
        obtain ⟨_, _, ⟨o2, r2⟩, hl, h⟩ := h
        have := ih _ _ _ _ hl
        injection h with h
        injection h with ho hr
        rw [← ho, ← hr]
        simp only [List.length_cons, remove_prefix] at this ⊢
        omega
      · simp only [bind_eq_outcome_bind, Outcome.bind_eq_ok_iff] at h
        obtain ⟨_, _, ⟨esc, r1⟩, he, _, _, ⟨o2, r2⟩, hl, h⟩ := h
        have h1 := parse_escape_length _ _ _ _ he
        have h2 := ih _ _ _ _ hl
        injection h with h
        injection h with ho hr
        rw [← ho, ← hr]
        simp only [List.length_append, remove_prefix] at h1 h2 ⊢
        omega

theorem decodes_length (mode : EightBitModes) {t b : List Nat} (h : decodes mode t b) :
    b.length ≤ t.length := by
  induction h with
  | nil => exact Nat.le_refl _
  | plain c t b _ _ _ ih => simpa using ih
  | escape e out t b he _ ih =>
    have h1 := parse_escape_length mode _ _ _ (he.2 false [] 0 e.length 0 0 false (by omega))
    simp only [List.length_cons, List.length_append] at h1 ⊢
    omega

theorem parse_string_loop_decodes (mode : EightBitModes) (unchecked : Bool)
    {t b : List Nat} (h : decodes mode t b) :
    ∀ (fuel : Nat) (inner : Bool) (rest : List Nat) (f cf : Nat) (ctr : Int) (nm : Bool),
      t.length + 1 ≤ fuel →
      parse_string_loop mode unchecked false fuel inner
          ⟨t ++ 34 :: rest, f, f + t.length, cf, ctr, nm⟩
        = Outcome.ok (b, ⟨34 :: rest, f + t.length, f + t.length, cf, ctr, nm⟩) := by
  induction h with
  | nil =>
    intro fuel inner rest f cf ctr nm hf
    obtain ⟨fuel, rfl⟩ : ∃ k, fuel = k + 1 := ⟨fuel - 1, by simp at hf; omega⟩
    unfold parse_string_loop
    simp only [List.nil_append, Range.front, List.headD_cons, beq_self_eq_true, if_true,
      Bool.not_false, Bool.true_or, assert_weak_true, bind_eq_outcome_bind, Outcome.bind_ok,
      List.length_nil, Nat.add_zero]
    cases inner <;> rfl
  | plain c t b hq hb _ ih =>
    intro fuel inner rest f cf ctr nm hf
    obtain ⟨fuel, rfl⟩ : ∃ k, fuel = k + 1 := ⟨fuel - 1, by simp at hf; omega⟩
    unfold parse_string_loop
    have h1 : (c == 34) = false := by simpa using hq
    have h2 : (c != 92) = true := by simpa using hb
    have hne : (Range.empty ⟨c :: t ++ 34 :: rest, f, f + (c :: t).length, cf, ctr, nm⟩) = false := by
      simp [Range.empty, Range.has_more]
    simp only [List.cons_append, Range.front, List.headD_cons, h1, h2, if_true,
      Bool.false_eq_true, if_false, bind_eq_outcome_bind]
    rw [show (c :: (t ++ 34 :: rest)) = c :: t ++ 34 :: rest from rfl, hne]
    simp only [Bool.not_false, assert_weak_true, Outcome.bind_ok]
    have hrp : remove_prefix ⟨c :: t ++ 34 :: rest, f, f + (c :: t).length, cf, ctr, nm⟩ 1
        = ⟨t ++ 34 :: rest, (f + 1), (f + 1) + t.length, cf, ctr, nm⟩ := by
      simp only [ remove_prefix, List.cons_append, List.drop_succ_cons, List.drop_zero,
        List.length_cons]
      congr 1
      omega
    rw [hrp, ih fuel true rest (f + 1) cf ctr nm (by simp at hf; omega)]
    simp only [Outcome.bind_ok, List.length_cons]
    congr 3 <;> omega
  | escape e out t b he _ ih =>
    intro fuel inner rest f cf ctr nm hf
    obtain ⟨fuel, rfl⟩ : ∃ k, fuel = k + 1 := ⟨fuel - 1, by simp at hf; omega⟩
    unfold parse_string_loop
    have hrp : remove_prefix
        ⟨92 :: (e ++ t) ++ 34 :: rest, f, f + (92 :: (e ++ t)).length, cf, ctr, nm⟩ 1
        = ⟨e ++ (t ++ 34 :: rest), f + 1, f + (92 :: (e ++ t)).length, cf, ctr, nm⟩ := by
      simp only [ remove_prefix, List.cons_append, List.drop_succ_cons, List.drop_zero,
        List.append_assoc]
    have hfr : Range.front
        ⟨92 :: (e ++ t) ++ 34 :: rest, f, f + (92 :: (e ++ t)).length, cf, ctr, nm⟩ = 92 := rfl
    rw [hfr]
    simp only [show ((92 : Nat) == 34) = false from rfl, show ((92 : Nat) != 92) = false from rfl,
      Bool.false_eq_true, if_false, bind_eq_outcome_bind, show decide (0x20 ≤ 92) = true from rfl,
      assert_weak_true, Outcome.bind_ok]
    rw [hrp, he.2 unchecked (t ++ 34 :: rest) (f + 1) _ cf ctr nm
      (by simp only [List.length_cons, List.length_append]; omega)]
    simp only [Outcome.bind_ok, Bool.not_false, Bool.true_or, assert_weak_true]
    have hpos : f + (92 :: (e ++ t)).length = (f + 1 + e.length) + t.length := by
      simp only [List.length_cons, List.length_append]; omega
    rw [hpos, ih fuel false rest (f + 1 + e.length) cf ctr nm
      (by simp only [List.length_cons, List.length_append] at hf; omega)]
    rfl

theorem scan_string_escaped_body {t : List Nat} (h : escaped_body t) :
    ∀ (fuel : Nat) (rest : List Nat) (off : Nat) (esc : Option Nat), t.length + 1 ≤ fuel →
      ∃ esc', scan_string fuel (t ++ 34 :: rest) off esc = some (off + t.length, esc')
        ∧ esc'.isSome = (esc.isSome || decide (92 ∈ t)) := by
  induction h with
  | nil =>
    intro fuel rest off esc hf
    obtain ⟨fuel, rfl⟩ : ∃ k, fuel = k + 1 := ⟨fuel - 1, by simp at hf; omega⟩
    exact ⟨esc, by simp [scan_string], by simp⟩
  | plain c t hq hb _ ih =>
    intro fuel rest off esc hf
    obtain ⟨fuel, rfl⟩ : ∃ k, fuel = k + 1 := ⟨fuel - 1, by simp at hf; omega⟩
    obtain ⟨esc', h1, h2⟩ := ih fuel rest (off + 1) esc (by simp at hf; omega)
    refine ⟨esc', ?_, ?_⟩
    · simp only [List.cons_append, scan_string, beq_iff_eq, hq, hb, if_false,
        List.length_cons]
      rw [show off + (t.length + 1) = off + 1 + t.length by omega]
      exact h1
    · rw [h2]
      simp [hb.symm]
  | pair x t _ ih =>
    intro fuel rest off esc hf
    obtain ⟨fuel, rfl⟩ : ∃ k, fuel = k + 1 := ⟨fuel - 1, by simp at hf; omega⟩
    obtain ⟨esc', h1, h2⟩ := ih fuel rest (off + 2) (if esc.isNone then some off else esc)
      (by simp at hf; omega)
    refine ⟨esc', ?_, ?_⟩
    · simp only [List.cons_append, scan_string, beq_iff_eq, show ¬ ((92 : Nat) = 34) by decide,
        if_false, if_true, List.drop_succ_cons, List.drop_zero, List.length_cons]
      rw [show off + (t.length + 1 + 1) = off + 2 + t.length by omega]
      exact h1
    · rw [h2]
      cases esc <;> simp

theorem escaped_body_append {t1 t2 : List Nat} (h1 : escaped_body t1) (h2 : escaped_body t2) :
    escaped_body (t1 ++ t2) := by
  induction h1 with
  | nil => exact h2
  | plain c t hq hb _ ih => exact escaped_body.plain c _ hq hb ih
  | pair x t _ ih => exact escaped_body.pair x _ ih

theorem escaped_body_plain_list (t : List Nat) (h : ∀ c, c ∈ t → c ≠ 34 ∧ c ≠ 92) :
    escaped_body t := by
  induction t with
  | nil => exact escaped_body.nil
  | cons c t ih =>
    exact escaped_body.plain c t (h c (List.mem_cons_self _ _)).1 (h c (List.mem_cons_self _ _)).2
      (ih (fun x hx => h x (List.mem_cons_of_mem _ hx)))

theorem hex4_plain (c : Nat) (hc : c < 65536) : ∀ x, x ∈ hex4 c → x ≠ 34 ∧ x ≠ 92 := by
  intro x hx
  unfold hex4 at hx
  simp only [List.mem_cons, List.mem_singleton, List.not_mem_nil, or_false] at hx
  rcases hx with rfl | rfl | rfl | rfl
  · exact (to_nibble_hex_char false _ (by omega)).2.2
  · exact (to_nibble_hex_char false _ (by omega)).2.2
  · exact (to_nibble_hex_char false _ (by omega)).2.2
  · exact (to_nibble_hex_char false _ (by omega)).2.2

theorem escaped_body_hex (c : Nat) (hc : c < 65536) : escaped_body (92 :: 117 :: hex4 c) :=
  escaped_body.pair 117 _ (escaped_body_plain_list _ (hex4_plain c hc))

theorem escape_text_cases (mode : EightBitModes) (cp : Nat) (h : is_scalar_value cp) :
    (∃ x, escape_text mode cp = [92, x])
      ∨ (∃ c, c < 65536 ∧ escape_text mode cp = 92 :: 117 :: hex4 c)
      ∨ (∃ c d, c < 65536 ∧ d < 65536 ∧
          escape_text mode cp = 92 :: 117 :: hex4 c ++ 92 :: 117 :: hex4 d)
      ∨ (escape_text mode cp = utf8_encode cp ∧ cp ≠ 34 ∧ cp ≠ 92) := by
  have hle : cp ≤ 0x10FFFF := by unfold is_scalar_value at h; omega
  unfold escape_text
  by_cases c1 : cp = 34
  · rw [if_pos c1]; exact Or.inl ⟨_, rfl⟩
  rw [if_neg c1]
  by_cases c2 : cp = 92
  · rw [if_pos c2]; exact Or.inl ⟨_, rfl⟩
  rw [if_neg c2]
  by_cases c3 : cp = 8
  · rw [if_pos c3]; exact Or.inl ⟨_, rfl⟩
  rw [if_neg c3]
  by_cases c4 : cp = 12
  · rw [if_pos c4]; exact Or.inl ⟨_, rfl⟩
  rw [if_neg c4]
  by_cases c5 : cp = 10
  · rw [if_pos c5]; exact Or.inl ⟨_, rfl⟩
  rw [if_neg c5]
  by_cases c6 : cp = 13
  · rw [if_pos c6]; exact Or.inl ⟨_, rfl⟩
  rw [if_neg c6]
  by_cases c7 : cp = 9
  · rw [if_pos c7]; exact Or.inl ⟨_, rfl⟩
  rw [if_neg c7]
  by_cases c8 : cp < 0x20
  · rw [if_pos c8]; exact Or.inr (Or.inl ⟨cp, by omega, rfl⟩)
  rw [if_neg c8]
  by_cases c9 : mode = EightBitModes.DisallowHigh ∧ 0x7F ≤ cp ∧ cp ≤ 0xFFFF
  · rw [if_pos c9]; exact Or.inr (Or.inl ⟨cp, by omega, rfl⟩)
  rw [if_neg c9]
  by_cases c10 : mode = EightBitModes.DisallowHigh ∧ 0xFFFF < cp
  · rw [if_pos c10]
    exact Or.inr (Or.inr (Or.inl ⟨_, _, by omega, by omega, rfl⟩))
  rw [if_neg c10]
  exact Or.inr (Or.inr (Or.inr ⟨rfl, c1, c2⟩))

theorem escaped_body_escape_text (mode : EightBitModes) (cp : Nat) (h : is_scalar_value cp) :
    escaped_body (escape_text mode cp) := by
  rcases escape_text_cases mode cp h with ⟨x, hx⟩ | ⟨c, hc, hx⟩ | ⟨c, d, hc, hd, hx⟩ | ⟨hx, h1, h2⟩
  · rw [hx]; exact escaped_body.pair x [] escaped_body.nil
  · rw [hx]; exact escaped_body_hex c hc
  · rw [hx]
    have := escaped_body_append (escaped_body_hex c hc) (escaped_body_hex d hd)
    simpa using this
  · rw [hx]; exact escaped_body_plain_list _ (utf8_encode_plain cp h1 h2)

theorem escape_text_without_backslash (mode : EightBitModes) (cp : Nat)
    (h : is_scalar_value cp) (hb : 92 ∉ escape_text mode cp) :
    escape_text mode cp = utf8_encode cp := by
  rcases escape_text_cases mode cp h with ⟨x, hx⟩ | ⟨c, hc, hx⟩ | ⟨c, d, hc, hd, hx⟩ | ⟨hx, h1, h2⟩
  · rw [hx] at hb; simp at hb
  · rw [hx] at hb; simp at hb
  · rw [hx] at hb; simp at hb
  · exact hx

theorem escaped_body_escape_texts (mode : EightBitModes) (cps : List Nat)
    (h : ∀ cp, cp ∈ cps → is_scalar_value cp) : escaped_body (escape_texts mode cps) := by
  induction cps with
  | nil => exact escaped_body.nil
  | cons cp cps ih =>
    exact escaped_body_append (escaped_body_escape_text mode cp (h cp (List.mem_cons_self _ _)))
      (ih (fun c hc => h c (List.mem_cons_of_mem _ hc)))

theorem escape_texts_without_backslash (mode : EightBitModes) (cps : List Nat)
    (h : ∀ cp, cp ∈ cps → is_scalar_value cp) (hb : 92 ∉ escape_texts mode cps) :
    escape_texts mode cps = utf8_string cps := by
  induction cps with
  | nil => rfl
  | cons cp cps ih =>
    simp only [escape_texts, List.mem_append, not_or] at hb
    simp only [escape_texts, utf8_string]
    rw [escape_text_without_backslash mode cp (h cp (List.mem_cons_self _ _)) hb.1,
      ih (fun c hc => h c (List.mem_cons_of_mem _ hc)) hb.2]

theorem utf8_next_encode (cp : Nat) (h : cp ≤ 0x10FFFF) (tail : List Nat) :
    utf8_next (utf8_encode cp ++ tail) = (cp, tail) := by
  unfold utf8_encode utf8_next
  by_cases c1 : cp < 0x80
  · rw [if_pos c1]
    simp only [List.cons_append, List.nil_append, List.headD_cons, if_pos c1, List.drop_succ_cons,
      List.drop_zero]
  rw [if_neg c1]
  by_cases c2 : cp < 0x800
  · rw [if_pos c2]
    simp only [List.cons_append, List.nil_append, List.headD_cons, List.getD_cons_succ,
      List.getD_cons_zero, List.drop_succ_cons, List.drop_zero, beq_iff_eq,
      Nat.shiftRight_eq_div_pow, Nat.shiftLeft_eq, and_0x3F,
      show ∀ x : Nat, x &&& 0x7FF = x % 2 ^ 11 from fun x => and_mask_eq_mod x 11]
    rw [if_neg (by omega), if_pos (by omega)]
    congr 1
    omega
  rw [if_neg c2]
  by_cases c3 : cp < 0x10000
  · rw [if_pos c3]
    simp only [List.cons_append, List.nil_append, List.headD_cons, List.getD_cons_succ,
      List.getD_cons_zero, List.drop_succ_cons, List.drop_zero, beq_iff_eq,
      Nat.shiftRight_eq_div_pow, Nat.shiftLeft_eq, and_0x3F,
      show ∀ x : Nat, x &&& 0xFFFF = x % 2 ^ 16 from fun x => and_mask_eq_mod x 16,
      show ∀ x : Nat, x &&& 0xFFF = x % 2 ^ 12 from fun x => and_mask_eq_mod x 12]
    rw [if_neg (by omega), if_neg (by omega), if_pos (by omega)]
    congr 1
    omega
  rw [if_neg c3]
  simp only [List.cons_append, List.nil_append, List.headD_cons, List.getD_cons_succ,
    List.getD_cons_zero, List.drop_succ_cons, List.drop_zero, beq_iff_eq,
    Nat.shiftRight_eq_div_pow, Nat.shiftLeft_eq, and_0x3F,
    show ∀ x : Nat, x &&& 0x1FFFFF = x % 2 ^ 21 from fun x => and_mask_eq_mod x 21,
    show ∀ x : Nat, x &&& 0x3FFFF = x % 2 ^ 18 from fun x => and_mask_eq_mod x 18,
    show ∀ x : Nat, x &&& 0xFFF = x % 2 ^ 12 from fun x => and_mask_eq_mod x 12]
  rw [if_neg (by omega), if_neg (by omega), if_neg (by omega), if_pos (by omega)]
  congr 1
  omega

theorem utf8_encode_ne_nil (cp : Nat) : ∃ c cs, utf8_encode cp = c :: cs := by
  unfold utf8_encode
  by_cases c1 : cp < 0x80
  · rw [if_pos c1]; exact ⟨_, _, rfl⟩
  rw [if_neg c1]
  by_cases c2 : cp < 0x800
  · rw [if_pos c2]; exact ⟨_, _, rfl⟩
  rw [if_neg c2]
  by_cases c3 : cp < 0x10000
  · rw [if_pos c3]; exact ⟨_, _, rfl⟩
  rw [if_neg c3]; exact ⟨_, _, rfl⟩

theorem utf8_iterate_string (cps : List Nat) (h : ∀ cp, cp ∈ cps → is_scalar_value cp) :
    ∀ fuel, cps.length ≤ fuel → utf8_iterate fuel (utf8_string cps) = cps := by
  induction cps with
  | nil => intro fuel _; cases fuel <;> rfl
  | cons cp cps ih =>
    intro fuel hf
    obtain ⟨fuel, rfl⟩ : ∃ k, fuel = k + 1 := ⟨fuel - 1, by simp at hf; omega⟩
    have hs := h cp (List.mem_cons_self _ _)
    have hle : cp ≤ 0x10FFFF := by unfold is_scalar_value at hs; omega
    obtain ⟨c, cs, hc⟩ := utf8_encode_ne_nil cp
    have hn := utf8_next_encode cp hle (utf8_string cps)
    simp only [utf8_string]
    rw [hc] at hn ⊢
    simp only [List.cons_append] at hn ⊢
    simp only [utf8_iterate, hn]
    rw [ih (fun c hc => h c (List.mem_cons_of_mem _ hc)) fuel (by simp at hf; omega)]

theorem utf8_string_length (cps : List Nat) : cps.length ≤ (utf8_string cps).length := by
  induction cps with
  | nil => simp [utf8_string]
  | cons cp cps ih =>
    obtain ⟨c, cs, hc⟩ := utf8_encode_ne_nil cp
    simp only [utf8_string, hc, List.length_append, List.length_cons]
    omega

theorem to_daw_json_string_StringEscaped_eq (mode : EightBitModes) (cps : List Nat)
    (h : ∀ cp, cp ∈ cps → is_scalar_value cp) :
    to_daw_json_string_StringEscaped mode (utf8_string cps)
      = Outcome.ok (34 :: escape_texts mode cps ++ [34]) := by
  unfold to_daw_json_string_StringEscaped copy_to_iterator
  simp only [if_true, bind_eq_outcome_bind]
  rw [utf8_iterate_string cps h _ (utf8_string_length cps), escape_code_points_eq mode cps h]
  rfl

theorem window_body (unchecked : Bool) (E rest : List Nat) (f l cf : Nat) (ctr : Int) (nm : Bool)
    (hl : f + E.length + 1 ≤ l) :
    ∃ rest', Range.window unchecked ⟨E ++ 34 :: rest, f, l, cf, ctr, nm⟩ = E ++ 34 :: rest' := by
  unfold Range.window Range.size
  cases unchecked
  · refine ⟨rest.take (l - f - E.length - 1), ?_⟩
    simp only [Bool.false_eq_true, if_false]
    rw [List.take_append_eq_append_take, List.take_of_length_le (by omega)]
    obtain ⟨k, hk⟩ : ∃ k, l - f - E.length = k + 1 := ⟨l - f - E.length - 1, by omega⟩
    rw [hk, List.take_succ_cons]
    congr 3
  · exact ⟨rest, by simp⟩

theorem skip_string_body (unchecked : Bool) {E : List Nat} (hb : escaped_body E)
    (rest : List Nat) (f l cf : Nat) (ctr : Int) (nm : Bool) (hl : f + E.length + 2 ≤ l) :
    ∃ c : Int, skip_string unchecked ⟨34 :: E ++ 34 :: rest, f, l, cf, ctr, nm⟩
        = Outcome.ok (⟨E ++ 34 :: rest, f + 1, f + 1 + E.length, cf, c, false⟩,
            ⟨rest, f + E.length + 2, l, cf, ctr, nm⟩)
      ∧ (0 ≤ c ↔ 92 ∈ E) := by
  obtain ⟨rest', hw⟩ := window_body unchecked E rest (f + 1) l cf ctr nm (by omega)
  obtain ⟨esc', h1, h2⟩ := scan_string_escaped_body hb ((E ++ 34 :: rest').length + 1) rest' 0 none
    (by simp)
  have hskip : ∀ e, scan_string ((E ++ 34 :: rest').length + 1) (E ++ 34 :: rest') 0 none
        = some (0 + E.length, e) →
      skip_string unchecked ⟨34 :: E ++ 34 :: rest, f, l, cf, ctr, nm⟩
        = Outcome.ok (⟨E ++ 34 :: rest, f + 1, f + 1 + E.length, cf,
              (match e with | some e => (e : Int) | none => -1), false⟩,
            ⟨rest, f + E.length + 2, l, cf, ctr, nm⟩) := by
    intro e he
    unfold skip_string
    simp only [Range.front, List.cons_append, List.headD_cons, beq_self_eq_true, if_true,
      remove_prefix, List.drop_succ_cons, List.drop_zero]
    rw [hw, he]
    simp only [Range.sub, Nat.zero_add]
    congr 3
    · simp
    · omega
  cases esc' with
  | none =>
    refine ⟨-1, hskip none h1, ?_⟩
    simp only [Option.isSome_none, Bool.false_or, Bool.false_eq, decide_eq_false_iff_not] at h2
    simp [h2]
  | some e =>
    refine ⟨(e : Int), hskip (some e) h1, ?_⟩
    simp only [Option.isSome_some, Option.isSome_none, Bool.false_or, Bool.true_eq,
      decide_eq_true_eq] at h2
    simp [h2]

theorem escaped_body_front {E : List Nat} (hb : escaped_body E) (h : 92 ∈ E)
    (rest : List Nat) : ((E ++ 34 :: rest).headD 0 == 34) = false := by
  cases hb with
  | nil => simp at h
  | plain c t hq _ _ => simpa using hq
  | pair x t _ => simp

theorem parse_value_StringEscaped_body (mode : EightBitModes) (unchecked : Bool)
    {E b : List Nat} (hb : escaped_body E) (hd : decodes mode E b) (hp : 92 ∉ E → E = b)
    (rest : List Nat) (f l cf : Nat) (ctr : Int) (nm : Bool) (hl : f + E.length + 2 ≤ l) :
    parse_value_StringEscaped mode false unchecked ⟨34 :: E ++ 34 :: rest, f, l, cf, ctr, nm⟩
      = Outcome.ok (b, ⟨rest, f + E.length + 2, l, cf, ctr, nm⟩) := by
  obtain ⟨c, hs, hc⟩ := skip_string_body unchecked hb rest f l cf ctr nm hl
  unfold parse_value_StringEscaped
  simp only [Bool.false_eq_true, if_false, bind_eq_outcome_bind]
  rw [hs, Outcome.bind_ok]
  simp only [needs_slow_path]
  by_cases h92 : 92 ∈ E
  · have hc0 : (0 : Int) ≤ c := hc.2 h92
    simp only [hc0, decide_True, if_true]
    unfold parse_string_known_stdstring
    have hfront := escaped_body_front hb h92 rest
    simp only [Range.front_is, Range.front, hfront, Bool.and_false,
      Bool.false_eq_true, if_false]
    simp only [bind_eq_outcome_bind]
    rw [parse_string_loop_decodes mode unchecked hd _ false rest (f + 1) cf c false
      (by simp)]
    have hlen : decide (b.length ≤ Range.size ⟨E ++ 34 :: rest, f + 1, f + 1 + E.length, cf, c,
        false⟩) = true := by
      simp only [Range.size, decide_eq_true_eq]
      have := decodes_length mode hd
      omega
    simp only [Outcome.bind_ok, hlen, assert_weak_true]
  · have hc0 : ¬ (0 : Int) ≤ c := fun h => h92 (hc.1 h)
    simp only [hc0, decide_False, Bool.false_eq_true, if_false, Range.size]
    rw [← hp h92]
    congr 2
    simp

theorem parse_value_StringEscaped_text (mode : EightBitModes) (unchecked : Bool)
    (cps : List Nat) (h : ∀ cp, cp ∈ cps → is_scalar_value cp)
    (rest : List Nat) (f l cf : Nat) (ctr : Int) (nm : Bool)
    (hl : f + (escape_texts mode cps).length + 2 ≤ l) :
    parse_value_StringEscaped mode false unchecked
        ⟨34 :: escape_texts mode cps ++ 34 :: rest, f, l, cf, ctr, nm⟩
      = Outcome.ok (utf8_string cps,
          ⟨rest, f + (escape_texts mode cps).length + 2, l, cf, ctr, nm⟩) :=
  parse_value_StringEscaped_body mode unchecked (escaped_body_escape_texts mode cps h)
    (decodes_escape_texts mode cps h)
    (fun hb => escape_texts_without_backslash mode cps h hb) rest f l cf ctr nm hl

theorem parse_string_known_stdstring_body (mode : EightBitModes) (unchecked : Bool)
    {E b : List Nat} (hb : escaped_body E) (hd : decodes mode E b)
    (rest : List Nat) (f cf : Nat) (ctr : Int) (nm : Bool) :
    parse_string_known_stdstring mode unchecked ⟨E ++ 34 :: rest, f, f + E.length, cf, ctr, nm⟩
      = Outcome.ok (b, ⟨34 :: rest, f + E.length, f + E.length, cf, ctr, nm⟩) := by
  have hfront : Range.front_is ⟨E ++ 34 :: rest, f, f + E.length, cf, ctr, nm⟩ 34 = false := by
    cases hb with
    | nil => simp [Range.front_is, Range.has_more]
    | plain c t hq _ _ => simpa [Range.front_is, Range.front] using fun _ => hq
    | pair x t _ => simp [Range.front_is, Range.front]
  unfold parse_string_known_stdstring
  simp only [hfront, Bool.false_eq_true, if_false, bind_eq_outcome_bind]
  rw [parse_string_loop_decodes mode unchecked hd _ false rest f cf ctr nm (by simp)]
  have hlen : decide (b.length ≤ Range.size ⟨E ++ 34 :: rest, f, f + E.length, cf, ctr, nm⟩)
      = true := by
    simp only [Range.size, decide_eq_true_eq]
    have := decodes_length mode hd
    omega
  simp only [Outcome.bind_ok, hlen, assert_weak_true]

/-- C2: for every sequence `cps` of Unicode scalar values, in both eight-bit
modes and under both policies, the escaping serializer
`copy_to_iterator<do_escape = true>` succeeds on the UTF-8 text of `cps`, and
parsing what it wrote gives back exactly that text: the unescaping parser
`parse_string_known_stdstring` on the written body, and the StringEscaped value
parser on the quoted body at any position of a document, which also leaves the
cursor right after the closing quote.  The code points above 0xFFFF, written as
a surrogate pair under `DisallowHigh`, are among the scalar values covered. -/
theorem C2_escaped_string_round_trip (mode : EightBitModes) (unchecked : Bool)
    (cps : List Nat) (h : ∀ cp, cp ∈ cps → is_scalar_value cp) :
    ∃ body, copy_to_iterator true mode (utf8_string cps) = Outcome.ok body
      ∧ (∀ (rest : List Nat) (f cf : Nat) (ctr : Int) (nm : Bool),
          parse_string_known_stdstring mode unchecked
              ⟨body ++ 34 :: rest, f, f + body.length, cf, ctr, nm⟩
            = Outcome.ok (utf8_string cps,
                ⟨34 :: rest, f + body.length, f + body.length, cf, ctr, nm⟩))
      ∧ (∀ (rest : List Nat) (f l cf : Nat) (ctr : Int) (nm : Bool),
          f + body.length + 2 ≤ l →
          parse_value_StringEscaped mode false unchecked
              ⟨34 :: body ++ 34 :: rest, f, l, cf, ctr, nm⟩
            = Outcome.ok (utf8_string cps, ⟨rest, f + body.length + 2, l, cf, ctr, nm⟩)) := by
  refine ⟨escape_texts mode cps, ?_, ?_, ?_⟩
  · unfold copy_to_iterator
    simp only [if_true]
    rw [utf8_iterate_string cps h _ (utf8_string_length cps), escape_code_points_eq mode cps h]
  · intro rest f cf ctr nm
    exact parse_string_known_stdstring_body mode unchecked (escaped_body_escape_texts mode cps h)
      (decodes_escape_texts mode cps h) rest f cf ctr nm
  · intro rest f l cf ctr nm hl
    exact parse_value_StringEscaped_text mode unchecked cps h rest f l cf ctr nm hl

/-- Witness of C2 under `DisallowHigh`: U+1F600 (above 0xFFFF), a quote, U+00E9
and a line feed. -/
theorem C2_escaped_string_round_trip_witness :
    (∀ cp, cp ∈ [0x1F600, 34, 0xE9, 10] → is_scalar_value cp)
      ∧ ∃ body, copy_to_iterator true EightBitModes.DisallowHigh
            (utf8_string [0x1F600, 34, 0xE9, 10]) = Outcome.ok body
        ∧ (∀ (rest : List Nat) (f cf : Nat) (ctr : Int) (nm : Bool),
            parse_string_known_stdstring EightBitModes.DisallowHigh false
                ⟨body ++ 34 :: rest, f, f + body.length, cf, ctr, nm⟩
              = Outcome.ok (utf8_string [0x1F600, 34, 0xE9, 10],
                  ⟨34 :: rest, f + body.length, f + body.length, cf, ctr, nm⟩))
        ∧ (∀ (rest : List Nat) (f l cf : Nat) (ctr : Int) (nm : Bool),
            f + body.length + 2 ≤ l →
            parse_value_StringEscaped EightBitModes.DisallowHigh false false
                ⟨34 :: body ++ 34 :: rest, f, l, cf, ctr, nm⟩
              = Outcome.ok (utf8_string [0x1F600, 34, 0xE9, 10],
                  ⟨rest, f + body.length + 2, l, cf, ctr, nm⟩)) :=
  ⟨by decide, C2_escaped_string_round_trip EightBitModes.DisallowHigh false
    [0x1F600, 34, 0xE9, 10] (by decide)⟩

/-- The text of the witness, evaluated: under `DisallowHigh` the serializer
writes U+1F600 as the surrogate pair D83D DE00, and the parser decodes the
pair to the four UTF-8 bytes of U+1F600. -/
theorem surrogate_pair_evaluated :
    utf8_string [0x1F600, 34, 0xE9, 10] = [0xF0, 0x9F, 0x98, 0x80, 34, 0xC3, 0xA9, 10]
      ∧ to_daw_json_string_StringEscaped EightBitModes.DisallowHigh
          [0xF0, 0x9F, 0x98, 0x80, 34, 0xC3, 0xA9, 10]
        = Outcome.ok (bytes "\"\\uD83D\\uDE00\\\"\\u00E9\\n\"")
      ∧ parse_value_StringEscaped EightBitModes.DisallowHigh false false
          (Range.ofBytes (bytes "\"\\uD83D\\uDE00\\\"\\u00E9\\n\""))
        = Outcome.ok ([0xF0, 0x9F, 0x98, 0x80, 34, 0xC3, 0xA9, 10],
            { data := [], first := 24, last := 24 }) := by
  decide

/-! ## Classes parsed in document order -/

theorem tail_of_window (unchecked : Bool) (total : Nat) (rest : List Nat) (cf : Nat)
    (ctr : Int) (nm : Bool) (h : rest.length ≤ total) :
    (Range.tail_of total rest cf ctr nm).window unchecked = rest := by
  unfold Range.window Range.tail_of Range.size
  cases unchecked
  · simp only [Bool.false_eq_true, if_false]
    exact List.take_of_length_le (by omega)
  · simp

theorem tail_of_size (total : Nat) (rest : List Nat) (cf : Nat) (ctr : Int) (nm : Bool)
    (h : rest.length ≤ total) : (Range.tail_of total rest cf ctr nm).size = rest.length := by
  unfold Range.tail_of Range.size
  simp only
  omega

theorem tail_of_has_more (total : Nat) (c : Nat) (rest : List Nat) (cf : Nat) (ctr : Int)
    (nm : Bool) (h : (c :: rest).length ≤ total) :
    (Range.tail_of total (c :: rest) cf ctr nm).has_more = true := by
  unfold Range.tail_of Range.has_more
  simp only [List.length_cons, decide_eq_true_eq] at h ⊢
  omega

theorem tail_of_advance (total : Nat) (pre rest : List Nat) (cf : Nat) (ctr : Int)
    (nm : Bool) (h : (pre ++ rest).length ≤ total) :
    remove_prefix (Range.tail_of total (pre ++ rest) cf ctr nm) pre.length
      = Range.tail_of total rest cf ctr nm := by
  unfold remove_prefix Range.tail_of
  simp only [List.length_append] at h
  simp only [List.drop_left, List.length_append, Range.mk.injEq, true_and, and_true]
  omega

theorem tail_of_advance_one (total : Nat) (c : Nat) (rest : List Nat) (cf : Nat) (ctr : Int)
    (nm : Bool) (h : (c :: rest).length ≤ total) :
    remove_prefix (Range.tail_of total (c :: rest) cf ctr nm) 1
      = Range.tail_of total rest cf ctr nm :=
  tail_of_advance total [c] rest cf ctr nm h

theorem trim_count_whitespace (ws : List Nat) (hws : whitespace ws) (rest : List Nat)
    (hrest : is_space (rest.headD 0) = false) :
    ∀ n, (ws ++ rest).length ≤ n → trim_count n (ws ++ rest) = ws.length := by
  induction ws with
  | nil =>
    intro n _
    cases n with
    | zero => rfl
    | succ n =>
      cases rest with
      | nil => rfl
      | cons c cs =>
        simp only [List.nil_append, trim_count, List.length_nil]
        have : is_space c = false := hrest
        simp [this]
  | cons w ws ih =>
    intro n hn
    obtain ⟨n, rfl⟩ : ∃ k, n = k + 1 := ⟨n - 1, by simp at hn; omega⟩
    have hw : is_space w = true := hws w (List.mem_cons_self _ _)
    simp only [List.cons_append, trim_count, hw, if_true, List.length_cons]
    exact congrArg (· + 1)
      (ih (fun c hc => hws c (List.mem_cons_of_mem _ hc)) n (by simp at hn ⊢; omega))

theorem trim_left_whitespace (unchecked : Bool) (total : Nat) (ws rest : List Nat) (cf : Nat)
    (ctr : Int) (nm : Bool) (hws : whitespace ws) (hrest : is_space (rest.headD 0) = false)
    (h : (ws ++ rest).length ≤ total) :
    trim_left unchecked (Range.tail_of total (ws ++ rest) cf ctr nm)
      = Range.tail_of total rest cf ctr nm := by
  have h1 : trim_left unchecked (Range.tail_of total (ws ++ rest) cf ctr nm)
      = remove_prefix (Range.tail_of total (ws ++ rest) cf ctr nm) ws.length := by
    unfold trim_left trim_left_unchecked trim_left_checked
    cases unchecked
    · simp only [Bool.false_eq_true, if_false]
      rw [tail_of_size total _ cf ctr nm h]
      exact congrArg _ (trim_count_whitespace ws hws rest hrest _ (Nat.le_refl _))
    · simp only [if_true]
      exact congrArg _ (trim_count_whitespace ws hws rest hrest _ (Nat.le_refl _))
  rw [h1, tail_of_advance total ws rest cf ctr nm h]

theorem trim_left_checked_whitespace (total : Nat) (ws rest : List Nat) (cf : Nat)
    (ctr : Int) (nm : Bool) (hws : whitespace ws) (hrest : is_space (rest.headD 0) = false)
    (h : (ws ++ rest).length ≤ total) :
    trim_left_checked (Range.tail_of total (ws ++ rest) cf ctr nm)
      = Range.tail_of total rest cf ctr nm :=
  trim_left_whitespace false total ws rest cf ctr nm hws hrest h

theorem whitespace_nil : whitespace [] := fun _ h => absurd h (List.not_mem_nil _)

theorem trim_left_none (unchecked : Bool) (total : Nat) (rest : List Nat) (cf : Nat)
    (ctr : Int) (nm : Bool) (hrest : is_space (rest.headD 0) = false)
    (h : rest.length ≤ total) :
    trim_left unchecked (Range.tail_of total rest cf ctr nm)
      = Range.tail_of total rest cf ctr nm :=
  trim_left_whitespace unchecked total [] rest cf ctr nm whitespace_nil hrest h

theorem clean_tail_whitespace (unchecked : Bool) (total : Nat) (ws rest : List Nat) (cf : Nat)
    (ctr : Int) (nm : Bool) (hws : whitespace ws) (hrest : is_space (rest.headD 0) = false)
    (hc : rest.headD 0 ≠ 44) (h : (ws ++ rest).length ≤ total) :
    clean_tail unchecked (Range.tail_of total (ws ++ rest) cf ctr nm)
      = Range.tail_of total rest cf ctr nm := by
  unfold clean_tail
  simp only [trim_left_whitespace unchecked total ws rest cf ctr nm hws hrest h]
  have : ((Range.tail_of total rest cf ctr nm).front == 44) = false := by
    simpa [Range.front, Range.tail_of] using hc
  simp only [this, Bool.false_eq_true, if_false]

theorem clean_tail_comma (unchecked : Bool) (total : Nat) (ws ws2 rest : List Nat) (cf : Nat)
    (ctr : Int) (nm : Bool) (hws : whitespace ws) (hws2 : whitespace ws2)
    (hrest : is_space (rest.headD 0) = false)
    (h : (ws ++ 44 :: (ws2 ++ rest)).length ≤ total) :
    clean_tail unchecked (Range.tail_of total (ws ++ 44 :: (ws2 ++ rest)) cf ctr nm)
      = Range.tail_of total rest cf ctr nm := by
  unfold clean_tail
  simp only [trim_left_whitespace unchecked total ws (44 :: (ws2 ++ rest)) cf ctr nm hws
    (show is_space 44 = false by decide) h]
  have h2 : (44 :: (ws2 ++ rest)).length ≤ total := by
    simp only [List.length_append, List.length_cons] at h ⊢; omega
  have : ((Range.tail_of total (44 :: (ws2 ++ rest)) cf ctr nm).front == 44) = true := rfl
  simp only [this, if_true]
  rw [tail_of_advance_one total 44 _ cf ctr nm h2]
  exact trim_left_whitespace unchecked total ws2 rest cf ctr nm hws2 hrest
    (by simp only [List.length_cons] at h2; omega)

theorem trim_end_of_name_colon (unchecked : Bool) (total : Nat) (wa wb rest : List Nat)
    (cf : Nat) (ctr : Int) (nm : Bool) (hwa : whitespace wa) (hwb : whitespace wb)
    (hrest : is_space (rest.headD 0) = false)
    (h : (wa ++ 58 :: (wb ++ rest)).length ≤ total) :
    trim_end_of_name unchecked (Range.tail_of total (wa ++ 58 :: (wb ++ rest)) cf ctr nm)
      = Outcome.ok (Range.tail_of total rest cf ctr nm) := by
  have h2 : (58 :: (wb ++ rest)).length ≤ total := by
    simp only [List.length_append, List.length_cons] at h ⊢; omega
  unfold trim_end_of_name
  simp only [bind_eq_outcome_bind]
  rw [trim_left_whitespace unchecked total wa (58 :: (wb ++ rest)) cf ctr nm hwa
    (show is_space 58 = false by decide) h]
  rw [show ((Range.tail_of total (58 :: (wb ++ rest)) cf ctr nm).front == 58) = true from rfl,
    assert_weak_true, Outcome.bind_ok, tail_of_advance_one total 58 _ cf ctr nm h2,
    trim_left_whitespace unchecked total wb rest cf ctr nm hwb hrest
      (by simp only [List.length_cons] at h2; omega)]

theorem scan_string_plain (name rest : List Nat) (hname : ∀ c, c ∈ name → c ≠ 34 ∧ c ≠ 92) :
    ∃ esc, scan_string ((name ++ 34 :: rest).length + 1) (name ++ 34 :: rest) 0 none
      = some (name.length, esc) := by
  obtain ⟨esc, h1, _⟩ := scan_string_escaped_body (escaped_body_plain_list name hname)
    ((name ++ 34 :: rest).length + 1) rest 0 none (by simp)
  exact ⟨esc, by simpa using h1⟩

theorem parse_name_plain (unchecked : Bool) (total : Nat) (name wa wb rest : List Nat)
    (cf : Nat) (ctr : Int) (nm : Bool) (hname : ∀ c, c ∈ name → c ≠ 34 ∧ c ≠ 92)
    (hwa : whitespace wa) (hwb : whitespace wb) (hrest : is_space (rest.headD 0) = false)
    (h : (34 :: (name ++ 34 :: (wa ++ 58 :: (wb ++ rest)))).length ≤ total) :
    parse_name unchecked
        (Range.tail_of total (34 :: (name ++ 34 :: (wa ++ 58 :: (wb ++ rest)))) cf ctr nm)
      = Outcome.ok (name, Range.tail_of total rest cf ctr nm) := by
  have h2 : (name ++ 34 :: (wa ++ 58 :: (wb ++ rest))).length ≤ total := by
    simp only [List.length_cons] at h; omega
  have h3 : ((name ++ [34]) ++ (wa ++ 58 :: (wb ++ rest))).length ≤ total := by
    simpa using h2
  have h4 : (wa ++ 58 :: (wb ++ rest)).length ≤ total := by
    simp only [List.length_append, List.length_cons] at h2 ⊢; omega
  obtain ⟨esc, hscan⟩ := scan_string_plain name (wa ++ 58 :: (wb ++ rest)) hname
  unfold parse_name
  simp only [bind_eq_outcome_bind]
  rw [show ((Range.tail_of total (34 :: (name ++ 34 :: (wa ++ 58 :: (wb ++ rest)))) cf ctr
      nm).front == 34) = true from rfl, assert_weak_true, Outcome.bind_ok,
    tail_of_advance_one total 34 _ cf ctr nm h]
  simp only [tail_of_window unchecked total _ cf ctr nm h2, hscan]
  have hrem : remove_prefix
      (Range.tail_of total (name ++ 34 :: (wa ++ 58 :: (wb ++ rest))) cf ctr nm)
      (name.length + 1) = Range.tail_of total (wa ++ 58 :: (wb ++ rest)) cf ctr nm := by
    have := tail_of_advance total (name ++ [34]) (wa ++ 58 :: (wb ++ rest)) cf ctr nm h3
    simpa using this
  rw [hrem, trim_end_of_name_colon unchecked total wa wb rest cf ctr nm hwa hwb hrest h4,
    Outcome.bind_ok]
  simp [Range.tail_of]

theorem find_class_member_in_order (unchecked : Bool) (pos : Nat) (locations : Locations)
    (first_name : List Nat) (hpos : locations.get? pos = some (first_name, none))
    (total : Nat) (name wa wb rest : List Nat)
    (cf : Nat) (ctr : Int) (nm : Bool) (hname : ∀ c, c ∈ name → c ≠ 34 ∧ c ≠ 92)
    (hwa : whitespace wa) (hwb : whitespace wb) (hrest : is_space (rest.headD 0) = false)
    (h : (34 :: (name ++ 34 :: (wa ++ 58 :: (wb ++ rest)))).length ≤ total) :
    find_class_member unchecked pos locations
        (Range.tail_of total (34 :: (name ++ 34 :: (wa ++ 58 :: (wb ++ rest)))) cf ctr nm) name
      = Outcome.ok (Range.tail_of total rest cf ctr nm, locations,
          Range.tail_of total rest cf ctr nm) := by
  unfold find_class_member
  simp only [hpos]
  show find_class_member_scan unchecked name
      ((34 :: (name ++ 34 :: (wa ++ 58 :: (wb ++ rest)))).length + 1) locations _ = _
  unfold find_class_member_scan
  have hct := clean_tail_whitespace unchecked total []
    (34 :: (name ++ 34 :: (wa ++ 58 :: (wb ++ rest)))) cf ctr nm whitespace_nil
    (show is_space 34 = false by decide) (show (34 : Nat) ≠ 44 by decide) h
  simp only [List.nil_append] at hct
  simp only [hct, bind_eq_outcome_bind]
  rw [show ((Range.tail_of total (34 :: (name ++ 34 :: (wa ++ 58 :: (wb ++ rest)))) cf ctr
      nm).front == 125) = false from rfl,
    tail_of_has_more total 34 _ cf ctr nm h]
  simp only [Bool.not_true, Bool.and_false, Bool.or_false, Bool.false_eq_true, if_false]
  rw [parse_name_plain unchecked total name wa wb rest cf ctr nm hname hwa hwb hrest h,
    Outcome.bind_ok]
  simp only [beq_self_eq_true, if_true]

theorem parse_class_member_in_order (pv : ValueParser) (unchecked : Bool) (pos : Nat)
    (locations : Locations) (k : Kind)
    (first_name : List Nat) (hpos : locations.get? pos = some (first_name, none))
    (total : Nat) (data name wa wb rest : List Nat)
    (cf : Nat) (ctr : Int) (nm : Bool) (hname : ∀ c, c ∈ name → c ≠ 34 ∧ c ≠ 92)
    (hwa : whitespace wa) (hwb : whitespace wb) (hrest : is_space (rest.headD 0) = false)
    (h : (34 :: (name ++ 34 :: (wa ++ 58 :: (wb ++ rest)))).length ≤ total)
    (hclean : clean_tail unchecked (Range.tail_of total data cf ctr nm)
      = Range.tail_of total (34 :: (name ++ 34 :: (wa ++ 58 :: (wb ++ rest)))) cf ctr nm) :
    parse_class_member pv unchecked pos name k locations (Range.tail_of total data cf ctr nm)
      = (pv k false (Range.tail_of total rest cf ctr nm)).bind
          (fun x => Outcome.ok (x.1, locations, x.2)) := by
  unfold parse_class_member
  simp only [hclean, bind_eq_outcome_bind]
  rw [show is_at_next_class_member
      (Range.tail_of total (34 :: (name ++ 34 :: (wa ++ 58 :: (wb ++ rest)))) cf ctr nm) = true
      from rfl, assert_weak_true, Outcome.bind_ok,
    find_class_member_in_order unchecked pos locations first_name hpos total name wa wb rest
      cf ctr nm hname hwa hwb hrest h, Outcome.bind_ok]
  simp only [beq_self_eq_true, if_true]

theorem tail_of_has_more_append (total : Nat) (ws : List Nat) (c : Nat) (rest : List Nat)
    (cf : Nat) (ctr : Int) (nm : Bool) (h : (ws ++ c :: rest).length ≤ total) :
    (Range.tail_of total (ws ++ c :: rest) cf ctr nm).has_more = true := by
  unfold Range.tail_of Range.has_more
  simp only [List.length_append, List.length_cons, decide_eq_true_eq] at h ⊢
  omega

theorem move_to_next_of_here (unchecked : Bool) (key : Nat → Bool) (total : Nat) (c : Nat)
    (rest : List Nat) (cf : Nat) (ctr : Int) (nm : Bool) (hkey : key c = true)
    (h : (c :: rest).length ≤ total) :
    move_to_next_of unchecked key (Range.tail_of total (c :: rest) cf ctr nm)
      = Outcome.ok (Range.tail_of total (c :: rest) cf ctr nm) := by
  unfold move_to_next_of
  cases unchecked
  · simp only [Bool.false_eq_true, if_false, tail_of_size total _ cf ctr nm h]
    simp only [Range.tail_of, List.length_cons, find_key, hkey, if_true]
    rfl
  · simp only [if_true]
    simp only [Range.tail_of, List.length_cons, find_key, hkey, if_true]
    rfl

theorem skip_class_at_end (unchecked : Bool) (total : Nat) (rest : List Nat) (cf : Nat)
    (ctr : Int) (nm : Bool) (h : (125 :: rest).length ≤ total) :
    ∃ sub, skip_class unchecked (Range.tail_of total (125 :: rest) cf ctr nm)
      = Outcome.ok (sub, Range.tail_of total rest cf ctr nm) := by
  unfold skip_class skip_bracketed_item
  simp only [tail_of_window unchecked total _ cf ctr nm h]
  simp only [List.headD_cons, show ((125 : Nat) == 123) = false by decide, Bool.false_eq_true,
    if_false, List.drop_zero, skip_bracketed_len, show ((125 : Nat) == 34) = false by decide,
    beq_self_eq_true, if_true, Nat.le_refl, Nat.zero_add]
  exact ⟨_, by rw [tail_of_advance_one total 125 rest cf ctr nm h]⟩

theorem class_cleanup_now_at_end (unchecked : Bool) (total : Nat) (ws ws2 rest : List Nat)
    (cf : Nat) (ctr : Int) (nm : Bool) (hws : whitespace ws) (hws2 : whitespace ws2)
    (hrest : is_space (rest.headD 0) = false)
    (h : (ws ++ 125 :: (ws2 ++ rest)).length ≤ total) :
    class_cleanup_now unchecked (Range.tail_of total (ws ++ 125 :: (ws2 ++ rest)) cf ctr nm)
      = Outcome.ok (Range.tail_of total rest cf ctr nm) := by
  have h2 : (125 :: (ws2 ++ rest)).length ≤ total := by
    simp only [List.length_append, List.length_cons] at h ⊢; omega
  have h3 : (ws2 ++ rest).length ≤ total := by
    simp only [List.length_cons] at h2; omega
  obtain ⟨sub, hskip⟩ := skip_class_at_end unchecked total (ws2 ++ rest) cf ctr nm h2
  unfold class_cleanup_now
  simp only [bind_eq_outcome_bind]
  rw [tail_of_has_more_append total ws 125 _ cf ctr nm h, assert_weak_true, Outcome.bind_ok,
    clean_tail_whitespace unchecked total ws (125 :: (ws2 ++ rest)) cf ctr nm hws
      (show is_space 125 = false by decide) (show (125 : Nat) ≠ 44 by decide) h]
  unfold move_to_next_class_member
  rw [move_to_next_of_here unchecked _ total 125 _ cf ctr nm (by decide) h2, Outcome.bind_ok,
    hskip, Outcome.bind_ok]
  simp only [trim_left_checked_whitespace total ws2 rest cf ctr nm hws2 hrest h3]

theorem parse_json_class_open (pv : ValueParser) (unchecked : Bool)
    (m : List Nat × Kind) (members : List (List Nat × Kind))
    (total : Nat) (w0 w1 body : List Nat) (cf : Nat) (ctr : Int) (nm : Bool)
    (hw0 : whitespace w0) (hw1 : whitespace w1) (hbody : is_space (body.headD 0) = false)
    (h : (w0 ++ 123 :: (w1 ++ body)).length ≤ total) :
    parse_json_class pv unchecked (m :: members)
        (Range.tail_of total (w0 ++ 123 :: (w1 ++ body)) cf ctr nm)
      = (parse_class_members pv unchecked (m :: members) 0
            (make_locations_info (m :: members))
            (Range.tail_of total body (total - (123 :: (w1 ++ body)).length) ctr nm)).bind
          (fun x => (class_cleanup_now unchecked x.2).bind
            (fun r => Outcome.ok (JValue.object x.1, r))) := by
  have h2 : (123 :: (w1 ++ body)).length ≤ total := by
    simp only [List.length_append, List.length_cons] at h ⊢; omega
  have h3 : (w1 ++ body).length ≤ total := by
    simp only [List.length_cons] at h2; omega
  unfold parse_json_class
  simp only [bind_eq_outcome_bind]
  rw [trim_left_whitespace unchecked total w0 (123 :: (w1 ++ body)) cf ctr nm hw0
    (show is_space 123 = false by decide) h]
  have hopen : is_opening_brace_checked (Range.tail_of total (123 :: (w1 ++ body)) cf ctr nm)
      = true := by
    unfold is_opening_brace_checked Range.front_is
    rw [tail_of_has_more total 123 _ cf ctr nm h2]
    rfl
  rw [hopen, assert_weak_true, Outcome.bind_ok]
  rw [show set_class_position (Range.tail_of total (123 :: (w1 ++ body)) cf ctr nm)
      = Range.tail_of total (123 :: (w1 ++ body)) (total - (123 :: (w1 ++ body)).length) ctr nm
      from rfl,
    tail_of_advance_one total 123 _ _ ctr nm h2,
    trim_left_whitespace unchecked total w1 body _ ctr nm hw1 hbody h3]
  simp only [List.isEmpty_cons, Bool.false_eq_true, if_false]

theorem parse_value_Class_open (pv : ValueParser) (unchecked : Bool)
    (m : List Nat × Kind) (members : List (List Nat × Kind))
    (total : Nat) (w0 w1 body : List Nat) (cf : Nat) (ctr : Int) (nm : Bool)
    (hw0 : whitespace w0) (hw1 : whitespace w1) (hbody : is_space (body.headD 0) = false)
    (h : (w0 ++ 123 :: (w1 ++ body)).length ≤ total) :
    parse_value_Class pv (m :: members) false unchecked
        (Range.tail_of total (w0 ++ 123 :: (w1 ++ body)) cf ctr nm)
      = (parse_class_members pv unchecked (m :: members) 0
            (make_locations_info (m :: members))
            (Range.tail_of total body (total - (123 :: (w1 ++ body)).length) ctr nm)).bind
          (fun x => (class_cleanup_now unchecked x.2).bind
            (fun r => Outcome.ok (JValue.object x.1, trim_left_checked r))) := by
  unfold parse_value_Class
  simp only [bind_eq_outcome_bind, Bool.false_eq_true, if_false]
  rw [tail_of_has_more_append total w0 123 _ cf ctr nm h, assert_weak_true, Outcome.bind_ok,
    parse_json_class_open pv unchecked m members total w0 w1 body cf ctr nm hw0 hw1 hbody h]
  cases parse_class_members pv unchecked (m :: members) 0 (make_locations_info (m :: members))
      (Range.tail_of total body (total - (123 :: (w1 ++ body)).length) ctr nm) with
  | ok x =>
    simp only [Outcome.bind_ok]
    cases class_cleanup_now unchecked x.2 <;> rfl
  | failed e => rfl
  | undefined => rfl

theorem digits_foldl (l : List Nat) : ∀ acc : Nat,
    l.foldl (fun acc c => acc * 10 + (c - 48)) acc
      = acc * 10 ^ l.length + l.foldl (fun acc c => acc * 10 + (c - 48)) 0 := by
  induction l with
  | nil => intro acc; simp
  | cons c cs ih =>
    intro acc
    simp only [List.foldl_cons, List.length_cons]
    rw [ih (acc * 10 + (c - 48)), ih (0 * 10 + (c - 48))]
    ring

theorem digits_value_append (a b : List Nat) :
    digits_value (a ++ b) = digits_value a * 10 ^ b.length + digits_value b := by
  unfold digits_value
  rw [List.foldl_append, digits_foldl b]

theorem digit_pairs_spec : ∀ (fuel v : Nat) (buff : List Nat),
    ∃ ds, (digit_pairs fuel v buff).2 = buff ++ ds
      ∧ (∀ c, c ∈ ds → is_digit c = true)
      ∧ digits_value ds.reverse + 10 ^ ds.length * (digit_pairs fuel v buff).1 = v
      ∧ (v < 10 * 100 ^ fuel → (digit_pairs fuel v buff).1 < 10) := by
  intro fuel
  induction fuel with
  | zero =>
    intro v buff
    exact ⟨[], by simp [digit_pairs], by simp, by simp [digit_pairs, digits_value],
      by simp [digit_pairs]⟩
  | succ fuel ih =>
    intro v buff
    by_cases hv : v ≥ 10
    · obtain ⟨ds, h1, h2, h3, h4⟩ := ih (v / 100)
        (buff ++ [(digits100 (v % 100)).1, (digits100 (v % 100)).2])
      have hstep : digit_pairs (fuel + 1) v buff = digit_pairs fuel (v / 100)
          (buff ++ [(digits100 (v % 100)).1, (digits100 (v % 100)).2]) := by
        simp only [digit_pairs, hv, if_true]
      rw [hstep]
      refine ⟨[(digits100 (v % 100)).1, (digits100 (v % 100)).2] ++ ds, ?_, ?_, ?_, ?_⟩
      · rw [h1]; simp
      · intro c hc
        simp only [List.cons_append, List.nil_append, List.mem_cons] at hc
        rcases hc with rfl | rfl | hc
        · simp only [digits100, is_digit, Bool.and_eq_true, decide_eq_true_eq]; omega
        · simp only [digits100, is_digit, Bool.and_eq_true, decide_eq_true_eq]; omega
        · exact h2 c hc
      · have hrev : ([(digits100 (v % 100)).1, (digits100 (v % 100)).2] ++ ds).reverse
            = ds.reverse ++ [(digits100 (v % 100)).2, (digits100 (v % 100)).1] := by simp
        rw [hrev, digits_value_append]
        have hlow : digits_value [(digits100 (v % 100)).2, (digits100 (v % 100)).1] = v % 100 := by
          simp only [digits_value, digits100, List.foldl_cons, List.foldl_nil]
          omega
        rw [hlow]
        have hpow : 10 ^ ([(digits100 (v % 100)).1, (digits100 (v % 100)).2] ++ ds).length
              * (digit_pairs fuel (v / 100)
                  (buff ++ [(digits100 (v % 100)).1, (digits100 (v % 100)).2])).1
            = 100 * (10 ^ ds.length * (digit_pairs fuel (v / 100)
                  (buff ++ [(digits100 (v % 100)).1, (digits100 (v % 100)).2])).1) := by
          simp only [List.cons_append, List.nil_append, List.length_cons]
          ring
        rw [hpow]
        simp only [List.length_cons, List.length_nil]
        omega
      · intro hlt
        apply h4
        have : (100 : Nat) ^ (fuel + 1) = 100 * 100 ^ fuel := by ring
        omega
    · have hstep : digit_pairs (fuel + 1) v buff = (v, buff) := by
        simp only [digit_pairs, hv, if_false]
      rw [hstep]
      exact ⟨[], by simp, by simp, by simp [digits_value], fun _ => by omega⟩

theorem fill_buff_spec (v : Nat) (buff : List Nat) (hv : v < 10 * 100 ^ 64) :
    ∃ ds, fill_buff v buff = buff ++ ds ∧ ds ≠ []
      ∧ (∀ c, c ∈ ds → is_digit c = true) ∧ digits_value ds.reverse = v := by
  by_cases h0 : v = 0
  · subst h0
    exact ⟨[48], by simp [fill_buff, digit_pairs], by simp, by simp [is_digit],
      by simp [digits_value]⟩
  · obtain ⟨ds, h1, h2, h3, h4⟩ := digit_pairs_spec 64 v buff
    have hlt := h4 hv
    have hfill : fill_buff v buff = if (digit_pairs 64 v buff).1 > 0
        then (digit_pairs 64 v buff).2 ++ [48 + (digit_pairs 64 v buff).1]
        else (digit_pairs 64 v buff).2 := by
      simp only [fill_buff, beq_iff_eq, h0, if_false]
    rw [hfill]
    by_cases hpos : (digit_pairs 64 v buff).1 > 0
    · rw [if_pos hpos, h1]
      refine ⟨ds ++ [48 + (digit_pairs 64 v buff).1], by simp, by simp, ?_, ?_⟩
      · intro c hc
        simp only [List.mem_append, List.mem_singleton] at hc
        rcases hc with hc | rfl
        · exact h2 c hc
        · simp only [is_digit, Bool.and_eq_true, decide_eq_true_eq]; omega
      · have hrev : (ds ++ [48 + (digit_pairs 64 v buff).1]).reverse
            = [48 + (digit_pairs 64 v buff).1] ++ ds.reverse := by simp
        rw [hrev, digits_value_append]
        simp only [digits_value, List.foldl_cons, List.foldl_nil, List.length_reverse]
        have : (0 * 10 + (48 + (digit_pairs 64 v buff).1 - 48)) * 10 ^ ds.length
            = 10 ^ ds.length * (digit_pairs 64 v buff).1 := by
          rw [show 0 * 10 + (48 + (digit_pairs 64 v buff).1 - 48) = (digit_pairs 64 v buff).1
            by omega]
          ring
        rw [this]
        simp only [digits_value] at h3
        omega
    · rw [if_neg hpos, h1]
      have hz : (digit_pairs 64 v buff).1 = 0 := by omega
      rw [hz] at h3
      refine ⟨ds, rfl, ?_, h2, by simpa using h3⟩
      intro hnil
      subst hnil
      simp [digits_value] at h3
      omega

theorem unsigned_text (u : Nat) (hu : u < 10 * 100 ^ 64) :
    ∃ D, to_daw_json_string_Unsigned LiteralAsStringOpt.Never (u : Int) = Outcome.ok D
      ∧ D ≠ [] ∧ (∀ c, c ∈ D → is_digit c = true) ∧ digits_value D = u := by
  obtain ⟨ds, h1, h2, h3, h4⟩ := fill_buff_spec u [] hu
  refine ⟨ds.reverse, ?_, by simpa using h2, fun c hc => h3 c (by simpa using hc), h4⟩
  unfold to_daw_json_string_Unsigned daw_json_assert
  simp only [Int.natCast_nonneg, decide_True, if_true, bind_eq_outcome_bind, Outcome.bind_ok,
    Int.toNat_ofNat, h1, quote_when_always]
  simp

theorem signed_text_nonneg (n : Nat) (hn : n < 10 * 100 ^ 64) :
    ∃ D, to_daw_json_string_Signed LiteralAsStringOpt.Never (n : Int) = D
      ∧ D ≠ [] ∧ (∀ c, c ∈ D → is_digit c = true) ∧ digits_value D = n := by
  obtain ⟨ds, h1, h2, h3, h4⟩ := fill_buff_spec n [] hn
  refine ⟨ds.reverse, ?_, by simpa using h2, fun c hc => h3 c (by simpa using hc), h4⟩
  unfold to_daw_json_string_Signed
  have : ¬ ((n : Int) < 0) := by omega
  simp only [this, if_false, Int.toNat_ofNat, h1, quote_when_always]
  simp

theorem signed_text_neg (k : Nat) (hk : k + 1 < 10 * 100 ^ 64) :
    ∃ D, to_daw_json_string_Signed LiteralAsStringOpt.Never (Int.negSucc k) = 45 :: D
      ∧ D ≠ [] ∧ (∀ c, c ∈ D → is_digit c = true) ∧ digits_value D = k + 1 := by
  have hmod : Int.tmod (Int.negSucc k) 10 = -(((k + 1) % 10 : Nat) : Int) := rfl
  have hdiv : Int.tdiv (Int.negSucc k) (-10) = (((k + 1) / 10 : Nat) : Int) := rfl
  have hd0 : (48 - Int.tmod (Int.negSucc k) 10).toNat = 48 + (k + 1) % 10 := by
    rw [hmod]; omega
  unfold to_daw_json_string_Signed
  simp only [Int.negSucc_lt_zero, if_true, hd0, hdiv, Int.toNat_ofNat, quote_when_always]
  by_cases hz : (k + 1) / 10 = 0
  · refine ⟨[48 + (k + 1) % 10], ?_, by simp, ?_, ?_⟩
    · simp [hz]
    · intro c hc
      simp only [List.mem_singleton] at hc
      subst hc
      simp only [is_digit, Bool.and_eq_true, decide_eq_true_eq]; omega
    · simp only [digits_value, List.foldl_cons, List.foldl_nil]; omega
  · obtain ⟨ds, h1, h2, h3, h4⟩ := fill_buff_spec ((k + 1) / 10) [48 + (k + 1) % 10]
      (by omega)
    refine ⟨ds.reverse ++ [48 + (k + 1) % 10], ?_, by simp, ?_, ?_⟩
    · have hz2 : ((((k + 1) / 10 : Nat) : Int) == 0) = false := by
        simp only [beq_eq_false_iff_ne, ne_eq]; omega
      rw [hz2]
      simp only [Bool.false_eq_true, if_false, h1]
      simp
    · intro c hc
      simp only [List.mem_append, List.mem_reverse, List.mem_singleton] at hc
      rcases hc with hc | rfl
      · exact h3 c hc
      · simp only [is_digit, Bool.and_eq_true, decide_eq_true_eq]; omega
    · rw [digits_value_append, h4]
      simp only [digits_value, List.foldl_cons, List.foldl_nil, List.length_singleton]
      omega

theorem takeWhile_digits (D rest : List Nat) (hD : ∀ c, c ∈ D → is_digit c = true)
    (hrest : is_digit (rest.headD 0) = false) :
    (D ++ rest).takeWhile is_digit = D := by
  induction D with
  | nil =>
    cases rest with
    | nil => rfl
    | cons c cs =>
      have : is_digit c = false := hrest
      simp [List.takeWhile_cons, this]
  | cons d D ih =>
    have hd : is_digit d = true := hD d (List.mem_cons_self _ _)
    simp only [List.cons_append, List.takeWhile_cons, hd, if_true]
    exact congrArg _ (ih (fun c hc => hD c (List.mem_cons_of_mem _ hc)))

theorem parse_unsigned_integer_digits (bits max : Nat) (unchecked : Bool) (total : Nat)
    (D rest : List Nat) (cf : Nat) (ctr : Int) (nm : Bool)
    (hD : ∀ c, c ∈ D → is_digit c = true) (hrest : is_digit (rest.headD 0) = false)
    (h : (D ++ rest).length ≤ total) :
    parse_unsigned_integer bits max false unchecked (Range.tail_of total (D ++ rest) cf ctr nm)
      = Outcome.ok (digits_value D % 2 ^ bits, Range.tail_of total rest cf ctr nm) := by
  unfold parse_unsigned_integer
  simp only [tail_of_window unchecked total _ cf ctr nm h, takeWhile_digits D rest hD hrest,
    Bool.false_and, Bool.false_eq_true, if_false,
    tail_of_advance total D rest cf ctr nm h]

theorem digit_facts (d : Nat) (hd : is_digit d = true) :
    (d != 34) = true ∧ is_real_number_part d = true ∧ (d == 45) = false ∧ (d == 43) = false := by
  simp only [is_digit, Bool.and_eq_true, decide_eq_true_eq] at hd
  refine ⟨?_, ?_, ?_, ?_⟩
  · simp only [bne_iff_ne, ne_eq]; omega
  · simp only [is_real_number_part, Bool.or_eq_true, Bool.and_eq_true, decide_eq_true_eq]
    exact Or.inl (Or.inl (Or.inl (Or.inl hd)))
  · simp only [beq_eq_false_iff_ne, ne_eq]; omega
  · simp only [beq_eq_false_iff_ne, ne_eq]; omega

theorem separator_facts (c : Nat) (hc : c = 44 ∨ c = 125) :
    is_digit c = false ∧ (c != 34) = true ∧ is_space c = false ∧ at_end_of_item c = true := by
  rcases hc with rfl | rfl <;> decide

theorem parse_value_Unsigned_digits (unchecked : Bool) (total : Nat)
    (D rest : List Nat) (cf : Nat) (ctr : Int) (nm : Bool) (hne : D ≠ [])
    (hD : ∀ c, c ∈ D → is_digit c = true)
    (hsep : rest.headD 0 = 44 ∨ rest.headD 0 = 125)
    (h : (D ++ rest).length ≤ total) :
    parse_value_Unsigned 32 LiteralAsStringOpt.Never false false unchecked
        (Range.tail_of total (D ++ rest) cf ctr nm)
      = Outcome.ok (digits_value D % 2 ^ 32, Range.tail_of total rest cf ctr nm) := by
  obtain ⟨hs1, hs2, -, hs4⟩ := separator_facts _ hsep
  have hparse := parse_unsigned_integer_digits 32 (2 ^ 32 - 1) unchecked total D rest cf ctr nm
    hD hs1 h
  cases D with
  | nil => exact absurd rfl hne
  | cons d D =>
    obtain ⟨hd1, hd2, -, -⟩ := digit_facts d (hD d (List.mem_cons_self _ _))
    rw [List.cons_append] at h hparse ⊢
    have hfront : (Range.tail_of total (d :: (D ++ rest)) cf ctr nm).front = d := rfl
    have hfront2 : (Range.tail_of total rest cf ctr nm).front = rest.headD 0 := rfl
    unfold parse_value_Unsigned
    simp only [Bool.false_eq_true, if_false, bind_eq_outcome_bind,
      skip_quote_when_literal_as_string]
    rw [tail_of_has_more total d (D ++ rest) cf ctr nm h, assert_weak_true, Outcome.bind_ok,
      hfront, hd1, assert_weak_true, Outcome.bind_ok, Outcome.bind_ok, hfront, hd2,
      assert_weak_true, Outcome.bind_ok, hparse, Outcome.bind_ok]
    simp only [hfront2, hs2, hs4, assert_weak_true, Outcome.bind_ok]

theorem parse_value_Signed_digits (unchecked : Bool) (total : Nat)
    (D rest : List Nat) (cf : Nat) (ctr : Int) (nm : Bool) (hne : D ≠ [])
    (hD : ∀ c, c ∈ D → is_digit c = true)
    (hsep : rest.headD 0 = 44 ∨ rest.headD 0 = 125)
    (h : (D ++ rest).length ≤ total) :
    parse_value_Signed 32 LiteralAsStringOpt.Never false false unchecked
        (Range.tail_of total (D ++ rest) cf ctr nm)
      = Outcome.ok (to_signed 32 (1 * to_signed 32 ((digits_value D % 2 ^ 32 : Nat) : Int)),
          Range.tail_of total rest cf ctr nm) := by
  obtain ⟨hs1, hs2, hs3, hs4⟩ := separator_facts _ hsep
  have hparse := parse_unsigned_integer_digits 32 (2 ^ (32 - 1) - 1) unchecked total D rest cf
    ctr nm hD hs1 h
  have hlen : rest.length ≤ total := by
    simp only [List.length_append] at h; omega
  cases D with
  | nil => exact absurd rfl hne
  | cons d D =>
    obtain ⟨hd1, hd2, hd3, hd4⟩ := digit_facts d (hD d (List.mem_cons_self _ _))
    rw [List.cons_append] at h hparse ⊢
    have hfront : (Range.tail_of total (d :: (D ++ rest)) cf ctr nm).front = d := rfl
    have hfront2 : (Range.tail_of total rest cf ctr nm).front = rest.headD 0 := rfl
    unfold parse_value_Signed
    simp only [Bool.false_eq_true, if_false, bind_eq_outcome_bind,
      skip_quote_when_literal_as_string]
    rw [tail_of_has_more total d (D ++ rest) cf ctr nm h, assert_weak_true, Outcome.bind_ok,
      hfront, hd1, assert_weak_true, Outcome.bind_ok, Outcome.bind_ok, hfront, hd2,
      assert_weak_true, Outcome.bind_ok, Outcome.bind_ok]
    simp only [hfront, hd3, hd4, Bool.false_eq_true, if_false]
    rw [hparse, Outcome.bind_ok]
    simp only [hfront2, hs2, hs4, assert_weak_true, Outcome.bind_ok,
      trim_left_none unchecked total rest cf ctr nm hs3 hlen]

theorem parse_value_Signed_minus (unchecked : Bool) (total : Nat)
    (D rest : List Nat) (cf : Nat) (ctr : Int) (nm : Bool)
    (hD : ∀ c, c ∈ D → is_digit c = true)
    (hsep : rest.headD 0 = 44 ∨ rest.headD 0 = 125)
    (h : (45 :: (D ++ rest)).length ≤ total) :
    parse_value_Signed 32 LiteralAsStringOpt.Never false false unchecked
        (Range.tail_of total (45 :: (D ++ rest)) cf ctr nm)
      = Outcome.ok
          (to_signed 32 (-1 * to_signed 32 ((digits_value D % 2 ^ 32 : Nat) : Int)),
          Range.tail_of total rest cf ctr nm) := by
  obtain ⟨hs1, hs2, hs3, hs4⟩ := separator_facts _ hsep
  have hfront : (Range.tail_of total (45 :: (D ++ rest)) cf ctr nm).front = 45 := rfl
  have hfront2 : (Range.tail_of total rest cf ctr nm).front = rest.headD 0 := rfl
  have h2 : (D ++ rest).length ≤ total := by
    simp only [List.length_cons] at h ⊢; omega
  have hlen : rest.length ≤ total := by
    simp only [List.length_append] at h2; omega
  unfold parse_value_Signed
  simp only [Bool.false_eq_true, if_false, bind_eq_outcome_bind,
    skip_quote_when_literal_as_string]
  rw [tail_of_has_more total 45 (D ++ rest) cf ctr nm h, assert_weak_true, Outcome.bind_ok,
    hfront, show ((45 : Nat) != 34) = true from rfl,
    assert_weak_true, Outcome.bind_ok, Outcome.bind_ok, hfront,
    show is_real_number_part 45 = true from rfl, assert_weak_true,
    Outcome.bind_ok, Outcome.bind_ok]
  simp only [hfront, beq_self_eq_true, if_true,
    tail_of_advance_one total 45 (D ++ rest) cf ctr nm h]
  rw [parse_unsigned_integer_digits 32 _ unchecked total D rest cf ctr nm hD hs1 h2,
    Outcome.bind_ok]
  simp only [hfront2, hs2, hs4, assert_weak_true, Outcome.bind_ok,
    trim_left_none unchecked total rest cf ctr nm hs3 hlen]

theorem to_signed_pos (m : Nat) (h : m < 2 ^ 31) :
    to_signed 32 (1 * to_signed 32 ((m % 2 ^ 32 : Nat) : Int)) = (m : Int) := by
  have e1 : (2 : Int) ^ 32 = 4294967296 := by norm_num
  have e2 : (2 : Int) ^ (32 - 1) = 2147483648 := by norm_num
  have e3 : (2 : Nat) ^ 32 = 4294967296 := by norm_num
  have e4 : (2 : Nat) ^ 31 = 2147483648 := by norm_num
  rw [e4] at h
  have hin : to_signed 32 ((m % 2 ^ 32 : Nat) : Int) = (m : Int) := by
    unfold to_signed
    rw [e1, e2, e3]
    rw [if_pos (by omega)]
    omega
  rw [hin, one_mul]
  unfold to_signed
  rw [e1, e2, if_pos (by omega)]
  omega

theorem to_signed_neg (m : Nat) (h0 : 0 < m) (h : m ≤ 2 ^ 31) :
    to_signed 32 (-1 * to_signed 32 ((m % 2 ^ 32 : Nat) : Int)) = -(m : Int) := by
  have e1 : (2 : Int) ^ 32 = 4294967296 := by norm_num
  have e2 : (2 : Int) ^ (32 - 1) = 2147483648 := by norm_num
  have e3 : (2 : Nat) ^ 32 = 4294967296 := by norm_num
  have e4 : (2 : Nat) ^ 31 = 2147483648 := by norm_num
  rw [e4] at h
  by_cases hm : m = 2147483648
  · subst hm
    decide
  · have hin : to_signed 32 ((m % 2 ^ 32 : Nat) : Int) = (m : Int) := by
      unfold to_signed
      rw [e1, e2, e3]
      rw [if_pos (by omega)]
      omega
    rw [hin]
    unfold to_signed
    rw [e1, e2, if_neg (by omega)]
    omega

theorem signed_round_trip (unchecked : Bool) (n : Int) (hn : -2 ^ 31 ≤ n ∧ n < 2 ^ 31)
    (total : Nat) (rest : List Nat) (cf : Nat) (ctr : Int) (nm : Bool)
    (hsep : rest.headD 0 = 44 ∨ rest.headD 0 = 125)
    (h : (to_daw_json_string_Signed LiteralAsStringOpt.Never n ++ rest).length ≤ total) :
    parse_value_Signed 32 LiteralAsStringOpt.Never false false unchecked
        (Range.tail_of total (to_daw_json_string_Signed LiteralAsStringOpt.Never n ++ rest)
          cf ctr nm)
      = Outcome.ok (n, Range.tail_of total rest cf ctr nm) := by
  have e1 : (2 : Int) ^ 31 = 2147483648 := by norm_num
  have e2 : (2 : Nat) ^ 31 = 2147483648 := by norm_num
  rw [e1] at hn
  cases n with
  | ofNat m =>
    have hm : m < 2147483648 := by
      have := hn.2
      simp only [Int.ofNat_eq_coe] at this
      omega
    obtain ⟨D, h1, h2, h3, h4⟩ := signed_text_nonneg m (by omega)
    simp only [Int.ofNat_eq_coe] at h ⊢
    rw [h1] at h ⊢
    rw [parse_value_Signed_digits unchecked total D rest cf ctr nm h2 h3 hsep h, h4,
      to_signed_pos m (by omega)]
  | negSucc k =>
    have hk : k + 1 ≤ 2147483648 := by
      have := hn.1
      rw [Int.negSucc_eq] at this
      omega
    obtain ⟨D, h1, h2, h3, h4⟩ := signed_text_neg k (by omega)
    rw [h1] at h ⊢
    rw [List.cons_append] at h ⊢
    rw [parse_value_Signed_minus unchecked total D rest cf ctr nm h3 hsep h, h4,
      to_signed_neg (k + 1) (by omega) (by omega)]
    rfl

theorem bool_literal_tail (unchecked : Bool) (b : Bool)
    (total : Nat) (rest : List Nat) (cf : Nat) (ctr : Int) (nm : Bool)
    (hsep : rest.headD 0 = 44 ∨ rest.headD 0 = 125) (hlen : rest.length ≤ total) :
    ((daw_json_assert_weak unchecked ((Range.tail_of total rest cf ctr nm).front != 34)
          ErrorReason.InvalidNumber).bind
        fun _ => Outcome.ok (Range.tail_of total rest cf ctr nm)).bind
      (fun rng =>
        (daw_json_assert_weak unchecked (at_end_of_item (trim_left unchecked rng).front)
            ErrorReason.InvalidLiteral).bind
          fun _ => Outcome.ok (b, trim_left unchecked rng))
      = Outcome.ok (b, Range.tail_of total rest cf ctr nm) := by
  obtain ⟨-, hs2, hs3, hs4⟩ := separator_facts _ hsep
  have hfront2 : (Range.tail_of total rest cf ctr nm).front = rest.headD 0 := rfl
  rw [hfront2, hs2, assert_weak_true, Outcome.bind_ok, Outcome.bind_ok,
    trim_left_none unchecked total rest cf ctr nm hs3 hlen, hfront2, hs4, assert_weak_true,
    Outcome.bind_ok]

theorem bool_round_trip (unchecked : Bool) (b : Bool)
    (total : Nat) (rest : List Nat) (cf : Nat) (ctr : Int) (nm : Bool)
    (hsep : rest.headD 0 = 44 ∨ rest.headD 0 = 125)
    (h : (to_daw_json_string_Bool LiteralAsStringOpt.Never b ++ rest).length ≤ total) :
    parse_value_Bool LiteralAsStringOpt.Never false unchecked
        (Range.tail_of total (to_daw_json_string_Bool LiteralAsStringOpt.Never b ++ rest)
          cf ctr nm)
      = Outcome.ok (b, Range.tail_of total rest cf ctr nm) := by
  have hlen : rest.length ≤ total := by
    simp only [List.length_append] at h; omega
  have htail := bool_literal_tail unchecked b total rest cf ctr nm hsep hlen
  cases b
  · have ht : to_daw_json_string_Bool LiteralAsStringOpt.Never false ++ rest
        = 102 :: 97 :: 108 :: 115 :: 101 :: rest := rfl
    rw [ht] at h ⊢
    have hsz := tail_of_size total _ cf ctr nm h
    have hrem : remove_prefix
        (Range.tail_of total (102 :: 97 :: 108 :: 115 :: 101 :: rest) cf ctr nm) 5
        = Range.tail_of total rest cf ctr nm :=
      tail_of_advance total [102, 97, 108, 115, 101] rest cf ctr nm h
    have h4 : decide (4 ≤ (102 :: 97 :: 108 :: 115 :: 101 :: rest).length) = true :=
      decide_eq_true (by simp only [List.length_cons]; omega)
    have h5 : decide ((bytes "false").length
        ≤ (102 :: 97 :: 108 :: 115 :: 101 :: rest).length) = true :=
      decide_eq_true (by simp only [List.length_cons]; exact Nat.le_add_left _ _)
    unfold parse_value_Bool
    simp only [Bool.false_eq_true, if_false, bind_eq_outcome_bind,
      skip_quote_when_literal_as_string, Range.starts_with, hsz]
    rw [h4, assert_weak_true, Outcome.bind_ok,
      show ((Range.tail_of total (102 :: 97 :: 108 :: 115 :: 101 :: rest) cf ctr nm).front
        != 34) = true from rfl, assert_weak_true, Outcome.bind_ok, Outcome.bind_ok]
    cases unchecked
    · simp only [Bool.false_eq_true, if_false, hsz, h5, Bool.true_and]
      rw [show (List.take (bytes "true").length
          (Range.tail_of total (102 :: 97 :: 108 :: 115 :: 101 :: rest) cf ctr nm).data
            == bytes "true") = false from rfl,
        show (List.take (bytes "false").length
          (Range.tail_of total (102 :: 97 :: 108 :: 115 :: 101 :: rest) cf ctr nm).data
            == bytes "false") = true from rfl]
      simp only [Bool.and_false, Bool.false_eq_true, if_false, if_true, Outcome.bind_ok, hrem]
      exact htail
    · simp only [if_true]
      rw [show ((Range.tail_of total (102 :: 97 :: 108 :: 115 :: 101 :: rest) cf ctr nm).front
        == 116) = false from rfl]
      simp only [Bool.false_eq_true, if_false, Outcome.bind_ok, hrem]
      exact htail
  · have ht : to_daw_json_string_Bool LiteralAsStringOpt.Never true ++ rest
        = 116 :: 114 :: 117 :: 101 :: rest := rfl
    rw [ht] at h ⊢
    have hsz := tail_of_size total _ cf ctr nm h
    have hrem : remove_prefix
        (Range.tail_of total (116 :: 114 :: 117 :: 101 :: rest) cf ctr nm) 4
        = Range.tail_of total rest cf ctr nm :=
      tail_of_advance total [116, 114, 117, 101] rest cf ctr nm h
    have h4 : decide (4 ≤ (116 :: 114 :: 117 :: 101 :: rest).length) = true :=
      decide_eq_true (by simp only [List.length_cons]; omega)
    have h5 : decide ((bytes "true").length
        ≤ (116 :: 114 :: 117 :: 101 :: rest).length) = true :=
      decide_eq_true (by simp only [List.length_cons]; exact Nat.le_add_left _ _)
    unfold parse_value_Bool
    simp only [Bool.false_eq_true, if_false, bind_eq_outcome_bind,
      skip_quote_when_literal_as_string, Range.starts_with, hsz]
    rw [h4, assert_weak_true, Outcome.bind_ok,
      show ((Range.tail_of total (116 :: 114 :: 117 :: 101 :: rest) cf ctr nm).front
        != 34) = true from rfl, assert_weak_true, Outcome.bind_ok, Outcome.bind_ok]
    cases unchecked
    · simp only [Bool.false_eq_true, if_false, hsz, h5, Bool.true_and]
      rw [show (List.take (bytes "true").length
          (Range.tail_of total (116 :: 114 :: 117 :: 101 :: rest) cf ctr nm).data
            == bytes "true") = true from rfl]
      simp only [if_true, Outcome.bind_ok, hrem]
      exact htail
    · simp only [if_true]
      rw [show ((Range.tail_of total (116 :: 114 :: 117 :: 101 :: rest) cf ctr nm).front
        == 116) = true from rfl]
      simp only [if_true, Outcome.bind_ok, hrem]
      exact htail

theorem string_value_at (mode : EightBitModes) (unchecked : Bool) (fuel : Nat)
    (cps : List Nat) (hcps : ∀ cp, cp ∈ cps → is_scalar_value cp)
    (total : Nat) (rest : List Nat) (cf : Nat) (ctr : Int) (nm : Bool)
    (h : (34 :: (escape_texts mode cps ++ 34 :: rest)).length ≤ total) :
    parse_value (fuel + 1) unchecked (Kind.StringEscaped mode) false
        (Range.tail_of total (34 :: (escape_texts mode cps ++ 34 :: rest)) cf ctr nm)
      = Outcome.ok (JValue.string (utf8_string cps), Range.tail_of total rest cf ctr nm) := by
  have hlen : (34 :: (escape_texts mode cps ++ 34 :: rest)).length
      = (escape_texts mode cps).length + rest.length + 2 := by
    simp only [List.length_cons, List.length_append]; omega
  have hp := parse_value_StringEscaped_text mode unchecked cps hcps rest
    (total - (34 :: (escape_texts mode cps ++ 34 :: rest)).length) total cf ctr nm (by omega)
  have hpos : total - (34 :: (escape_texts mode cps ++ 34 :: rest)).length
      + (escape_texts mode cps).length + 2 = total - rest.length := by omega
  rw [hpos] at hp
  show (parse_value_StringEscaped mode false unchecked _).bind _ = _
  exact (congrArg (fun o => Outcome.bind o _) hp).trans rfl

theorem copy_plain_allow_full (l : List Nat) :
    copy_plain EightBitModes.AllowFull l = Outcome.ok l := by
  induction l with
  | nil => rfl
  | cons c cs ih =>
    simp only [copy_plain, bind_eq_outcome_bind, ih]
    rfl

theorem parse_class_member_first (pv : ValueParser) (unchecked : Bool) (pos : Nat)
    (locations : Locations) (k : Kind)
    (first_name : List Nat) (hpos : locations.get? pos = some (first_name, none))
    (total : Nat) (name rest : List Nat)
    (cf : Nat) (ctr : Int) (nm : Bool) (hname : ∀ c, c ∈ name → c ≠ 34 ∧ c ≠ 92)
    (hrest : is_space (rest.headD 0) = false)
    (h : (34 :: (name ++ 34 :: 58 :: rest)).length ≤ total) :
    parse_class_member pv unchecked pos name k locations
        (Range.tail_of total (34 :: (name ++ 34 :: 58 :: rest)) cf ctr nm)
      = (pv k false (Range.tail_of total rest cf ctr nm)).bind
          (fun x => Outcome.ok (x.1, locations, x.2)) :=
  parse_class_member_in_order pv unchecked pos locations k first_name hpos total
    (34 :: (name ++ 34 :: 58 :: rest)) name [] [] rest cf ctr nm hname whitespace_nil
    whitespace_nil hrest h
    (clean_tail_whitespace unchecked total [] (34 :: (name ++ 34 :: 58 :: rest)) cf ctr nm
      whitespace_nil (show is_space 34 = false by decide) (show (34 : Nat) ≠ 44 by decide) h)

theorem parse_class_member_next (pv : ValueParser) (unchecked : Bool) (pos : Nat)
    (locations : Locations) (k : Kind)
    (first_name : List Nat) (hpos : locations.get? pos = some (first_name, none))
    (total : Nat) (name rest : List Nat)
    (cf : Nat) (ctr : Int) (nm : Bool) (hname : ∀ c, c ∈ name → c ≠ 34 ∧ c ≠ 92)
    (hrest : is_space (rest.headD 0) = false)
    (h : (44 :: 34 :: (name ++ 34 :: 58 :: rest)).length ≤ total) :
    parse_class_member pv unchecked pos name k locations
        (Range.tail_of total (44 :: 34 :: (name ++ 34 :: 58 :: rest)) cf ctr nm)
      = (pv k false (Range.tail_of total rest cf ctr nm)).bind
          (fun x => Outcome.ok (x.1, locations, x.2)) :=
  parse_class_member_in_order pv unchecked pos locations k first_name hpos total
    (44 :: 34 :: (name ++ 34 :: 58 :: rest)) name [] [] rest cf ctr nm hname whitespace_nil
    whitespace_nil hrest (Nat.le_of_succ_le h)
    (clean_tail_comma unchecked total [] [] (34 :: (name ++ 34 :: 58 :: rest)) cf ctr nm
      whitespace_nil whitespace_nil (show is_space 34 = false by decide) h)

theorem class_cleanup_now_brace (unchecked : Bool) (total : Nat) (rest : List Nat)
    (cf : Nat) (ctr : Int) (nm : Bool) (hrest : is_space (rest.headD 0) = false)
    (h : (125 :: rest).length ≤ total) :
    class_cleanup_now unchecked (Range.tail_of total (125 :: rest) cf ctr nm)
      = Outcome.ok (Range.tail_of total rest cf ctr nm) :=
  class_cleanup_now_at_end unchecked total [] [] rest cf ctr nm whitespace_nil whitespace_nil
    hrest h

theorem parse_value_Class_brace (pv : ValueParser) (unchecked : Bool)
    (m : List Nat × Kind) (members : List (List Nat × Kind))
    (total : Nat) (body : List Nat) (cf : Nat) (ctr : Int) (nm : Bool)
    (hbody : is_space (body.headD 0) = false) (h : (123 :: body).length ≤ total) :
    parse_value_Class pv (m :: members) false unchecked
        (Range.tail_of total (123 :: body) cf ctr nm)
      = (parse_class_members pv unchecked (m :: members) 0
            (make_locations_info (m :: members))
            (Range.tail_of total body (total - (123 :: body).length) ctr nm)).bind
          (fun x => (class_cleanup_now unchecked x.2).bind
            (fun r => Outcome.ok (JValue.object x.1, trim_left_checked r))) :=
  parse_value_Class_open pv unchecked m members total [] [] body cf ctr nm whitespace_nil
    whitespace_nil hbody h

theorem digits_head (D X : List Nat) (hne : D ≠ []) (hD : ∀ c, c ∈ D → is_digit c = true) :
    is_space ((D ++ X).headD 0) = false := by
  cases D with
  | nil => exact absurd rfl hne
  | cons d D =>
    have hd := hD d (List.mem_cons_self _ _)
    simp only [is_digit, Bool.and_eq_true, decide_eq_true_eq] at hd
    simp only [List.cons_append, List.headD_cons, is_space, Bool.or_eq_false_iff,
      beq_eq_false_iff_ne, ne_eq]
    omega

theorem signed_text_head (n : Int) (hn : -2 ^ 31 ≤ n ∧ n < 2 ^ 31) (X : List Nat) :
    is_space ((to_daw_json_string_Signed LiteralAsStringOpt.Never n ++ X).headD 0) = false := by
  have e1 : (2 : Int) ^ 31 = 2147483648 := by norm_num
  rw [e1] at hn
  cases n with
  | ofNat m =>
    obtain ⟨D, h1, h2, h3, -⟩ := signed_text_nonneg m (by
      have := hn.2
      simp only [Int.ofNat_eq_coe] at this
      omega)
    simp only [Int.ofNat_eq_coe]
    rw [h1]
    exact digits_head D X h2 h3
  | negSucc k =>
    obtain ⟨D, h1, -, -, -⟩ := signed_text_neg k (by
      have := hn.1
      rw [Int.negSucc_eq] at this
      omega)
    rw [h1]
    rfl

theorem bool_text_head (b : Bool) (X : List Nat) :
    is_space ((to_daw_json_string_Bool LiteralAsStringOpt.Never b ++ X).headD 0) = false := by
  cases b <;> rfl

theorem signed_value_at (unchecked : Bool) (fuel : Nat) (n : Int)
    (hn : -2 ^ 31 ≤ n ∧ n < 2 ^ 31)
    (total : Nat) (rest : List Nat) (cf : Nat) (ctr : Int) (nm : Bool)
    (hsep : rest.headD 0 = 44 ∨ rest.headD 0 = 125)
    (h : (to_daw_json_string_Signed LiteralAsStringOpt.Never n ++ rest).length ≤ total) :
    parse_value (fuel + 1) unchecked (Kind.Signed 32 LiteralAsStringOpt.Never false) false
        (Range.tail_of total (to_daw_json_string_Signed LiteralAsStringOpt.Never n ++ rest)
          cf ctr nm)
      = Outcome.ok (JValue.number n, Range.tail_of total rest cf ctr nm) := by
  show (parse_value_Signed 32 LiteralAsStringOpt.Never false false unchecked _).bind _ = _
  rw [signed_round_trip unchecked n hn total rest cf ctr nm hsep h]
  rfl

theorem bool_value_at (unchecked : Bool) (fuel : Nat) (b : Bool)
    (total : Nat) (rest : List Nat) (cf : Nat) (ctr : Int) (nm : Bool)
    (hsep : rest.headD 0 = 44 ∨ rest.headD 0 = 125)
    (h : (to_daw_json_string_Bool LiteralAsStringOpt.Never b ++ rest).length ≤ total) :
    parse_value (fuel + 1) unchecked (Kind.Bool LiteralAsStringOpt.Never) false
        (Range.tail_of total (to_daw_json_string_Bool LiteralAsStringOpt.Never b ++ rest)
          cf ctr nm)
      = Outcome.ok (JValue.boolean b, Range.tail_of total rest cf ctr nm) := by
  show (parse_value_Bool LiteralAsStringOpt.Never false unchecked _).bind _ = _
  rw [bool_round_trip unchecked b total rest cf ctr nm hsep h]
  rfl

theorem unsigned_value_at (unchecked : Bool) (fuel : Nat) (D : List Nat)
    (total : Nat) (rest : List Nat) (cf : Nat) (ctr : Int) (nm : Bool) (hne : D ≠ [])
    (hD : ∀ c, c ∈ D → is_digit c = true) (hlt : digits_value D < 2 ^ 32)
    (hsep : rest.headD 0 = 44 ∨ rest.headD 0 = 125)
    (h : (D ++ rest).length ≤ total) :
    parse_value (fuel + 1) unchecked (Kind.Unsigned 32 LiteralAsStringOpt.Never false) false
        (Range.tail_of total (D ++ rest) cf ctr nm)
      = Outcome.ok (JValue.number (digits_value D), Range.tail_of total rest cf ctr nm) := by
  show (parse_value_Unsigned 32 LiteralAsStringOpt.Never false false unchecked _).bind _ = _
  rw [parse_value_Unsigned_digits unchecked total D rest cf ctr nm hne hD hsep h,
    Nat.mod_eq_of_lt hlt]
  rfl

theorem class_member_first (pv : ValueParser) (unchecked : Bool) (pos : Nat)
    (locations : Locations) (k : Kind) (total : Nat) (name rest : List Nat)
    (cf : Nat) (ctr : Int) (nm : Bool)
    (hpos : locations.get? pos = some (name, none))
    (hname : ∀ c, c ∈ name → c ≠ 34 ∧ c ≠ 92)
    (hrest : is_space (rest.headD 0) = false)
    (h : (34 :: (name ++ 34 :: 58 :: rest)).length ≤ total) :
    parse_class_member pv unchecked pos name k locations
        (Range.tail_of total (34 :: (name ++ 34 :: 58 :: rest)) cf ctr nm)
      = (pv k false (Range.tail_of total rest cf ctr nm)).bind
          (fun x => Outcome.ok (x.1, locations, x.2)) :=
  parse_class_member_first pv unchecked pos locations k name hpos total name rest cf ctr nm
    hname hrest h

theorem class_member_next (pv : ValueParser) (unchecked : Bool) (pos : Nat)
    (locations : Locations) (k : Kind) (total : Nat) (name rest : List Nat)
    (cf : Nat) (ctr : Int) (nm : Bool)
    (hpos : locations.get? pos = some (name, none))
    (hname : ∀ c, c ∈ name → c ≠ 34 ∧ c ≠ 92)
    (hrest : is_space (rest.headD 0) = false)
    (h : (44 :: 34 :: (name ++ 34 :: 58 :: rest)).length ≤ total) :
    parse_class_member pv unchecked pos name k locations
        (Range.tail_of total (44 :: 34 :: (name ++ 34 :: 58 :: rest)) cf ctr nm)
      = (pv k false (Range.tail_of total rest cf ctr nm)).bind
          (fun x => Outcome.ok (x.1, locations, x.2)) :=
  parse_class_member_next pv unchecked pos locations k name hpos total name rest cf ctr nm
    hname hrest h

theorem trim_left_checked_none (total : Nat) (rest : List Nat) (cf : Nat)
    (ctr : Int) (nm : Bool) (hrest : is_space (rest.headD 0) = false)
    (h : rest.length ≤ total) :
    trim_left_checked (Range.tail_of total rest cf ctr nm)
      = Range.tail_of total rest cf ctr nm :=
  trim_left_checked_whitespace total [] rest cf ctr nm whitespace_nil hrest h

theorem parse_MyClass1 (unchecked : Bool) (fuel : Nat) (cps : List Nat) (n : Int) (b : Bool)
    (hcps : ∀ cp, cp ∈ cps → is_scalar_value cp) (hn : -2 ^ 31 ≤ n ∧ n < 2 ^ 31)
    (total : Nat) (rest : List Nat) (cf : Nat) (ctr : Int) (nm : Bool)
    (hrest : is_space (rest.headD 0) = false)
    (h : (MyClass1_text (escape_texts EightBitModes.AllowFull cps)
      (to_daw_json_string_Signed LiteralAsStringOpt.Never n)
      (to_daw_json_string_Bool LiteralAsStringOpt.Never b) rest).length ≤ total) :
    parse_value (fuel + 2) unchecked MyClass1 false
        (Range.tail_of total (MyClass1_text (escape_texts EightBitModes.AllowFull cps)
          (to_daw_json_string_Signed LiteralAsStringOpt.Never n)
          (to_daw_json_string_Bool LiteralAsStringOpt.Never b) rest) cf ctr nm)
      = Outcome.ok (JValue.object [JValue.string (utf8_string cps), JValue.number n,
            JValue.boolean b],
          Range.tail_of total rest
            (total - (MyClass1_text (escape_texts EightBitModes.AllowFull cps)
              (to_daw_json_string_Signed LiteralAsStringOpt.Never n)
              (to_daw_json_string_Bool LiteralAsStringOpt.Never b) rest).length) ctr nm) := by
  generalize hcf : total - (MyClass1_text (escape_texts EightBitModes.AllowFull cps)
      (to_daw_json_string_Signed LiteralAsStringOpt.Never n)
      (to_daw_json_string_Bool LiteralAsStringOpt.Never b) rest).length = cf1
  have hlen : ∀ X : List Nat, X.length ≤ (MyClass1_text (escape_texts EightBitModes.AllowFull cps)
      (to_daw_json_string_Signed LiteralAsStringOpt.Never n)
      (to_daw_json_string_Bool LiteralAsStringOpt.Never b) rest).length → X.length ≤ total :=
    fun X hX => Nat.le_trans hX h
  have t3 := bool_text_head b (125 :: rest)
  have t2 := signed_text_head n hn (44 :: 34 :: (bytes "member2" ++ 34 :: 58 ::
    (to_daw_json_string_Bool LiteralAsStringOpt.Never b ++ 125 :: rest)))
  have l4 : rest.length ≤ total :=
    hlen _ (by simp only [MyClass1_text, List.length_cons, List.length_append]; omega)
  have l3 : (to_daw_json_string_Bool LiteralAsStringOpt.Never b ++ 125 :: rest).length ≤ total :=
    hlen _ (by simp only [MyClass1_text, List.length_cons, List.length_append]; omega)
  have l3b : (125 :: rest).length ≤ total :=
    hlen _ (by simp only [MyClass1_text, List.length_cons, List.length_append]; omega)
  have l3a : (44 :: 34 :: (bytes "member2" ++ 34 :: 58 ::
      (to_daw_json_string_Bool LiteralAsStringOpt.Never b ++ 125 :: rest))).length ≤ total :=
    hlen _ (by simp only [MyClass1_text, List.length_cons, List.length_append]; omega)
  have l2 : (to_daw_json_string_Signed LiteralAsStringOpt.Never n ++ 44 :: 34 ::
      (bytes "member2" ++ 34 :: 58 ::
        (to_daw_json_string_Bool LiteralAsStringOpt.Never b ++ 125 :: rest))).length ≤ total :=
    hlen _ (by simp only [MyClass1_text, List.length_cons, List.length_append]; omega)
  have l2a : (44 :: 34 :: (bytes "member1" ++ 34 :: 58 ::
      (to_daw_json_string_Signed LiteralAsStringOpt.Never n ++ 44 :: 34 ::
        (bytes "member2" ++ 34 :: 58 ::
          (to_daw_json_string_Bool LiteralAsStringOpt.Never b ++ 125 :: rest))))).length
      ≤ total :=
    hlen _ (by simp only [MyClass1_text, List.length_cons, List.length_append]; omega)
  have l1 : (34 :: (escape_texts EightBitModes.AllowFull cps ++ 34 :: 44 :: 34 ::
      (bytes "member1" ++ 34 :: 58 ::
        (to_daw_json_string_Signed LiteralAsStringOpt.Never n ++ 44 :: 34 ::
          (bytes "member2" ++ 34 :: 58 ::
            (to_daw_json_string_Bool LiteralAsStringOpt.Never b ++ 125 :: rest)))))).length
      ≤ total :=
    hlen _ (by simp only [MyClass1_text, List.length_cons, List.length_append]; omega)
  have l1a : (34 :: (bytes "member0" ++ 34 :: 58 :: 34 ::
      (escape_texts EightBitModes.AllowFull cps ++ 34 :: 44 :: 34 ::
        (bytes "member1" ++ 34 :: 58 ::
          (to_daw_json_string_Signed LiteralAsStringOpt.Never n ++ 44 :: 34 ::
            (bytes "member2" ++ 34 :: 58 ::
              (to_daw_json_string_Bool LiteralAsStringOpt.Never b ++ 125 :: rest))))))).length
      ≤ total :=
    hlen _ (by simp only [MyClass1_text, List.length_cons, List.length_append]; omega)
  have l0 : (123 :: 34 :: (bytes "member0" ++ 34 :: 58 :: 34 ::
      (escape_texts EightBitModes.AllowFull cps ++ 34 :: 44 :: 34 ::
        (bytes "member1" ++ 34 :: 58 ::
          (to_daw_json_string_Signed LiteralAsStringOpt.Never n ++ 44 :: 34 ::
            (bytes "member2" ++ 34 :: 58 ::
              (to_daw_json_string_Bool LiteralAsStringOpt.Never b ++ 125 :: rest))))))).length
      ≤ total := h
  show parse_value_Class (parse_value (fuel + 1) unchecked) _ false unchecked
    (Range.tail_of total (123 :: _) cf ctr nm) = _
  simp (disch := with_unfolding_all (first | assumption | rfl)) only [parse_value_Class_brace]
  rw [show total - (123 :: 34 :: (bytes "member0" ++ 34 :: 58 :: 34 ::
      (escape_texts EightBitModes.AllowFull cps ++ 34 :: 44 :: 34 ::
      (bytes "member1" ++ 34 :: 58 ::
        (to_daw_json_string_Signed LiteralAsStringOpt.Never n ++ 44 :: 34 ::
        (bytes "member2" ++ 34 :: 58 ::
          (to_daw_json_string_Bool LiteralAsStringOpt.Never b ++ 125 :: rest))))))).length
      = cf1 from hcf]
  simp only [parse_class_members, bind_eq_outcome_bind]
  simp (disch := with_unfolding_all
      (first | assumption | rfl | decide | exact Or.inl rfl | exact Or.inr rfl)) only
    [class_member_first, class_member_next, string_value_at, signed_value_at, bool_value_at,
      Outcome.bind_ok, class_cleanup_now_brace, trim_left_checked_none]

theorem parse_MyClass2 (unchecked : Bool) (fuel : Nat) (cps : List Nat) (n : Int) (b : Bool)
    (D : List Nat)
    (hcps : ∀ cp, cp ∈ cps → is_scalar_value cp) (hn : -2 ^ 31 ≤ n ∧ n < 2 ^ 31)
    (hne : D ≠ []) (hD : ∀ c, c ∈ D → is_digit c = true) (hlt : digits_value D < 2 ^ 32)
    (total : Nat) (rest : List Nat) (cf : Nat) (ctr : Int) (nm : Bool)
    (hrest : is_space (rest.headD 0) = false)
    (h : (MyClass2_text (escape_texts EightBitModes.AllowFull cps)
      (to_daw_json_string_Signed LiteralAsStringOpt.Never n)
      (to_daw_json_string_Bool LiteralAsStringOpt.Never b) D rest).length ≤ total) :
    ∃ cf1, parse_value (fuel + 3) unchecked MyClass2 false
        (Range.tail_of total (MyClass2_text (escape_texts EightBitModes.AllowFull cps)
          (to_daw_json_string_Signed LiteralAsStringOpt.Never n)
          (to_daw_json_string_Bool LiteralAsStringOpt.Never b) D rest) cf ctr nm)
      = Outcome.ok (MyClass2_value (utf8_string cps) n b (digits_value D),
          Range.tail_of total rest cf1 ctr nm) := by
  have hlen : ∀ X : List Nat, X.length ≤ (MyClass2_text (escape_texts EightBitModes.AllowFull cps)
      (to_daw_json_string_Signed LiteralAsStringOpt.Never n)
      (to_daw_json_string_Bool LiteralAsStringOpt.Never b) D rest).length → X.length ≤ total :=
    fun X hX => Nat.le_trans hX h
  have t1 := digits_head D (125 :: rest) hne hD
  have l4 : rest.length ≤ total :=
    hlen _ (by simp only [MyClass2_text, MyClass1_text, List.length_cons, List.length_append]
               omega)
  have l3 : (125 :: rest).length ≤ total :=
    hlen _ (by simp only [MyClass2_text, MyClass1_text, List.length_cons, List.length_append]
               omega)
  have l2 : (D ++ 125 :: rest).length ≤ total :=
    hlen _ (by simp only [MyClass2_text, MyClass1_text, List.length_cons, List.length_append]
               omega)
  have l2a : (44 :: 34 :: (bytes "b" ++ 34 :: 58 :: (D ++ 125 :: rest))).length ≤ total :=
    hlen _ (by simp only [MyClass2_text, MyClass1_text, List.length_cons, List.length_append]
               omega)
  have l1 : (MyClass1_text (escape_texts EightBitModes.AllowFull cps)
      (to_daw_json_string_Signed LiteralAsStringOpt.Never n)
      (to_daw_json_string_Bool LiteralAsStringOpt.Never b)
      (44 :: 34 :: (bytes "b" ++ 34 :: 58 :: (D ++ 125 :: rest)))).length ≤ total :=
    hlen _ (by simp only [MyClass2_text, List.length_cons, List.length_append]
               omega)
  have l1a : (34 :: (bytes "a" ++ 34 :: 58 ::
      MyClass1_text (escape_texts EightBitModes.AllowFull cps)
        (to_daw_json_string_Signed LiteralAsStringOpt.Never n)
        (to_daw_json_string_Bool LiteralAsStringOpt.Never b)
        (44 :: 34 :: (bytes "b" ++ 34 :: 58 :: (D ++ 125 :: rest))))).length ≤ total :=
    hlen _ (by simp only [MyClass2_text, List.length_cons, List.length_append]
               omega)
  have l0 : (123 :: 34 :: (bytes "a" ++ 34 :: 58 ::
      MyClass1_text (escape_texts EightBitModes.AllowFull cps)
        (to_daw_json_string_Signed LiteralAsStringOpt.Never n)
        (to_daw_json_string_Bool LiteralAsStringOpt.Never b)
        (44 :: 34 :: (bytes "b" ++ 34 :: 58 :: (D ++ 125 :: rest))))).length ≤ total := h
  apply Exists.intro
  show parse_value_Class (parse_value (fuel + 2) unchecked) _ false unchecked
    (Range.tail_of total (123 :: _) cf ctr nm) = _
  simp (disch := with_unfolding_all (first | assumption | rfl)) only [parse_value_Class_brace]
  simp only [parse_class_members, bind_eq_outcome_bind]
  simp (disch := with_unfolding_all
      (first | assumption | rfl | decide | exact Or.inl rfl | exact Or.inr rfl)) only
    [class_member_first, class_member_next, parse_MyClass1, unsigned_value_at,
      Outcome.bind_ok, class_cleanup_now_brace, trim_left_checked_none]
  rfl

theorem to_json_str_first (w : ValueWriter) (name : List Nat) (k : Kind) (value : JValue)
    (out : List Nat) (hk : is_json_nullable k = false) :
    to_json_str w name k value { is_first := true, out := out, visited_members := [] }
      = (w k value).bind (fun text =>
          Outcome.ok { is_first := false, out := out ++ 34 :: (name ++ 34 :: 58 :: text),
                       visited_members := [name] }) := by
  unfold to_json_str copy_to_iterator
  simp only [List.contains_nil, Bool.false_eq_true, if_false, hk, Bool.false_and,
    bind_eq_outcome_bind, copy_plain_allow_full, Outcome.bind_ok, Bool.not_true,
    List.nil_append, List.append_nil]
  cases w k value <;> simp [bytes]

theorem to_json_str_next (w : ValueWriter) (name : List Nat) (k : Kind) (value : JValue)
    (out : List Nat) (visited : List (List Nat)) (hk : is_json_nullable k = false)
    (hv : visited.contains name = false) :
    to_json_str w name k value { is_first := false, out := out, visited_members := visited }
      = (w k value).bind (fun text =>
          Outcome.ok { is_first := false,
                       out := out ++ 44 :: 34 :: (name ++ 34 :: 58 :: text),
                       visited_members := visited ++ [name] }) := by
  unfold to_json_str copy_to_iterator
  simp only [hv, Bool.false_eq_true, if_false, hk, Bool.false_and,
    bind_eq_outcome_bind, copy_plain_allow_full, Outcome.bind_ok, Bool.not_false, if_true]
  cases w k value <;> simp [bytes]

theorem to_json_MyClass1 (fuel : Nat) (cps : List Nat) (n : Int) (b : Bool)
    (hcps : ∀ cp, cp ∈ cps → is_scalar_value cp) :
    to_daw_json_string (fuel + 2) MyClass1
        (JValue.object [JValue.string (utf8_string cps), JValue.number n, JValue.boolean b])
      = Outcome.ok (MyClass1_text (escape_texts EightBitModes.AllowFull cps)
          (to_daw_json_string_Signed LiteralAsStringOpt.Never n)
          (to_daw_json_string_Bool LiteralAsStringOpt.Never b) []) := by
  show serialize_class (to_daw_json_string (fuel + 1)) _ _ = _
  unfold serialize_class
  simp only [to_json_members, bind_eq_outcome_bind]
  simp (disch := with_unfolding_all (first | assumption | rfl)) only
    [to_json_str_first, to_json_str_next, to_daw_json_string,
      to_daw_json_string_StringEscaped_eq, Outcome.bind_ok]
  simp [MyClass1_text]

theorem to_json_MyClass2 (fuel : Nat) (cps : List Nat) (n : Int) (b : Bool) (u : Int)
    (D : List Nat) (hcps : ∀ cp, cp ∈ cps → is_scalar_value cp)
    (hD : to_daw_json_string_Unsigned LiteralAsStringOpt.Never u = Outcome.ok D) :
    to_json (fuel + 3) MyClass2 (MyClass2_value (utf8_string cps) n b u)
      = Outcome.ok (MyClass2_text (escape_texts EightBitModes.AllowFull cps)
          (to_daw_json_string_Signed LiteralAsStringOpt.Never n)
          (to_daw_json_string_Bool LiteralAsStringOpt.Never b) D []) := by
  show serialize_class (to_daw_json_string (fuel + 2)) _ _ = _
  unfold serialize_class
  simp only [to_json_members, bind_eq_outcome_bind]
  simp (disch := with_unfolding_all (first | assumption | rfl)) only
    [to_json_str_first, to_json_str_next, to_json_MyClass1, Outcome.bind_ok]
  rw [show to_daw_json_string (fuel + 2) (Kind.Unsigned 32 LiteralAsStringOpt.Never false)
      (JValue.number u) = to_daw_json_string_Unsigned LiteralAsStringOpt.Never u from rfl, hD,
    Outcome.bind_ok]
  simp [MyClass2_text, MyClass1_text]

theorem ofBytes_eq_tail_of (text : List Nat) :
    Range.ofBytes text = Range.tail_of text.length text 0 (-1) false := by
  simp [Range.ofBytes, Range.tail_of]

theorem MyClass2_text_length (E N B U rest : List Nat) :
    2 ≤ (MyClass2_text E N B U rest).length := by
  simp only [MyClass2_text, List.length_cons]
  omega


/-- C1 (as stated, refuted): the value of `MyClass2` whose string member is the
single byte 0x80, which is not UTF-8 text.  The escaping serializer reads the
byte through the UTF-8 iterator as the code point 0x80 and writes it as the two
bytes `C2 80`; `from_json` of the text returns the string `C2 80`, not the
string of the value. -/
theorem C1_string_that_is_not_utf8_is_not_restored :
    to_json 3 MyClass2 (MyClass2_value [0x80] 7 true 1)
        = Outcome.ok (bytes "\x7b\"a\":\x7b\"member0\":\"" ++ [0xC2, 0x80]
            ++ bytes "\",\"member1\":7,\"member2\":true\x7d,\"b\":1\x7d")
      ∧ from_json false MyClass2 (bytes "\x7b\"a\":\x7b\"member0\":\"" ++ [0xC2, 0x80]
            ++ bytes "\",\"member1\":7,\"member2\":true\x7d,\"b\":1\x7d")
        = Outcome.ok (MyClass2_value [0xC2, 0x80] 7 true 1)
      ∧ from_json true MyClass2 (bytes "\x7b\"a\":\x7b\"member0\":\"" ++ [0xC2, 0x80]
            ++ bytes "\",\"member1\":7,\"member2\":true\x7d,\"b\":1\x7d")
        = Outcome.ok (MyClass2_value [0xC2, 0x80] 7 true 1)
      ∧ MyClass2_value [0xC2, 0x80] 7 true 1 ≠ MyClass2_value [0x80] 7 true 1 := by
  refine ⟨rfl, rfl, rfl, ?_⟩
  intro h
  simp [MyClass2_value] at h

/-- C1 (amended): for every value `v` of the contract `MyClass2` (`a` a `MyClass1`
with a string, an `int` and a `bool`, `b` an `unsigned`) whose string is the
UTF-8 text of Unicode scalar values, the numbers lying in the range of their
32-bit types, under both policies, `to_json` gives a text and `from_json` of
that text gives back `v`, member for member. -/
theorem C1_MyClass2_round_trip (unchecked : Bool) (fuel : Nat) (cps : List Nat) (n : Int)
    (b : Bool) (u : Int) (hfuel : 3 ≤ fuel)
    (hcps : ∀ cp, cp ∈ cps → is_scalar_value cp)
    (hn : -2 ^ 31 ≤ n ∧ n < 2 ^ 31) (hu : 0 ≤ u ∧ u < 2 ^ 32) :
    ∃ text, to_json fuel MyClass2 (MyClass2_value (utf8_string cps) n b u) = Outcome.ok text
      ∧ from_json unchecked MyClass2 text
          = Outcome.ok (MyClass2_value (utf8_string cps) n b u) := by
  obtain ⟨k, rfl⟩ : ∃ k, fuel = k + 3 := ⟨fuel - 3, by omega⟩
  obtain ⟨m, rfl⟩ : ∃ m : Nat, u = (m : Int) := ⟨u.toNat, by omega⟩
  have e32 : (2 : Int) ^ 32 = 4294967296 := by norm_num
  have e32n : (2 : Nat) ^ 32 = 4294967296 := by norm_num
  have hm : m < 2 ^ 32 := by
    have := hu.2
    rw [e32] at this
    omega
  obtain ⟨D, h1, h2, h3, h4⟩ := unsigned_text m (by omega)
  refine ⟨_, to_json_MyClass2 k cps n b m D hcps h1, ?_⟩
  generalize htext : MyClass2_text (escape_texts EightBitModes.AllowFull cps)
      (to_daw_json_string_Signed LiteralAsStringOpt.Never n)
      (to_daw_json_string_Bool LiteralAsStringOpt.Never b) D [] = text
  have hlen : 2 ≤ text.length := htext ▸ MyClass2_text_length _ _ _ _ _
  obtain ⟨j, hj⟩ : ∃ j, text.length + 1 = j + 3 := ⟨text.length - 2, by omega⟩
  obtain ⟨cf1, hparse⟩ := parse_MyClass2 unchecked j cps n b D hcps hn h2 h3 (h4 ▸ hm)
    text.length [] 0 (-1) false rfl (htext ▸ Nat.le_refl _)
  rw [htext, h4] at hparse
  unfold from_json from_json_state
  rw [hj, ofBytes_eq_tail_of, hparse]
  rfl

/-- Witness of C1 at the value of cookbook_class2_test.cpp: the string
"this is a test", 314159, true and 1234, under the checked policy. -/
theorem C1_MyClass2_round_trip_witness :
    (3 ≤ 3) ∧ (∀ cp, cp ∈ bytes "this is a test" → is_scalar_value cp)
      ∧ ((-2 : Int) ^ 31 ≤ 314159 ∧ (314159 : Int) < 2 ^ 31)
      ∧ ((0 : Int) ≤ 1234 ∧ (1234 : Int) < 2 ^ 32)
      ∧ ∃ text, to_json 3 MyClass2
            (MyClass2_value (utf8_string (bytes "this is a test")) 314159 true 1234)
          = Outcome.ok text
        ∧ from_json false MyClass2 text
          = Outcome.ok (MyClass2_value (utf8_string (bytes "this is a test")) 314159 true 1234) :=
  ⟨by decide, by decide, by decide, by decide,
    C1_MyClass2_round_trip false 3 (bytes "this is a test") 314159 true 1234 (by decide)
      (by decide) (by decide) (by decide)⟩

/-- The round trip of the test value, evaluated: the text that `to_json` writes
and the value that `from_json` reads from it. -/
theorem MyClass2_round_trip_evaluated :
    to_json 3 MyClass2 (MyClass2_value (bytes "this is a test") 314159 true 1234)
        = Outcome.ok (bytes
            "\x7b\"a\":\x7b\"member0\":\"this is a test\",\"member1\":314159,\"member2\":true\x7d,\"b\":1234\x7d")
      ∧ from_json false MyClass2 (bytes
            "\x7b\"a\":\x7b\"member0\":\"this is a test\",\"member1\":314159,\"member2\":true\x7d,\"b\":1234\x7d")
        = Outcome.ok (MyClass2_value (bytes "this is a test") 314159 true 1234) :=
  ⟨rfl, rfl⟩

theorem plain_string_value_at (mode : EightBitModes) (unchecked : Bool) (fuel : Nat)
    (total : Nat) (E rest : List Nat) (cf : Nat) (ctr : Int) (nm : Bool)
    (hE : ∀ c, c ∈ E → c ≠ 34 ∧ c ≠ 92)
    (h : (34 :: (E ++ 34 :: rest)).length ≤ total) :
    parse_value (fuel + 1) unchecked (Kind.StringEscaped mode) false
        (Range.tail_of total (34 :: (E ++ 34 :: rest)) cf ctr nm)
      = Outcome.ok (JValue.string E, Range.tail_of total rest cf ctr nm) := by
  have hlen : (34 :: (E ++ 34 :: rest)).length = E.length + rest.length + 2 := by
    simp only [List.length_cons, List.length_append]; omega
  have hp := parse_value_StringEscaped_body mode unchecked (escaped_body_plain_list E hE)
    (decodes_plain_list mode E hE) (fun _ => rfl) rest
    (total - (34 :: (E ++ 34 :: rest)).length) total cf ctr nm (by omega)
  have hpos : total - (34 :: (E ++ 34 :: rest)).length + E.length + 2 = total - rest.length := by
    omega
  rw [hpos] at hp
  show (parse_value_StringEscaped mode false unchecked _).bind _ = _
  exact (congrArg (fun o => Outcome.bind o _) hp).trans rfl

theorem find_key_skip (key : Nat → Bool) (ws : List Nat) (c : Nat) (rest : List Nat)
    (hws : ∀ x, x ∈ ws → key x = false) (hc : key c = true) :
    ∀ n, ws.length < n → find_key key n (ws ++ c :: rest) = some ws.length := by
  induction ws with
  | nil =>
    intro n hn
    obtain ⟨n, rfl⟩ : ∃ k, n = k + 1 := ⟨n - 1, by simp at hn; omega⟩
    simp [find_key, hc]
  | cons w ws ih =>
    intro n hn
    obtain ⟨n, rfl⟩ : ∃ k, n = k + 1 := ⟨n - 1, by simp at hn; omega⟩
    have hw : key w = false := hws w (List.mem_cons_self _ _)
    have := ih (fun x hx => hws x (List.mem_cons_of_mem _ hx)) n (by simp at hn; omega)
    simp only [List.cons_append, find_key, hw, Bool.false_eq_true, if_false, List.length_cons]
    exact congrArg (Option.map (· + 1)) this

theorem move_to_next_of_skip (unchecked : Bool) (key : Nat → Bool) (total : Nat)
    (ws : List Nat) (c : Nat) (rest : List Nat) (cf : Nat) (ctr : Int) (nm : Bool)
    (hws : ∀ x, x ∈ ws → key x = false) (hc : key c = true)
    (h : (ws ++ c :: rest).length ≤ total) :
    move_to_next_of unchecked key (Range.tail_of total (ws ++ c :: rest) cf ctr nm)
      = Outcome.ok (Range.tail_of total (c :: rest) cf ctr nm) := by
  unfold move_to_next_of
  cases unchecked
  · simp only [Bool.false_eq_true, if_false, tail_of_size total _ cf ctr nm h]
    rw [show (Range.tail_of total (ws ++ c :: rest) cf ctr nm).data = ws ++ c :: rest from rfl,
      find_key_skip key ws c rest hws hc _
        (by simp only [List.length_append, List.length_cons]; omega)]
    simp only [tail_of_advance total ws (c :: rest) cf ctr nm h]
  · simp only [if_true]
    rw [show (Range.tail_of total (ws ++ c :: rest) cf ctr nm).data = ws ++ c :: rest from rfl,
      find_key_skip key ws c rest hws hc _
        (by simp only [List.length_append, List.length_cons]; omega)]
    simp only [tail_of_advance total ws (c :: rest) cf ctr nm h]

theorem whitespace_not_quote (ws : List Nat) (hws : whitespace ws) :
    ∀ x, x ∈ ws → (fun c : Nat => c == 34) x = false := by
  intro x hx
  have := hws x hx
  simp only [is_space, Bool.or_eq_true, beq_iff_eq] at this
  simp only [beq_eq_false_iff_ne, ne_eq]
  omega

theorem key_value_entry (unchecked : Bool) (mode : EightBitModes) (f fuel : Nat)
    (total : Nat) (K wa wb V tail tail2 : List Nat) (cf : Nat) (ctr : Int) (nm : Bool)
    (hK : ∀ c, c ∈ K → c ≠ 34 ∧ c ≠ 92) (hV : ∀ c, c ∈ V → c ≠ 34 ∧ c ≠ 92)
    (hwa : whitespace wa) (hwb : whitespace wb)
    (h : (34 :: (K ++ 34 :: (wa ++ 58 :: (wb ++ 34 :: (V ++ 34 :: tail))))).length ≤ total)
    (hclean : clean_tail unchecked (Range.tail_of total tail cf ctr nm)
      = Range.tail_of total tail2 cf ctr nm)
    (hmore : (Range.tail_of total tail2 cf ctr nm).has_more = true) :
    parse_key_values (parse_value (f + 1) unchecked) (Kind.StringEscaped mode)
        (Kind.StringEscaped mode) false unchecked (fuel + 1)
        (Range.tail_of total (34 :: (K ++ 34 :: (wa ++ 58 :: (wb ++ 34 :: (V ++ 34 :: tail)))))
          cf ctr nm)
      = (parse_key_values (parse_value (f + 1) unchecked) (Kind.StringEscaped mode)
          (Kind.StringEscaped mode) false unchecked fuel
          (Range.tail_of total tail2 cf ctr nm)).bind
        (fun x => Outcome.ok ((JValue.string K, JValue.string V) :: x.1, x.2)) := by
  have h1 : (wa ++ 58 :: (wb ++ 34 :: (V ++ 34 :: tail))).length ≤ total := by
    simp only [List.length_cons, List.length_append] at h ⊢; omega
  have h2 : (34 :: (V ++ 34 :: tail)).length ≤ total := by
    simp only [List.length_cons, List.length_append] at h ⊢; omega
  rw [parse_key_values]
  rw [show ((Range.tail_of total
      (34 :: (K ++ 34 :: (wa ++ 58 :: (wb ++ 34 :: (V ++ 34 :: tail))))) cf ctr nm).front
      != 125) = true from rfl]
  simp only [if_true, bind_eq_outcome_bind, Bool.not_false]
  rw [tail_of_has_more total 34 _ cf ctr nm h, assert_weak_true, Outcome.bind_ok,
    plain_string_value_at mode unchecked f total K _ cf ctr nm hK h, Outcome.bind_ok]
  simp only []
  rw [trim_end_of_name_colon unchecked total wa wb (34 :: (V ++ 34 :: tail)) cf ctr nm hwa hwb
      (show is_space 34 = false by decide) h1, Outcome.bind_ok,
    plain_string_value_at mode unchecked f total V tail cf ctr nm hV h2, Outcome.bind_ok]
  simp only [hclean, hmore, assert_weak_true, Outcome.bind_ok]

theorem key_value_entry_comma (unchecked : Bool) (mode : EightBitModes) (f fuel : Nat)
    (total : Nat) (K wa wb V wc wd rest : List Nat) (cf : Nat) (ctr : Int) (nm : Bool)
    (hfuel : 0 < fuel)
    (hK : ∀ c, c ∈ K → c ≠ 34 ∧ c ≠ 92) (hV : ∀ c, c ∈ V → c ≠ 34 ∧ c ≠ 92)
    (hwa : whitespace wa) (hwb : whitespace wb) (hwc : whitespace wc) (hwd : whitespace wd)
    (h : (34 :: (K ++ 34 :: (wa ++ 58 :: (wb ++ 34 :: (V ++ 34 ::
      (wc ++ 44 :: (wd ++ 34 :: rest))))))).length ≤ total) :
    parse_key_values (parse_value (f + 1) unchecked) (Kind.StringEscaped mode)
        (Kind.StringEscaped mode) false unchecked fuel
        (Range.tail_of total (34 :: (K ++ 34 :: (wa ++ 58 :: (wb ++ 34 :: (V ++ 34 ::
          (wc ++ 44 :: (wd ++ 34 :: rest))))))) cf ctr nm)
      = (parse_key_values (parse_value (f + 1) unchecked) (Kind.StringEscaped mode)
          (Kind.StringEscaped mode) false unchecked (fuel - 1)
          (Range.tail_of total (34 :: rest) cf ctr nm)).bind
        (fun x => Outcome.ok ((JValue.string K, JValue.string V) :: x.1, x.2)) := by
  obtain ⟨fuel, rfl⟩ : ∃ k, fuel = k + 1 := ⟨fuel - 1, by omega⟩
  have h1 : (wc ++ 44 :: (wd ++ 34 :: rest)).length ≤ total := by
    simp only [List.length_cons, List.length_append] at h ⊢; omega
  have h2 : (34 :: rest).length ≤ total := by
    simp only [List.length_cons, List.length_append] at h ⊢; omega
  exact key_value_entry unchecked mode f fuel total K wa wb V _ (34 :: rest) cf ctr nm hK hV
    hwa hwb h
    (clean_tail_comma unchecked total wc wd (34 :: rest) cf ctr nm hwc hwd
      (show is_space 34 = false by decide) h1)
    (tail_of_has_more total 34 rest cf ctr nm h2)

theorem key_value_entry_brace (unchecked : Bool) (mode : EightBitModes) (f fuel : Nat)
    (total : Nat) (K wa wb V wc rest : List Nat) (cf : Nat) (ctr : Int) (nm : Bool)
    (hfuel : 0 < fuel)
    (hK : ∀ c, c ∈ K → c ≠ 34 ∧ c ≠ 92) (hV : ∀ c, c ∈ V → c ≠ 34 ∧ c ≠ 92)
    (hwa : whitespace wa) (hwb : whitespace wb) (hwc : whitespace wc)
    (h : (34 :: (K ++ 34 :: (wa ++ 58 :: (wb ++ 34 :: (V ++ 34 ::
      (wc ++ 125 :: rest)))))).length ≤ total) :
    parse_key_values (parse_value (f + 1) unchecked) (Kind.StringEscaped mode)
        (Kind.StringEscaped mode) false unchecked fuel
        (Range.tail_of total (34 :: (K ++ 34 :: (wa ++ 58 :: (wb ++ 34 :: (V ++ 34 ::
          (wc ++ 125 :: rest)))))) cf ctr nm)
      = (parse_key_values (parse_value (f + 1) unchecked) (Kind.StringEscaped mode)
          (Kind.StringEscaped mode) false unchecked (fuel - 1)
          (Range.tail_of total (125 :: rest) cf ctr nm)).bind
        (fun x => Outcome.ok ((JValue.string K, JValue.string V) :: x.1, x.2)) := by
  obtain ⟨fuel, rfl⟩ : ∃ k, fuel = k + 1 := ⟨fuel - 1, by omega⟩
  have h1 : (wc ++ 125 :: rest).length ≤ total := by
    simp only [List.length_cons, List.length_append] at h ⊢; omega
  have h2 : (125 :: rest).length ≤ total := by
    simp only [List.length_cons, List.length_append] at h ⊢; omega
  exact key_value_entry unchecked mode f fuel total K wa wb V _ (125 :: rest) cf ctr nm hK hV
    hwa hwb h
    (clean_tail_whitespace unchecked total wc (125 :: rest) cf ctr nm hwc
      (show is_space 125 = false by decide) (show (125 : Nat) ≠ 44 by decide) h1)
    (tail_of_has_more total 125 rest cf ctr nm h2)

theorem key_value_end (pv : ValueParser) (key value : Kind) (unchecked : Bool) (fuel : Nat)
    (total : Nat) (rest : List Nat) (cf : Nat) (ctr : Int) (nm : Bool) (hfuel : 0 < fuel) :
    parse_key_values pv key value false unchecked fuel
        (Range.tail_of total (125 :: rest) cf ctr nm)
      = Outcome.ok ([], Range.tail_of total (125 :: rest) cf ctr nm) := by
  obtain ⟨fuel, rfl⟩ : ∃ k, fuel = k + 1 := ⟨fuel - 1, by omega⟩
  rw [parse_key_values]
  rfl

theorem tail_of_front_is (total : Nat) (c : Nat) (rest : List Nat) (cf : Nat) (ctr : Int)
    (nm : Bool) (h : (c :: rest).length ≤ total) :
    (Range.tail_of total (c :: rest) cf ctr nm).front_is c = true := by
  unfold Range.front_is
  rw [tail_of_has_more total c rest cf ctr nm h]
  simp [Range.front, Range.tail_of]

theorem key_value_open (unchecked : Bool) (f : Nat) (key value : Kind)
    (total : Nat) (ws rest : List Nat) (cf : Nat) (ctr : Int) (nm : Bool)
    (hws : whitespace ws) (h : (123 :: (ws ++ 34 :: rest)).length ≤ total) :
    parse_value (f + 2) unchecked (Kind.KeyValue key value) false
        (Range.tail_of total (123 :: (ws ++ 34 :: rest)) cf ctr nm)
      = (parse_key_values (parse_value (f + 1) unchecked) key value false unchecked
          ((34 :: rest).length + 1) (Range.tail_of total (34 :: rest) cf ctr nm)).bind
        (fun x => (daw_json_assert_weak unchecked (x.2.front_is 125)
            ErrorReason.MissingToken).bind
          (fun _ => Outcome.ok (JValue.key_values x.1,
            trim_left_checked ( remove_prefix x.2 1)))) := by
  have h1 : (ws ++ 34 :: rest).length ≤ total := by
    simp only [List.length_cons, List.length_append] at h ⊢; omega
  show parse_value_KeyValue (parse_value (f + 1) unchecked) key value false unchecked _ = _
  unfold parse_value_KeyValue
  simp only [bind_eq_outcome_bind, Bool.false_eq_true, if_false]
  rw [tail_of_front_is total 123 _ cf ctr nm h, assert_weak_true, Outcome.bind_ok,
    tail_of_advance_one total 123 _ cf ctr nm h,
    move_to_next_of_skip unchecked _ total ws 34 rest cf ctr nm (whitespace_not_quote ws hws)
      rfl h1, Outcome.bind_ok]
  rfl

theorem class_member_first_ws (pv : ValueParser) (unchecked : Bool) (pos : Nat)
    (locations : Locations) (k : Kind) (total : Nat) (name wa wb rest : List Nat)
    (cf : Nat) (ctr : Int) (nm : Bool)
    (hpos : locations.get? pos = some (name, none))
    (hname : ∀ c, c ∈ name → c ≠ 34 ∧ c ≠ 92)
    (hwa : whitespace wa) (hwb : whitespace wb)
    (hrest : is_space (rest.headD 0) = false)
    (h : (34 :: (name ++ 34 :: (wa ++ 58 :: (wb ++ rest)))).length ≤ total) :
    parse_class_member pv unchecked pos name k locations
        (Range.tail_of total (34 :: (name ++ 34 :: (wa ++ 58 :: (wb ++ rest)))) cf ctr nm)
      = (pv k false (Range.tail_of total rest cf ctr nm)).bind
          (fun x => Outcome.ok (x.1, locations, x.2)) :=
  parse_class_member_in_order pv unchecked pos locations k name hpos total
    (34 :: (name ++ 34 :: (wa ++ 58 :: (wb ++ rest)))) name wa wb rest cf ctr nm hname hwa hwb
    hrest h
    (clean_tail_whitespace unchecked total [] (34 :: (name ++ 34 :: (wa ++ 58 :: (wb ++ rest))))
      cf ctr nm whitespace_nil (show is_space 34 = false by decide)
      (show (34 : Nat) ≠ 44 by decide) h)

theorem class_cleanup_now_last (unchecked : Bool) (total : Nat) (ws : List Nat)
    (cf : Nat) (ctr : Int) (nm : Bool) (hws : whitespace ws)
    (h : (125 :: ws).length ≤ total) :
    class_cleanup_now unchecked (Range.tail_of total (125 :: ws) cf ctr nm)
      = Outcome.ok (Range.tail_of total [] cf ctr nm) := by
  have := class_cleanup_now_at_end unchecked total [] ws [] cf ctr nm whitespace_nil hws rfl
    (by simpa using h)
  simpa using this

theorem request_document_length (w : Nat → List Nat) : 2 ≤ (request_document w).length := by
  simp only [request_document, List.length_cons, List.length_append]
  omega

/-- C6: for the contract `request` and every document obtained from
`{"header":{"field1":"a","field2":"b"}}` by inserting runs of space, tab, LF
or CR between the structural tokens (also before the first and after the last
one), under both policies the parse succeeds and `header` holds exactly
`field1 -> a` and `field2 -> b`, in this order. -/
theorem C6_whitespace_between_tokens (unchecked : Bool) (w : Nat → List Nat)
    (hw : ∀ i, whitespace (w i)) :
    from_json unchecked request (request_document w) = Outcome.ok request_value := by
  obtain ⟨j, hj⟩ : ∃ j, (request_document w).length + 1 = j + 3 :=
    ⟨(request_document w).length - 2, by have := request_document_length w; omega⟩
  unfold from_json from_json_state
  rw [hj, ofBytes_eq_tail_of]
  generalize htotal : (request_document w).length = total
  have hlen : ∀ X : List Nat, X.length ≤ (request_document w).length → X.length ≤ total :=
    fun X hX => htotal ▸ hX
  show (parse_value_Class (parse_value (j + 2) unchecked) _ false unchecked _).bind _ = _
  simp only [request_document]
  simp (disch := with_unfolding_all (first | exact hw _ | rfl | (apply hlen; simp only [request_document, List.length_cons, List.length_append]; omega))) only [parse_value_Class_open]
  simp only [parse_class_members, bind_eq_outcome_bind]
  simp (disch := with_unfolding_all (first | exact hw _ | rfl | (apply hlen; simp only [request_document, List.length_cons, List.length_append]; omega) | (simp only [List.length_cons, List.length_append]; omega) | decide)) only
    [class_member_first_ws, string_map, key_value_open, key_value_entry_comma,
      key_value_entry_brace, key_value_end, Outcome.bind_ok, tail_of_front_is,
      assert_weak_true, tail_of_advance_one, trim_left_checked_whitespace,
      class_cleanup_now_last, trim_left_checked_none]
  rfl

theorem issue_462_spacing_whitespace (i : Nat) : whitespace (issue_462_spacing i) := by
  unfold issue_462_spacing
  split <;> decide

/-- Witness of C6: the document of issue_462_test.cpp itself. -/
theorem C6_whitespace_between_tokens_witness :
    (∀ i, whitespace (issue_462_spacing i))
      ∧ from_json false request (request_document issue_462_spacing)
          = Outcome.ok request_value :=
  ⟨issue_462_spacing_whitespace,
    C6_whitespace_between_tokens false issue_462_spacing issue_462_spacing_whitespace⟩

/-- The document of the witness is the text of the test, and both policies
parse it to the end of the text. -/
theorem issue_462_document_evaluated :
    request_document issue_462_spacing
        = bytes "\x7b  \"header\": \x7b \"field1\":  \"a\", \"field2\": \"b\" \x7d \x7d"
      ∧ (from_json_state false request (request_document issue_462_spacing)).isOk = true
      ∧ (from_json_state true request (request_document issue_462_spacing)).isOk = true := by
  decide

/-! ## Members that the contract does not name -/

/-- C4: contract with one nullable member `a`.  Under the checked policy the
object `{"a":null,"x":1}` with the extra member `x` and the object `{"a":null}`
without it parse to the same value, with the cursor at the end of the text.
Under the unchecked policy the object with the extra member parses to that
value as well, but the object without it does not return: the Null parser
consumes the closing brace and the cleanup scans past the end of the buffer;
with the extra member in front, `{"x":1,"a":null}`, it does not return
either. -/
theorem C4_extra_member_decides_unchecked_null :
    from_json_state false nullable_member (bytes "\x7b\"a\":null,\"x\":1\x7d")
        = Outcome.ok (JValue.object [JValue.null],
            { data := [], first := 16, last := 16, class_first := 0 })
      ∧ from_json_state false nullable_member (bytes "\x7b\"a\":null\x7d")
        = Outcome.ok (JValue.object [JValue.null],
            { data := [], first := 10, last := 10, class_first := 0 })
      ∧ from_json_state true nullable_member (bytes "\x7b\"a\":null,\"x\":1\x7d")
        = Outcome.ok (JValue.object [JValue.null],
            { data := [], first := 16, last := 16, class_first := 0 })
      ∧ from_json_state true nullable_member (bytes "\x7b\"a\":null\x7d") = Outcome.undefined
      ∧ from_json_state true nullable_member (bytes "\x7b\"x\":1,\"a\":null\x7d")
        = Outcome.undefined :=
  ⟨rfl, rfl, rfl, rfl, rfl⟩

/-! ## Timestamps, literals, escapes and variants -/

/-- C11: with the offset `+05:30` the text `2020-01-01T10:45:00+05:30` should
give the time point of `2020-01-01T05:15:00Z`; the code gives the one of
`2020-01-01T05:40:00Z`, five hours and five minutes earlier than the time
written: the minute field of the offset is read from the hour digits, because
the view is not advanced past them.  With `-05:30` it gives the time point of
`2020-01-01T15:50:00Z` instead of `2020-01-01T16:15:00Z`, and the form without a
colon behaves in the same way. -/
theorem C11_offset_minutes_read_from_hour_digits :
    parse_iso8601_timestamp (StrView.ofBytes (bytes "2020-01-01T10:45:00+05:30"))
        = Outcome.ok 1577857200000
      ∧ parse_iso8601_timestamp (StrView.ofBytes (bytes "2020-01-01T05:40:00Z"))
        = Outcome.ok 1577857200000
      ∧ parse_iso8601_timestamp (StrView.ofBytes (bytes "2020-01-01T05:15:00Z"))
        = Outcome.ok 1577855700000
      ∧ parse_iso8601_timestamp (StrView.ofBytes (bytes "2020-01-01T10:45:00+0530"))
        = Outcome.ok 1577857200000
      ∧ parse_iso8601_timestamp (StrView.ofBytes (bytes "2020-01-01T10:45:00-05:30"))
        = Outcome.ok 1577893800000
      ∧ parse_iso8601_timestamp (StrView.ofBytes (bytes "2020-01-01T15:50:00Z"))
        = Outcome.ok 1577893800000
      ∧ parse_iso8601_timestamp (StrView.ofBytes (bytes "2020-01-01T16:15:00Z"))
        = Outcome.ok 1577895300000 := by
  decide

/-- C16: under the checked policy with `DisallowHigh` the StringEscaped parser
returns the bytes 0xC3 0xA9 of a two-byte body and of a body with a tab escape, the
same two bytes and the control byte 0x01; it fails with
`InvalidStringHighASCII` only for a byte outside `[0x20, 0x7F]` that follows a
backslash.  The serializer without escaping fails on the same two bytes. -/
theorem C16_disallow_high_checks_only_after_backslash :
    parse_value_StringEscaped EightBitModes.DisallowHigh false false
        (Range.ofBytes [34, 0xC3, 0xA9, 34])
        = Outcome.ok ([0xC3, 0xA9], { data := [], first := 4, last := 4 })
      ∧ parse_value_StringEscaped EightBitModes.DisallowHigh false false
        (Range.ofBytes [34, 92, 116, 0xC3, 0xA9, 1, 34])
        = Outcome.ok ([9, 0xC3, 0xA9, 1], { data := [], first := 7, last := 7 })
      ∧ parse_value_StringEscaped EightBitModes.DisallowHigh false false
        (Range.ofBytes [34, 92, 0xC3, 34])
        = Outcome.failed ErrorReason.InvalidStringHighASCII
      ∧ to_daw_json_string_StringRaw EightBitModes.DisallowHigh [0xC3, 0xA9]
        = Outcome.failed ErrorReason.InvalidStringHighASCII := by
  decide

theorem findIdx_first {α : Type} (p : α → Bool) (l : List α) :
    ∀ (i : Nat) (a : α), l.get? i = some a → p a = true →
      (∀ j b, j < i → l.get? j = some b → p b = false) → l.findIdx p = i := by
  induction l with
  | nil => intro i a h; simp at h
  | cons x xs ih =>
    intro i a h hp hlt
    cases i with
    | zero =>
      simp only [List.get?_cons_zero, Option.some.injEq] at h
      subst h
      simp [List.findIdx_cons, hp]
    | succ i =>
      have hx : p x = false := hlt 0 x (Nat.succ_pos _) rfl
      simp only [List.get?_cons_succ] at h
      rw [List.findIdx_cons, hx]
      simp only [cond_false]
      exact congrArg (· + 1)
        (ih i a h hp (fun j b hj hb => hlt (j + 1) b (Nat.succ_lt_succ hj) hb))

theorem findIdx_none {α : Type} (p : α → Bool) (l : List α)
    (h : ∀ a, a ∈ l → p a = false) : l.get? (l.findIdx p) = none := by
  induction l with
  | nil => rfl
  | cons x xs ih =>
    have hx : p x = false := h x (List.mem_cons_self _ _)
    rw [List.findIdx_cons, hx]
    simp only [cond_false, List.get?_cons_succ]
    exact ih (fun a ha => h a (List.mem_cons_of_mem _ ha))

theorem parse_value_Variant_table (pv : ValueParser) (alternatives : List Kind) (rng : Range) :
    parse_value_Variant pv alternatives rng
      = match variant_base_type rng.front with
        | some bpt => parse_variant_value pv bpt alternatives rng
        | none => Outcome.failed ErrorReason.UnexpectedJsonType := by
  unfold parse_value_Variant variant_base_type is_digit
  simp only [beq_iff_eq, Bool.or_eq_true, Bool.and_eq_true, decide_eq_true_eq]
  split_ifs <;> first | rfl | (exfalso; omega)

end DawJson
namespace DawJson

theorem parse_variant_value_unique (pv : ValueParser) (bpt : JsonBaseParseTypes)
    (alternatives : List Kind) (rng : Range) (i : Nat) (k : Kind)
    (hk : alternatives.get? i = some k) (hb : base_type_of k = bpt)
    (hu : ∀ j k2, alternatives.get? j = some k2 → base_type_of k2 = bpt → j = i) :
    parse_variant_value pv bpt alternatives rng
      = (pv k false rng).bind (fun x => Outcome.ok (JValue.alternative i x.1, x.2)) := by
  have hidx : base_map alternatives bpt = i := by
    unfold base_map
    refine findIdx_first _ alternatives i k hk (by simp [hb]) ?_
    intro j b hj hjb
    by_contra hne
    have : base_type_of b = bpt := by simpa using hne
    have := hu j b hjb this
    omega
  unfold parse_variant_value
  rw [hidx, hk]
  rfl

theorem parse_variant_value_absent (pv : ValueParser) (bpt : JsonBaseParseTypes)
    (alternatives : List Kind) (rng : Range)
    (hn : ∀ k, k ∈ alternatives → base_type_of k ≠ bpt) :
    parse_variant_value pv bpt alternatives rng
      = Outcome.failed ErrorReason.UnexpectedJsonType := by
  unfold parse_variant_value base_map
  rw [findIdx_none _ alternatives (fun a ha => by simpa using hn a ha)]
  rfl

/-- C18: the untagged Variant parser selects the alternative by the byte at the
cursor.  When that byte selects a base kind (`{` Class, `[` Array, `t` or `f`
Bool, `"` String, a digit, `+` or `-` Number) and the contract has the
alternative `k` of that base kind at index `i`, and no other of that kind, the
result is the one of the parser of `k` on the same range, as alternative `i`;
when the contract has no alternative of that base kind, and for every other
byte, the parser fails with `UnexpectedJsonType`. -/
theorem C18_variant_dispatch_by_first_byte (pv : ValueParser) (alternatives : List Kind)
    (rng : Range) :
    (∀ bpt, variant_base_type rng.front = some bpt →
        (∀ i k, alternatives.get? i = some k → base_type_of k = bpt →
            (∀ j k2, alternatives.get? j = some k2 → base_type_of k2 = bpt → j = i) →
            parse_value_Variant pv alternatives rng
              = (pv k false rng).bind
                  (fun x => Outcome.ok (JValue.alternative i x.1, x.2)))
          ∧ ((∀ k, k ∈ alternatives → base_type_of k ≠ bpt) →
            parse_value_Variant pv alternatives rng
              = Outcome.failed ErrorReason.UnexpectedJsonType))
      ∧ (variant_base_type rng.front = none →
          parse_value_Variant pv alternatives rng
            = Outcome.failed ErrorReason.UnexpectedJsonType) := by
  rw [parse_value_Variant_table]
  refine ⟨fun bpt hb => ?_, fun hn => ?_⟩
  · rw [hb]
    exact ⟨fun i k hk hkb hu => parse_variant_value_unique pv bpt alternatives rng i k hk hkb hu,
      fun hn => parse_variant_value_absent pv bpt alternatives rng hn⟩
  · rw [hn]

/-- The variant of the tests, a number or a string: on `"x",` the String
alternative at index 1 is parsed, on `[1]` and on `x` the parser fails. -/
theorem C18_variant_dispatch_by_first_byte_witness :
    parse_value_Variant (parse_value 3 false)
        [Kind.Unsigned 32 LiteralAsStringOpt.Never false,
          Kind.StringRaw false EightBitModes.AllowFull]
        (Range.ofBytes (bytes "\"x\","))
      = Outcome.ok (JValue.alternative 1 (JValue.string [120]),
          { data := [44], first := 3, last := 4 })
      ∧ parse_value_Variant (parse_value 3 false)
        [Kind.Unsigned 32 LiteralAsStringOpt.Never false,
          Kind.StringRaw false EightBitModes.AllowFull]
        (Range.ofBytes (bytes "[1]"))
      = Outcome.failed ErrorReason.UnexpectedJsonType
      ∧ parse_value_Variant (parse_value 3 false)
        [Kind.Unsigned 32 LiteralAsStringOpt.Never false,
          Kind.StringRaw false EightBitModes.AllowFull]
        (Range.ofBytes (bytes "x"))
      = Outcome.failed ErrorReason.UnexpectedJsonType := by
  have h := C18_variant_dispatch_by_first_byte (parse_value 3 false)
    [Kind.Unsigned 32 LiteralAsStringOpt.Never false,
      Kind.StringRaw false EightBitModes.AllowFull]
  refine ⟨?_, ?_, ?_⟩
  · rw [((h (Range.ofBytes (bytes "\"x\","))).1 JsonBaseParseTypes.String rfl).1 1
      (Kind.StringRaw false EightBitModes.AllowFull) rfl rfl ?_]
    · rfl
    · intro j k2 hj hb
      match j, hj with
      | 0, hj => simp at hj; subst hj; simp [base_type_of] at hb
      | 1, _ => rfl
      | j + 2, hj => simp at hj
  · exact ((h (Range.ofBytes (bytes "[1]"))).1 JsonBaseParseTypes.Array rfl).2
      (by intro k hk; simp at hk; rcases hk with rfl | rfl <;> simp [base_type_of])
  · exact (h (Range.ofBytes (bytes "x"))).2 rfl

theorem to_nibble_hex_value (unchecked : Bool) (d v : Nat) (h : hex_value d = some v) :
    to_nibble unchecked d = Outcome.ok v ∧ v < 16 := by
  have hd : d < 103 := by
    unfold hex_value at h
    split_ifs at h <;> omega
  revert v
  revert d
  cases unchecked <;> decide

theorem byte_from_nibbles_value (unchecked : Bool) (a b va vb : Nat)
    (ha : hex_value a = some va) (hb : hex_value b = some vb)
    (tail : List Nat) (f l cf : Nat) (ctr : Int) (nm : Bool) :
    byte_from_nibbles unchecked ⟨a :: b :: tail, f, l, cf, ctr, nm⟩
      = Outcome.ok (va * 16 + vb, ⟨tail, f + 2, l, cf, ctr, nm⟩) := by
  unfold byte_from_nibbles
  simp only [Range.front, remove_prefix, List.headD_cons, List.drop_succ_cons, List.drop_zero,
    bind_eq_outcome_bind]
  rw [(to_nibble_hex_value unchecked a va ha).1, (to_nibble_hex_value unchecked b vb hb).1]
  simp only [Outcome.bind_ok, nibbles_to_byte va vb (to_nibble_hex_value unchecked b vb hb).2
    (to_nibble_hex_value unchecked a va ha).2]

theorem hex4_value_parts (d3 d2 d1 d0 c : Nat) (h : hex4_value d3 d2 d1 d0 = some c) :
    ∃ v3 v2 v1 v0, hex_value d3 = some v3 ∧ hex_value d2 = some v2 ∧ hex_value d1 = some v1
      ∧ hex_value d0 = some v0 ∧ c = v3 * 4096 + v2 * 256 + v1 * 16 + v0 := by
  unfold hex4_value at h
  cases h3 : hex_value d3 with
  | none => rw [h3] at h; simp at h
  | some v3 =>
    cases h2 : hex_value d2 with
    | none => rw [h3, h2] at h; simp at h
    | some v2 =>
      cases h1 : hex_value d1 with
      | none => rw [h3, h2, h1] at h; simp at h
      | some v1 =>
        cases h0 : hex_value d0 with
        | none => rw [h3, h2, h1, h0] at h; simp at h
        | some v0 =>
          rw [h3, h2, h1, h0] at h
          simp at h
          exact ⟨v3, v2, v1, v0, rfl, rfl, rfl, rfl, h.symm⟩

theorem two_bytes_from_nibbles (unchecked : Bool) (d3 d2 d1 d0 c : Nat)
    (h : hex4_value d3 d2 d1 d0 = some c)
    (tail : List Nat) (f l cf : Nat) (ctr : Int) (nm : Bool) :
    ∃ hi lo, byte_from_nibbles unchecked ⟨d3 :: d2 :: d1 :: d0 :: tail, f, l, cf, ctr, nm⟩
        = Outcome.ok (hi, ⟨d1 :: d0 :: tail, f + 2, l, cf, ctr, nm⟩)
      ∧ byte_from_nibbles unchecked ⟨d1 :: d0 :: tail, f + 2, l, cf, ctr, nm⟩
        = Outcome.ok (lo, ⟨tail, f + 4, l, cf, ctr, nm⟩)
      ∧ ((hi <<< 8) % 2 ^ 32) ||| lo = c ∧ c < 65536 := by
  obtain ⟨v3, v2, v1, v0, h3, h2, h1, h0, hc⟩ := hex4_value_parts d3 d2 d1 d0 c h
  have b3 := (to_nibble_hex_value unchecked d3 v3 h3).2
  have b2 := (to_nibble_hex_value unchecked d2 v2 h2).2
  have b1 := (to_nibble_hex_value unchecked d1 v1 h1).2
  have b0 := (to_nibble_hex_value unchecked d0 v0 h0).2
  refine ⟨v3 * 16 + v2, v1 * 16 + v0,
    byte_from_nibbles_value unchecked d3 d2 v3 v2 h3 h2 _ f l cf ctr nm,
    byte_from_nibbles_value unchecked d1 d0 v1 v0 h1 h0 _ (f + 2) l cf ctr nm, ?_, ?_⟩
  · rw [bytes_to_code _ _ (by omega) (by omega)]; omega
  · omega

end DawJson
namespace DawJson

theorem decode_utf16_value (unchecked : Bool) (u d3 d2 d1 d0 c : Nat)
    (hu : u = 117 ∨ u = 85) (h : hex4_value d3 d2 d1 d0 = some c)
    (hns : ¬ (0xD800 ≤ c ∧ c ≤ 0xDBFF)) (tail : List Nat) (f l cf : Nat) (ctr : Int)
    (nm : Bool) (hl : f < l) :
    decode_utf16 unchecked ⟨u :: d3 :: d2 :: d1 :: d0 :: tail, f, l, cf, ctr, nm⟩
      = Outcome.ok (utf8_encode c, ⟨tail, f + 5, l, cf, ctr, nm⟩) := by
  obtain ⟨hi, lo, e1, e2, e3, hc⟩ :=
    two_bytes_from_nibbles unchecked d3 d2 d1 d0 c h tail (f + 1) l cf ctr nm
  unfold decode_utf16
  have hfront : (Range.front_is ⟨u :: d3 :: d2 :: d1 :: d0 :: tail, f, l, cf, ctr, nm⟩ 117
      || Range.front_is ⟨u :: d3 :: d2 :: d1 :: d0 :: tail, f, l, cf, ctr, nm⟩ 85) = true := by
    rcases hu with rfl | rfl <;> simp [Range.front_is, Range.has_more, Range.front, hl]
  rw [hfront]
  simp only [assert_weak_true]
  simp only [bind_eq_outcome_bind]
  rw [Outcome.bind_ok]
  have hrp : remove_prefix ⟨u :: d3 :: d2 :: d1 :: d0 :: tail, f, l, cf, ctr, nm⟩ 1
      = ⟨d3 :: d2 :: d1 :: d0 :: tail, f + 1, l, cf, ctr, nm⟩ := rfl
  rw [hrp, e1, Outcome.bind_ok]
  simp only []
  rw [e2, Outcome.bind_ok]
  simp only []
  rw [e3]
  by_cases h7 : c ≤ 0x7F
  · rw [if_pos h7]
    simp only [utf8_encode, to_char]
    rw [if_pos (show c < 0x80 by omega), Nat.mod_eq_of_lt (show c < 256 by omega)]
  · rw [if_neg h7, if_neg hns, Outcome.bind_ok]
    simp only []
    have := utf8_tail_bytes c (by omega) (by omega)
    rw [← this]
    by_cases h3 : c ≥ 0x10000
    · omega
    · rw [if_neg h3, if_neg h3]
      by_cases h2 : c ≥ 0x800
      · rw [if_pos h2, if_pos h2]
      · rw [if_neg h2, if_neg h2]

theorem decode_utf16_pair (unchecked : Bool) (u d3 d2 d1 d0 h u2 e3 e2 e1 e0 lw x : Nat)
    (hu : u = 117 ∨ u = 85) (hh : hex4_value d3 d2 d1 d0 = some h)
    (hhs : 0xD800 ≤ h ∧ h ≤ 0xDBFF)
    (hu2 : u2 = 117 ∨ u2 = 85) (hlw : hex4_value e3 e2 e1 e0 = some lw)
    (hls : 0xDC00 ≤ lw ∧ lw ≤ 0xDFFF)
    (tail : List Nat) (f l cf : Nat) (ctr : Int) (nm : Bool) (hl : f + 11 ≤ l) :
    decode_utf16 unchecked
        ⟨u :: d3 :: d2 :: d1 :: d0 :: x :: u2 :: e3 :: e2 :: e1 :: e0 :: tail,
          f, l, cf, ctr, nm⟩
      = Outcome.ok (utf8_encode (0x10000 + (h - 0xD800) * 0x400 + (lw - 0xDC00)),
          ⟨tail, f + 11, l, cf, ctr, nm⟩) := by
  obtain ⟨hi, lo, a1, a2, a3, hc⟩ := two_bytes_from_nibbles unchecked d3 d2 d1 d0 h hh
    (x :: u2 :: e3 :: e2 :: e1 :: e0 :: tail) (f + 1) l cf ctr nm
  obtain ⟨thi, tlo, b1, b2, b3, hc2⟩ := two_bytes_from_nibbles unchecked e3 e2 e1 e0 lw hlw
    tail (f + 1 + 4 + 1 + 1) l cf ctr nm
  unfold decode_utf16
  have hfront : ∀ (v : Nat) (d : List Nat) (g : Nat), (v = 117 ∨ v = 85) → g < l →
      (Range.front_is ⟨v :: d, g, l, cf, ctr, nm⟩ 117
        || Range.front_is ⟨v :: d, g, l, cf, ctr, nm⟩ 85) = true := by
    intro v d g hv hg
    rcases hv with rfl | rfl <;> simp [Range.front_is, Range.has_more, Range.front, hg]
  rw [hfront u _ f hu (by omega)]
  simp only [assert_weak_true]
  simp only [bind_eq_outcome_bind]
  rw [Outcome.bind_ok]
  have hrp : ∀ (v : Nat) (d : List Nat) (g : Nat), remove_prefix ⟨v :: d, g, l, cf, ctr, nm⟩ 1
      = ⟨d, g + 1, l, cf, ctr, nm⟩ := fun _ _ _ => rfl
  rw [hrp, a1, Outcome.bind_ok]
  simp only []
  rw [a2, Outcome.bind_ok]
  simp only []
  rw [a3, if_neg (show ¬ h ≤ 0x7F by omega), if_pos hhs, hrp,
    hfront u2 _ _ hu2 (by omega)]
  simp only [assert_weak_true]
  rw [Outcome.bind_ok, hrp, b1, Outcome.bind_ok]
  simp only []
  rw [b2, Outcome.bind_ok]
  simp only []
  rw [b3, Outcome.bind_ok]
  simp only []
  have hval : ((h - 0xD800) * 0x400 + (lw + 2 ^ 32 - 0xDC00) % 2 ^ 32 + 0x10000) % 2 ^ 32
      = 0x10000 + (h - 0xD800) * 0x400 + (lw - 0xDC00) := by
    omega
  rw [hval, if_pos (show 0x10000 + (h - 0xD800) * 0x400 + (lw - 0xDC00) ≥ 0x10000 by omega)]
  have := utf8_tail_bytes (0x10000 + (h - 0xD800) * 0x400 + (lw - 0xDC00)) (by omega) (by omega)
  rw [if_pos (show 0x10000 + (h - 0xD800) * 0x400 + (lw - 0xDC00) ≥ 0x10000 by omega)] at this
  rw [this]

end DawJson
namespace DawJson

/-- C17: on an escape `uXXXX` (the letter in either case, the digits in either
case) whose 16-bit value `c` is not a surrogate, `decode_utf16` returns the
UTF-8 encoding of the code point `c`, of 1 byte for `c <= 0x7F`, 2 bytes for
`c <= 0x7FF` and 3 bytes otherwise, and leaves the cursor after the four digits;
on a high surrogate `c` followed by a backslash and `uLLLL` with a low surrogate
`lw` it returns the 4 bytes of the UTF-8 encoding of
`0x10000 + (c - 0xD800) * 0x400 + (lw - 0xDC00)` and leaves the cursor after
the second escape. -/
theorem C17_decode_utf16_appends_utf8 (unchecked : Bool) (u d3 d2 d1 d0 c : Nat)
    (tail : List Nat) (f l cf : Nat) (ctr : Int) (nm : Bool)
    (hu : u = 117 ∨ u = 85) (h : hex4_value d3 d2 d1 d0 = some c) (hl : f + 5 ≤ l) :
    (¬ (0xD800 ≤ c ∧ c ≤ 0xDFFF) →
        decode_utf16 unchecked ⟨u :: d3 :: d2 :: d1 :: d0 :: tail, f, l, cf, ctr, nm⟩
          = Outcome.ok (utf8_encode c, ⟨tail, f + 5, l, cf, ctr, nm⟩)
        ∧ (utf8_encode c).length = (if c ≤ 0x7F then 1 else if c ≤ 0x7FF then 2 else 3))
      ∧ (∀ (u2 e3 e2 e1 e0 lw : Nat) (rest : List Nat),
          tail = 92 :: u2 :: e3 :: e2 :: e1 :: e0 :: rest →
          (0xD800 ≤ c ∧ c ≤ 0xDBFF) → (u2 = 117 ∨ u2 = 85) →
          hex4_value e3 e2 e1 e0 = some lw → (0xDC00 ≤ lw ∧ lw ≤ 0xDFFF) → f + 11 ≤ l →
          decode_utf16 unchecked ⟨u :: d3 :: d2 :: d1 :: d0 :: tail, f, l, cf, ctr, nm⟩
            = Outcome.ok (utf8_encode (0x10000 + (c - 0xD800) * 0x400 + (lw - 0xDC00)),
                ⟨rest, f + 11, l, cf, ctr, nm⟩)
          ∧ (utf8_encode (0x10000 + (c - 0xD800) * 0x400 + (lw - 0xDC00))).length = 4) := by
  refine ⟨fun hns => ⟨?_, ?_⟩, ?_⟩
  · exact decode_utf16_value unchecked u d3 d2 d1 d0 c hu h (by omega) tail f l cf ctr nm
      (by omega)
  · unfold utf8_encode
    obtain ⟨_, _, _, _, _, hc⟩ := two_bytes_from_nibbles unchecked d3 d2 d1 d0 c h [] 0 0 0 0 false
    split_ifs <;> first | rfl | (exfalso; omega)
  · intro u2 e3 e2 e1 e0 lw rest ht hhs hu2 hlw hls hl2
    subst ht
    refine ⟨decode_utf16_pair unchecked u d3 d2 d1 d0 c u2 e3 e2 e1 e0 lw 92 hu h hhs hu2 hlw
      hls rest f l cf ctr nm hl2, ?_⟩
    unfold utf8_encode
    split_ifs <;> first | rfl | (exfalso; omega)

/-- The escape `u00e9` gives the two bytes 0xC3 0xA9, and the pair `uD83D`,
`uDE00` the four bytes 0xF0 0x9F 0x98 0x80 of the code point 0x1F600. -/
theorem C17_decode_utf16_appends_utf8_witness :
    decode_utf16 false ⟨bytes "u00e9\"", 2, 8, 0, 0, false⟩
        = Outcome.ok ([0xC3, 0xA9], ⟨[34], 7, 8, 0, 0, false⟩)
      ∧ decode_utf16 false ⟨bytes "uD83D\\uDE00\"", 2, 14, 0, 0, false⟩
        = Outcome.ok ([0xF0, 0x9F, 0x98, 0x80], ⟨[34], 13, 14, 0, 0, false⟩) :=
  ⟨((C17_decode_utf16_appends_utf8 false 117 48 48 101 57 0xE9 [34] 2 8 0 0 false
      (Or.inl rfl) (by decide) (by decide)).1 (by decide)).1,
    ((C17_decode_utf16_appends_utf8 false 117 68 56 51 68 0xD83D
      (bytes "\\uDE00\"") 2 14 0 0 false (Or.inl rfl) (by decide) (by decide)).2
        117 68 69 48 48 0xDE00 [34] (by decide) (by decide) (Or.inl rfl) (by decide)
        (by decide) (by decide)).1⟩

theorem parse_digit_digit (a : Nat) (h : a < 10) : parse_digit (a + 48) = a := by
  unfold parse_digit; omega

theorem parse_unsigned_two (a b : Nat) (ha : a < 10) (hb : b < 10) (rest : List Nat) :
    parse_unsigned 2 ((a + 48) :: (b + 48) :: rest) = a * 10 + b := by
  unfold parse_unsigned
  simp only [parse_unsigned_loop, List.headD_cons, List.drop_succ_cons, List.drop_zero,
    parse_digit_digit a ha, parse_digit_digit b hb]
  rw [if_neg (by omega), if_neg (by omega)]
  omega

theorem is_number_digit (a : Nat) (h : a < 10) : is_number (a + 48) = true := by
  unfold is_number
  rw [parse_digit_digit a h]
  exact decide_eq_true h

theorem parse_number_year (y3 y2 y1 y0 : Nat) (h3 : y3 < 10) (h2 : y2 < 10) (h1 : y1 < 10)
    (h0 : y0 < 10) (rest : List Nat) :
    parse_number 32 true ⟨(y3 + 48) :: (y2 + 48) :: (y1 + 48) :: (y0 + 48) :: rest, 4⟩
      = Outcome.ok (y3 * 1000 + y2 * 100 + y1 * 10 + y0) := by
  unfold parse_number
  have hf1 : ((y3 + 48) == 45) = false := by simp
  have hf2 : ((y3 + 48) == 43) = false := by simp
  simp only [StrView.empty, StrView.front, StrView.toList, List.headD_cons, hf1, hf2,
    Bool.false_and, Bool.false_or, Bool.false_eq_true, if_false, List.take_succ_cons,
    List.take_zero, parse_number_loop, parse_digit_digit, h3, h2, h1, h0, decide_True,
    daw_json_ensure, bind_eq_outcome_bind, Outcome.bind_ok, Nat.reduceBEq, Bool.not_false,
    if_true]
  congr 1
  omega

end DawJson
namespace DawJson

theorem to_signed_32_of_range (n : Int) (h0 : -2147483648 ≤ n) (h1 : n < 2147483648) :
    to_signed 32 n = n := by
  unfold to_signed
  have e1 : (2 : Int) ^ 32 = 4294967296 := by norm_num
  have e2 : (2 : Int) ^ (32 - 1) = 2147483648 := by norm_num
  rw [e1, e2]
  split_ifs <;> omega

theorem to_signed_64_of_range (n : Int) (h0 : -9223372036854775808 ≤ n)
    (h1 : n < 9223372036854775808) : to_signed 64 n = n := by
  unfold to_signed
  have e1 : (2 : Int) ^ 64 = 18446744073709551616 := by norm_num
  have e2 : (2 : Int) ^ (64 - 1) = 9223372036854775808 := by norm_num
  rw [e1, e2]
  split_ifs <;> omega

theorem ensure_bind {α : Type} (b : Bool) (r : ErrorReason) (k : Unit → Outcome α) :
    (daw_json_ensure b r).bind k = if b = true then k () else Outcome.failed r := by
  cases b <;> rfl

theorem parse_iso_8601_date_digits (y3 y2 y1 y0 mo1 mo0 d1 d0 : Nat) (h3 : y3 < 10)
    (h2 : y2 < 10) (h1 : y1 < 10) (h0 : y0 < 10) (hm1 : mo1 < 10) (hm0 : mo0 < 10)
    (hd1 : d1 < 10) (hd0 : d0 < 10) (rest : List Nat) :
    parse_iso_8601_date
        ⟨(y3 + 48) :: (y2 + 48) :: (y1 + 48) :: (y0 + 48) :: 45 :: (mo1 + 48) :: (mo0 + 48)
          :: 45 :: (d1 + 48) :: (d0 + 48) :: rest, 10⟩
      = if 1 ≤ d1 * 10 + d0 ∧ d1 * 10 + d0 ≤ 31 then
          if 1 ≤ mo1 * 10 + mo0 ∧ mo1 * 10 + mo0 ≤ 12 then
            Outcome.ok { year := ((y3 * 1000 + y2 * 100 + y1 * 10 + y0 : Nat) : Int),
                         month := mo1 * 10 + mo0, day := d1 * 10 + d0 }
          else Outcome.failed ErrorReason.InvalidTimestamp
        else Outcome.failed ErrorReason.InvalidTimestamp := by
  unfold parse_iso_8601_date
  simp only [StrView.pop_back, bind_eq_outcome_bind, ensure_bind]
  have hn : is_number 45 = false := by decide
  have e1 : ∀ l : List Nat, List.drop (10 - 2) ((y3 + 48) :: (y2 + 48) :: (y1 + 48)
      :: (y0 + 48) :: 45 :: (mo1 + 48) :: (mo0 + 48) :: 45 :: l) = l := fun _ => rfl
  have e2 : ∀ l : List Nat, (StrView.drop_back ⟨(y3 + 48) :: (y2 + 48) :: (y1 + 48)
      :: (y0 + 48) :: 45 :: (mo1 + 48) :: (mo0 + 48) :: 45 :: l, 10⟩ 2).back = 45 :=
    fun _ => rfl
  have e3 : ∀ l : List Nat, StrView.drop_back (StrView.drop_back ⟨l, 10⟩ 2) 1 = ⟨l, 7⟩ :=
    fun _ => rfl
  simp only [e1, e2, e3, hn, Bool.not_false, if_true]
  have e4 : ∀ l : List Nat, List.drop (7 - 2) ((y3 + 48) :: (y2 + 48) :: (y1 + 48)
      :: (y0 + 48) :: 45 :: l) = l := fun _ => rfl
  have e5 : ∀ l : List Nat, (StrView.drop_back ⟨(y3 + 48) :: (y2 + 48) :: (y1 + 48)
      :: (y0 + 48) :: 45 :: l, 7⟩ 2).back = 45 := fun _ => rfl
  have e6 : ∀ l : List Nat, StrView.drop_back (StrView.drop_back ⟨l, 7⟩ 2) 1 = ⟨l, 4⟩ :=
    fun _ => rfl
  simp only [e4, e5, e6, hn, Bool.not_false, if_true, parse_unsigned_two _ _ hd1 hd0,
    parse_unsigned_two _ _ hm1 hm0, parse_number_year y3 y2 y1 y0 h3 h2 h1 h0, Outcome.bind_ok,
    Bool.and_eq_true, decide_eq_true_eq]
  have hs : to_signed 32 ((y3 * 1000 + y2 * 100 + y1 * 10 + y0 : Nat) : Int)
      = ((y3 * 1000 + y2 * 100 + y1 * 10 + y0 : Nat) : Int) := by
    apply to_signed_32_of_range <;> omega
  rw [hs]

end DawJson
namespace DawJson

theorem parse_iso_8601_time_digits (h1 h0 mi1 mi0 s1 s0 : Nat) (hh1 : h1 < 10)
    (hh0 : h0 < 10) (hm1 : mi1 < 10) (hm0 : mi0 < 10) (hs1 : s1 < 10) (hs0 : s0 < 10)
    (rest : List Nat) :
    parse_iso_8601_time
        ⟨(h1 + 48) :: (h0 + 48) :: 58 :: (mi1 + 48) :: (mi0 + 48) :: 58 :: (s1 + 48)
          :: (s0 + 48) :: rest, 8⟩
      = if h1 * 10 + h0 ≤ 24 then
          if mi1 * 10 + mi0 ≤ 59 then
            if s1 * 10 + s0 ≤ 60 then
              Outcome.ok { hour := h1 * 10 + h0, minute := mi1 * 10 + mi0,
                           second := s1 * 10 + s0, nanosecond := 0 }
            else Outcome.failed ErrorReason.InvalidTimestamp
          else Outcome.failed ErrorReason.InvalidTimestamp
        else Outcome.failed ErrorReason.InvalidTimestamp := by
  unfold parse_iso_8601_time
  dsimp only
  have hn : is_number 58 = false := by decide
  have e1 : ∀ (a b : Nat) (l : List Nat) (n : Nat),
      StrView.drop ⟨a :: b :: 58 :: l, n + 3⟩ 2 = ⟨58 :: l, n + 1⟩ := by
    intro a b l n
    simp [StrView.drop]
  have e2 : ∀ (l : List Nat) (n : Nat), (⟨58 :: l, n⟩ : StrView).front = 58 := fun _ _ => rfl
  have e3 : ∀ (l : List Nat) (n : Nat), StrView.drop ⟨58 :: l, n + 1⟩ 1 = ⟨l, n⟩ := by
    intro l n
    simp [StrView.drop]
  have e4 : ∀ (a b : Nat) (l : List Nat), StrView.drop ⟨a :: b :: l, 2⟩ 2 = ⟨l, 0⟩ := by
    intro a b l
    simp [StrView.drop]
  have e5 : ∀ (l : List Nat), (⟨l, 0⟩ : StrView).empty = true := fun _ => rfl
  have e6 : ∀ (l : List Nat) (n : Nat), (⟨l, n + 1⟩ : StrView).empty = false := fun _ _ => rfl
  simp only [StrView.pop_front, bind_eq_outcome_bind, ensure_bind,
    e1 _ _ _ 5, e2, e3, hn, Bool.not_false, if_true, e1 _ _ _ 2, e4, e5, e6,
    Bool.false_eq_true, if_false, parse_unsigned_two _ _ hh1 hh0,
    parse_unsigned_two _ _ hm1 hm0, parse_unsigned_two _ _ hs1 hs0, decide_eq_true_eq]

end DawJson
namespace DawJson

theorem digit_ne_T (a : Nat) (h : a < 10) : ((a + 48) != 84) = true := by
  simp; omega

theorem timestamp_date_part (y3 y2 y1 y0 mo1 mo0 d1 d0 : Nat) (h3 : y3 < 10)
    (h2 : y2 < 10) (h1 : y1 < 10) (h0 : y0 < 10) (hm1 : mo1 < 10) (hm0 : mo0 < 10)
    (hd1 : d1 < 10) (hd0 : d0 < 10) (rest : List Nat) :
    StrView.pop_front_until_char
        ⟨(y3 + 48) :: (y2 + 48) :: (y1 + 48) :: (y0 + 48) :: 45 :: (mo1 + 48) :: (mo0 + 48)
          :: 45 :: (d1 + 48) :: (d0 + 48) :: 84 :: rest, rest.length + 11⟩ 84
      = (⟨(y3 + 48) :: (y2 + 48) :: (y1 + 48) :: (y0 + 48) :: 45 :: (mo1 + 48) :: (mo0 + 48)
          :: 45 :: (d1 + 48) :: (d0 + 48) :: 84 :: rest, 10⟩, ⟨rest, rest.length⟩) := by
  unfold StrView.pop_front_until_char StrView.toList
  dsimp only
  have ht : List.takeWhile (fun x => x != 84)
      (List.take (rest.length + 11) ((y3 + 48) :: (y2 + 48) :: (y1 + 48) :: (y0 + 48) :: 45
        :: (mo1 + 48) :: (mo0 + 48) :: 45 :: (d1 + 48) :: (d0 + 48) :: 84 :: rest))
      = [y3 + 48, y2 + 48, y1 + 48, y0 + 48, 45, mo1 + 48, mo0 + 48, 45, d1 + 48, d0 + 48] := by
    simp only [List.take_succ_cons, List.takeWhile_cons, digit_ne_T _ h3, digit_ne_T _ h2,
      digit_ne_T _ h1, digit_ne_T _ h0, digit_ne_T _ hm1, digit_ne_T _ hm0, digit_ne_T _ hd1,
      digit_ne_T _ hd0, if_true]
    simp
  rw [ht]
  simp [StrView.drop]

theorem timestamp_time_part (h1 h0 mi1 mi0 s1 s0 : Nat) (hh1 : h1 < 10)
    (hh0 : h0 < 10) (hm1 : mi1 < 10) (hm0 : mi0 < 10) (hs1 : s1 < 10) (hs0 : s0 < 10) :
    StrView.pop_front_until_pred
        ⟨[h1 + 48, h0 + 48, 58, mi1 + 48, mi0 + 48, 58, s1 + 48, s0 + 48, 90], 9⟩
        (fun c => !(is_number c || c == 58 || c == 46))
      = (⟨[h1 + 48, h0 + 48, 58, mi1 + 48, mi0 + 48, 58, s1 + 48, s0 + 48, 90], 8⟩,
          ⟨[90], 1⟩) := by
  unfold StrView.pop_front_until_pred StrView.toList
  dsimp only
  have h58 : is_number 58 = false := by decide
  have h90 : is_number 90 = false := by decide
  have ht : List.takeWhile (fun c => !!(is_number c || c == 58 || c == 46))
      (List.take 9 [h1 + 48, h0 + 48, 58, mi1 + 48, mi0 + 48, 58, s1 + 48, s0 + 48, 90])
      = [h1 + 48, h0 + 48, 58, mi1 + 48, mi0 + 48, 58, s1 + 48, s0 + 48] := by
    simp [List.takeWhile_cons, is_number_digit _ hh1, is_number_digit _ hh0,
      is_number_digit _ hm1, is_number_digit _ hm0, is_number_digit _ hs1,
      is_number_digit _ hs0, h90]
  rw [ht]
  simp [StrView.drop]

end DawJson
namespace DawJson

/-- C12: for every text `YYYY-MM-DDThh:mm:ssZ` whose fields are decimal digits,
`parse_iso8601_timestamp` succeeds, with the time point of the fields, exactly
when `1 <= MM <= 12`, `1 <= DD <= 31`, `hh <= 24`, `mm <= 59` and `ss <= 60`,
and fails with `InvalidTimestamp` otherwise. -/
theorem C12_timestamp_field_ranges (y3 y2 y1 y0 mo1 mo0 d1 d0 h1 h0 mi1 mi0 s1 s0 : Nat)
    (hy3 : y3 < 10) (hy2 : y2 < 10) (hy1 : y1 < 10) (hy0 : y0 < 10) (hmo1 : mo1 < 10)
    (hmo0 : mo0 < 10) (hd1 : d1 < 10) (hd0 : d0 < 10) (hh1 : h1 < 10) (hh0 : h0 < 10)
    (hmi1 : mi1 < 10) (hmi0 : mi0 < 10) (hs1 : s1 < 10) (hs0 : s0 < 10) :
    parse_iso8601_timestamp
        (StrView.ofBytes (timestamp_text y3 y2 y1 y0 mo1 mo0 d1 d0 h1 h0 mi1 mi0 s1 s0))
      = if (1 ≤ mo1 * 10 + mo0 ∧ mo1 * 10 + mo0 ≤ 12) ∧ (1 ≤ d1 * 10 + d0 ∧ d1 * 10 + d0 ≤ 31)
            ∧ h1 * 10 + h0 ≤ 24 ∧ mi1 * 10 + mi0 ≤ 59 ∧ s1 * 10 + s0 ≤ 60 then
          Outcome.ok (civil_to_time_point ((y3 * 1000 + y2 * 100 + y1 * 10 + y0 : Nat) : Int)
            (mo1 * 10 + mo0) (d1 * 10 + d0) (h1 * 10 + h0) (mi1 * 10 + mi0) (s1 * 10 + s0) 0)
        else Outcome.failed ErrorReason.InvalidTimestamp := by
  unfold parse_iso8601_timestamp
  have hd := timestamp_date_part y3 y2 y1 y0 mo1 mo0 d1 d0 hy3 hy2 hy1 hy0 hmo1 hmo0 hd1 hd0
    [h1 + 48, h0 + 48, 58, mi1 + 48, mi0 + 48, 58, s1 + 48, s0 + 48, 90]
  have hsv : StrView.ofBytes (timestamp_text y3 y2 y1 y0 mo1 mo0 d1 d0 h1 h0 mi1 mi0 s1 s0)
      = ⟨(y3 + 48) :: (y2 + 48) :: (y1 + 48) :: (y0 + 48) :: 45 :: (mo1 + 48) :: (mo0 + 48)
          :: 45 :: (d1 + 48) :: (d0 + 48) :: 84
          :: [h1 + 48, h0 + 48, 58, mi1 + 48, mi0 + 48, 58, s1 + 48, s0 + 48, 90],
          [h1 + 48, h0 + 48, 58, mi1 + 48, mi0 + 48, 58, s1 + 48, s0 + 48, 90].length + 11⟩ :=
    rfl
  rw [hsv, hd]
  dsimp only
  have he : (⟨[h1 + 48, h0 + 48, 58, mi1 + 48, mi0 + 48, 58, s1 + 48, s0 + 48, 90],
      [h1 + 48, h0 + 48, 58, mi1 + 48, mi0 + 48, 58, s1 + 48, s0 + 48, 90].length⟩
        : StrView).empty = false := rfl
  rw [he]
  have hl : [h1 + 48, h0 + 48, 58, mi1 + 48, mi0 + 48, 58, s1 + 48, s0 + 48, 90].length = 9 :=
    rfl
  rw [hl, timestamp_time_part h1 h0 mi1 mi0 s1 s0 hh1 hh0 hmi1 hmi0 hs1 hs0]
  dsimp only
  rw [parse_iso_8601_date_digits y3 y2 y1 y0 mo1 mo0 d1 d0 hy3 hy2 hy1 hy0 hmo1 hmo0 hd1 hd0,
    parse_iso_8601_time_digits h1 h0 mi1 mi0 s1 s0 hh1 hh0 hmi1 hmi0 hs1 hs0]
  have hz : (!((⟨[90], 1⟩ : StrView).empty || (⟨[90], 1⟩ : StrView).front == 90)) = false := rfl
  rw [hz]
  simp only [bind_eq_outcome_bind, Bool.false_eq_true, if_false]
  split_ifs <;> first | rfl | (exfalso; omega)

/-- The text `2020-02-31T24:59:60Z` is accepted and `2020-13-01T00:00:00Z` is
rejected. -/
theorem C12_timestamp_field_ranges_witness :
    parse_iso8601_timestamp (StrView.ofBytes (bytes "2020-02-31T24:59:60Z"))
        = Outcome.ok (civil_to_time_point 2020 2 31 24 59 60 0)
      ∧ parse_iso8601_timestamp (StrView.ofBytes (bytes "2020-13-01T00:00:00Z"))
        = Outcome.failed ErrorReason.InvalidTimestamp :=
  ⟨C12_timestamp_field_ranges 2 0 2 0 0 2 3 1 2 4 5 9 6 0 (by decide) (by decide) (by decide)
      (by decide) (by decide) (by decide) (by decide) (by decide) (by decide) (by decide)
      (by decide) (by decide) (by decide) (by decide),
    C12_timestamp_field_ranges 2 0 2 0 1 3 0 1 0 0 0 0 0 0 (by decide) (by decide) (by decide)
      (by decide) (by decide) (by decide) (by decide) (by decide) (by decide) (by decide)
      (by decide) (by decide) (by decide) (by decide)⟩

theorem tdiv_floor_400 (y : Int) :
    Int.tdiv (if y ≥ 0 then y else y - 399) 400 = y / 400 := by
  by_cases h : y ≥ 0
  · rw [if_pos h, Int.tdiv_eq_ediv h (by decide)]
  · rw [if_neg h]
    have e : y - 399 = -(399 - y) := by omega
    rw [e, Int.neg_tdiv, Int.tdiv_eq_ediv (by omega) (by decide)]
    omega

theorem toNat_mod_32 (n : Int) (h0 : 0 ≤ n) (h1 : n < 4294967296) :
    ((n % 2 ^ 32).toNat : Int) = n := by
  have e1 : (2 : Int) ^ 32 = 4294967296 := by norm_num
  rw [e1]
  omega

/-- The day count in closed form, for a year in the range in which the 32-bit
arithmetic of the code does not overflow. -/
theorem days_from_civil_closed (y : Int) (m d : Nat) (hy1 : -2147483248 ≤ y)
    (hy2 : y ≤ 2147483647) (hm1 : 1 ≤ m) (hm2 : m ≤ 12) (hd1 : 1 ≤ d) (hd2 : d ≤ 31)
    (y2 : Int) (hy : y2 = y - (if m ≤ 2 then 1 else 0))
    (mp : Int) (hmp : mp = (m : Int) + (if m > 2 then -3 else 9)) :
    days_from_civil y m d
      = y2 / 400 * 146097 + (y2 % 400 * 365 + y2 % 400 / 4 - y2 % 400 / 100
          + ((153 * mp + 2) / 5 + d - 1)) - 719468 := by
  unfold days_from_civil
  dsimp only
  have hm : to_signed 32 (m : Int) = m := to_signed_32_of_range _ (by omega) (by omega)
  have hd : to_signed 32 (d : Int) = d := to_signed_32_of_range _ (by omega) (by omega)
  rw [hm, hd]
  have hi1 : (if (m : Int) ≤ 2 then (1 : Int) else 0) = (if m ≤ 2 then 1 else 0) := by
    split_ifs <;> first | rfl | omega
  have hi2 : (if (m : Int) > 2 then (-3 : Int) else 9) = (if m > 2 then -3 else 9) := by
    split_ifs <;> first | rfl | omega
  rw [hi1, hi2, ← hy, ← hmp]
  have hyb : -2147483249 ≤ y2 ∧ y2 ≤ 2147483647 := by
    rw [hy]; split_ifs <;> omega
  have hmpb : 0 ≤ mp ∧ mp ≤ 11 := by
    rw [hmp]; split_ifs <;> omega
  rw [to_signed_32_of_range y2 (by omega) (by omega)]
  have hera : Int.tdiv (if y2 ≥ 0 then y2 else to_signed 32 (y2 - 399)) 400 = y2 / 400 := by
    rw [← tdiv_floor_400 y2]
    by_cases h : y2 ≥ 0
    · rw [if_pos h, if_pos h]
    · rw [if_neg h, if_neg h, to_signed_32_of_range _ (by omega) (by omega)]
  rw [hera]
  rw [to_signed_32_of_range (y2 / 400) (by omega) (by omega),
    to_signed_32_of_range (y2 / 400 * 400) (by omega) (by omega)]
  have hyoe : y2 - y2 / 400 * 400 = y2 % 400 := by omega
  rw [hyoe]
  rw [to_signed_32_of_range (153 * mp + 2) (by omega) (by omega),
    Int.tdiv_eq_ediv (by omega) (by decide),
    to_signed_32_of_range ((153 * mp + 2) / 5 + d - 1) (by omega) (by omega)]
  have e1 : (2 : Int) ^ 32 = 4294967296 := by norm_num
  have e2 : (2 : Nat) ^ 32 = 4294967296 := by norm_num
  rw [e1, e2]
  obtain ⟨Y, hY⟩ := Int.eq_ofNat_of_zero_le (show 0 ≤ y2 % 400 by omega)
  obtain ⟨D, hD⟩ := Int.eq_ofNat_of_zero_le (show 0 ≤ (153 * mp + 2) / 5 + (d : Int) - 1 by omega)
  have hYb : Y < 400 := by omega
  have hDb : D < 500 := by omega
  rw [hD, hY]
  have t1 : ((Y : Int) % 4294967296).toNat = Y := by omega
  have t2 : ((D : Int) % 4294967296).toNat = D := by omega
  rw [t1, t2]
  have t3 : (Y * 365 + Y / 4 + 4294967296 - Y / 100 + D) % 4294967296
      = Y * 365 + Y / 4 - Y / 100 + D := by omega
  rw [t3]
  have hEb : -5368710 ≤ y2 / 400 ∧ y2 / 400 ≤ 5368710 := by omega
  rw [to_signed_64_of_range _ (by omega) (by omega)]
  omega

end DawJson
namespace DawJson

theorem days_from_civil_next_day (y : Int) (m d : Nat) (hy1 : -2147483248 ≤ y)
    (hy2 : y ≤ 2147483647) (hm1 : 1 ≤ m) (hm2 : m ≤ 12) (hd1 : 1 ≤ d) (hd2 : d + 1 ≤ 31) :
    days_from_civil y m (d + 1) = days_from_civil y m d + 1 := by
  rw [days_from_civil_closed y m (d + 1) hy1 hy2 hm1 hm2 (by omega) hd2 _ rfl _ rfl,
    days_from_civil_closed y m d hy1 hy2 hm1 hm2 hd1 (by omega) _ rfl _ rfl]
  push_cast
  omega

theorem days_from_civil_next_month (y : Int) (m : Nat) (hy1 : -2147483248 ≤ y)
    (hy2 : y ≤ 2147483647) (hm1 : 1 ≤ m) (hm2 : m < 12) :
    days_from_civil y (m + 1) 1 = days_from_civil y m (days_in_month y m) + 1 := by
  have hdm : 28 ≤ days_in_month y m ∧ days_in_month y m ≤ 31 := by
    unfold days_in_month; split_ifs <;> omega
  rw [days_from_civil_closed y (m + 1) 1 hy1 hy2 (by omega) (by omega) (by omega) (by omega)
      _ rfl _ rfl,
    days_from_civil_closed y m (days_in_month y m) hy1 hy2 hm1 (by omega) (by omega) (by omega)
      _ rfl _ rfl]
  unfold days_in_month is_leap_year
  interval_cases m
  all_goals simp only [Nat.reduceAdd, Nat.reduceLeDiff, Nat.reduceEqDiff, if_true, if_false,
    Nat.reduceGT, Nat.cast_ofNat, gt_iff_lt, Nat.reduceLT, or_self, or_false, false_or,
    Nat.cast_one, OfNat.ofNat_ne_one, Nat.succ_ne_self, OfNat.one_ne_ofNat]
  all_goals first | omega | (simp only [Bool.and_eq_true, Bool.or_eq_true, decide_eq_true_eq]; split_ifs <;> (push_cast; omega))

end DawJson
namespace DawJson

theorem days_from_civil_next_year (y : Int) (hy1 : -2147483248 ≤ y) (hy2 : y ≤ 2147483646) :
    days_from_civil (y + 1) 1 1 = days_from_civil y 12 31 + 1 := by
  rw [days_from_civil_closed (y + 1) 1 1 (by omega) (by omega) (by omega) (by omega) (by omega)
      (by omega) _ rfl _ rfl,
    days_from_civil_closed y 12 31 hy1 (by omega) (by omega) (by omega) (by omega) (by omega)
      _ rfl _ rfl]
  simp only [Nat.reduceLeDiff, if_true, if_false, Nat.reduceGT, Nat.cast_ofNat, Nat.cast_one,
    Nat.one_le_ofNat, gt_iff_lt, Nat.reduceLT, Nat.not_ofNat_le_one]
  omega


theorem civil_to_time_point_midnight (y : Int) (m d : Nat) (hy1 : -5000000 ≤ y)
    (hy2 : y ≤ 5000000) (hm1 : 1 ≤ m) (hm2 : m ≤ 12) (hd1 : 1 ≤ d) (hd2 : d ≤ 31) :
    civil_to_time_point y m d 0 0 0 0 = days_from_civil y m d * 86400000 := by
  unfold civil_to_time_point
  dsimp only
  have hc := days_from_civil_closed y m d (by omega) (by omega) hm1 hm2 hd1 hd2 _ rfl _ rfl
  have hb : -2000000000 ≤ days_from_civil y m d ∧ days_from_civil y m d ≤ 2000000000 := by
    rw [hc]
    split_ifs <;> omega
  rw [to_signed_32_of_range _ (by omega) (by omega)]
  have hz : to_signed 64 ((0 : Nat) : Int) / 1000000 = 0 := by decide
  rw [hz]
  simp only [Nat.cast_zero, zero_mul, add_zero]
  exact to_signed_64_of_range _ (by omega) (by omega)

theorem days_from_civil_successor (y : Int) (m d : Nat)
    (hy1 : -2147483248 ≤ y) (hy2 : y ≤ 2147483646) (hv : valid_date y m d) :
    days_from_civil 1970 1 1 = 0
      ∧ valid_date (next_date y m d).1 (next_date y m d).2.1 (next_date y m d).2.2
      ∧ days_from_civil (next_date y m d).1 (next_date y m d).2.1 (next_date y m d).2.2
          = days_from_civil y m d + 1 := by
  obtain ⟨hm1, hm2, hd1, hd2⟩ := hv
  have hdm : ∀ (yy : Int) (mm : Nat), 28 ≤ days_in_month yy mm ∧ days_in_month yy mm ≤ 31 := by
    intro yy mm
    unfold days_in_month; split_ifs <;> omega
  refine ⟨by decide, ?_⟩
  unfold next_date
  by_cases c1 : d < days_in_month y m
  · rw [if_pos c1]
    refine ⟨?_, ?_⟩
    · show valid_date y m (d + 1)
      exact ⟨hm1, hm2, by omega, by omega⟩
    · exact days_from_civil_next_day y m d hy1 (by omega) hm1 hm2 hd1
        (by have := hdm y m; omega)
  · rw [if_neg c1]
    have hd : d = days_in_month y m := by omega
    by_cases c2 : m < 12
    · rw [if_pos c2]
      refine ⟨?_, ?_⟩
      · show valid_date y (m + 1) 1
        have := hdm y (m + 1)
        exact ⟨by omega, by omega, le_refl _, by omega⟩
      · rw [hd]
        exact days_from_civil_next_month y m hy1 (by omega) hm1 c2
    · rw [if_neg c2]
      have hm : m = 12 := by omega
      subst hm
      have hd31 : d = 31 := by rw [hd]; rfl
      subst hd31
      refine ⟨?_, ?_⟩
      · show valid_date (y + 1) 1 1
        have := hdm (y + 1) 1
        exact ⟨le_refl _, by omega, le_refl _, by omega⟩
      · exact days_from_civil_next_year y hy1 hy2

/-- C14 (as stated, refuted): under the checked policy with unknown bounds the
Bool parser fails on `true x,` and on `truex,`, which spell `true` at the cursor:
behind the literal and the whitespace it requires a byte that ends an item.
With `literal_as_string` `Always` it fails on `true,`, where the quote is left
out, and with `Maybe` it fails on a buffer that ends right behind `true`, which
the parser without quotes (`Never`) accepts. -/
theorem C14_bool_needs_end_of_item :
    (parse_value_Bool LiteralAsStringOpt.Never false false
        (Range.ofBytes (bytes "true x,"))).isFailed = true
      ∧ (parse_value_Bool LiteralAsStringOpt.Never false false
        (Range.ofBytes (bytes "truex,"))).isFailed = true
      ∧ (parse_value_Bool LiteralAsStringOpt.Always false false
        (Range.ofBytes (bytes "true,"))).isFailed = true
      ∧ (parse_value_Bool LiteralAsStringOpt.Maybe false false
        (Range.ofBytes (bytes "true"))).isFailed = true
      ∧ parse_value_Bool LiteralAsStringOpt.Never false false (Range.ofBytes (bytes "true"))
        = Outcome.ok (true, { data := [], first := 4, last := 4 })
      ∧ parse_value_Bool LiteralAsStringOpt.Never false false (Range.ofBytes (bytes "true ,"))
        = Outcome.ok (true, { data := [44], first := 5, last := 6 }) := by
  decide

theorem skip_quote_allowed (las : LiteralAsStringOpt) (q d : List Nat) (total cf : Nat)
    (ctr : Int) (nm : Bool) (hq : quote_allowed las q) (hd : d.headD 0 ≠ 34) (hne : d ≠ [])
    (h : (q ++ d).length ≤ total) :
    skip_quote_when_literal_as_string las false (Range.tail_of total (q ++ d) cf ctr nm)
      = Outcome.ok (Range.tail_of total d cf ctr nm) := by
  obtain ⟨c, d2, rfl⟩ : ∃ c d2, d = c :: d2 := by
    cases d with
    | nil => exact absurd rfl hne
    | cons c d2 => exact ⟨c, d2, rfl⟩
  have hc : (c != 34) = true := by simpa using hd
  have hc2 : (c == 34) = false := by simpa using hd
  cases las
  · -- Never
    have : q = [] := hq
    subst this
    show (daw_json_assert_weak false (c != 34) _).bind _ = _
    rw [hc]
    rfl
  · -- Maybe
    rcases (hq : q = [] ∨ q = [34]) with rfl | rfl
    · unfold skip_quote_when_literal_as_string
      simp only [List.nil_append, Range.empty, bind_eq_outcome_bind] at h ⊢
      rw [tail_of_has_more total c d2 cf ctr nm h]
      show Outcome.ok (if (c == 34) = true then _ else _) = _
      rw [hc2]
      rfl
    · unfold skip_quote_when_literal_as_string
      simp only [Range.empty, bind_eq_outcome_bind]
      rw [show [34] ++ c :: d2 = 34 :: (c :: d2) from rfl] at h ⊢
      rw [tail_of_has_more total 34 (c :: d2) cf ctr nm h]
      show Outcome.ok (if (34 == 34) = true then
        remove_prefix (Range.tail_of total (34 :: c :: d2) cf ctr nm) 1 else _) = _
      rw [if_pos (show ((34 : Nat) == 34) = true from rfl),
        tail_of_advance_one total 34 (c :: d2) cf ctr nm h]
  · -- Always
    have : q = [34] := hq
    subst this
    unfold skip_quote_when_literal_as_string
    simp only [bind_eq_outcome_bind]
    rw [show [34] ++ c :: d2 = 34 :: (c :: d2) from rfl] at h ⊢
    rw [tail_of_front_is total 34 (c :: d2) cf ctr nm h, assert_weak_true, Outcome.bind_ok,
      tail_of_advance_one total 34 (c :: d2) cf ctr nm h]

end DawJson
namespace DawJson

theorem bool_literal_false (t : List Nat) (total cf : Nat) (ctr : Int) (nm : Bool)
    (h : (bool_literal false ++ t).length ≤ total) :
    (Range.tail_of total (bool_literal false ++ t) cf ctr nm).starts_with (bytes "true") = false
      ∧ (Range.tail_of total (bool_literal false ++ t) cf ctr nm).starts_with (bytes "false")
        = true
      ∧ remove_prefix (Range.tail_of total (bool_literal false ++ t) cf ctr nm) 5
        = Range.tail_of total t cf ctr nm := by
  have hsz := tail_of_size total (bool_literal false ++ t) cf ctr nm h
  have e : bool_literal false ++ t = [102, 97, 108, 115, 101] ++ t := rfl
  rw [e] at h hsz ⊢
  refine ⟨?_, ?_, tail_of_advance total [102, 97, 108, 115, 101] t cf ctr nm h⟩
  · unfold Range.starts_with
    rw [show (List.take (bytes "true").length
      (Range.tail_of total ([102, 97, 108, 115, 101] ++ t) cf ctr nm).data == bytes "true")
        = false from rfl, Bool.and_false]
  · unfold Range.starts_with
    rw [hsz, show (List.take (bytes "false").length
      (Range.tail_of total ([102, 97, 108, 115, 101] ++ t) cf ctr nm).data == bytes "false")
        = true from rfl, Bool.and_true]
    exact decide_eq_true (by simp [bytes])

theorem bool_literal_true (t : List Nat) (total cf : Nat) (ctr : Int) (nm : Bool)
    (h : (bool_literal true ++ t).length ≤ total) :
    (Range.tail_of total (bool_literal true ++ t) cf ctr nm).starts_with (bytes "true") = true
      ∧ remove_prefix (Range.tail_of total (bool_literal true ++ t) cf ctr nm) 4
        = Range.tail_of total t cf ctr nm := by
  have hsz := tail_of_size total (bool_literal true ++ t) cf ctr nm h
  have e : bool_literal true ++ t = [116, 114, 117, 101] ++ t := rfl
  rw [e] at h hsz ⊢
  refine ⟨?_, tail_of_advance total [116, 114, 117, 101] t cf ctr nm h⟩
  unfold Range.starts_with
  rw [hsz, show (List.take (bytes "true").length
    (Range.tail_of total ([116, 114, 117, 101] ++ t) cf ctr nm).data == bytes "true")
      = true from rfl, Bool.and_true]
  exact decide_eq_true (by simp [bytes])

theorem skip_quote_at_end (las : LiteralAsStringOpt) (q d : List Nat) (total cf : Nat)
    (ctr : Int) (nm : Bool) (hq : quote_allowed las q) (hd : d.headD 0 ≠ 34)
    (hne : las = LiteralAsStringOpt.Maybe → q ++ d ≠ [])
    (h : (q ++ d).length ≤ total) :
    skip_quote_when_literal_as_string las false (Range.tail_of total (q ++ d) cf ctr nm)
      = Outcome.ok (Range.tail_of total d cf ctr nm) := by
  cases d with
  | cons c d2 => exact skip_quote_allowed las q (c :: d2) total cf ctr nm hq hd (by simp) h
  | nil =>
    cases las
    · -- Never
      have : q = [] := hq
      subst this
      rfl
    · -- Maybe
      rcases (hq : q = [] ∨ q = [34]) with rfl | rfl
      · exact absurd rfl (hne rfl)
      · unfold skip_quote_when_literal_as_string
        simp only [Range.empty, bind_eq_outcome_bind, List.append_nil] at h ⊢
        rw [tail_of_has_more total 34 [] cf ctr nm h]
        show Outcome.ok (if (34 == 34) = true then
          remove_prefix (Range.tail_of total [34] cf ctr nm) 1 else _) = _
        rw [if_pos (show ((34 : Nat) == 34) = true from rfl),
          tail_of_advance_one total 34 [] cf ctr nm h]
    · -- Always
      have : q = [34] := hq
      subst this
      unfold skip_quote_when_literal_as_string
      simp only [bind_eq_outcome_bind, List.append_nil] at h ⊢
      rw [tail_of_front_is total 34 [] cf ctr nm h, assert_weak_true, Outcome.bind_ok,
        tail_of_advance_one total 34 [] cf ctr nm h]

theorem skip_quote_maybe_at_end (total cf : Nat) (ctr : Int) (nm : Bool) :
    skip_quote_when_literal_as_string LiteralAsStringOpt.Maybe false
        (Range.tail_of total [] cf ctr nm)
      = Outcome.failed ErrorReason.UnexpectedEndOfData := by
  unfold skip_quote_when_literal_as_string
  have : (Range.tail_of total [] cf ctr nm).empty = true := by
    simp [Range.empty, Range.has_more, Range.tail_of]
  simp only [bind_eq_outcome_bind, this]
  rfl

theorem head_not_quote_of (ws tail : List Nat) (hws : whitespace ws)
    (hc : tail.headD 0 ≠ 34) : (ws ++ tail).headD 0 ≠ 34 := by
  cases ws with
  | nil => exact hc
  | cons w ws =>
    have := whitespace_not_quote (w :: ws) hws w (List.mem_cons_self _ _)
    simpa using this

theorem parse_value_Bool_cases (las : LiteralAsStringOpt) (q1 q2 : List Nat) (b : Bool)
    (ws tail : List Nat) (total cf : Nat) (ctr : Int) (nm : Bool)
    (hq1 : quote_allowed las q1) (hq2 : quote_allowed las q2) (hws : whitespace ws)
    (hsp : is_space (tail.headD 0) = false) (hc : tail.headD 0 ≠ 34)
    (h : (q1 ++ (bool_literal b ++ (q2 ++ (ws ++ tail)))).length ≤ total) :
    parse_value_Bool las false false
        (Range.tail_of total (q1 ++ (bool_literal b ++ (q2 ++ (ws ++ tail)))) cf ctr nm)
      = if las = LiteralAsStringOpt.Maybe ∧ q2 ++ (ws ++ tail) = [] then
          Outcome.failed ErrorReason.UnexpectedEndOfData
        else if at_end_of_item (tail.headD 0) = true then
          Outcome.ok (b, Range.tail_of total tail cf ctr nm)
        else Outcome.failed ErrorReason.InvalidLiteral := by
  have hl : 4 ≤ (bool_literal b).length := by cases b <;> decide
  have h2 : (bool_literal b ++ (q2 ++ (ws ++ tail))).length ≤ total := by
    simp only [List.length_append] at h ⊢; omega
  have h3 : (q2 ++ (ws ++ tail)).length ≤ total := by
    simp only [List.length_append] at h2 ⊢; omega
  have h4 : (ws ++ tail).length ≤ total := by
    simp only [List.length_append] at h3 ⊢; omega
  have hb : (bool_literal b ++ (q2 ++ (ws ++ tail))).headD 0 ≠ 34 := by
    cases b
    · show (102 : Nat) ≠ 34
      decide
    · show (116 : Nat) ≠ 34
      decide
  have hbne : bool_literal b ++ (q2 ++ (ws ++ tail)) ≠ [] := by
    cases b <;> simp [bool_literal, bytes]
  unfold parse_value_Bool
  simp only [Bool.false_eq_true, if_false, bind_eq_outcome_bind]
  rw [tail_of_size total _ cf ctr nm h,
    decide_eq_true (show 4 ≤ (q1 ++ (bool_literal b ++ (q2 ++ (ws ++ tail)))).length by
      simp only [List.length_append]; omega),
    assert_weak_true, Outcome.bind_ok,
    skip_quote_allowed las q1 _ total cf ctr nm hq1 hb hbne h, Outcome.bind_ok,
    Outcome.bind_ok]
  have hclose : ∀ v : Bool,
      (skip_quote_when_literal_as_string las false
          (Range.tail_of total (q2 ++ (ws ++ tail)) cf ctr nm)).bind
        (fun rng =>
          (daw_json_assert_weak false (at_end_of_item (trim_left false rng).front)
              ErrorReason.InvalidLiteral).bind
            fun _ => Outcome.ok (v, trim_left false rng))
        = if las = LiteralAsStringOpt.Maybe ∧ q2 ++ (ws ++ tail) = [] then
            Outcome.failed ErrorReason.UnexpectedEndOfData
          else if at_end_of_item (tail.headD 0) = true then
            Outcome.ok (v, Range.tail_of total tail cf ctr nm)
          else Outcome.failed ErrorReason.InvalidLiteral := by
    intro v
    by_cases hm : las = LiteralAsStringOpt.Maybe ∧ q2 ++ (ws ++ tail) = []
    · rw [if_pos hm, hm.1, hm.2, skip_quote_maybe_at_end]
      rfl
    · rw [if_neg hm,
        skip_quote_at_end las q2 _ total cf ctr nm hq2 (head_not_quote_of ws tail hws hc)
          (fun e hn => hm ⟨e, hn⟩) h3, Outcome.bind_ok,
        trim_left_whitespace false total ws tail cf ctr nm hws hsp h4]
      show (daw_json_assert_weak false (at_end_of_item (tail.headD 0))
        ErrorReason.InvalidLiteral).bind _ = _
      cases at_end_of_item (tail.headD 0) <;> rfl
  cases b
  · obtain ⟨s1, s2, s3⟩ := bool_literal_false (q2 ++ (ws ++ tail)) total cf ctr nm h2
    rw [s1, s2, s3]
    simp only [Bool.false_eq_true, if_false, if_true, Outcome.bind_ok]
    exact hclose false
  · obtain ⟨s1, s3⟩ := bool_literal_true (q2 ++ (ws ++ tail)) total cf ctr nm h2
    rw [s1, s3]
    simp only [if_true, Outcome.bind_ok]
    exact hclose true

end DawJson
namespace DawJson

theorem starts_with_data (rng : Range) (lit : List Nat)
    (h : rng.starts_with lit = true) : lit <+: rng.data := by
  unfold Range.starts_with at h
  simp only [Bool.and_eq_true, beq_iff_eq] at h
  rw [List.prefix_iff_eq_take]
  exact h.2.symm

theorem skip_quote_data (las : LiteralAsStringOpt) (rng rng1 : Range)
    (h : skip_quote_when_literal_as_string las false rng = Outcome.ok rng1) :
    rng1.data = strip_quote rng.data := by
  unfold strip_quote
  cases las
  · -- Never
    unfold skip_quote_when_literal_as_string at h
    simp only [bind_eq_outcome_bind] at h
    cases hb : (rng.front != 34)
    · rw [hb] at h; exact Outcome.noConfusion h
    · rw [hb] at h
      have : rng = rng1 := by
        simpa [daw_json_assert_weak, Outcome.bind] using h
      subst this
      have hne : rng.data.headD 0 ≠ 34 := by simpa [Range.front] using hb
      rw [if_neg hne]
  · -- Maybe
    unfold skip_quote_when_literal_as_string at h
    simp only [bind_eq_outcome_bind] at h
    cases hb : (!rng.empty)
    · rw [hb] at h; exact Outcome.noConfusion h
    · rw [hb] at h
      have : (if (rng.front == 34) = true then remove_prefix rng 1 else rng) = rng1 := by
        simpa [daw_json_assert_weak, Outcome.bind] using h
      subst this
      by_cases hq : rng.data.headD 0 = 34
      · have : (rng.front == 34) = true := by simpa [Range.front] using hq
        rw [this, if_pos rfl, if_pos hq]
        rfl
      · have : (rng.front == 34) = false := by simpa [Range.front] using hq
        rw [this, if_neg (by decide), if_neg hq]
  · -- Always
    unfold skip_quote_when_literal_as_string at h
    simp only [bind_eq_outcome_bind] at h
    cases hb : rng.front_is 34
    · rw [hb] at h; exact Outcome.noConfusion h
    · rw [hb] at h
      have : remove_prefix rng 1 = rng1 := by
        simpa [daw_json_assert_weak, Outcome.bind] using h
      subst this
      have hq : rng.data.headD 0 = 34 := by
        simp only [Range.front_is, Bool.and_eq_true, beq_iff_eq] at hb
        exact hb.2
      rw [if_pos hq]
      rfl

theorem skip_quote_never_undefined (las : LiteralAsStringOpt) (rng : Range) :
    skip_quote_when_literal_as_string las false rng ≠ Outcome.undefined := by
  cases las <;> unfold skip_quote_when_literal_as_string <;>
    simp only [bind_eq_outcome_bind, daw_json_assert_weak, Bool.false_eq_true, if_false]
      <;> split_ifs <;> simp [Outcome.bind, daw_json_error]

theorem parse_value_Bool_no_literal (las : LiteralAsStringOpt) (rng : Range)
    (ht : ¬ bytes "true" <+: strip_quote rng.data)
    (hf : ¬ bytes "false" <+: strip_quote rng.data) :
    ∃ r, parse_value_Bool las false false rng = Outcome.failed r := by
  unfold parse_value_Bool
  simp only [Bool.false_eq_true, if_false, bind_eq_outcome_bind]
  cases h4 : decide (4 ≤ rng.size)
  · exact ⟨_, rfl⟩
  · rw [assert_weak_true, Outcome.bind_ok]
    cases hs : skip_quote_when_literal_as_string las false rng with
    | failed r => exact ⟨r, rfl⟩
    | undefined => exact absurd hs (skip_quote_never_undefined las rng)
    | ok rng1 =>
      rw [Outcome.bind_ok]
      have hd := skip_quote_data las rng rng1 hs
      have s1 : rng1.starts_with (bytes "true") = false := by
        cases hx : rng1.starts_with (bytes "true")
        · rfl
        · exact absurd (hd ▸ starts_with_data rng1 _ hx) ht
      have s2 : rng1.starts_with (bytes "false") = false := by
        cases hx : rng1.starts_with (bytes "false")
        · rfl
        · exact absurd (hd ▸ starts_with_data rng1 _ hx) hf
      rw [s1, s2]
      exact ⟨_, rfl⟩

end DawJson
namespace DawJson

/-- C14, amended: under the checked policy with unknown bounds, let the input at
the cursor be the quote that `literal_as_string` requires or allows, the literal
`true` or `false`, the closing quote on the same terms, whitespace `ws` and then
`tail`, which starts neither with whitespace nor with a quote.  When `tail`
starts with a byte that ends an item (a comma, a closing brace or bracket) or is
empty, the buffer ending there, the Bool parser returns the value of the
literal and has consumed exactly the literal, the quotes and the whitespace;
with `Maybe` this needs a byte behind the literal.  When `tail` starts with any
other byte the parser fails, and so it does with `Maybe` when the buffer ends
right behind the literal.  On every input that, after the quote it may start
with, spells neither `true` nor `false`, the parser fails. -/
theorem C14_bool_literal_then_end_of_item (las : LiteralAsStringOpt) (q1 q2 : List Nat)
    (b : Bool) (ws tail : List Nat) (total cf : Nat) (ctr : Int)
    (nm : Bool) (rng : Range)
    (hq1 : quote_allowed las q1) (hq2 : quote_allowed las q2) (hws : whitespace ws)
    (hsp : is_space (tail.headD 0) = false) (hc : tail.headD 0 ≠ 34)
    (h : (q1 ++ (bool_literal b ++ (q2 ++ (ws ++ tail)))).length ≤ total) :
    (at_end_of_item (tail.headD 0) = true →
        ¬ (las = LiteralAsStringOpt.Maybe ∧ q2 ++ (ws ++ tail) = []) →
        parse_value_Bool las false false
            (Range.tail_of total (q1 ++ (bool_literal b ++ (q2 ++ (ws ++ tail)))) cf ctr nm)
          = Outcome.ok (b, Range.tail_of total tail cf ctr nm))
      ∧ (at_end_of_item (tail.headD 0) = false →
        (parse_value_Bool las false false
            (Range.tail_of total (q1 ++ (bool_literal b ++ (q2 ++ (ws ++ tail)))) cf ctr nm)
          ).isFailed = true)
      ∧ (las = LiteralAsStringOpt.Maybe ∧ q2 ++ (ws ++ tail) = [] →
        (parse_value_Bool las false false
            (Range.tail_of total (q1 ++ (bool_literal b ++ (q2 ++ (ws ++ tail)))) cf ctr nm)
          ).isFailed = true)
      ∧ (¬ bytes "true" <+: strip_quote rng.data → ¬ bytes "false" <+: strip_quote rng.data →
          (parse_value_Bool las false false rng).isFailed = true) := by
  have key := parse_value_Bool_cases las q1 q2 b ws tail total cf ctr nm hq1 hq2 hws hsp hc h
  refine ⟨?_, ?_, ?_, ?_⟩
  · intro he hm
    rw [key, if_neg hm, if_pos he]
  · intro he
    rw [key]
    by_cases hm : las = LiteralAsStringOpt.Maybe ∧ q2 ++ (ws ++ tail) = []
    · rw [if_pos hm]; rfl
    · rw [if_neg hm, if_neg (by rw [he]; decide)]; rfl
  · intro hm
    rw [key, if_pos hm]; rfl
  · intro ht hf
    obtain ⟨r, hr⟩ := parse_value_Bool_no_literal las rng ht hf
    rw [hr]; rfl

/-- With `literal_as_string` `Always`, the input `"false" \x7d` gives `false` and
leaves the cursor on the closing brace; without quotes the buffer `true` gives
`true` and leaves the cursor at its end; `truex` is rejected, and so is
`"fals",`. -/
theorem C14_bool_literal_then_end_of_item_witness :
    parse_value_Bool LiteralAsStringOpt.Always false false
        (Range.tail_of 9 (bytes "\"false\" \x7d") 0 (-1) false)
      = Outcome.ok (false, Range.tail_of 9 [125] 0 (-1) false)
      ∧ parse_value_Bool LiteralAsStringOpt.Never false false
        (Range.tail_of 4 (bytes "true") 0 (-1) false)
      = Outcome.ok (true, Range.tail_of 4 [] 0 (-1) false)
      ∧ (parse_value_Bool LiteralAsStringOpt.Never false false
        (Range.tail_of 5 (bytes "truex") 0 (-1) false)).isFailed = true
      ∧ (parse_value_Bool LiteralAsStringOpt.Always false false
          (Range.ofBytes (bytes "\"fals\","))).isFailed = true :=
  ⟨(C14_bool_literal_then_end_of_item LiteralAsStringOpt.Always [34] [34] false [32] [125]
      9 0 (-1) false (Range.ofBytes (bytes "\"fals\",")) rfl rfl (by decide) (by decide)
      (by decide) (by decide)).1 (by decide) (by decide),
    (C14_bool_literal_then_end_of_item LiteralAsStringOpt.Never [] [] true [] []
      4 0 (-1) false (Range.ofBytes []) rfl rfl (by decide) (by decide)
      (by decide) (by decide)).1 (by decide) (by decide),
    (C14_bool_literal_then_end_of_item LiteralAsStringOpt.Never [] [] true [] [120]
      5 0 (-1) false (Range.ofBytes []) rfl rfl (by decide) (by decide)
      (by decide) (by decide)).2.1 (by decide),
    (C14_bool_literal_then_end_of_item LiteralAsStringOpt.Always [34] [34] false [32] [125]
      9 0 (-1) false (Range.ofBytes (bytes "\"fals\",")) rfl rfl (by decide) (by decide)
      (by decide) (by decide)).2.2.2 (by decide) (by decide)⟩

/-- C15 (as stated, refuted): under the checked policy with unknown bounds, on
`nullx,` the Null parser of a nullable number fails: it returns neither the
empty value nor what the parser of the number returns on the same input, which
fails with another check.  Behind the literal `null` the parser requires
whitespace, a byte that ends an item or the end of the buffer. -/
theorem C15_null_needs_end_of_item :
    (parse_value 3 false (Kind.Null (Kind.Unsigned 32 LiteralAsStringOpt.Never false)) false
        (Range.ofBytes (bytes "nullx,"))).isFailed = true
      ∧ parse_value 3 false (Kind.Null (Kind.Unsigned 32 LiteralAsStringOpt.Never false)) false
        (Range.ofBytes (bytes "nullx,"))
        ≠ parse_value 2 false (Kind.Unsigned 32 LiteralAsStringOpt.Never false) false
          (Range.ofBytes (bytes "nullx,"))
      ∧ parse_value 3 false (Kind.Null (Kind.Unsigned 32 LiteralAsStringOpt.Never false)) false
        (Range.ofBytes (bytes "null,"))
      = Outcome.ok (JValue.null, { data := [44], first := 4, last := 5 })
      ∧ parse_value 3 false (Kind.Null (Kind.Unsigned 32 LiteralAsStringOpt.Never false)) false
        (Range.ofBytes (bytes "null"))
      = Outcome.ok (JValue.null, { data := [], first := 4, last := 4 }) := by
  refine ⟨rfl, ?_, rfl, rfl⟩
  intro h
  have h1 : parse_value 3 false (Kind.Null (Kind.Unsigned 32 LiteralAsStringOpt.Never false))
      false (Range.ofBytes (bytes "nullx,")) = Outcome.failed ErrorReason.InvalidLiteral := rfl
  have h2 : parse_value 2 false (Kind.Unsigned 32 LiteralAsStringOpt.Never false) false
      (Range.ofBytes (bytes "nullx,")) = Outcome.failed ErrorReason.InvalidNumber := rfl
  rw [h1, h2] at h
  injection h with h
  exact ErrorReason.noConfusion h

theorem null_literal_facts (t : List Nat) (total cf : Nat) (ctr : Int) (nm : Bool)
    (h : (bytes "null" ++ t).length ≤ total) :
    (Range.tail_of total (bytes "null" ++ t) cf ctr nm).has_more = true
      ∧ (Range.tail_of total (bytes "null" ++ t) cf ctr nm).starts_with (bytes "null") = true
      ∧ remove_prefix (Range.tail_of total (bytes "null" ++ t) cf ctr nm) 4
        = Range.tail_of total t cf ctr nm := by
  have hsz := tail_of_size total (bytes "null" ++ t) cf ctr nm h
  have e : bytes "null" ++ t = 110 :: ([117, 108, 108] ++ t) := rfl
  refine ⟨?_, ?_, tail_of_advance total (bytes "null") t cf ctr nm h⟩
  · rw [e] at h ⊢
    exact tail_of_has_more total 110 _ cf ctr nm h
  · unfold Range.starts_with
    rw [hsz, show (List.take (bytes "null").length
      (Range.tail_of total (bytes "null" ++ t) cf ctr nm).data == bytes "null")
        = true from rfl, Bool.and_true]
    exact decide_eq_true (by simp [bytes])

theorem parse_value_Null_cases {V : Type} (empty : V)
    (base : Bool → Range → Outcome (V × Range)) (ws tail : List Nat)
    (total cf : Nat) (ctr : Int) (nm : Bool)
    (hws : whitespace ws) (hsp : is_space (tail.headD 0) = false)
    (h : (bytes "null" ++ (ws ++ tail)).length ≤ total) :
    parse_value_Null empty base false false
        (Range.tail_of total (bytes "null" ++ (ws ++ tail)) cf ctr nm)
      = if ws ≠ [] ∨ at_end_of_item (tail.headD 0) = true then
          Outcome.ok (empty, Range.tail_of total tail cf ctr nm)
        else Outcome.failed ErrorReason.InvalidLiteral := by
  obtain ⟨f1, f2, f3⟩ := null_literal_facts (ws ++ tail) total cf ctr nm h
  have h4 : (ws ++ tail).length ≤ total := by
    simp only [List.length_append] at h ⊢; omega
  unfold parse_value_Null
  simp only [Bool.false_eq_true, if_false, f1, f2, f3, Bool.not_true, if_true,
    bind_eq_outcome_bind]
  rw [trim_left_checked_whitespace total ws tail cf ctr nm hws hsp h4]
  cases ws with
  | nil =>
    show (daw_json_assert_weak false (at_end_of_item (tail.headD 0))
      ErrorReason.InvalidLiteral).bind _ = _
    cases hc : at_end_of_item (tail.headD 0)
    · rw [if_neg (by simp)]; rfl
    · rw [if_pos (Or.inr rfl)]; rfl
  | cons w ws =>
    show (daw_json_assert_weak false (at_end_of_item w) ErrorReason.InvalidLiteral).bind _ = _
    have hw : is_space w = true := hws w (List.mem_cons_self _ _)
    have : at_end_of_item w = true := by
      unfold at_end_of_item; rw [hw]; simp
    rw [this, if_pos (Or.inl (by simp))]
    rfl

/-- C15, amended: under the checked policy with unknown bounds the Null parser
returns the empty value of the contract when the range is exhausted.  When the
cursor is at the literal `null` followed by whitespace `ws` and then `tail`,
which does not start with whitespace, it returns the empty value and leaves the
cursor in front of `tail`, provided that `ws` is not empty or `tail` starts with
a byte that ends an item (a comma, a closing brace or bracket) or is empty, the
buffer ending there; when `null` is directly followed by any other byte it
fails.  When the range is not exhausted and does not start with `null`, it
returns what the parser of the wrapped kind returns on the same input. -/
theorem C15_null_or_wrapped_kind {V : Type} (empty : V)
    (base : Bool → Range → Outcome (V × Range)) (rng : Range) (ws tail : List Nat)
    (total cf : Nat) (ctr : Int) (nm : Bool)
    (hws : whitespace ws) (hsp : is_space (tail.headD 0) = false)
    (h : (bytes "null" ++ (ws ++ tail)).length ≤ total) :
    (rng.has_more = false → parse_value_Null empty base false false rng = Outcome.ok (empty, rng))
      ∧ (ws ≠ [] ∨ at_end_of_item (tail.headD 0) = true →
        parse_value_Null empty base false false
            (Range.tail_of total (bytes "null" ++ (ws ++ tail)) cf ctr nm)
          = Outcome.ok (empty, Range.tail_of total tail cf ctr nm))
      ∧ (ws = [] → at_end_of_item (tail.headD 0) = false →
        (parse_value_Null empty base false false
            (Range.tail_of total (bytes "null" ++ (ws ++ tail)) cf ctr nm)).isFailed = true)
      ∧ (rng.has_more = true → rng.starts_with (bytes "null") = false →
          parse_value_Null empty base false false rng = base false rng) := by
  have key := parse_value_Null_cases empty base ws tail total cf ctr nm hws hsp h
  refine ⟨?_, ?_, ?_, ?_⟩
  · intro hm
    unfold parse_value_Null
    simp only [Bool.false_eq_true, if_false, hm, Bool.not_false, if_true]
  · intro hc
    rw [key, if_pos hc]
  · intro hw he
    rw [key, if_neg (by rw [he]; simp [hw])]
    rfl
  · intro hm hs
    unfold parse_value_Null
    simp only [Bool.false_eq_true, if_false, hm, hs, Bool.not_true]

/-- On `null \x7d` the empty value is returned and the cursor is left on the
closing brace; on the buffer `null` it is returned with the cursor at the end of
the buffer; `nullx` is rejected. -/
theorem C15_null_or_wrapped_kind_witness :
    parse_value_Null JValue.null (fun kb r => parse_value 2 false Kind.Date kb r) false false
        (Range.tail_of 6 (bytes "null \x7d") 0 (-1) false)
      = Outcome.ok (JValue.null, Range.tail_of 6 [125] 0 (-1) false)
      ∧ parse_value_Null JValue.null (fun kb r => parse_value 2 false Kind.Date kb r) false
        false (Range.tail_of 4 (bytes "null") 0 (-1) false)
      = Outcome.ok (JValue.null, Range.tail_of 4 [] 0 (-1) false)
      ∧ (parse_value_Null JValue.null (fun kb r => parse_value 2 false Kind.Date kb r) false
        false (Range.tail_of 5 (bytes "nullx") 0 (-1) false)).isFailed = true :=
  ⟨(C15_null_or_wrapped_kind JValue.null (fun kb r => parse_value 2 false Kind.Date kb r)
      (Range.ofBytes []) [32] [125] 6 0 (-1) false (by decide) (by decide) (by decide)).2.1
      (Or.inl (by decide)),
    (C15_null_or_wrapped_kind JValue.null (fun kb r => parse_value 2 false Kind.Date kb r)
      (Range.ofBytes []) [] [] 4 0 (-1) false (by decide) (by decide) (by decide)).2.1
      (Or.inr (by decide)),
    (C15_null_or_wrapped_kind JValue.null (fun kb r => parse_value 2 false Kind.Date kb r)
      (Range.ofBytes []) [] [120] 5 0 (-1) false (by decide) (by decide) (by decide)).2.2.1
      rfl (by decide)⟩

/-! ## Ordered classes -/

/-- C20: a nullable member declared at index 2 of an ordered class, parsed from the
array `[1]` after the member at index 0.  Under the checked policy
`parse_ordered_class_member` returns the null value and leaves the cursor on the
closing bracket.  Under the unchecked policy it does not return it: in
`maybe_skip_members` the flag `skip_check_end` is set for an unchecked range and
a nullable member, so the loop does not look for the closing bracket and calls
`skip_value` with the cursor on it, for every range.  The same holds for the
whole class. -/
theorem C20_unchecked_nullable_member_skips_array_end :
    parse_ordered_class_member (parse_value 3 false) false (some 2)
        (Kind.Null (Kind.Unsigned 32 LiteralAsStringOpt.Never false)) 1
        { data := bytes "]x", first := 2, last := 4 }
      = Outcome.ok (JValue.null, 2, { data := bytes "]x", first := 2, last := 4 })
      ∧ parse_ordered_class_member (parse_value 3 true) true (some 2)
        (Kind.Null (Kind.Unsigned 32 LiteralAsStringOpt.Never false)) 1
        { data := bytes "]x", first := 2, last := 4 }
      = Outcome.undefined
      ∧ (∀ rng : Range, maybe_skip_members true true rng 1 2
        = (skip_value true (clean_tail true rng)).bind
            (fun x => Outcome.ok (2, clean_tail true x.2)))
      ∧ skip_value true { data := bytes "]x", first := 2, last := 4 } = Outcome.undefined
      ∧ parse_ordered_json_class (parse_value 3 false) false
        [(none, Kind.Unsigned 32 LiteralAsStringOpt.Never false),
          (some 2, Kind.Null (Kind.Unsigned 32 LiteralAsStringOpt.Never false))]
        (Range.ofBytes (bytes "[1]x"))
      = Outcome.ok (JValue.object [JValue.number 1, JValue.null],
          { data := bytes "x", first := 3, last := 4 })
      ∧ parse_ordered_json_class (parse_value 3 true) true
        [(none, Kind.Unsigned 32 LiteralAsStringOpt.Never false),
          (some 2, Kind.Null (Kind.Unsigned 32 LiteralAsStringOpt.Never false))]
        (Range.ofBytes (bytes "[1]x"))
      = Outcome.undefined := by
  refine ⟨rfl, rfl, fun rng => ?_, rfl, rfl, rfl⟩
  unfold maybe_skip_members
  simp only [assert_weak_unchecked, bind_eq_outcome_bind, Outcome.bind_ok]
  show maybe_skip_members_loop true true 1 (clean_tail true rng) 1 2 = _
  unfold maybe_skip_members_loop
  simp only [Bool.and_self, Bool.true_or, Bool.and_true, Nat.one_lt_ofNat, decide_True, if_true,
    assert_weak_unchecked, bind_eq_outcome_bind, Outcome.bind_ok]
  rfl

theorem headD_append_of_ne_nil (e t : List Nat) (h : e ≠ []) :
    (e ++ t).headD 0 = e.headD 0 := by
  cases e with
  | nil => exact absurd rfl h
  | cons c e => rfl

theorem array_from_head (unchecked : Bool) (rest : List Nat) (els : List ArrayElement)
    (hels : ∀ el, el ∈ els → element_ok unchecked el) :
    is_space ((array_from rest els).headD 0) = false ∧ (array_from rest els).headD 0 ≠ 44
      ∧ array_from rest els ≠ [] := by
  cases els with
  | nil =>
    exact ⟨show is_space 93 = false by decide, show (93 : Nat) ≠ 44 by decide,
      by simp [array_from]⟩
  | cons el els =>
    obtain ⟨-, -, ⟨hne, hs, hc, -⟩, -⟩ := hels el (List.mem_cons_self _ _)
    unfold array_from
    rw [headD_append_of_ne_nil _ _ hne]
    exact ⟨hs, hc, by simp [hne]⟩

theorem array_tail_eq (rest : List Nat) (el : ArrayElement) (els : List ArrayElement) :
    array_tail rest (el :: els) = 44 :: (el.before ++ array_from rest (el :: els)) := rfl

theorem clean_tail_separator_run (unchecked : Bool) (total : Nat) (pre X : List Nat) (cf : Nat)
    (ctr : Int) (nm : Bool) (hpre : separator_run pre)
    (hs : is_space (X.headD 0) = false) (hc : X.headD 0 ≠ 44)
    (h : (pre ++ X).length ≤ total) :
    clean_tail unchecked (Range.tail_of total (pre ++ X) cf ctr nm)
      = Range.tail_of total X cf ctr nm := by
  obtain ⟨ws, wa, hws, hwa, hp | hp⟩ := hpre
  · subst hp
    exact clean_tail_whitespace unchecked total _ X cf ctr nm hws hs hc h
  · subst hp
    have e : ws ++ 44 :: wa ++ X = ws ++ 44 :: (wa ++ X) := by simp
    rw [e] at h ⊢
    exact clean_tail_comma unchecked total ws wa X cf ctr nm hws hwa hs h

theorem after_element_end_of_item (rest : List Nat) (el : ArrayElement)
    (els : List ArrayElement) (hw : whitespace el.after) :
    at_end_of_item ((el.after ++ array_tail rest els).headD 0) = true := by
  cases ha : el.after with
  | nil =>
    cases els <;> rfl
  | cons w ws =>
    have : is_space w = true := hw w (by rw [ha]; exact List.mem_cons_self _ _)
    show at_end_of_item w = true
    unfold at_end_of_item
    rw [this]
    simp

theorem clean_tail_after_element (unchecked : Bool) (total : Nat) (rest : List Nat)
    (el : ArrayElement) (els : List ArrayElement) (cf : Nat) (ctr : Int) (nm : Bool)
    (hw : whitespace el.after) (hels : ∀ e, e ∈ els → element_ok unchecked e)
    (h : (el.after ++ array_tail rest els).length ≤ total) :
    clean_tail unchecked (Range.tail_of total (el.after ++ array_tail rest els) cf ctr nm)
      = Range.tail_of total (array_from rest els) cf ctr nm := by
  cases els with
  | nil =>
    exact clean_tail_whitespace unchecked total el.after (93 :: rest) cf ctr nm hw
      (show is_space 93 = false by decide) (show (93 : Nat) ≠ 44 by decide) h
  | cons el2 els2 =>
    obtain ⟨hb2, -, -, -⟩ := hels el2 (List.mem_cons_self _ _)
    obtain ⟨hs, -, -⟩ := array_from_head unchecked rest (el2 :: els2) hels
    rw [array_tail_eq] at h ⊢
    exact clean_tail_comma unchecked total el.after el2.before _ cf ctr nm hw hb2 hs h

theorem array_from_length (rest : List Nat) (el : ArrayElement) (els : List ArrayElement) :
    (array_from rest els).length ≤ (el.after ++ array_tail rest els).length
      ∧ (el.after ++ array_tail rest els).length ≤ (array_from rest (el :: els)).length := by
  constructor
  · cases els with
    | nil => simp [array_from, array_tail]
    | cons el2 els2 =>
      rw [array_tail_eq]
      simp only [List.length_append, List.length_cons]
      omega
  · show _ ≤ (el.text ++ (el.after ++ array_tail rest els)).length
    simp only [List.length_append]
    omega

end DawJson
namespace DawJson

theorem tail_of_has_more_of_ne_nil (total : Nat) (X : List Nat) (cf : Nat) (ctr : Int)
    (nm : Bool) (hne : X ≠ []) (h : X.length ≤ total) :
    (Range.tail_of total X cf ctr nm).has_more = true := by
  cases X with
  | nil => exact absurd rfl hne
  | cons c X => exact tail_of_has_more total c X cf ctr nm h

theorem maybe_skip_members_loop_skips (nullable unchecked : Bool) (rest : List Nat)
    (skipped : List ArrayElement) :
    ∀ (after : List ArrayElement) (cur total cf : Nat) (ctr : Int) (nm : Bool),
      (∀ el, el ∈ skipped ++ after → element_ok unchecked el) →
      (array_from rest (skipped ++ after)).length ≤ total →
      maybe_skip_members_loop nullable unchecked skipped.length
          (Range.tail_of total (array_from rest (skipped ++ after)) cf ctr nm) cur
          (cur + skipped.length)
        = Outcome.ok (cur + skipped.length,
            Range.tail_of total (array_from rest after) cf ctr nm) := by
  induction skipped with
  | nil =>
    intro after cur total cf ctr nm _ _
    rfl
  | cons el sk ih =>
    intro after cur total cf ctr nm hels hlen
    obtain ⟨-, hwa, ⟨hne, -, -, h93⟩, hskip⟩ := hels el (List.mem_cons_self _ _)
    have hels2 : ∀ e, e ∈ sk ++ after → element_ok unchecked e :=
      fun e he => hels e (List.mem_cons_of_mem _ he)
    have hl := array_from_length rest el (sk ++ after)
    have hlen2 : (array_from rest (el :: (sk ++ after))).length ≤ total := hlen
    have hlen' : (el.text ++ (el.after ++ array_tail rest (sk ++ after))).length ≤ total := hlen
    obtain ⟨sub, hsk⟩ := hskip total (el.after ++ array_tail rest (sk ++ after)) cf ctr nm hlen'
      (after_element_end_of_item rest el (sk ++ after) hwa)
    have hfront : ((Range.tail_of total (array_from rest (el :: sk ++ after)) cf ctr nm).front
        != 93) = true := by
      show (((el.text ++ (el.after ++ array_tail rest (sk ++ after))).headD 0) != 93) = true
      rw [headD_append_of_ne_nil _ _ hne]
      simpa using h93
    obtain ⟨-, -, hne2⟩ := array_from_head unchecked rest (sk ++ after) hels2
    show maybe_skip_members_loop nullable unchecked (sk.length + 1) _ cur _ = _
    unfold maybe_skip_members_loop
    simp only [hfront, Bool.or_true, Bool.and_true,
      decide_eq_true (show cur < cur + (el :: sk).length by simp), if_true,
      bind_eq_outcome_bind]
    rw [show Range.tail_of total (array_from rest (el :: sk ++ after)) cf ctr nm
        = Range.tail_of total (el.text ++ (el.after ++ array_tail rest (sk ++ after))) cf ctr nm
        from rfl, hsk, Outcome.bind_ok]
    simp only []
    rw [clean_tail_after_element unchecked total rest el (sk ++ after) cf ctr nm hwa hels2
        (by omega),
      tail_of_has_more_of_ne_nil total _ cf ctr nm hne2 (by omega), assert_weak_true,
      Outcome.bind_ok]
    have := ih after (cur + 1) total cf ctr nm hels2 (by omega)
    rw [show cur + (el :: sk).length = cur + 1 + sk.length by simp; omega]
    exact this

end DawJson
namespace DawJson

theorem drop_split (els : List ArrayElement) (cur i : Nat) (h : cur ≤ i) :
    els.drop cur = (els.drop cur).take (i - cur) ++ els.drop i := by
  have := (List.take_append_drop (i - cur) (els.drop cur)).symm
  rw [List.drop_drop] at this
  rw [show cur + (i - cur) = i by omega] at this
  exact this

theorem maybe_skip_members_at (nullable unchecked : Bool) (rest : List Nat)
    (els : List ArrayElement) (cur i : Nat) (pre : List Nat) (total cf : Nat) (ctr : Int)
    (nm : Bool) (hels : ∀ el, el ∈ els → element_ok unchecked el) (hpre : separator_run pre)
    (hci : cur ≤ i) (hi : i ≤ els.length)
    (hlen : (pre ++ array_from rest (els.drop cur)).length ≤ total) :
    maybe_skip_members nullable unchecked
        (Range.tail_of total (pre ++ array_from rest (els.drop cur)) cf ctr nm) cur i
      = Outcome.ok (i, Range.tail_of total (array_from rest (els.drop i)) cf ctr nm) := by
  have hsub : ∀ (n : Nat) el, el ∈ els.drop n → element_ok unchecked el :=
    fun n el h => hels el (List.mem_of_mem_drop h)
  obtain ⟨hs, hc, hne⟩ := array_from_head unchecked rest (els.drop cur) (hsub cur)
  have hlen2 : (array_from rest (els.drop cur)).length ≤ total := by
    simp only [List.length_append] at hlen; omega
  unfold maybe_skip_members
  simp only [bind_eq_outcome_bind]
  rw [clean_tail_separator_run unchecked total pre _ cf ctr nm hpre hs hc hlen,
    tail_of_has_more_of_ne_nil total _ cf ctr nm hne hlen2, assert_weak_true, Outcome.bind_ok,
    decide_eq_true hci, assert_weak_true, Outcome.bind_ok]
  have hsplit := drop_split els cur i hci
  have hlt : ((els.drop cur).take (i - cur)).length = i - cur := by
    rw [List.length_take, List.length_drop]; omega
  have hl := maybe_skip_members_loop_skips nullable unchecked rest
    ((els.drop cur).take (i - cur)) (els.drop i) cur total cf ctr nm
    (by rw [← hsplit]; exact hsub cur) (by rw [← hsplit]; exact hlen2)
  rw [← hsplit, hlt, show cur + (i - cur) = i by omega] at hl
  exact hl

theorem parse_ordered_class_member_front (unchecked : Bool) (rest : List Nat)
    (els : List ArrayElement) (i : Nat) (total cf : Nat) (ctr : Int) (nm : Bool)
    (hels : ∀ el, el ∈ els → element_ok unchecked el) (hi : i < els.length) :
    ((Range.tail_of total (array_from rest (els.drop i)) cf ctr nm).front == 93) = false := by
  obtain ⟨el, tl, hd⟩ : ∃ el tl, els.drop i = el :: tl := by
    cases h : els.drop i with
    | nil =>
      have := congrArg List.length h
      rw [List.length_drop] at this
      simp at this
      omega
    | cons el tl => exact ⟨el, tl, rfl⟩
  have hmem : el ∈ els := List.mem_of_mem_drop (by rw [hd]; exact List.mem_cons_self _ _)
  obtain ⟨-, -, ⟨hne, -, -, h93⟩, -⟩ := hels el hmem
  rw [hd]
  show (((el.text ++ (el.after ++ array_tail rest tl)).headD 0) == 93) = false
  rw [headD_append_of_ne_nil _ _ hne]
  simpa using h93

theorem parse_ordered_class_member_tail (pv : ValueParser) (unchecked : Bool) (k : Kind)
    (n : Nat) (rng : Range) (h : (rng.front == 93) = false) :
    (if unchecked = true then
        if (is_json_nullable k && rng.front == 93) = true then
          Outcome.ok (JValue.null, n, rng)
        else (pv k false rng).bind (fun x => Outcome.ok (x.1, n, x.2))
      else if (rng.front == 93) = true then
        if is_json_nullable k = true then Outcome.ok (JValue.null, n, rng)
        else daw_json_error ErrorReason.MissingMember
      else (pv k false rng).bind (fun x => Outcome.ok (x.1, n, x.2)))
      = (pv k false rng).bind (fun x => Outcome.ok (x.1, n, x.2)) := by
  rw [h]
  cases unchecked <;> simp

theorem parse_ordered_class_member_declared (pv : ValueParser) (unchecked : Bool) (k : Kind)
    (rest : List Nat) (els : List ArrayElement) (cur i : Nat) (pre : List Nat)
    (total cf : Nat) (ctr : Int) (nm : Bool)
    (hels : ∀ el, el ∈ els → element_ok unchecked el) (hpre : separator_run pre)
    (hci : cur ≤ i) (hi : i < els.length)
    (hlen : (pre ++ array_from rest (els.drop cur)).length ≤ total) :
    parse_ordered_class_member pv unchecked (some i) k cur
        (Range.tail_of total (pre ++ array_from rest (els.drop cur)) cf ctr nm)
      = (pv k false (Range.tail_of total (array_from rest (els.drop i)) cf ctr nm)).bind
          (fun x => Outcome.ok (x.1, i + 1, x.2)) := by
  unfold parse_ordered_class_member
  simp only [bind_eq_outcome_bind]
  rw [maybe_skip_members_at (is_json_nullable k) unchecked rest els cur i pre total cf ctr nm
    hels hpre hci (by omega) hlen, Outcome.bind_ok]
  exact parse_ordered_class_member_tail pv unchecked k (i + 1) _
    (parse_ordered_class_member_front unchecked rest els i total cf ctr nm hels hi)

theorem parse_ordered_class_member_plain (pv : ValueParser) (unchecked : Bool) (k : Kind)
    (rest : List Nat) (els : List ArrayElement) (cur : Nat) (pre : List Nat)
    (total cf : Nat) (ctr : Int) (nm : Bool)
    (hels : ∀ el, el ∈ els → element_ok unchecked el) (hpre : separator_run pre)
    (hi : cur < els.length)
    (hlen : (pre ++ array_from rest (els.drop cur)).length ≤ total) :
    parse_ordered_class_member pv unchecked none k cur
        (Range.tail_of total (pre ++ array_from rest (els.drop cur)) cf ctr nm)
      = (pv k false (Range.tail_of total (array_from rest (els.drop cur)) cf ctr nm)).bind
          (fun x => Outcome.ok (x.1, cur + 1, x.2)) := by
  obtain ⟨hs, hc, -⟩ := array_from_head unchecked rest (els.drop cur)
    (fun el h => hels el (List.mem_of_mem_drop h))
  unfold parse_ordered_class_member
  simp only [bind_eq_outcome_bind, Outcome.bind_ok]
  rw [clean_tail_separator_run unchecked total pre _ cf ctr nm hpre hs hc hlen]
  exact parse_ordered_class_member_tail pv unchecked k (cur + 1) _
    (parse_ordered_class_member_front unchecked rest els cur total cf ctr nm hels hi)

theorem end_of_item_not_number_char (c : Nat) (h : at_end_of_item c = true) :
    is_number_char c = false := by
  have hc : c = 44 ∨ c = 125 ∨ c = 93 ∨ c = 32 ∨ c = 9 ∨ c = 10 ∨ c = 13 ∨ c = 0 := by
    simp only [at_end_of_item, is_space, Bool.or_eq_true, beq_iff_eq] at h
    omega
  rcases hc with rfl | rfl | rfl | rfl | rfl | rfl | rfl | rfl <;> decide

theorem takeWhile_append_stop (p : Nat → Bool) (e t : List Nat) (he : ∀ c, c ∈ e → p c = true)
    (ht : p (t.headD 0) = false) : (e ++ t).takeWhile p = e := by
  induction e with
  | nil =>
    cases t with
    | nil => rfl
    | cons c t =>
      have : p c = false := ht
      simp [List.takeWhile_cons, this]
  | cons c e ih =>
    have hc : p c = true := he c (List.mem_cons_self _ _)
    simp only [List.cons_append, List.takeWhile_cons, hc, if_true]
    rw [ih (fun x hx => he x (List.mem_cons_of_mem _ hx))]

theorem number_char_dispatch (c : Nat) (h : is_number_char c = true) :
    (c == 34) = false ∧ (c == 91) = false ∧ (c == 123) = false ∧ (c == 116) = false
      ∧ (c == 102) = false ∧ (c == 110) = false := by
  have hc : c < 128 := by
    simp only [is_number_char, is_real_number_part, is_digit, Bool.or_eq_true, beq_iff_eq,
      Bool.and_eq_true, decide_eq_true_eq] at h
    omega
  revert h
  revert c
  decide

/-- A number text: a run of the bytes `0123456789eE+-.`. -/
theorem skips_over_number (unchecked : Bool) (e : List Nat) (hne : e ≠ [])
    (he : ∀ c, c ∈ e → is_number_char c = true) : skips_over unchecked e := by
  intro total t cf ctr nm hlen hend
  obtain ⟨c, e2, rfl⟩ : ∃ c e2, e = c :: e2 := by
    cases e with
    | nil => exact absurd rfl hne
    | cons c e2 => exact ⟨c, e2, rfl⟩
  obtain ⟨d1, d2, d3, d4, d5, d6⟩ := number_char_dispatch c (he c (List.mem_cons_self _ _))
  have hfront : (Range.tail_of total (c :: e2 ++ t) cf ctr nm).front = c := rfl
  unfold skip_value
  simp only [hfront, d1, d2, d3, d4, d5, d6, Bool.false_eq_true, if_false,
    he c (List.mem_cons_self _ _), if_true]
  unfold skip_number
  rw [tail_of_window unchecked total _ cf ctr nm hlen,
    takeWhile_append_stop is_number_char (c :: e2) t he (end_of_item_not_number_char _ hend)]
  exact ⟨_, congrArg (fun r => Outcome.ok (_, r))
    (tail_of_advance total (c :: e2) t cf ctr nm hlen)⟩

end DawJson
namespace DawJson

/-- The literals `true`, `false` and `null`. -/
theorem skips_over_literal (unchecked : Bool) (e : List Nat)
    (he : e = bytes "true" ∨ e = bytes "false" ∨ e = bytes "null") :
    skips_over unchecked e := by
  intro total t cf ctr nm hlen hend
  rcases he with rfl | rfl | rfl
  · obtain ⟨s1, s3⟩ := bool_literal_true t total cf ctr nm hlen
    refine ⟨(Range.tail_of total (bool_literal true ++ t) cf ctr nm).sub (bytes "true").length (-1), ?_⟩
    show (daw_json_assert_weak unchecked
      ((Range.tail_of total (bool_literal true ++ t) cf ctr nm).starts_with (bytes "true"))
      ErrorReason.InvalidLiteral).bind _ = _
    rw [s1, assert_weak_true, Outcome.bind_ok]
    exact congrArg (fun r => Outcome.ok (_, r)) s3
  · obtain ⟨-, s2, s3⟩ := bool_literal_false t total cf ctr nm hlen
    refine ⟨(Range.tail_of total (bool_literal false ++ t) cf ctr nm).sub (bytes "false").length (-1), ?_⟩
    show (daw_json_assert_weak unchecked
      ((Range.tail_of total (bool_literal false ++ t) cf ctr nm).starts_with (bytes "false"))
      ErrorReason.InvalidLiteral).bind _ = _
    rw [s2, assert_weak_true, Outcome.bind_ok]
    exact congrArg (fun r => Outcome.ok (_, r)) s3
  · obtain ⟨-, s2, s3⟩ := null_literal_facts t total cf ctr nm hlen
    refine ⟨(Range.tail_of total (bytes "null" ++ t) cf ctr nm).sub (bytes "null").length (-1), ?_⟩
    show (daw_json_assert_weak unchecked
      ((Range.tail_of total (bytes "null" ++ t) cf ctr nm).starts_with (bytes "null"))
      ErrorReason.InvalidLiteral).bind _ = _
    rw [s2, assert_weak_true, Outcome.bind_ok]
    exact congrArg (fun r => Outcome.ok (_, r)) s3

/-- A string: a body of plain bytes and two-byte escapes between quotes. -/
theorem skips_over_string (unchecked : Bool) (body : List Nat) (hb : escaped_body body) :
    skips_over unchecked (34 :: (body ++ [34])) := by
  intro total t cf ctr nm hlen hend
  have e1 : 34 :: (body ++ [34]) ++ t = 34 :: body ++ 34 :: t := by simp
  rw [e1] at hlen ⊢
  have hl : (34 :: body ++ 34 :: t).length = body.length + 2 + t.length := by
    simp only [List.length_append, List.length_cons]; omega
  obtain ⟨c, hs, -⟩ := skip_string_body unchecked hb t (total - (34 :: body ++ 34 :: t).length)
    total cf ctr nm (by omega)
  refine ⟨⟨body ++ 34 :: t, total - (34 :: body ++ 34 :: t).length + 1,
    total - (34 :: body ++ 34 :: t).length + 1 + body.length, cf, c, false⟩, ?_⟩
  show skip_string unchecked ⟨34 :: body ++ 34 :: t, total - (34 :: body ++ 34 :: t).length,
    total, cf, ctr, nm⟩ = _
  rw [hs]
  refine congrArg (fun r => Outcome.ok (_, r)) ?_
  unfold Range.tail_of
  congr 1
  omega

theorem skip_bracketed_len_append (left right : Nat) (e : List Nat) :
    ∀ (t : List Nat) (depth : Nat) (mode : ScanMode) (n : Nat),
      skip_bracketed_len left right e depth mode = some n →
      skip_bracketed_len left right (e ++ t) depth mode = some n := by
  induction e with
  | nil => intro t depth mode n h; cases mode <;> simp [skip_bracketed_len] at h
  | cons c e ih =>
    intro t depth mode n h
    cases mode with
    | normal =>
      simp only [List.cons_append, skip_bracketed_len] at h ⊢
      split_ifs at h ⊢ with h1 h2 h3 h4
      · obtain ⟨m, hm, rfl⟩ := Option.map_eq_some'.mp h
        exact congrArg (Option.map (· + 1)) (ih t _ _ m hm)
      · obtain ⟨m, hm, rfl⟩ := Option.map_eq_some'.mp h
        exact congrArg (Option.map (· + 1)) (ih t _ _ m hm)
      · exact h
      · obtain ⟨m, hm, rfl⟩ := Option.map_eq_some'.mp h
        exact congrArg (Option.map (· + 1)) (ih t _ _ m hm)
      · obtain ⟨m, hm, rfl⟩ := Option.map_eq_some'.mp h
        exact congrArg (Option.map (· + 1)) (ih t _ _ m hm)
    | in_string =>
      simp only [List.cons_append, skip_bracketed_len] at h ⊢
      obtain ⟨m, hm, rfl⟩ := Option.map_eq_some'.mp h
      exact congrArg (Option.map (· + 1)) (ih t _ _ m hm)
    | escaped =>
      simp only [List.cons_append, skip_bracketed_len] at h ⊢
      obtain ⟨m, hm, rfl⟩ := Option.map_eq_some'.mp h
      exact congrArg (Option.map (· + 1)) (ih t _ _ m hm)

end DawJson
namespace DawJson

theorem skip_bracketed_item_closes (left right : Nat) (unchecked : Bool) (e : List Nat)
    (hl : left ≠ 0) (h : closes_at_end left right e)
    (total : Nat) (t : List Nat) (cf : Nat) (ctr : Int) (nm : Bool)
    (hlen : (e ++ t).length ≤ total) :
    skip_bracketed_item left right unchecked (Range.tail_of total (e ++ t) cf ctr nm)
      = Outcome.ok ((Range.tail_of total (e ++ t) cf ctr nm).sub e.length (-1),
          Range.tail_of total t cf ctr nm) := by
  obtain ⟨hh, hs⟩ := h
  obtain ⟨c, e2, rfl⟩ : ∃ c e2, e = c :: e2 := by
    cases e with
    | nil => exact absurd hh.symm hl
    | cons c e2 => exact ⟨c, e2, rfl⟩
  have hc : c = left := hh
  subst hc
  have hs2 : skip_bracketed_len c right (e2 ++ t) 1 ScanMode.normal = some e2.length :=
    skip_bracketed_len_append c right e2 t 1 ScanMode.normal _ hs
  unfold skip_bracketed_item
  rw [tail_of_window unchecked total _ cf ctr nm hlen]
  have hw : (if ((c :: e2 ++ t).headD 0 == c) = true then 1 else 0) = 1 := by
    simp
  simp only [hw]
  rw [show List.drop 1 (c :: e2 ++ t) = e2 ++ t from rfl, hs2]
  simp only []
  rw [show 1 + e2.length = (c :: e2).length by simp; omega]
  exact congrArg (fun r => Outcome.ok (_, r)) (tail_of_advance total (c :: e2) t cf ctr nm hlen)

/-- An array or a class whose brackets the scanner closes at its last byte. -/
theorem skips_over_bracketed (unchecked : Bool) (e : List Nat)
    (h : closes_at_end 91 93 e ∨ closes_at_end 123 125 e) : skips_over unchecked e := by
  intro total t cf ctr nm hlen hend
  rcases h with h | h
  · have hf : (Range.tail_of total (e ++ t) cf ctr nm).front = 91 := by
      obtain ⟨hh, -⟩ := h
      cases e with
      | nil => exact absurd hh (by decide)
      | cons c e2 => exact hh
    refine ⟨(Range.tail_of total (e ++ t) cf ctr nm).sub e.length (-1), ?_⟩
    unfold skip_value
    simp only [hf]
    exact skip_bracketed_item_closes 91 93 unchecked e (by decide) h total t cf ctr nm hlen
  · have hf : (Range.tail_of total (e ++ t) cf ctr nm).front = 123 := by
      obtain ⟨hh, -⟩ := h
      cases e with
      | nil => exact absurd hh (by decide)
      | cons c e2 => exact hh
    refine ⟨(Range.tail_of total (e ++ t) cf ctr nm).sub e.length (-1), ?_⟩
    unfold skip_value
    simp only [hf]
    exact skip_bracketed_item_closes 123 125 unchecked e (by decide) h total t cf ctr nm hlen

theorem array_tail_as_run (unchecked : Bool) (rest : List Nat) (els : List ArrayElement)
    (w : List Nat) (hw : whitespace w) (hels : ∀ el, el ∈ els → element_ok unchecked el) :
    ∃ pre, separator_run pre ∧ w ++ array_tail rest els = pre ++ array_from rest els := by
  cases els with
  | nil => exact ⟨w, ⟨w, [], hw, whitespace_nil, Or.inl rfl⟩, rfl⟩
  | cons el tl =>
    obtain ⟨hb, -, -, -⟩ := hels el (List.mem_cons_self _ _)
    refine ⟨w ++ 44 :: el.before, ⟨w, el.before, hw, hb, Or.inr rfl⟩, ?_⟩
    rw [array_tail_eq]
    simp

theorem parse_ordered_class_member_at (pv : ValueParser) (unchecked : Bool) (k : Kind)
    (index : Option Nat) (rest : List Nat) (els : List ArrayElement) (cur : Nat)
    (pre : List Nat) (total cf : Nat) (ctr : Int) (nm : Bool)
    (hels : ∀ el, el ∈ els → element_ok unchecked el) (hpre : separator_run pre)
    (hci : cur ≤ member_position index cur) (hi : member_position index cur < els.length)
    (hlen : (pre ++ array_from rest (els.drop cur)).length ≤ total) :
    parse_ordered_class_member pv unchecked index k cur
        (Range.tail_of total (pre ++ array_from rest (els.drop cur)) cf ctr nm)
      = (pv k false (Range.tail_of total
            (array_from rest (els.drop (member_position index cur))) cf ctr nm)).bind
          (fun x => Outcome.ok (x.1, member_position index cur + 1, x.2)) := by
  cases index with
  | none =>
    exact parse_ordered_class_member_plain pv unchecked k rest els cur pre total cf ctr nm hels
      hpre hi hlen
  | some i =>
    exact parse_ordered_class_member_declared pv unchecked k rest els cur i pre total cf ctr nm
      hels hpre hci hi hlen

theorem parse_ordered_class_members_at (pv : ValueParser) (unchecked : Bool)
    (rest : List Nat) (els : List ArrayElement) (total cf : Nat) (ctr : Int) (nm : Bool)
    (hels : ∀ el, el ∈ els → element_ok unchecked el)
    (members : List (Option Nat × Kind)) :
    ∀ (cur : Nat) (pre : List Nat), separator_run pre →
      positions_fit els.length members cur = true →
      (∀ index k, (index, k) ∈ members → ∀ p v r, p < els.length →
        pv k false (Range.tail_of total (array_from rest (els.drop p)) cf ctr nm)
          = Outcome.ok (v, r) →
        ∃ w, whitespace w ∧ (w ++ array_tail rest (els.drop (p + 1))).length ≤ total
          ∧ r = Range.tail_of total (w ++ array_tail rest (els.drop (p + 1))) cf ctr nm) →
      (pre ++ array_from rest (els.drop cur)).length ≤ total →
      (parse_ordered_class_members pv unchecked members cur
          (Range.tail_of total (pre ++ array_from rest (els.drop cur)) cf ctr nm)).bind
          (fun x => Outcome.ok x.1)
        = parse_at_positions pv
            (fun p => Range.tail_of total (array_from rest (els.drop p)) cf ctr nm)
            members cur := by
  induction members with
  | nil => intro cur pre _ _ _ _; rfl
  | cons m ms ih =>
    obtain ⟨index, k⟩ := m
    intro cur pre hpre hfit hstop hlen
    simp only [positions_fit, Bool.and_eq_true, decide_eq_true_eq] at hfit
    obtain ⟨⟨hci, hi⟩, hfit2⟩ := hfit
    unfold parse_ordered_class_members parse_at_positions
    simp only [bind_eq_outcome_bind]
    rw [parse_ordered_class_member_at pv unchecked k index rest els cur pre total cf ctr nm hels
      hpre hci hi hlen]
    cases hpv : pv k false (Range.tail_of total
        (array_from rest (els.drop (member_position index cur))) cf ctr nm) with
    | failed e => rfl
    | undefined => rfl
    | ok x =>
      obtain ⟨v, r⟩ := x
      obtain ⟨w, hw, hwl, rfl⟩ := hstop index k (List.mem_cons_self _ _)
        (member_position index cur) v r hi hpv
      obtain ⟨pre2, hpre2, he⟩ := array_tail_as_run unchecked rest
        (els.drop (member_position index cur + 1)) w hw
        (fun el h => hels el (List.mem_of_mem_drop h))
      have hih := ih (member_position index cur + 1) pre2 hpre2 hfit2
        (fun i2 k2 hm => hstop i2 k2 (List.mem_cons_of_mem _ hm)) (by rw [← he]; exact hwl)
      simp only [Outcome.bind_ok]
      rw [he, ← hih]
      cases parse_ordered_class_members pv unchecked ms (member_position index cur + 1)
        (Range.tail_of total
          (pre2 ++ array_from rest (els.drop (member_position index cur + 1))) cf ctr nm) <;> rfl

end DawJson
namespace DawJson

/-- C19: the members of an ordered class are parsed from the elements of the array
at their positions.  The cursor is in front of the element at index `cur` (behind
`pre`: whitespace, or whitespace, a comma and whitespace) of an array of
well-formed elements `els`; the declared indices of the members increase strictly
from `cur` on and every member has an element (`positions_fit`); the parser of a
member stops in the whitespace behind the element it has read.  Then the values
that `parse_ordered_class_member` returns, member by member, are those of the
parser of each member run with the cursor on the element at the declared index
of the member, the elements in between being skipped, or without a declared
index on the element right after the one of the previous member. -/
theorem C19_ordered_members_parsed_at_their_index (pv : ValueParser) (unchecked : Bool)
    (members : List (Option Nat × Kind)) (rest : List Nat) (els : List ArrayElement)
    (cur : Nat) (pre : List Nat) (total cf : Nat) (ctr : Int) (nm : Bool)
    (hels : ∀ el, el ∈ els → element_ok unchecked el)
    (hpre : separator_run pre)
    (hfit : positions_fit els.length members cur = true)
    (hstop : ∀ index k, (index, k) ∈ members → ∀ p v r, p < els.length →
      pv k false (Range.tail_of total (array_from rest (els.drop p)) cf ctr nm)
        = Outcome.ok (v, r) →
      ∃ w, whitespace w ∧ (w ++ array_tail rest (els.drop (p + 1))).length ≤ total
        ∧ r = Range.tail_of total (w ++ array_tail rest (els.drop (p + 1))) cf ctr nm)
    (hlen : (pre ++ array_from rest (els.drop cur)).length ≤ total) :
    (parse_ordered_class_members pv unchecked members cur
        (Range.tail_of total (pre ++ array_from rest (els.drop cur)) cf ctr nm)).bind
        (fun x => Outcome.ok x.1)
      = parse_at_positions pv
          (fun p => Range.tail_of total (array_from rest (els.drop p)) cf ctr nm)
          members cur :=
  parse_ordered_class_members_at pv unchecked rest els total cf ctr nm hels members cur pre
    hpre hfit hstop hlen

theorem ordered_example_elements_ok (unchecked : Bool) :
    ∀ el, el ∈ ordered_example_elements → element_ok unchecked el := by
  intro el hel
  simp only [ordered_example_elements, List.mem_cons, List.mem_singleton, List.not_mem_nil,
    or_false] at hel
  rcases hel with rfl | rfl | rfl
  · exact ⟨by decide, by decide, ⟨by decide, by decide, by decide, by decide⟩,
      skips_over_number unchecked _ (by decide) (by decide)⟩
  · exact ⟨by decide, by decide, ⟨by decide, by decide, by decide, by decide⟩,
      skips_over_bracketed unchecked _ (Or.inl (by decide))⟩
  · exact ⟨by decide, by decide, ⟨by decide, by decide, by decide, by decide⟩,
      skips_over_number unchecked _ (by decide) (by decide)⟩

/-- The array `[1, [3,"]"],40 ]` with the cursor behind the opening bracket: the
member without an index is read from the element at index 0 and the member
declared at index 2 from the element at index 2, and the values are 1 and 40. -/
theorem C19_ordered_members_parsed_at_their_index_witness :
    (parse_ordered_class_members (parse_value 3 false) false ordered_example_members 0
        (Range.tail_of 17 ([] ++ array_from (bytes "x") (ordered_example_elements.drop 0))
          0 (-1) false)).bind (fun x => Outcome.ok x.1)
      = parse_at_positions (parse_value 3 false)
          (fun p => Range.tail_of 17 (array_from (bytes "x") (ordered_example_elements.drop p))
            0 (-1) false)
          ordered_example_members 0
      ∧ parse_at_positions (parse_value 3 false)
          (fun p => Range.tail_of 17 (array_from (bytes "x") (ordered_example_elements.drop p))
            0 (-1) false)
          ordered_example_members 0
        = Outcome.ok [JValue.number 1, JValue.number 40]
      ∧ [91] ++ array_from (bytes "x") ordered_example_elements = bytes "[1, [3,\"]\"],40 ]x" := by
  refine ⟨C19_ordered_members_parsed_at_their_index (parse_value 3 false) false
    ordered_example_members (bytes "x") ordered_example_elements 0 [] 17 0 (-1) false
    (ordered_example_elements_ok false) ⟨[], [], whitespace_nil, whitespace_nil, Or.inl rfl⟩
    rfl ?_ (by decide), rfl, by decide⟩
  intro index k hm p v r hp hpv
  have hk : k = Kind.Unsigned 32 LiteralAsStringOpt.Never false := by
    simp only [ordered_example_members, List.mem_cons, Prod.mk.injEq, List.mem_singleton,
      List.not_mem_nil, or_false] at hm
    rcases hm with ⟨-, rfl⟩ | ⟨-, rfl⟩ <;> rfl
  subst hk
  have hp3 : p < 3 := hp
  interval_cases p
  · have e : parse_value 3 false (Kind.Unsigned 32 LiteralAsStringOpt.Never false) false
        (Range.tail_of 17 (array_from (bytes "x") (ordered_example_elements.drop 0)) 0 (-1) false)
        = Outcome.ok (JValue.number 1, Range.tail_of 17
            ([] ++ array_tail (bytes "x") (ordered_example_elements.drop (0 + 1))) 0 (-1) false) :=
      rfl
    have := e.symm.trans hpv
    cases this
    exact ⟨[], whitespace_nil, by decide, rfl⟩
  · have e : parse_value 3 false (Kind.Unsigned 32 LiteralAsStringOpt.Never false) false
        (Range.tail_of 17 (array_from (bytes "x") (ordered_example_elements.drop 1)) 0 (-1) false)
        = Outcome.failed ErrorReason.InvalidNumber := rfl
    have := e.symm.trans hpv
    cases this
  · have e : parse_value 3 false (Kind.Unsigned 32 LiteralAsStringOpt.Never false) false
        (Range.tail_of 17 (array_from (bytes "x") (ordered_example_elements.drop 2)) 0 (-1) false)
        = Outcome.ok (JValue.number 40, Range.tail_of 17
            ([32] ++ array_tail (bytes "x") (ordered_example_elements.drop (2 + 1))) 0 (-1) false) :=
      rfl
    have := e.symm.trans hpv
    cases this
    exact ⟨[32], by decide, by decide, rfl⟩

/-! ## Array iterator, serializer, error context and byte search -/

theorem array_from_head_start (rest : List Nat) (els : List ArrayElement)
    (hels : ∀ el, el ∈ els → whitespace el.before ∧ value_start el.text) :
    is_space ((array_from rest els).headD 0) = false ∧ (array_from rest els).headD 0 ≠ 44
      ∧ array_from rest els ≠ []
      ∧ ((array_from rest els).headD 0 == 93) = decide (els = []) := by
  cases els with
  | nil =>
    exact ⟨show is_space 93 = false by decide, show (93 : Nat) ≠ 44 by decide,
      by simp [array_from], rfl⟩
  | cons el els =>
    obtain ⟨-, hne, hs, hc, h93⟩ := hels el (List.mem_cons_self _ _)
    unfold array_from
    rw [headD_append_of_ne_nil _ _ hne]
    exact ⟨hs, hc, by simp [hne], by simpa using h93⟩

theorem incr_after_element (known_bounds unchecked : Bool) (rest : List Nat)
    (els : List ArrayElement) (w : List Nat) (total cf : Nat) (ctr : Int) (nm : Bool)
    (hels : ∀ el, el ∈ els → whitespace el.before ∧ value_start el.text)
    (hw : whitespace w) (hlen : (w ++ array_tail rest els).length ≤ total) :
    json_parse_array_iterator.incr known_bounds unchecked
        { rng := Range.tail_of total (w ++ array_tail rest els) cf ctr nm, parse_state := true }
      = Outcome.ok (json_parse_array_iterator.ctor known_bounds
          (Range.tail_of total (array_from rest els) cf ctr nm)) := by
  have hl2 : (array_tail rest els).length ≤ total := by
    simp only [List.length_append] at hlen; omega
  unfold json_parse_array_iterator.incr
  simp only [assert_weak_true, bind_eq_outcome_bind, Outcome.bind_ok, if_true]
  cases els with
  | nil =>
    have ht : trim_left unchecked (Range.tail_of total (w ++ array_tail rest []) cf ctr nm)
        = Range.tail_of total (93 :: rest) cf ctr nm :=
      trim_left_whitespace unchecked total w (93 :: rest) cf ctr nm hw
        (show is_space 93 = false by decide) hlen
    rw [ht]
    have hm : move_next_member_or_end unchecked (Range.tail_of total (93 :: rest) cf ctr nm)
        = Range.tail_of total (93 :: rest) cf ctr nm := by
      unfold move_next_member_or_end
      simp only [show ((Range.tail_of total (93 :: rest) cf ctr nm).front == 44) = false from rfl,
        Bool.false_eq_true, if_false]
      exact trim_left_none unchecked total (93 :: rest) cf ctr nm
        (show is_space 93 = false by decide) hl2
    rw [hm, tail_of_has_more total 93 rest cf ctr nm hl2]
    simp only [show is_at_next_array_element (Range.tail_of total (93 :: rest) cf ctr nm) = true
      from rfl, Bool.and_self, assert_weak_true, Outcome.bind_ok]
    rfl
  | cons el tl =>
    obtain ⟨hb, -⟩ := hels el (List.mem_cons_self _ _)
    obtain ⟨hs, -, hne, h93⟩ := array_from_head_start rest (el :: tl) hels
    rw [array_tail_eq] at hlen hl2 ⊢
    have hl3 : (el.before ++ array_from rest (el :: tl)).length ≤ total := by
      simp only [List.length_cons] at hl2; omega
    have hl4 : (array_from rest (el :: tl)).length ≤ total := by
      simp only [List.length_append] at hl3; omega
    have ht : trim_left unchecked (Range.tail_of total
        (w ++ 44 :: (el.before ++ array_from rest (el :: tl))) cf ctr nm)
        = Range.tail_of total (44 :: (el.before ++ array_from rest (el :: tl))) cf ctr nm :=
      trim_left_whitespace unchecked total w _ cf ctr nm hw
        (show is_space 44 = false by decide) hlen
    rw [ht]
    have hm : move_next_member_or_end unchecked
        (Range.tail_of total (44 :: (el.before ++ array_from rest (el :: tl))) cf ctr nm)
        = Range.tail_of total (array_from rest (el :: tl)) cf ctr nm := by
      unfold move_next_member_or_end
      simp only [show ((Range.tail_of total (44 :: (el.before ++ array_from rest (el :: tl)))
        cf ctr nm).front == 44) = true from rfl, if_true]
      rw [tail_of_advance_one total 44 _ cf ctr nm hl2]
      exact trim_left_whitespace unchecked total el.before _ cf ctr nm hb hs hl3
    rw [hm, tail_of_has_more total 44 _ cf ctr nm hl2,
      tail_of_has_more_of_ne_nil total _ cf ctr nm hne hl4]
    simp only [show is_at_next_array_element (Range.tail_of total
      (44 :: (el.before ++ array_from rest (el :: tl))) cf ctr nm) = true from rfl,
      Bool.and_self, assert_weak_true, Outcome.bind_ok]
    unfold json_parse_array_iterator.ctor
    split_ifs <;> rfl

end DawJson
namespace DawJson

theorem ctor_at_elements (known_bounds : Bool) (rest : List Nat) (els : List ArrayElement)
    (total cf : Nat) (ctr : Int) (nm : Bool)
    (hels : ∀ el, el ∈ els → whitespace el.before ∧ value_start el.text) :
    json_parse_array_iterator.ctor known_bounds
        (Range.tail_of total (array_from rest els) cf ctr nm)
      = if els = [] then
          { rng := array_iterator_at_end known_bounds
              (Range.tail_of total (93 :: rest) cf ctr nm), parse_state := false }
        else { rng := Range.tail_of total (array_from rest els) cf ctr nm, parse_state := true } := by
  obtain ⟨-, -, -, h93⟩ := array_from_head_start rest els hels
  unfold json_parse_array_iterator.ctor
  have hf : (Range.tail_of total (array_from rest els) cf ctr nm).front
      = (array_from rest els).headD 0 := rfl
  rw [hf, h93]
  cases els with
  | nil => rfl
  | cons el tl => simp

theorem array_iterator_steps_from (pv : ValueParser) (element : Kind)
    (known_bounds unchecked : Bool) (rest : List Nat) (els : List ArrayElement) (total : Nat)
    (cfs : Nat → Nat) (ctrs : Nat → Int) (nms : Nat → Bool) (val : Nat → JValue)
    (gap : Nat → List Nat)
    (hels : ∀ el, el ∈ els → whitespace el.before ∧ value_start el.text)
    (hlen : (array_from rest els).length ≤ total)
    (hpv : ∀ p, p < els.length → whitespace (gap p)
      ∧ (gap p ++ array_tail rest (els.drop (p + 1))).length ≤ total
      ∧ pv element false
          (Range.tail_of total (array_from rest (els.drop p)) (cfs p) (ctrs p) (nms p))
        = Outcome.ok (val p, Range.tail_of total (gap p ++ array_tail rest (els.drop (p + 1)))
            (cfs (p + 1)) (ctrs (p + 1)) (nms (p + 1)))) :
    ∀ k p, p + k ≤ els.length →
      json_parse_array_iterator.steps pv element known_bounds unchecked k
          (json_parse_array_iterator.ctor known_bounds
            (Range.tail_of total (array_from rest (els.drop p)) (cfs p) (ctrs p) (nms p)))
        = Outcome.ok ((List.range' p k).map val,
            json_parse_array_iterator.ctor known_bounds
              (Range.tail_of total (array_from rest (els.drop (p + k)))
                (cfs (p + k)) (ctrs (p + k)) (nms (p + k)))) := by
  have hsub : ∀ n el, el ∈ els.drop n → whitespace el.before ∧ value_start el.text :=
    fun n el h => hels el (List.mem_of_mem_drop h)
  have hdl : ∀ p, (array_from rest (els.drop p)).length ≤ total := by
    intro p
    induction p with
    | zero => exact hlen
    | succ p ih =>
      cases hd : els.drop p with
      | nil =>
        have : els.drop (p + 1) = [] := by
          rw [← List.drop_drop, hd]; rfl
        rw [this]
        rw [hd] at ih
        exact ih
      | cons el tl =>
        have : els.drop (p + 1) = tl := by
          rw [← List.drop_drop, hd]; rfl
        rw [this]
        rw [hd] at ih
        have := array_from_length rest el tl
        omega
  intro k
  induction k with
  | zero => intro p _; rfl
  | succ k ih =>
    intro p hp
    have hpl : p < els.length := by omega
    obtain ⟨hg, hgl, hpvp⟩ := hpv p hpl
    have hne : els.drop p ≠ [] := by
      intro h
      have := congrArg List.length h
      rw [List.length_drop] at this
      simp at this
      omega
    obtain ⟨-, -, hne2, -⟩ := array_from_head_start rest (els.drop p) (hsub p)
    rw [ctor_at_elements known_bounds rest (els.drop p) total _ _ _ (hsub p), if_neg hne]
    unfold json_parse_array_iterator.steps
    simp only [bind_eq_outcome_bind]
    unfold json_parse_array_iterator.deref
    simp only [Bool.true_and, bind_eq_outcome_bind, if_true]
    rw [tail_of_has_more_of_ne_nil total _ _ _ _ hne2 (hdl p), assert_weak_true,
      Outcome.bind_ok, hpvp]
    simp only [Outcome.bind_ok]
    rw [incr_after_element known_bounds unchecked rest (els.drop (p + 1)) (gap p) total _ _ _
      (hsub (p + 1)) hg hgl, Outcome.bind_ok, ih (p + 1) (by omega), Outcome.bind_ok]
    rw [show p + 1 + k = p + (k + 1) by omega]
    rfl

end DawJson
namespace DawJson

/-- C21: an array of `n` well-formed elements `els`, written with any whitespace,
whose element parser reads each element and stops in the whitespace behind it.
The iterator that the Array parser constructs behind the opening bracket, used by
dereferencing once and then incrementing, has after `k <= n` steps yielded the
first `k` elements; it compares equal to the end iterator after exactly `n`
steps and not before, and then the closing bracket is consumed.  For `n = 0` it
is the end iterator at once. -/
theorem C21_array_iterator_ends_after_n_steps (pv : ValueParser) (element : Kind)
    (known_bounds unchecked : Bool) (rest : List Nat) (els : List ArrayElement)
    (w0 : List Nat) (total : Nat) (cfs : Nat → Nat) (ctrs : Nat → Int) (nms : Nat → Bool)
    (val : Nat → JValue) (gap : Nat → List Nat) (k : Nat)
    (hels : ∀ el, el ∈ els → whitespace el.before ∧ value_start el.text)
    (hw0 : whitespace w0)
    (hlen : (91 :: (w0 ++ array_from rest els)).length ≤ total)
    (hpv : ∀ p, p < els.length → whitespace (gap p)
      ∧ (gap p ++ array_tail rest (els.drop (p + 1))).length ≤ total
      ∧ pv element false
          (Range.tail_of total (array_from rest (els.drop p)) (cfs p) (ctrs p) (nms p))
        = Outcome.ok (val p, Range.tail_of total (gap p ++ array_tail rest (els.drop (p + 1)))
            (cfs (p + 1)) (ctrs (p + 1)) (nms (p + 1))))
    (hk : k ≤ els.length) :
    ∃ it, json_parse_array_iterator.steps pv element known_bounds unchecked k
          (json_parse_array_iterator.at_array known_bounds
            (Range.tail_of total (91 :: (w0 ++ array_from rest els)) (cfs 0) (ctrs 0) (nms 0)))
        = Outcome.ok ((List.range k).map val, it)
      ∧ it.is_end = decide (k = els.length)
      ∧ (k = els.length → it.rng = array_iterator_at_end known_bounds
          (Range.tail_of total (93 :: rest) (cfs k) (ctrs k) (nms k))) := by
  have hl1 : (w0 ++ array_from rest els).length ≤ total := by
    simp only [List.length_cons] at hlen; omega
  have hl2 : (array_from rest els).length ≤ total := by
    simp only [List.length_append] at hl1; omega
  obtain ⟨hs, -, -, -⟩ := array_from_head_start rest els hels
  have hbegin : json_parse_array_iterator.at_array known_bounds
      (Range.tail_of total (91 :: (w0 ++ array_from rest els)) (cfs 0) (ctrs 0) (nms 0))
      = json_parse_array_iterator.ctor known_bounds
          (Range.tail_of total (array_from rest (els.drop 0)) (cfs 0) (ctrs 0) (nms 0)) := by
    unfold json_parse_array_iterator.at_array
    rw [tail_of_advance_one total 91 _ _ _ _ hlen]
    exact congrArg _ (trim_left_whitespace true total w0 _ _ _ _ hw0 hs hl1)
  have hsteps := array_iterator_steps_from pv element known_bounds unchecked rest els total
    cfs ctrs nms val gap hels hl2 hpv k 0 (by omega)
  rw [← hbegin, Nat.zero_add, ← List.range_eq_range'] at hsteps
  refine ⟨_, hsteps, ?_, ?_⟩
  · rw [ctor_at_elements known_bounds rest (els.drop k) total _ _ _
      (fun el h => hels el (List.mem_of_mem_drop h))]
    by_cases hkn : k = els.length
    · rw [if_pos (by rw [hkn]; exact List.drop_length els)]
      simp [json_parse_array_iterator.is_end, hkn]
    · have hne : els.drop k ≠ [] := by
        intro h
        have := congrArg List.length h
        rw [List.length_drop] at this
        simp at this
        omega
      rw [if_neg hne]
      simp [json_parse_array_iterator.is_end, hkn]
  · intro hkn
    rw [ctor_at_elements known_bounds rest (els.drop k) total _ _ _
      (fun el h => hels el (List.mem_of_mem_drop h)),
      if_pos (by rw [hkn]; exact List.drop_length els)]

/-- The array `[ 1 , 2]` of numbers: after two steps the iterator has yielded 1
and 2 and is at the end, with the cursor behind the closing bracket; the empty
array gives the end iterator at once. -/
theorem C21_array_iterator_ends_after_n_steps_witness :
    (∃ it, json_parse_array_iterator.steps (parse_value 3 false)
          (Kind.Unsigned 32 LiteralAsStringOpt.Never false) false false 2
          (json_parse_array_iterator.at_array false
            (Range.tail_of 9 (91 :: ([32] ++ array_from (bytes "x") iterator_example_elements))
              0 (-1) false))
        = Outcome.ok ((List.range 2).map (fun p => JValue.number (p + 1)), it)
      ∧ it.is_end = decide (2 = iterator_example_elements.length)
      ∧ (2 = iterator_example_elements.length → it.rng = array_iterator_at_end false
          (Range.tail_of 9 (93 :: bytes "x") 0 (-1) false)))
      ∧ 91 :: ([32] ++ array_from (bytes "x") iterator_example_elements) = bytes "[ 1 , 2]x"
      ∧ (json_parse_array_iterator.at_array false (Range.ofBytes (bytes "[ ]x"))).is_end = true :=
  ⟨C21_array_iterator_ends_after_n_steps (parse_value 3 false)
      (Kind.Unsigned 32 LiteralAsStringOpt.Never false) false false (bytes "x")
      iterator_example_elements [32] 9 (fun _ => 0) (fun _ => -1) (fun _ => false)
      (fun p => JValue.number (p + 1)) (fun p => if p = 0 then [32] else []) 2
      (by
        intro el hel
        simp only [iterator_example_elements, List.mem_cons, List.mem_singleton,
          List.not_mem_nil, or_false] at hel
        rcases hel with rfl | rfl
        · exact ⟨by decide, by decide, by decide, by decide, by decide⟩
        · exact ⟨by decide, by decide, by decide, by decide, by decide⟩)
      (by decide) (by decide)
      (by
        intro p hp
        have hp2 : p < 2 := hp
        interval_cases p
        · exact ⟨by decide, by decide, rfl⟩
        · exact ⟨by decide, by decide, rfl⟩)
      (by decide),
    by decide, by decide⟩

end DawJson
namespace DawJson

/-- C23: serialized without escaping, the bytes `01 41` are written between the
quotes under `AllowFull`, although the first is below 0x20: the test of the
bytes exists only under `DisallowHigh`, where the same input fails with
`InvalidStringHighASCII`. -/
theorem C23_raw_string_control_byte_passes :
    to_daw_json_string_StringRaw EightBitModes.AllowFull [1, 65]
        = Outcome.ok [34, 1, 65, 34]
      ∧ to_daw_json_string_StringRaw EightBitModes.DisallowHigh [1, 65]
        = Outcome.failed ErrorReason.InvalidStringHighASCII := by
  decide

theorem copy_plain_allow_full_all (value : List Nat) :
    copy_plain EightBitModes.AllowFull value = Outcome.ok value := by
  induction value with
  | nil => rfl
  | cons c cs ih =>
    unfold copy_plain
    simp only [bind_eq_outcome_bind]
    rw [ih]
    rfl

theorem copy_plain_disallow_high (value : List Nat) :
    copy_plain EightBitModes.DisallowHigh value
      = if ∀ c, c ∈ value → 0x20 ≤ c ∧ c ≤ 0x7F then Outcome.ok value
        else Outcome.failed ErrorReason.InvalidStringHighASCII := by
  induction value with
  | nil => simp [copy_plain]
  | cons c cs ih =>
    unfold copy_plain
    simp only [bind_eq_outcome_bind, beq_self_eq_true, if_true]
    rw [ih]
    by_cases hc : 0x20 ≤ c ∧ c ≤ 0x7F
    · have hd : (decide (0x20 ≤ c) && decide (c ≤ 0x7F)) = true := by simp [hc]
      rw [hd]
      by_cases hr : ∀ x, x ∈ cs → 0x20 ≤ x ∧ x ≤ 0x7F
      · rw [if_pos hr, if_pos (by
          intro x hx
          rcases List.mem_cons.mp hx with rfl | h
          · exact hc
          · exact hr x h)]
        rfl
      · rw [if_neg hr, if_neg (fun h => hr (fun x hx => h x (List.mem_cons_of_mem _ hx)))]
        rfl
    · have hd : (decide (0x20 ≤ c) && decide (c ≤ 0x7F)) = false := by
        simp only [Bool.and_eq_false_iff, decide_eq_false_iff_not]
        by_cases h0 : 0x20 ≤ c
        · exact Or.inr (fun h => hc ⟨h0, h⟩)
        · exact Or.inl h0
      have hn : ¬ ∀ x, x ∈ c :: cs → 0x20 ≤ x ∧ x ≤ 0x7F :=
        fun h => hc (h c (List.mem_cons_self _ _))
      rw [hd, if_neg hn]
      rfl

/-- C23, amended: serialized without escaping, under `AllowFull` every string is
written unchanged between quotes; under `DisallowHigh` a string is written
unchanged when all its bytes lie in `[0x20, 0x7F]`, and the serialization fails
with `InvalidStringHighASCII` for every other string, those with a byte below
0x20 among them. -/
theorem C23_raw_string_is_tested_only_under_disallow_high (value : List Nat) :
    to_daw_json_string_StringRaw EightBitModes.AllowFull value
        = Outcome.ok ([34] ++ value ++ [34])
      ∧ to_daw_json_string_StringRaw EightBitModes.DisallowHigh value
        = (if ∀ c, c ∈ value → 0x20 ≤ c ∧ c ≤ 0x7F then Outcome.ok ([34] ++ value ++ [34])
          else Outcome.failed ErrorReason.InvalidStringHighASCII)
      ∧ ((∃ c, c ∈ value ∧ c < 0x20) →
          to_daw_json_string_StringRaw EightBitModes.DisallowHigh value
            = Outcome.failed ErrorReason.InvalidStringHighASCII) := by
  have h2 : to_daw_json_string_StringRaw EightBitModes.DisallowHigh value
      = (if ∀ c, c ∈ value → 0x20 ≤ c ∧ c ≤ 0x7F then Outcome.ok ([34] ++ value ++ [34])
        else Outcome.failed ErrorReason.InvalidStringHighASCII) := by
    unfold to_daw_json_string_StringRaw copy_to_iterator
    simp only [Bool.false_eq_true, if_false, bind_eq_outcome_bind]
    cases value with
    | nil => simp
    | cons c cs =>
      rw [if_pos (by simp), copy_plain_disallow_high]
      split_ifs <;> rfl
  refine ⟨?_, h2, ?_⟩
  · unfold to_daw_json_string_StringRaw copy_to_iterator
    simp only [Bool.false_eq_true, if_false, bind_eq_outcome_bind]
    cases value with
    | nil => rfl
    | cons c cs =>
      rw [if_pos (by simp), copy_plain_allow_full_all]
      rfl
  · intro ⟨c, hc, hlt⟩
    rw [h2, if_neg (fun h => by have := (h c hc).1; omega)]

/-- The string `A`, then a tab: written unchanged under `AllowFull`, rejected
under `DisallowHigh`. -/
theorem C23_raw_string_is_tested_only_under_disallow_high_witness :
    to_daw_json_string_StringRaw EightBitModes.AllowFull [65, 9] = Outcome.ok [34, 65, 9, 34]
      ∧ to_daw_json_string_StringRaw EightBitModes.DisallowHigh [65, 9]
        = Outcome.failed ErrorReason.InvalidStringHighASCII :=
  ⟨(C23_raw_string_is_tested_only_under_disallow_high [65, 9]).1,
    (C23_raw_string_is_tested_only_under_disallow_high [65, 9]).2.2 ⟨9, by decide, by decide⟩⟩

theorem decimal_digits_rev_small (fuel v : Nat) (h0 : v ≠ 0) (h : v < 10) :
    decimal_digits_rev (fuel + 1) v = [v + 48] := by
  unfold decimal_digits_rev
  rw [if_neg h0, Nat.mod_eq_of_lt h, show v / 10 = 0 by omega]
  cases fuel <;> simp [decimal_digits_rev]

theorem decimal_digits_rev_fuel : ∀ (fuel1 fuel2 v : Nat), v ≤ fuel1 → v ≤ fuel2 →
    decimal_digits_rev fuel1 v = decimal_digits_rev fuel2 v := by
  intro fuel1
  induction fuel1 with
  | zero =>
    intro fuel2 v h1 _
    have : v = 0 := by omega
    subst this
    cases fuel2 <;> simp [decimal_digits_rev]
  | succ f1 ih =>
    intro fuel2 v h1 h2
    cases fuel2 with
    | zero =>
      have : v = 0 := by omega
      subst this
      simp [decimal_digits_rev]
    | succ f2 =>
      unfold decimal_digits_rev
      by_cases h0 : v = 0
      · rw [if_pos h0, if_pos h0]
      · rw [if_neg h0, if_neg h0, ih f2 (v / 10) (by omega) (by omega)]

theorem digit_pairs_digits : ∀ (fuel v : Nat) (buff : List Nat), v < 10 * 100 ^ fuel →
    (digit_pairs fuel v buff).2
        ++ (if (digit_pairs fuel v buff).1 > 0 then [48 + (digit_pairs fuel v buff).1] else [])
      = buff ++ decimal_digits_rev v v := by
  intro fuel
  have hsmall : ∀ (v : Nat) (buff : List Nat), v < 10 →
      buff ++ (if v > 0 then [48 + v] else []) = buff ++ decimal_digits_rev v v := by
    intro v buff hv
    by_cases h0 : v = 0
    · subst h0; simp [decimal_digits_rev]
    · obtain ⟨k, rfl⟩ : ∃ k, v = k + 1 := ⟨v - 1, by omega⟩
      rw [if_pos (by omega), decimal_digits_rev_small k (k + 1) h0 hv, Nat.add_comm 48]
  induction fuel with
  | zero =>
    intro v buff hv
    simp only [pow_zero, mul_one] at hv
    exact hsmall v buff hv
  | succ fuel ih =>
    intro v buff hv
    by_cases h10 : v ≥ 10
    · have hstep : digit_pairs (fuel + 1) v buff = digit_pairs fuel (v / 100)
          (buff ++ [(digits100 (v % 100)).1, (digits100 (v % 100)).2]) := by
        simp [digit_pairs, h10]
      rw [hstep, ih (v / 100) _ (by rw [pow_succ] at hv; omega)]
      obtain ⟨k, rfl⟩ : ∃ k, v = k + 2 := ⟨v - 2, by omega⟩
      have hd1 : decimal_digits_rev (k + 2) (k + 2)
          = ((k + 2) % 10 + 48) :: ((k + 2) / 10 % 10 + 48)
              :: decimal_digits_rev ((k + 2) / 100) ((k + 2) / 100) := by
        rw [decimal_digits_rev, if_neg (by omega), decimal_digits_rev, if_neg (by omega),
          show (k + 2) / 10 / 10 = (k + 2) / 100 by omega,
          decimal_digits_rev_fuel k ((k + 2) / 100) ((k + 2) / 100) (by omega) (le_refl _)]
      rw [hd1]
      simp only [digits100, List.append_assoc, List.cons_append, List.nil_append]
      rw [show (k + 2) % 100 % 10 = (k + 2) % 10 by omega,
        show (k + 2) % 100 / 10 = (k + 2) / 10 % 10 by omega]
    · have hstep : digit_pairs (fuel + 1) v buff = (v, buff) := by
        simp [digit_pairs, h10]
      rw [hstep]
      exact hsmall v buff (by omega)

theorem fill_buff_digits (v : Nat) (buff : List Nat) (hv : v < 10 * 100 ^ 64) (h0 : v ≠ 0) :
    fill_buff v buff = buff ++ decimal_digits_rev v v := by
  have := digit_pairs_digits 64 v buff hv
  unfold fill_buff
  simp only [beq_iff_eq, h0, if_false]
  rw [← this]
  split_ifs <;> simp

theorem fill_buff_zero (buff : List Nat) : fill_buff 0 buff = buff ++ [48] := by
  simp [fill_buff, digit_pairs]

end DawJson
namespace DawJson

theorem decimal_digits_rev_facts : ∀ (fuel n : Nat), n ≠ 0 → n ≤ fuel →
    (∀ c, c ∈ decimal_digits_rev fuel n → is_digit c = true)
      ∧ digits_value (decimal_digits_rev fuel n).reverse = n
      ∧ (∃ d L, decimal_digits_rev fuel n = L ++ [d] ∧ d ≠ 48)
      ∧ n < 10 ^ (decimal_digits_rev fuel n).length
      ∧ 10 ^ (decimal_digits_rev fuel n).length ≤ 10 * n := by
  intro fuel
  induction fuel with
  | zero => intro n h0 h; omega
  | succ fuel ih =>
    intro n h0 h
    have hd : is_digit (n % 10 + 48) = true := by
      simp only [is_digit, Bool.and_eq_true, decide_eq_true_eq]; omega
    by_cases h10 : n / 10 = 0
    · have hlt : n < 10 := by omega
      rw [decimal_digits_rev_small fuel n h0 hlt]
      refine ⟨?_, ?_, ⟨n + 48, [], rfl, by omega⟩, by simpa using hlt, by simp; omega⟩
      · intro c hc
        simp only [List.mem_singleton] at hc
        subst hc
        simp only [is_digit, Bool.and_eq_true, decide_eq_true_eq]; omega
      · simp [digits_value]
    · obtain ⟨f1, f2, ⟨d, L, f3, f4⟩, f5, f6⟩ := ih (n / 10) h10 (by omega)
      have hun : decimal_digits_rev (fuel + 1) n
          = (n % 10 + 48) :: decimal_digits_rev fuel (n / 10) := by
        rw [decimal_digits_rev, if_neg h0]
      rw [hun]
      refine ⟨?_, ?_, ⟨d, (n % 10 + 48) :: L, by rw [f3]; rfl, f4⟩, ?_, ?_⟩
      · intro c hc
        rcases List.mem_cons.mp hc with rfl | hc
        · exact hd
        · exact f1 c hc
      · rw [List.reverse_cons, digits_value_append, f2]
        simp only [digits_value, List.foldl_cons, List.foldl_nil, List.length_singleton]
        omega
      · rw [List.length_cons, pow_succ]
        omega
      · rw [List.length_cons, pow_succ]
        omega

theorem decimal_text_length_mono (m n : Nat) (h : m ≤ n) :
    (decimal_text m).length ≤ (decimal_text n).length := by
  unfold decimal_text
  by_cases hm : m = 0
  · rw [if_pos hm]
    by_cases hn : n = 0
    · rw [if_pos hn]
    · rw [if_neg hn, List.length_reverse]
      obtain ⟨-, -, -, f5, -⟩ := decimal_digits_rev_facts n n hn (le_refl _)
      by_contra hc
      have : (decimal_digits_rev n n).length = 0 := by
        simp only [List.length_singleton] at hc; omega
      rw [this] at f5
      simp at f5
      omega
  · have hn : n ≠ 0 := by omega
    rw [if_neg hm, if_neg hn, List.length_reverse, List.length_reverse]
    obtain ⟨-, -, -, -, g6⟩ := decimal_digits_rev_facts m m hm (le_refl _)
    obtain ⟨-, -, -, f5, -⟩ := decimal_digits_rev_facts n n hn (le_refl _)
    have hlt : 10 ^ (decimal_digits_rev m m).length < 10 ^ ((decimal_digits_rev n n).length + 1) := by
      rw [pow_succ]; omega
    have := (Nat.pow_lt_pow_iff_right (show 1 < 10 by decide)).mp hlt
    omega

end DawJson
namespace DawJson

theorem fill_buff_decimal (n : Nat) (hn : n < 10 * 100 ^ 64) :
    (fill_buff n []).reverse = decimal_text n := by
  unfold decimal_text
  by_cases h0 : n = 0
  · subst h0; rfl
  · rw [if_neg h0, fill_buff_digits n [] hn h0, List.nil_append]

theorem integer_buff_decimal (v : Int) (hv : v.natAbs < 10 * 100 ^ 64) :
    (integer_buff v).reverse = decimal_text v.natAbs
      ∧ to_daw_json_string_Signed LiteralAsStringOpt.Never v = integer_text v := by
  cases v with
  | ofNat n =>
    have hn : n < 10 * 100 ^ 64 := hv
    have hnot : ¬ ((n : Int) < 0) := by omega
    constructor
    · show (integer_buff (n : Int)).reverse = decimal_text n
      unfold integer_buff
      rw [if_neg hnot, Int.toNat_ofNat]
      exact fill_buff_decimal n hn
    · show to_daw_json_string_Signed LiteralAsStringOpt.Never (n : Int) = integer_text (n : Int)
      unfold to_daw_json_string_Signed integer_text
      rw [if_neg hnot, if_neg hnot, Int.toNat_ofNat, Int.natAbs_ofNat,
        show quote_when_always LiteralAsStringOpt.Never = [] from rfl, List.nil_append,
        List.append_nil]
      exact fill_buff_decimal n hn
  | negSucc k =>
    have hk : k + 1 < 10 * 100 ^ 64 := hv
    have hmod : Int.tmod (Int.negSucc k) 10 = -(((k + 1) % 10 : Nat) : Int) := rfl
    have hdiv : Int.tdiv (Int.negSucc k) (-10) = (((k + 1) / 10 : Nat) : Int) := rfl
    have hd0 : (48 - Int.tmod (Int.negSucc k) 10).toNat = (k + 1) % 10 + 48 := by
      rw [hmod]; omega
    have hab : (Int.negSucc k).natAbs = k + 1 := rfl
    have hbuff : (integer_buff (Int.negSucc k)).reverse = decimal_text (k + 1) := by
      unfold integer_buff decimal_text
      rw [if_pos (Int.negSucc_lt_zero k), if_neg (show ¬ (k + 1 = 0) by omega)]
      dsimp only
      rw [hd0, hdiv, Int.toNat_ofNat]
      have hun : decimal_digits_rev (k + 1) (k + 1)
          = ((k + 1) % 10 + 48) :: decimal_digits_rev ((k + 1) / 10) ((k + 1) / 10) := by
        rw [decimal_digits_rev, if_neg (by omega),
          decimal_digits_rev_fuel k ((k + 1) / 10) ((k + 1) / 10) (by omega) (le_refl _)]
      rw [hun]
      by_cases hz : (k + 1) / 10 = 0
      · have hz2 : ((((k + 1) / 10 : Nat) : Int) == 0) = true := by simp [hz]
        rw [hz2, if_pos rfl, hz]
        simp [decimal_digits_rev]
      · have hz2 : ((((k + 1) / 10 : Nat) : Int) == 0) = false := by
          simp only [beq_eq_false_iff_ne, ne_eq]; omega
        rw [hz2, if_neg (by decide), fill_buff_digits _ _ (by omega) hz]
        rfl
    refine ⟨hbuff, ?_⟩
    unfold integer_text
    rw [if_pos (Int.negSucc_lt_zero k), hab, ← hbuff]
    unfold to_daw_json_string_Signed integer_buff
    rw [if_pos (Int.negSucc_lt_zero k), if_pos (Int.negSucc_lt_zero k),
      show quote_when_always LiteralAsStringOpt.Never = [] from rfl]
    dsimp only
    split_ifs <;> simp

theorem unsigned_decimal (n : Nat) (hn : n < 10 * 100 ^ 64) :
    to_daw_json_string_Unsigned LiteralAsStringOpt.Never (n : Int)
      = Outcome.ok (decimal_text n) := by
  unfold to_daw_json_string_Unsigned daw_json_assert
  simp only [Int.natCast_nonneg, decide_True, if_true, bind_eq_outcome_bind, Outcome.bind_ok,
    Int.toNat_ofNat]
  rw [show quote_when_always LiteralAsStringOpt.Never = [] from rfl, List.nil_append,
    List.append_nil, fill_buff_decimal n hn]

theorem decimal_text_canonical (n : Nat) :
    (∀ c, c ∈ decimal_text n → is_digit c = true)
      ∧ digits_value (decimal_text n) = n
      ∧ (n ≠ 0 → (decimal_text n).headD 0 ≠ 48)
      ∧ (n = 0 → decimal_text n = [48]) := by
  unfold decimal_text
  by_cases h0 : n = 0
  · subst h0
    exact ⟨by decide, by decide, fun h => absurd rfl h, fun _ => rfl⟩
  · rw [if_neg h0]
    obtain ⟨f1, f2, ⟨d, L, f3, f4⟩, -, -⟩ := decimal_digits_rev_facts n n h0 (le_refl _)
    refine ⟨fun c hc => f1 c (List.mem_reverse.mp hc), f2, fun _ => ?_, fun h => absurd h h0⟩
    rw [f3]
    simpa using f4

end DawJson
namespace DawJson

/-- C24: for every value `v` of an unsigned type (`0 <= v < 2 ^ value_bits`) or of
a signed type (`-2 ^ value_bits <= v < 2 ^ value_bits`, the most negative value
included) with at most 64 value bits, `integer_to_string` writes the canonical
decimal representation of `v`: a leading `-` exactly when `v < 0`, then digits
whose value is `|v|`, without a leading zero, the single digit 0 for zero.  The
digits are those left in the temporary buffer, read backwards, and the buffer of
`digits10 + 1` characters is not overrun. -/
theorem C24_integer_to_string_is_canonical (is_unsigned : Bool) (value_bits : Nat) (v : Int)
    (hb : value_bits ≤ 64)
    (hv : (if is_unsigned then 0 else -(2 : Int) ^ value_bits) ≤ v ∧ v < 2 ^ value_bits) :
    integer_to_string is_unsigned v = Outcome.ok (integer_text v)
      ∧ integer_text v
        = (if v < 0 then [45] else []) ++ decimal_text v.natAbs
      ∧ (∀ c, c ∈ decimal_text v.natAbs → is_digit c = true)
      ∧ digits_value (decimal_text v.natAbs) = v.natAbs
      ∧ (v ≠ 0 → (decimal_text v.natAbs).headD 0 ≠ 48)
      ∧ (v = 0 → decimal_text v.natAbs = [48])
      ∧ (integer_buff v).reverse = decimal_text v.natAbs
      ∧ (integer_buff v).length ≤ digits10 value_bits + 1 := by
  have hp : (2 : Int) ^ value_bits = ((2 ^ value_bits : Nat) : Int) := by push_cast; rfl
  have hp64 : 2 ^ value_bits ≤ 2 ^ 64 := Nat.pow_le_pow_right (by decide) hb
  have habs : v.natAbs ≤ 2 ^ value_bits := by
    rw [hp] at hv
    split_ifs at hv <;> omega
  have hfuel : v.natAbs < 10 * 100 ^ 64 := by
    have : (2 : Nat) ^ 64 < 10 * 100 ^ 64 := by norm_num
    omega
  obtain ⟨hbuff, hsigned⟩ := integer_buff_decimal v hfuel
  obtain ⟨c1, c2, c3, c4⟩ := decimal_text_canonical v.natAbs
  refine ⟨?_, ?_, c1, c2, fun h => c3 (by omega), fun h => c4 (by omega), hbuff, ?_⟩
  · unfold integer_to_string
    cases is_unsigned with
    | false => simp only [Bool.false_eq_true, if_false, hsigned]
    | true =>
      simp only [if_true] at hv ⊢
      obtain ⟨n, rfl⟩ := Int.eq_ofNat_of_zero_le hv.1
      rw [unsigned_decimal n hfuel]
      unfold integer_text
      rw [if_neg (by omega)]
      rfl
  · unfold integer_text
    split_ifs <;> rfl
  · have hl : (integer_buff v).length = (decimal_text v.natAbs).length := by
      rw [← hbuff, List.length_reverse]
    have hm := decimal_text_length_mono v.natAbs (2 ^ value_bits) habs
    unfold digits10
    omega

/-- The most negative 64-bit value is written as `-9223372036854775808`, with 19
digits in a buffer of 19 characters. -/
theorem C24_integer_to_string_is_canonical_witness :
    integer_to_string false (-9223372036854775808)
        = Outcome.ok (integer_text (-9223372036854775808))
      ∧ integer_text (-9223372036854775808) = bytes "-9223372036854775808"
      ∧ (integer_buff (-9223372036854775808)).length ≤ digits10 63 + 1
      ∧ digits10 63 + 1 = 19 :=
  ⟨(C24_integer_to_string_is_canonical false 63 (-9223372036854775808) (by decide)
      (by decide)).1, by decide,
    (C24_integer_to_string_is_canonical false 63 (-9223372036854775808) (by decide)
      (by decide)).2.2.2.2.2.2.2, by decide⟩

/-- C25: for a Real member whose `literal_as_string` is not `Never` the serializer
writes `"Infinity"` for the negative infinity as it does for the positive one,
not `"-Infinity"`: `is_inf( value )` is tested without the sign.  Both
infinities have the same text, so that no parser returns each of them from its
text.  `NaN` is written as `"NaN"`, and with `Never` the serializer fails with
`NumberIsNaN` and `NumberIsInf`. -/
theorem C25_negative_infinity_written_without_sign :
    (∀ las, las ≠ LiteralAsStringOpt.Never →
        to_daw_json_string_Real las (RealValue.infinity true)
            = Outcome.ok (bytes "\"Infinity\"")
          ∧ to_daw_json_string_Real las (RealValue.infinity false)
            = Outcome.ok (bytes "\"Infinity\"")
          ∧ to_daw_json_string_Real las RealValue.nan = Outcome.ok (bytes "\"NaN\""))
      ∧ (∀ (las : LiteralAsStringOpt) (parse : Outcome (List Nat) → RealValue),
          las ≠ LiteralAsStringOpt.Never →
          ¬ (parse (to_daw_json_string_Real las (RealValue.infinity true))
                = RealValue.infinity true
              ∧ parse (to_daw_json_string_Real las (RealValue.infinity false))
                = RealValue.infinity false))
      ∧ to_daw_json_string_Real LiteralAsStringOpt.Never RealValue.nan
          = Outcome.failed ErrorReason.NumberIsNaN
      ∧ (∀ negative, to_daw_json_string_Real LiteralAsStringOpt.Never
          (RealValue.infinity negative) = Outcome.failed ErrorReason.NumberIsInf) := by
  have h : ∀ las, las ≠ LiteralAsStringOpt.Never →
      to_daw_json_string_Real las (RealValue.infinity true)
          = Outcome.ok (bytes "\"Infinity\"")
        ∧ to_daw_json_string_Real las (RealValue.infinity false)
          = Outcome.ok (bytes "\"Infinity\"")
        ∧ to_daw_json_string_Real las RealValue.nan = Outcome.ok (bytes "\"NaN\"") := by
    intro las hl
    cases las
    · exact absurd rfl hl
    · exact ⟨rfl, rfl, rfl⟩
    · exact ⟨rfl, rfl, rfl⟩
  refine ⟨h, ?_, rfl, fun negative => rfl⟩
  intro las parse hl ⟨h1, h2⟩
  obtain ⟨e1, e2, -⟩ := h las hl
  rw [e1] at h1
  rw [e2] at h2
  have := h1.symm.trans h2
  exact absurd this (by decide)

theorem intercalate_snoc (sep : List Nat) (cells : List (List Nat)) (t : List Nat) :
    List.intercalate sep (cells ++ [t])
      = List.intercalate sep cells ++ (if cells.length > 0 then sep else []) ++ t := by
  induction cells with
  | nil => simp [List.intercalate]
  | cons c cs ih =>
    cases cs with
    | nil => simp [List.intercalate]
    | cons d ds =>
      have e1 : List.intercalate sep (c :: d :: ds ++ [t])
          = c ++ sep ++ List.intercalate sep (d :: ds ++ [t]) := by
        simp [List.intercalate]
      have e2 : List.intercalate sep (c :: d :: ds)
          = c ++ sep ++ List.intercalate sep (d :: ds) := by
        simp [List.intercalate]
      rw [e1, ih, e2]
      simp

theorem to_json_ordered_nulls_cells (member_index : Nat) :
    ∀ (fuel array_idx : Nat) (cells : List (List Nat)),
      cells.length = array_idx → fuel = member_index - array_idx →
      to_json_ordered_nulls member_index fuel
          (array_idx, [91] ++ List.intercalate [44] cells)
        = (array_idx + fuel,
            [91] ++ List.intercalate [44] (cells ++ List.replicate fuel (bytes "null"))) := by
  intro fuel
  induction fuel with
  | zero => intro array_idx cells _ _; simp [to_json_ordered_nulls]
  | succ n ih =>
    intro array_idx cells hc hf
    have hlt : array_idx < member_index := by omega
    rw [to_json_ordered_nulls, if_pos hlt]
    have e : [91] ++ List.intercalate [44] cells ++ (if array_idx > 0 then [44] else [])
          ++ bytes "null"
        = [91] ++ List.intercalate [44] (cells ++ [bytes "null"]) := by
      rw [intercalate_snoc, hc]; simp only [List.append_assoc]
    rw [e, ih (array_idx + 1) (cells ++ [bytes "null"]) (by simp [hc]) (by omega)]
    have : cells ++ [bytes "null"] ++ List.replicate n (bytes "null")
        = cells ++ List.replicate (n + 1) (bytes "null") := by
      simp [List.replicate_succ]
    rw [this]
    congr 1
    omega

theorem to_json_ordered_members_cells (w : ValueWriter) :
    ∀ (items : List ((Option Nat × Kind) × JValue × List Nat)) (array_idx : Nat)
      (cells : List (List Nat)),
      cells.length = array_idx →
      (∀ it ∈ items, w it.1.2 it.2.1 = Outcome.ok it.2.2) →
      indices_increase array_idx (items.map (fun it => it.1.1)) →
      to_json_ordered_members w (items.map (fun it => it.1)) (items.map (fun it => it.2.1))
          (array_idx, [91] ++ List.intercalate [44] cells)
        = Outcome.ok
            (array_idx + (ordered_cells array_idx
                (items.map (fun it => (it.1.1, it.2.2)))).length,
              [91] ++ List.intercalate [44]
                (cells ++ ordered_cells array_idx (items.map (fun it => (it.1.1, it.2.2))))) := by
  intro items
  induction items with
  | nil => intro array_idx cells _ _ _; simp [to_json_ordered_members, ordered_cells]
  | cons it items ih =>
    intro array_idx cells hc hw hinc
    obtain ⟨⟨index, k⟩, value, text⟩ := it
    have hwk : w k value = Outcome.ok text := hw ⟨⟨index, k⟩, value, text⟩ (by simp)
    have hw2 : ∀ it ∈ items, w it.1.2 it.2.1 = Outcome.ok it.2.2 :=
      fun it hit => hw it (List.mem_cons_of_mem _ hit)
    cases index with
    | none =>
      have hinc2 : indices_increase (array_idx + 1) (items.map (fun it => it.1.1)) := by
        obtain ⟨h1, h2⟩ := hinc
        simp only [List.map_cons, member_positions, List.pairwise_cons] at h1 h2
        exact ⟨h1.2, fun p hp => h1.1 p hp⟩
      have e : [91] ++ List.intercalate [44] cells ++ (if array_idx > 0 then [44] else [])
            ++ text
          = [91] ++ List.intercalate [44] (cells ++ [text]) := by
        rw [intercalate_snoc, hc]; simp only [List.append_assoc]
      have step : to_json_ordered_str w none k value
          (array_idx, [91] ++ List.intercalate [44] cells)
          = Outcome.ok (array_idx + 1, [91] ++ List.intercalate [44] (cells ++ [text])) := by
        simp only [to_json_ordered_str, hwk, bind_eq_outcome_bind, Outcome.bind_ok, e]
      simp only [List.map_cons, to_json_ordered_members, step, bind_eq_outcome_bind,
        Outcome.bind_ok, ordered_cells]
      rw [ih (array_idx + 1) (cells ++ [text]) (by simp [hc]) hw2 hinc2]
      simp only [List.length_cons, List.append_assoc, List.singleton_append]
      congr 2
      omega
    | some i =>
      obtain ⟨h1, h2⟩ := hinc
      simp only [List.map_cons, member_positions, List.pairwise_cons] at h1 h2
      have hle : array_idx ≤ i := h2 i (by simp)
      have hinc2 : indices_increase (i + 1) (items.map (fun it => it.1.1)) :=
        ⟨h1.2, fun p hp => h1.1 p hp⟩
      have nulls := to_json_ordered_nulls_cells i (i - array_idx) array_idx cells hc rfl
      have hidx : array_idx + (i - array_idx) = i := by omega
      rw [hidx] at nulls
      have e : [91] ++ List.intercalate [44]
              (cells ++ List.replicate (i - array_idx) (bytes "null"))
            ++ (if i > 0 then [44] else []) ++ text
          = [91] ++ List.intercalate [44]
              (cells ++ List.replicate (i - array_idx) (bytes "null") ++ [text]) := by
        rw [intercalate_snoc]
        have : (cells ++ List.replicate (i - array_idx) (bytes "null")).length = i := by
          simp [hc]; omega
        rw [this]; simp only [List.append_assoc]
      have step : to_json_ordered_str w (some i) k value
          (array_idx, [91] ++ List.intercalate [44] cells)
          = Outcome.ok (i + 1, [91] ++ List.intercalate [44]
              (cells ++ List.replicate (i - array_idx) (bytes "null") ++ [text])) := by
        simp only [to_json_ordered_str, nulls, hwk, bind_eq_outcome_bind, Outcome.bind_ok, e]
      simp only [List.map_cons, to_json_ordered_members, step, bind_eq_outcome_bind,
        Outcome.bind_ok, ordered_cells]
      rw [ih (i + 1) (cells ++ List.replicate (i - array_idx) (bytes "null") ++ [text])
        (by simp [hc]; omega) hw2 hinc2]
      simp only [List.length_cons, List.length_append, List.length_replicate,
        List.append_assoc, List.singleton_append]
      congr 2
      omega

theorem indices_increase_none {start : Nat} {indices : List (Option Nat)}
    (h : indices_increase start (none :: indices)) :
    indices_increase (start + 1) indices := by
  obtain ⟨h1, _⟩ := h
  simp only [member_positions, List.pairwise_cons] at h1
  exact ⟨h1.2, fun p hp => h1.1 p hp⟩

theorem indices_increase_some {start i : Nat} {indices : List (Option Nat)}
    (h : indices_increase start (some i :: indices)) :
    start ≤ i ∧ indices_increase (i + 1) indices := by
  obtain ⟨h1, h2⟩ := h
  simp only [member_positions, List.pairwise_cons] at h1 h2
  exact ⟨h2 i (by simp), h1.2, fun p hp => h1.1 p hp⟩

theorem ordered_cells_member :
    ∀ (items : List (Option Nat × List Nat)) (start : Nat),
      indices_increase start (items.map Prod.fst) →
      ∀ pt ∈ (member_positions start (items.map Prod.fst)).zip (items.map Prod.snd),
        start ≤ pt.1 ∧ (ordered_cells start items)[pt.1 - start]? = some pt.2 := by
  intro items
  induction items with
  | nil => intro start _ pt hpt; simp [member_positions] at hpt
  | cons it items ih =>
    intro start hinc pt hpt
    obtain ⟨index, text⟩ := it
    cases index with
    | none =>
      have hinc2 := indices_increase_none hinc
      simp only [List.map_cons, member_positions, List.zip_cons_cons, List.mem_cons] at hpt
      rcases hpt with rfl | hpt
      · simp [ordered_cells]
      · obtain ⟨hle, hget⟩ := ih (start + 1) hinc2 pt hpt
        refine ⟨by omega, ?_⟩
        have : pt.1 - start = (pt.1 - (start + 1)) + 1 := by omega
        rw [this, ordered_cells, List.getElem?_cons_succ]
        exact hget
    | some i =>
      obtain ⟨hsi, hinc2⟩ := indices_increase_some hinc
      simp only [List.map_cons, member_positions, List.zip_cons_cons, List.mem_cons] at hpt
      rcases hpt with rfl | hpt
      · refine ⟨hsi, ?_⟩
        rw [ordered_cells, List.getElem?_append_right (by simp)]
        simp
      · obtain ⟨hle, hget⟩ := ih (i + 1) hinc2 pt hpt
        refine ⟨by omega, ?_⟩
        rw [ordered_cells, List.getElem?_append_right (by simp; omega)]
        have : pt.1 - start - (List.replicate (i - start) (bytes "null")).length
            = (pt.1 - (i + 1)) + 1 := by simp; omega
        rw [this, List.getElem?_cons_succ]
        exact hget

theorem ordered_cells_null :
    ∀ (items : List (Option Nat × List Nat)) (start : Nat),
      indices_increase start (items.map Prod.fst) →
      ∀ p, p < (ordered_cells start items).length →
        start + p ∉ member_positions start (items.map Prod.fst) →
        (ordered_cells start items)[p]? = some (bytes "null") := by
  intro items
  induction items with
  | nil => intro start _ p hp; simp [ordered_cells] at hp
  | cons it items ih =>
    intro start hinc p hp hnot
    obtain ⟨index, text⟩ := it
    cases index with
    | none =>
      have hinc2 := indices_increase_none hinc
      simp only [List.map_cons, member_positions, List.mem_cons, not_or] at hnot
      cases p with
      | zero => exact absurd rfl hnot.1
      | succ q =>
        rw [ordered_cells, List.getElem?_cons_succ]
        simp only [ordered_cells, List.length_cons] at hp
        apply ih (start + 1) hinc2 q (by omega)
        have : start + 1 + q = start + (q + 1) := by omega
        rw [this]; exact hnot.2
    | some i =>
      obtain ⟨hsi, hinc2⟩ := indices_increase_some hinc
      simp only [List.map_cons, member_positions, List.mem_cons, not_or] at hnot
      simp only [ordered_cells, List.length_append, List.length_replicate,
        List.length_cons] at hp
      rw [ordered_cells]
      by_cases hlt : p < i - start
      · rw [List.getElem?_append_left (by simp; exact hlt)]
        simp [hlt]
      · have hne : start + p ≠ i := hnot.1
        rw [List.getElem?_append_right (by simp; omega)]
        have : p - (List.replicate (i - start) (bytes "null")).length
            = (p - (i - start) - 1) + 1 := by simp; omega
        rw [this, List.getElem?_cons_succ]
        apply ih (i + 1) hinc2 _ (by omega)
        have : i + 1 + (p - (i - start) - 1) = start + p := by omega
        rw [this]; exact hnot.2

theorem ordered_cells_below :
    ∀ (items : List (Option Nat × List Nat)) (start : Nat),
      indices_increase start (items.map Prod.fst) →
      ∀ p, p < (ordered_cells start items).length →
        ∃ q ∈ member_positions start (items.map Prod.fst), start + p ≤ q := by
  intro items
  induction items with
  | nil => intro start _ p hp; simp [ordered_cells] at hp
  | cons it items ih =>
    intro start hinc p hp
    obtain ⟨index, text⟩ := it
    cases index with
    | none =>
      have hinc2 := indices_increase_none hinc
      simp only [List.map_cons, member_positions, List.mem_cons]
      cases p with
      | zero => exact ⟨start, Or.inl rfl, by omega⟩
      | succ q =>
        simp only [ordered_cells, List.length_cons] at hp
        obtain ⟨r, hr, hle⟩ := ih (start + 1) hinc2 q (by omega)
        exact ⟨r, Or.inr hr, by omega⟩
    | some i =>
      obtain ⟨hsi, hinc2⟩ := indices_increase_some hinc
      simp only [List.map_cons, member_positions, List.mem_cons]
      simp only [ordered_cells, List.length_append, List.length_replicate,
        List.length_cons] at hp
      by_cases hlt : p ≤ i - start
      · exact ⟨i, Or.inl rfl, by omega⟩
      · obtain ⟨r, hr, hle⟩ := ih (i + 1) hinc2 (p - (i - start) - 1) (by omega)
        exact ⟨r, Or.inr hr, by omega⟩

/-- C26: for an ordered class whose declared indices increase strictly (a plain
member declares the index after the one before it) and whose member values are
written by the member serializer, the serializer returns `[`, the elements
`cells` with exactly one comma between consecutive ones, and `]`: the text of
each member stands at its declared index, every other position holds `null`,
and every position is at or below a declared index. -/
theorem C26_ordered_class_written_by_index (w : ValueWriter)
    (items : List ((Option Nat × Kind) × JValue × List Nat))
    (hw : ∀ it ∈ items, w it.1.2 it.2.1 = Outcome.ok it.2.2)
    (hinc : (member_positions 0 (items.map (fun it => it.1.1))).Pairwise (· < ·)) :
    ∃ cells : List (List Nat),
      serialize_ordered_class w (items.map (fun it => it.1)) (items.map (fun it => it.2.1))
          = Outcome.ok ([91] ++ List.intercalate [44] cells ++ [93])
        ∧ (∀ pt ∈ (member_positions 0 (items.map (fun it => it.1.1))).zip
              (items.map (fun it => it.2.2)), cells[pt.1]? = some pt.2)
        ∧ (∀ p, p < cells.length → p ∉ member_positions 0 (items.map (fun it => it.1.1)) →
              cells[p]? = some (bytes "null"))
        ∧ (∀ p, p < cells.length →
              ∃ q ∈ member_positions 0 (items.map (fun it => it.1.1)), p ≤ q) := by
  have hinc2 : indices_increase 0 (items.map (fun it => it.1.1)) :=
    ⟨hinc, fun p _ => Nat.zero_le p⟩
  have hmap1 : (items.map (fun it => (it.1.1, it.2.2))).map Prod.fst
      = items.map (fun it => it.1.1) := by simp
  have hmap2 : (items.map (fun it => (it.1.1, it.2.2))).map Prod.snd
      = items.map (fun it => it.2.2) := by simp
  have hinc3 : indices_increase 0 ((items.map (fun it => (it.1.1, it.2.2))).map Prod.fst) := by
    rw [hmap1]; exact hinc2
  refine ⟨ordered_cells 0 (items.map (fun it => (it.1.1, it.2.2))), ?_, ?_, ?_, ?_⟩
  · have run := to_json_ordered_members_cells w items 0 [] rfl hw hinc2
    rw [show ([91] : List Nat) ++ List.intercalate [44] [] = [91] from rfl,
      List.nil_append] at run
    unfold serialize_ordered_class
    rw [run]
    simp only [bind_eq_outcome_bind, Outcome.bind_ok]
  · intro pt hpt
    have h := ordered_cells_member (items.map (fun it => (it.1.1, it.2.2))) 0 hinc3 pt
      (by rw [hmap1, hmap2]; exact hpt)
    simpa using h.2
  · intro p hp hnot
    exact ordered_cells_null (items.map (fun it => (it.1.1, it.2.2))) 0 hinc3 p hp
      (by rw [hmap1, Nat.zero_add]; exact hnot)
  · intro p hp
    have h := ordered_cells_below (items.map (fun it => (it.1.1, it.2.2))) 0 hinc3 p hp
    rw [hmap1] at h
    simpa using h

/-- C26 at the members with the indices 1, 2 (a plain member) and 5 and the
values 10, 20 and 30: the text is `[null,10,20,null,null,30]`. -/
theorem C26_ordered_class_written_by_index_witness :
    (member_positions 0 [some 1, none, some 5]).Pairwise (· < ·)
      ∧ serialize_ordered_class ordered_example_writer
          [(some 1, Kind.Date), (none, Kind.Date), (some 5, Kind.Date)]
          [JValue.number 10, JValue.number 20, JValue.number 30]
        = Outcome.ok (bytes "[null,10,20,null,null,30]")
      ∧ ∃ cells : List (List Nat),
        serialize_ordered_class ordered_example_writer
            [(some 1, Kind.Date), (none, Kind.Date), (some 5, Kind.Date)]
            [JValue.number 10, JValue.number 20, JValue.number 30]
          = Outcome.ok ([91] ++ List.intercalate [44] cells ++ [93])
        ∧ (∀ pt ∈ [(1, bytes "10"), (2, bytes "20"), (5, bytes "30")],
              cells[pt.1]? = some pt.2)
        ∧ (∀ p, p < cells.length → p ∉ [1, 2, 5] → cells[p]? = some (bytes "null"))
        ∧ (∀ p, p < cells.length → ∃ q ∈ [1, 2, 5], p ≤ q) :=
  ⟨by decide, rfl,
    C26_ordered_class_written_by_index ordered_example_writer
      [((some 1, Kind.Date), JValue.number 10, bytes "10"),
       ((none, Kind.Date), JValue.number 20, bytes "20"),
       ((some 5, Kind.Date), JValue.number 30, bytes "30")]
      (by
        intro it hit
        simp only [List.mem_cons, List.mem_singleton, List.not_mem_nil, or_false] at hit
        rcases hit with rfl | rfl | rfl <;> rfl)
      (by decide)⟩

theorem writer_invariant_snoc (st : WriterState) (pairs : List (List Nat × List Nat))
    (name text : List Nat) (visited : List (List Nat))
    (hinv : writer_invariant st pairs) (hnot : st.visited_members.contains name = false)
    (hvis : ∀ n ∈ st.visited_members, n ∈ visited) (hname : name ∈ visited) :
    writer_invariant
      { is_first := false,
        out := st.out ++ (if !st.is_first then [44] else []) ++ [34] ++ name ++ bytes "\":"
          ++ text,
        visited_members := visited }
      (pairs ++ [(name, text)]) := by
  obtain ⟨hout, hfirst, hmem, hnodup⟩ := hinv
  have hnot2 : name ∉ st.visited_members := by
    intro h
    have : st.visited_members.contains name = true := by simpa using h
    rw [hnot] at this
    exact Bool.noConfusion this
  refine ⟨?_, ?_, ?_, ?_⟩
  · show st.out ++ (if !st.is_first then [44] else []) ++ [34] ++ name ++ bytes "\":" ++ text
      = [123] ++ List.intercalate [44] ((pairs ++ [(name, text)]).map member_text)
    rw [List.map_append, List.map_singleton, intercalate_snoc, hout, hfirst]
    cases pairs with
    | nil => simp [member_text, List.intercalate]
    | cons p ps => simp [member_text]
  · cases pairs <;> rfl
  · intro p hp
    rcases List.mem_append.mp hp with h | h
    · exact hvis _ (hmem p h)
    · rw [List.mem_singleton] at h
      rw [h]; exact hname
  · rw [List.map_append, List.map_singleton]
    refine List.Nodup.append hnodup (List.nodup_singleton _) ?_
    intro n hn1 hn2
    rw [List.mem_singleton] at hn2
    obtain ⟨p, hp, rfl⟩ := List.mem_map.mp hn1
    have hn3 : p.1 = name := hn2
    rw [← hn3] at hnot2
    exact hnot2 (hmem p hp)

theorem writer_invariant_visited (st : WriterState) (pairs : List (List Nat × List Nat))
    (visited : List (List Nat)) (hinv : writer_invariant st pairs)
    (hvis : ∀ n ∈ st.visited_members, n ∈ visited) :
    writer_invariant { st with visited_members := visited } pairs :=
  ⟨hinv.1, hinv.2.1, fun p hp => hvis _ (hinv.2.2.1 p hp), hinv.2.2.2⟩

theorem to_json_str_pairs (w : ValueWriter) (name : List Nat) (k : Kind) (value : JValue)
    (text : List Nat) (st : WriterState) (pairs : List (List Nat × List Nat))
    (hw : (is_json_nullable k && value.is_empty) = false → w k value = Outcome.ok text)
    (hinv : writer_invariant st pairs) :
    ∃ st2 extra, to_json_str w name k value st = Outcome.ok st2
      ∧ writer_invariant st2 (pairs ++ extra) ∧ extra.Sublist [(name, text)] := by
  unfold to_json_str
  by_cases hv : st.visited_members.contains name = true
  · rw [if_pos hv]
    exact ⟨st, [], rfl, by simpa using hinv, List.nil_sublist _⟩
  · rw [if_neg hv]
    have hv2 : st.visited_members.contains name = false := by simpa using hv
    dsimp only
    by_cases hn : (is_json_nullable k && value.is_empty) = true
    · rw [if_pos hn]
      refine ⟨_, [], rfl, ?_, List.nil_sublist _⟩
      rw [List.append_nil]
      exact writer_invariant_visited st pairs _ hinv (fun n h => List.mem_append_left _ h)
    · rw [if_neg hn]
      have hn2 : (is_json_nullable k && value.is_empty) = false := by simpa using hn
      simp only [copy_to_iterator, Bool.false_eq_true, if_false, copy_plain_allow_full,
        bind_eq_outcome_bind, Outcome.bind_ok, hw hn2]
      refine ⟨_, [(name, text)], rfl, ?_, List.Sublist.refl _⟩
      exact writer_invariant_snoc st pairs name text _ hinv hv2
        (fun n h => List.mem_append_left _ h) (by simp)

theorem tags_to_json_str_pairs (w : ValueWriter) (k : Kind)
    (tag_member : Option (List Nat × Kind)) (value tag_value : JValue)
    (tag_text : List Nat) (st : WriterState) (pairs : List (List Nat × List Nat))
    (hw : (is_json_nullable k && value.is_empty) = false →
      ∀ t, tag_member = some t → w t.2 tag_value = Outcome.ok tag_text)
    (hinv : writer_invariant st pairs) :
    ∃ st2 extra, tags_to_json_str w true k tag_member value tag_value st = Outcome.ok st2
      ∧ writer_invariant st2 (pairs ++ extra)
      ∧ extra.Sublist (tag_member.map (fun t => (t.1, tag_text))).toList := by
  unfold tags_to_json_str
  cases tag_member with
  | none => exact ⟨st, [], rfl, by simpa using hinv, List.nil_sublist _⟩
  | some t =>
    obtain ⟨tag_member_name, tag_kind⟩ := t
    dsimp only
    by_cases hn : (is_json_nullable k && value.is_empty) = true
    · rw [if_pos hn]
      exact ⟨st, [], rfl, by simpa using hinv, List.nil_sublist _⟩
    · rw [if_neg hn]
      have hn2 : (is_json_nullable k && value.is_empty) = false := by simpa using hn
      by_cases hv : st.visited_members.contains tag_member_name = true
      · rw [if_pos hv]
        exact ⟨st, [], rfl, by simpa using hinv, List.nil_sublist _⟩
      · rw [if_neg hv]
        have hv2 : st.visited_members.contains tag_member_name = false := by simpa using hv
        have hwt : w tag_kind tag_value = Outcome.ok tag_text :=
          hw hn2 (tag_member_name, tag_kind) rfl
        simp only [copy_to_iterator, Bool.false_eq_true, if_false, copy_plain_allow_full,
          bind_eq_outcome_bind, Outcome.bind_ok, hwt, if_true]
        refine ⟨_, [(tag_member_name, tag_text)], rfl, ?_, List.Sublist.refl _⟩
        exact writer_invariant_snoc st pairs tag_member_name tag_text _ hinv hv2
          (fun n h => List.mem_append_left _ h) (by simp)

theorem to_json_members_pairs (w : ValueWriter) :
    ∀ (items : List WrittenMember) (st : WriterState) (pairs : List (List Nat × List Nat)),
      (∀ it ∈ items, (is_json_nullable it.kind && it.value.is_empty) = false →
        w it.kind it.value = Outcome.ok it.text) →
      writer_invariant st pairs →
      ∃ st2 extra,
        to_json_members w (items.map (fun it => (it.name, it.kind)))
            (items.map (fun it => it.value)) st = Outcome.ok st2
          ∧ writer_invariant st2 (pairs ++ extra)
          ∧ extra.Sublist (items.map (fun it => (it.name, it.text))) := by
  intro items
  induction items with
  | nil =>
    intro st pairs _ hinv
    exact ⟨st, [], rfl, by simpa using hinv, List.nil_sublist _⟩
  | cons it items ih =>
    intro st pairs hw hinv
    obtain ⟨st1, e1, h1, inv1, sub1⟩ :=
      to_json_str_pairs w it.name it.kind it.value it.text st pairs
        (hw it (by simp)) hinv
    obtain ⟨st2, e2, h2, inv2, sub2⟩ :=
      ih st1 (pairs ++ e1) (fun it2 hit => hw it2 (List.mem_cons_of_mem _ hit)) inv1
    refine ⟨st2, e1 ++ e2, ?_, ?_, ?_⟩
    · simp only [List.map_cons, to_json_members, h1, bind_eq_outcome_bind, Outcome.bind_ok]
      exact h2
    · rw [← List.append_assoc]; exact inv2
    · exact List.Sublist.append sub1 sub2

theorem tags_to_json_members_pairs (w : ValueWriter) :
    ∀ (items : List WrittenMember) (st : WriterState) (pairs : List (List Nat × List Nat)),
      (∀ it ∈ items, (is_json_nullable it.kind && it.value.is_empty) = false →
        ∀ t, it.tag_member = some t → w t.2 it.tag_value = Outcome.ok it.tag_text) →
      writer_invariant st pairs →
      ∃ st2 extra,
        tags_to_json_members w true
            (items.map (fun it => ((it.name, it.kind), it.tag_member)))
            (items.map (fun it => (it.value, it.tag_value))) st = Outcome.ok st2
          ∧ writer_invariant st2 (pairs ++ extra)
          ∧ extra.Sublist
              (items.filterMap (fun it => it.tag_member.map (fun t => (t.1, it.tag_text)))) := by
  intro items
  induction items with
  | nil =>
    intro st pairs _ hinv
    exact ⟨st, [], rfl, by simpa using hinv, List.nil_sublist _⟩
  | cons it items ih =>
    intro st pairs hw hinv
    obtain ⟨st1, e1, h1, inv1, sub1⟩ :=
      tags_to_json_str_pairs w it.kind it.tag_member it.value it.tag_value it.tag_text st pairs
        (hw it (by simp)) hinv
    obtain ⟨st2, e2, h2, inv2, sub2⟩ :=
      ih st1 (pairs ++ e1) (fun it2 hit => hw it2 (List.mem_cons_of_mem _ hit)) inv1
    refine ⟨st2, e1 ++ e2, ?_, ?_, ?_⟩
    · simp only [List.map_cons, tags_to_json_members, h1, bind_eq_outcome_bind,
        Outcome.bind_ok]
      exact h2
    · rw [← List.append_assoc]; exact inv2
    · have e : (it :: items).filterMap
            (fun it => it.tag_member.map (fun t => (t.1, it.tag_text)))
          = (it.tag_member.map (fun t => (t.1, it.tag_text))).toList
            ++ items.filterMap (fun it => it.tag_member.map (fun t => (t.1, it.tag_text))) := by
        cases h : it.tag_member <;> simp [List.filterMap_cons, h]
      rw [e]
      exact List.Sublist.append sub1 sub2

/-- C27: `tags_to_json_str` takes the output iterator by value.  Through an
iterator that is a position (`char *`) the tag member is written behind the
position of the caller, who does not move: for the class with the member `v`
(5, tag member `type` 0) and the member `n` (7) the text is `\x7b,"v":5,"n":7\x7d`,
with a leading comma and without the tag member.  Through an iterator whose
copies write to one sink the text is `\x7b"type":0,"v":5,"n":7\x7d`, and in general,
when the values that are written have a text, the serializer returns the
members `pairs` between the braces with exactly one comma between consecutive
ones, their names distinct, in the order of the tag members of the contract
followed by its members. -/
theorem C27_tag_member_lost_through_position_iterator :
    serialize_json_class (to_daw_json_string 2) false tagged_example_members
        tagged_example_values
      = Outcome.ok (bytes "\x7b,\"v\":5,\"n\":7\x7d")
    ∧ serialize_json_class (to_daw_json_string 2) true tagged_example_members
        tagged_example_values
      = Outcome.ok (bytes "\x7b\"type\":0,\"v\":5,\"n\":7\x7d")
    ∧ ∀ (w : ValueWriter) (items : List WrittenMember),
        (∀ it ∈ items, (is_json_nullable it.kind && it.value.is_empty) = false →
          w it.kind it.value = Outcome.ok it.text
            ∧ ∀ t, it.tag_member = some t → w t.2 it.tag_value = Outcome.ok it.tag_text) →
        ∃ pairs : List (List Nat × List Nat),
          serialize_json_class w true
              (items.map (fun it => ((it.name, it.kind), it.tag_member)))
              (items.map (fun it => (it.value, it.tag_value)))
            = Outcome.ok ([123] ++ List.intercalate [44] (pairs.map member_text) ++ [125])
          ∧ (pairs.map Prod.fst).Nodup
          ∧ pairs.Sublist
              (items.filterMap (fun it => it.tag_member.map (fun t => (t.1, it.tag_text)))
                ++ items.map (fun it => (it.name, it.text))) := by
  refine ⟨rfl, rfl, ?_⟩
  intro w items hw
  have init : writer_invariant { is_first := true, out := [123], visited_members := [] } [] :=
    ⟨rfl, rfl, fun p hp => absurd hp (List.not_mem_nil p), List.nodup_nil⟩
  obtain ⟨st1, e1, h1, inv1, sub1⟩ :=
    tags_to_json_members_pairs w items _ [] (fun it hit hn => (hw it hit hn).2) init
  obtain ⟨st2, e2, h2, inv2, sub2⟩ :=
    to_json_members_pairs w items st1 ([] ++ e1) (fun it hit hn => (hw it hit hn).1) inv1
  refine ⟨[] ++ e1 ++ e2, ?_, inv2.2.2.2, ?_⟩
  · unfold serialize_json_class
    simp only [h1, bind_eq_outcome_bind, Outcome.bind_ok, List.map_map]
    have e : (Prod.fst ∘ fun (it : WrittenMember) => ((it.name, it.kind), it.tag_member))
        = fun it => (it.name, it.kind) := rfl
    have e3 : (Prod.fst ∘ fun (it : WrittenMember) => (it.value, it.tag_value))
        = fun it => it.value := rfl
    rw [e, e3, h2]
    simp only [Outcome.bind_ok, inv2.1]
  · rw [List.nil_append]
    exact List.Sublist.append sub1 sub2

/-- C29: the length of the context is computed from `class_first - first + 1`,
the operands the wrong way round: with `class_first = 1000`, `first = 1002`
and `last = 1010` the context is the 150 bytes from `class_first` on, of
which 10 lie inside the input buffer.  For every parse state with `class_first
+ 2 <= first` the length is 150, whatever `last` is; it is 1 for `first =
class_first` and 0 for `first = class_first + 1`.  The context starts at
`class_first` and is never longer than 150 bytes. -/
theorem C29_context_length_ignores_last :
    missing_member_context (some 1002) (some 1000) none = some (1000, 150)
      ∧ ¬ (150 ≤ 1010 - 1000)
      ∧ (∀ (first class_first : Nat) (class_last : Option Nat),
          class_first + 2 ≤ first → first < 2 ^ 63 →
          missing_member_context (some first) (some class_first) class_last
            = some (class_first, 150))
      ∧ (∀ (class_first : Nat) (class_last : Option Nat),
          missing_member_context (some class_first) (some class_first) class_last
              = some (class_first, 1)
            ∧ missing_member_context (some (class_first + 1)) (some class_first) class_last
              = some (class_first, 0))
      ∧ (∀ (first class_first : Nat) (class_last : Option Nat) (start len : Nat),
          missing_member_context (some first) (some class_first) class_last
              = some (start, len) →
            start = class_first ∧ len ≤ 150) := by
  have hlen : ∀ (first class_first : Nat) (class_last : Option Nat),
      class_first + 2 ≤ first → first < 2 ^ 63 →
      missing_member_context_len (some first) (some class_first) class_last = 150 := by
    intro first class_first class_last h1 h2
    have h3 : first < 9223372036854775808 := by simpa using h2
    have hd : 150 ≤ (((class_first : Int) - (first : Int) + 1)
        % (2 : Int) ^ 64).toNat := by
      norm_num
      omega
    simp only [missing_member_context_len]
    rw [if_neg (by omega)]
  refine ⟨?_, by decide, ?_, ?_, ?_⟩
  · simp only [missing_member_context]
    rw [hlen 1002 1000 none (by decide) (by norm_num)]
  · intro first class_first class_last h1 h2
    simp only [missing_member_context]
    rw [hlen first class_first class_last h1 h2]
  · intro class_first class_last
    constructor
    · simp [missing_member_context, missing_member_context_len]
    · have e : ((class_first : Int) - ((class_first + 1 : Nat) : Int) + 1) = 0 := by
        push_cast; ring
      simp only [missing_member_context, missing_member_context_len, e]
      simp
  · intro first class_first class_last start len h
    simp only [missing_member_context, Option.some.injEq, Prod.mk.injEq] at h
    obtain ⟨h1, h2⟩ := h
    refine ⟨h1.symm, ?_⟩
    rw [← h2]
    simp only [missing_member_context_len]
    split_ifs <;> omega

theorem backslashes_before_cons (c : Nat) (cs : List Nat) (hc : c ≠ 92) :
    ∀ j, backslashes_before (c :: cs) (j + 1) = backslashes_before cs j := by
  intro j
  induction j with
  | zero => simp [backslashes_before, hc]
  | succ k ih =>
    have e1 : backslashes_before (c :: cs) (k + 1 + 1)
        = if (c :: cs)[k + 1]? = some 92 then backslashes_before (c :: cs) (k + 1) + 1
          else 0 := rfl
    have e2 : backslashes_before cs (k + 1)
        = if cs[k]? = some 92 then backslashes_before cs k + 1 else 0 := rfl
    rw [e1, e2, List.getElem?_cons_succ, ih]

theorem backslashes_before_pair (d : Nat) (cs : List Nat) :
    ∀ j, backslashes_before (92 :: d :: cs) (j + 2) % 2 = backslashes_before cs j % 2 := by
  intro j
  induction j with
  | zero =>
    by_cases hd : d = 92
    · subst hd
      have : backslashes_before (92 :: 92 :: cs) 2 = 2 := by
        simp [backslashes_before]
      rw [this]; simp [backslashes_before]
    · have : backslashes_before (92 :: d :: cs) 2 = 0 := by
        simp [backslashes_before, hd]
      rw [this]; simp [backslashes_before]
  | succ k ih =>
    have e1 : backslashes_before (92 :: d :: cs) (k + 1 + 2)
        = if (92 :: d :: cs)[k + 2]? = some 92
          then backslashes_before (92 :: d :: cs) (k + 2) + 1 else 0 := rfl
    have e2 : backslashes_before cs (k + 1)
        = if cs[k]? = some 92 then backslashes_before cs k + 1 else 0 := rfl
    have e3 : (92 :: d :: cs)[k + 2]? = cs[k]? := by
      rw [List.getElem?_cons_succ, List.getElem?_cons_succ]
    rw [e1, e2, e3]
    by_cases h : cs[k]? = some 92
    · rw [if_pos h, if_pos h]; omega
    · rw [if_neg h, if_neg h]

/-- The first search of `mem_skip_until_end_of_string` followed by its loop. -/
theorem mem_skip_scan_def (unchecked : Bool) (data : List Nat) (first : Nat)
    (h : data ≠ []) :
    mem_skip_until_end_of_string unchecked data first
      = (mem_move_to_next_of unchecked [92, 34] data).bind (fun n =>
          mem_skip_until_end_of_string_loop unchecked (data.length + 1) (data.drop n)
            (first + n)) := by
  unfold mem_skip_until_end_of_string
  cases data with
  | nil => exact absurd rfl h
  | cons c cs =>
    cases unchecked <;> rfl

theorem mem_skip_scan_plain (unchecked : Bool) (fuel : Nat) (c : Nat) (cs : List Nat)
    (pos : Nat) (h1 : c ≠ 92) (h2 : c ≠ 34) :
    (mem_move_to_next_of unchecked [92, 34] (c :: cs)).bind (fun n =>
        mem_skip_until_end_of_string_loop unchecked fuel ((c :: cs).drop n) (pos + n))
      = (mem_move_to_next_of unchecked [92, 34] cs).bind (fun n =>
        mem_skip_until_end_of_string_loop unchecked fuel (cs.drop n) (pos + 1 + n)) := by
  have e : mem_move_to_next_of unchecked [92, 34] (c :: cs)
      = (mem_move_to_next_of unchecked [92, 34] cs).bind (fun n => Outcome.ok (n + 1)) := by
    show mem_move_to_next_of_loop unchecked [92, 34] (c :: cs) = _
    rw [mem_move_to_next_of_loop]
    have hk : ([92, 34] : List Nat).contains c = false := by
      simp [h1, h2]
    rw [hk]
    rfl
  rw [e]
  cases mem_move_to_next_of unchecked [92, 34] cs with
  | ok n =>
    simp only [Outcome.bind_ok, List.drop_succ_cons]
    congr 1
    omega
  | failed r => rfl
  | undefined => rfl

theorem mem_skip_scan_quote (unchecked : Bool) (fuel : Nat) (cs : List Nat) (pos : Nat) :
    (mem_move_to_next_of unchecked [92, 34] (34 :: cs)).bind (fun n =>
        mem_skip_until_end_of_string_loop unchecked (fuel + 1) ((34 :: cs).drop n) (pos + n))
      = Outcome.ok pos := by
  have e : mem_move_to_next_of unchecked [92, 34] (34 :: cs) = Outcome.ok 0 := rfl
  rw [e, Outcome.bind_ok]
  simp [mem_skip_until_end_of_string_loop]

theorem mem_skip_scan_backslash (unchecked : Bool) (fuel : Nat) (cs : List Nat) (pos : Nat) :
    (mem_move_to_next_of unchecked [92, 34] (92 :: cs)).bind (fun n =>
        mem_skip_until_end_of_string_loop unchecked (fuel + 1) ((92 :: cs).drop n) (pos + n))
      = (mem_move_to_next_of unchecked [92, 34] (cs.drop 1)).bind (fun n =>
        mem_skip_until_end_of_string_loop unchecked fuel ((cs.drop 1).drop n)
          (pos + 2 + n)) := by
  have e : mem_move_to_next_of unchecked [92, 34] (92 :: cs) = Outcome.ok 0 := rfl
  rw [e, Outcome.bind_ok]
  simp only [List.drop_zero, Nat.add_zero, mem_skip_until_end_of_string_loop,
    List.isEmpty_cons, Bool.not_false, Bool.or_true, if_true]
  rw [if_neg (by decide)]
  simp only [beq_self_eq_true, if_true, bind_eq_outcome_bind]
  have e2 : ∀ n, List.drop (2 + n) (92 :: cs) = (cs.drop 1).drop n := by
    intro n
    rw [show 2 + n = (1 + n) + 1 by omega, List.drop_succ_cons, List.drop_drop]
  simp only [e2]
  rw [show List.drop 2 (92 :: cs) = List.drop 1 cs from rfl]

theorem mem_skip_scan_nil (fuel : Nat) (pos : Nat) :
    (mem_move_to_next_of false [92, 34] []).bind (fun n =>
        mem_skip_until_end_of_string_loop false (fuel + 1) (([] : List Nat).drop n) (pos + n))
      = Outcome.ok pos := rfl

theorem mem_skip_scan_finds (unchecked : Bool) :
    ∀ (n : Nat) (data : List Nat), data.length ≤ n →
      ∀ (fuel pos j : Nat), data.length < fuel →
        data[j]? = some 34 → backslashes_before data j % 2 = 0 →
        (∀ i, i < j → data[i]? = some 34 → backslashes_before data i % 2 = 1) →
        (mem_move_to_next_of unchecked [92, 34] data).bind (fun n =>
            mem_skip_until_end_of_string_loop unchecked fuel (data.drop n) (pos + n))
          = Outcome.ok (pos + j) := by
  intro n
  induction n with
  | zero =>
    intro data hlen fuel pos j _ hq _ _
    have : data = [] := List.length_eq_zero.mp (Nat.le_zero.mp hlen)
    subst this
    simp at hq
  | succ n ih =>
    intro data hlen fuel pos j hfuel hq heven hfirst
    cases data with
    | nil => simp at hq
    | cons c cs =>
      simp only [List.length_cons] at hlen hfuel
      obtain ⟨fuel2, rfl⟩ : ∃ f, fuel = f + 1 := ⟨fuel - 1, by omega⟩
      by_cases hc34 : c = 34
      · subst hc34
        have hj : j = 0 := by
          by_contra hne
          have := hfirst 0 (Nat.pos_of_ne_zero hne) (by simp)
          simp [backslashes_before] at this
        subst hj
        rw [mem_skip_scan_quote]
        rfl
      · by_cases hc92 : c = 92
        · subst hc92
          have hj0 : j ≠ 0 := by
            intro h; subst h; simp at hq
          have hj1 : j ≠ 1 := by
            intro h; subst h
            have : backslashes_before (92 :: cs) 1 = 1 := by simp [backslashes_before]
            rw [this] at heven
            omega
          obtain ⟨k, rfl⟩ : ∃ k, j = k + 2 := ⟨j - 2, by omega⟩
          cases cs with
          | nil => simp at hq
          | cons d cs2 =>
            rw [mem_skip_scan_backslash]
            simp only [List.length_cons] at hlen hfuel
            have hq2 : cs2[k]? = some 34 := by
              rw [List.getElem?_cons_succ, List.getElem?_cons_succ] at hq
              exact hq
            have heven2 : backslashes_before cs2 k % 2 = 0 := by
              rw [← backslashes_before_pair d cs2 k]; exact heven
            have hfirst2 : ∀ i, i < k → cs2[i]? = some 34 →
                backslashes_before cs2 i % 2 = 1 := by
              intro i hi hqi
              rw [← backslashes_before_pair d cs2 i]
              apply hfirst (i + 2) (by omega)
              rw [List.getElem?_cons_succ, List.getElem?_cons_succ]
              exact hqi
            have := ih cs2 (by omega) fuel2 (pos + 2) k (by omega) hq2 heven2 hfirst2
            rw [show List.drop 1 (d :: cs2) = cs2 from rfl, this]
            congr 1
            omega
        · have hj0 : j ≠ 0 := by
            intro h; subst h
            simp at hq
            exact hc34 hq
          obtain ⟨k, rfl⟩ : ∃ k, j = k + 1 := ⟨j - 1, by omega⟩
          rw [mem_skip_scan_plain unchecked _ c cs pos hc92 hc34]
          have hq2 : cs[k]? = some 34 := by
            rw [List.getElem?_cons_succ] at hq
            exact hq
          have heven2 : backslashes_before cs k % 2 = 0 := by
            rw [← backslashes_before_cons c cs hc92 k]; exact heven
          have hfirst2 : ∀ i, i < k → cs[i]? = some 34 →
              backslashes_before cs i % 2 = 1 := by
            intro i hi hqi
            rw [← backslashes_before_cons c cs hc92 i]
            apply hfirst (i + 1) (by omega)
            rw [List.getElem?_cons_succ]
            exact hqi
          have := ih cs (by omega) (fuel2 + 1) (pos + 1) k (by omega) hq2 heven2 hfirst2
          rw [this]
          congr 1
          omega

theorem mem_skip_scan_sound (unchecked : Bool) :
    ∀ (n : Nat) (data : List Nat), data.length ≤ n →
      ∀ (fuel pos p : Nat),
        (mem_move_to_next_of unchecked [92, 34] data).bind (fun n =>
            mem_skip_until_end_of_string_loop unchecked fuel (data.drop n) (pos + n))
          = Outcome.ok p →
        ∃ j, p = pos + j ∧ (data[j]? = some 34 → backslashes_before data j % 2 = 0) := by
  intro n
  induction n with
  | zero =>
    intro data hlen fuel pos p h
    have : data = [] := List.length_eq_zero.mp (Nat.le_zero.mp hlen)
    subst this
    exact ⟨p - pos, by
      cases unchecked
      · cases fuel with
        | zero => exact Outcome.noConfusion h
        | succ f =>
          rw [mem_skip_scan_nil] at h
          injection h with h
          omega
      · exact Outcome.noConfusion h, by simp⟩
  | succ n ih =>
    intro data hlen fuel pos p h
    cases data with
    | nil =>
      exact ⟨p - pos, by
        cases unchecked
        · cases fuel with
          | zero => exact Outcome.noConfusion h
          | succ f =>
            rw [mem_skip_scan_nil] at h
            injection h with h
            omega
        · exact Outcome.noConfusion h, by simp⟩
    | cons c cs =>
      simp only [List.length_cons] at hlen
      by_cases hc34 : c = 34
      · subst hc34
        cases fuel with
        | zero => exact Outcome.noConfusion h
        | succ f =>
          rw [mem_skip_scan_quote] at h
          injection h with h
          exact ⟨0, by omega, fun _ => rfl⟩
      · by_cases hc92 : c = 92
        · subst hc92
          cases fuel with
          | zero => exact Outcome.noConfusion h
          | succ f =>
            rw [mem_skip_scan_backslash] at h
            obtain ⟨k, hk, hkq⟩ := ih (cs.drop 1) (by simp; omega) f (pos + 2) p h
            refine ⟨k + 2, by omega, ?_⟩
            cases cs with
            | nil => intro hq; simp at hq
            | cons d cs2 =>
              intro hq
              rw [List.getElem?_cons_succ, List.getElem?_cons_succ] at hq
              rw [backslashes_before_pair d cs2 k]
              exact hkq hq
        · rw [mem_skip_scan_plain unchecked _ c cs pos hc92 hc34] at h
          obtain ⟨k, hk, hkq⟩ := ih cs (by omega) fuel (pos + 1) p h
          refine ⟨k + 1, by omega, ?_⟩
          intro hq
          rw [List.getElem?_cons_succ] at hq
          rw [backslashes_before_cons c cs hc92 k]
          exact hkq hq

/-- C30: when the byte at the offset `j` of the range `data` is a quote with an
even number of backslashes directly before it (none included), and every quote
before it has an odd number of them, `mem_skip_until_end_of_string` returns
the position of this quote, `first + j`, under both policies.  Whatever the
range, a position it returns that holds a quote has an even number of
backslashes directly before it. -/
theorem C30_skip_until_end_of_string_returns_first_closing_quote
    (unchecked : Bool) (data : List Nat) (first j : Nat)
    (hq : data[j]? = some 34) (heven : backslashes_before data j % 2 = 0)
    (hfirst : ∀ i, i < j → data[i]? = some 34 → backslashes_before data i % 2 = 1) :
    mem_skip_until_end_of_string unchecked data first = Outcome.ok (first + j)
      ∧ ∀ (unchecked2 : Bool) (data2 : List Nat) (first2 p : Nat),
          mem_skip_until_end_of_string unchecked2 data2 first2 = Outcome.ok p →
          ∃ i, p = first2 + i
            ∧ (data2[i]? = some 34 → backslashes_before data2 i % 2 = 0) := by
  constructor
  · have hne : data ≠ [] := by
      intro h; subst h; simp at hq
    rw [mem_skip_scan_def unchecked data first hne]
    exact mem_skip_scan_finds unchecked data.length data (Nat.le_refl _)
      (data.length + 1) first j (Nat.lt_succ_self _) hq heven hfirst
  · intro unchecked2 data2 first2 p h
    by_cases hne : data2 = []
    · subst hne
      cases unchecked2
      · exact Outcome.noConfusion h
      · exact Outcome.noConfusion h
    · rw [mem_skip_scan_def unchecked2 data2 first2 hne] at h
      exact mem_skip_scan_sound unchecked2 data2.length data2 (Nat.le_refl _)
        (data2.length + 1) first2 p h

/-- C30 at the range `a\"b"c` that starts at the position 10: the quote at the
offset 2 stands behind one backslash, the one at the offset 4 is returned,
under both policies. -/
theorem C30_skip_until_end_of_string_returns_first_closing_quote_witness :
    (bytes "a\\\"b\"c")[4]? = some 34
      ∧ backslashes_before (bytes "a\\\"b\"c") 4 % 2 = 0
      ∧ (∀ i, i < 4 → (bytes "a\\\"b\"c")[i]? = some 34 →
          backslashes_before (bytes "a\\\"b\"c") i % 2 = 1)
      ∧ mem_skip_until_end_of_string false (bytes "a\\\"b\"c") 10 = Outcome.ok 14
      ∧ mem_skip_until_end_of_string true (bytes "a\\\"b\"c") 10 = Outcome.ok 14 :=
  ⟨by decide, by decide, by decide,
    (C30_skip_until_end_of_string_returns_first_closing_quote false (bytes "a\\\"b\"c") 10 4
      (by decide) (by decide) (by decide)).1,
    (C30_skip_until_end_of_string_returns_first_closing_quote true (bytes "a\\\"b\"c") 10 4
      (by decide) (by decide) (by decide)).1⟩

theorem find_key_memchr (k : Nat) (data : List Nat) :
    find_key (fun c => c == k) data.length data
      = some ((memchr k data).getD data.length) := by
  induction data with
  | nil => rfl
  | cons c cs ih =>
    simp only [List.length_cons, find_key, memchr]
    by_cases h : (c == k) = true
    · rw [if_pos h, if_pos h]; rfl
    · rw [if_neg h, if_neg h, ih]
      cases memchr k cs <;> rfl

theorem move_to_next_of_memchr (unchecked : Bool) (k : Nat) (text : List Nat) :
    ∃ n, mem_move_to_next_of unchecked [k] text = Outcome.ok n
      ∧ move_to_next_of false (fun c => c == k) (Range.ofBytes text)
        = Outcome.ok ( remove_prefix (Range.ofBytes text) n) := by
  refine ⟨(memchr k text).getD text.length, ?_, ?_⟩
  · have e : mem_move_to_next_of unchecked [k] text
        = match memchr k text with
          | some n => Outcome.ok n
          | none => Outcome.ok text.length := rfl
    rw [e]
    cases memchr k text <;> rfl
  · unfold move_to_next_of
    have : (Range.ofBytes text).size = text.length := rfl
    rw [this, show (Range.ofBytes text).data = text from rfl, find_key_memchr]
    rfl

/-- C28: the serializer writes the empty map as `\x7b\x7d`, and the Key-Value map
parser does not return the empty map from it: behind the opening brace it moves
to the next `"` (`mem_move_to_next_of` with one key, a `memchr` that yields
`last` when there is none), which lies behind the closing brace.  On `\x7b\x7d`
alone the checked parser fails with `UnexpectedEndOfData`; when a member of
an enclosing object follows, as in `\x7b\x7d,"x":"y"\x7d`, the parser takes it for an
entry of the map and consumes all 11 bytes, under both policies, and the
class with the members `header` (a map) and `x` is not parsed back from its
own text.  The map with the entry `a`: `b` is parsed back. -/
theorem C28_empty_map_is_not_parsed_back :
    to_json 2 string_map (JValue.key_values []) = Outcome.ok (bytes "\x7b\x7d")
      ∧ (to_json 2 string_map (JValue.key_values [])).bind (from_json false string_map)
        = Outcome.failed ErrorReason.UnexpectedEndOfData
      ∧ mem_move_to_next_of false [34] (bytes "\x7d") = Outcome.ok 1
      ∧ mem_move_to_next_of false [34] (bytes "\x7d,\"x\":\"y\"\x7d") = Outcome.ok 2
      ∧ (∀ (unchecked : Bool) (text : List Nat),
          ∃ n, mem_move_to_next_of unchecked [34] text = Outcome.ok n
            ∧ move_to_next_of false (fun c => c == 34) (Range.ofBytes text)
              = Outcome.ok ( remove_prefix (Range.ofBytes text) n))
      ∧ (∀ unchecked, from_json_state unchecked string_map (bytes "\x7b\x7d,\"x\":\"y\"\x7d")
          = Outcome.ok (JValue.key_values
              [(JValue.string (bytes "x"), JValue.string (bytes "y"))],
              { data := [], first := 11, last := 11 }))
      ∧ (to_json 3 (Kind.Class [(bytes "header", string_map),
              (bytes "x", Kind.StringEscaped EightBitModes.AllowFull)])
            (JValue.object [JValue.key_values [], JValue.string (bytes "y")])).bind
          (from_json false (Kind.Class [(bytes "header", string_map),
              (bytes "x", Kind.StringEscaped EightBitModes.AllowFull)]))
        = Outcome.failed ErrorReason.MissingMemberNameOrEndOfClass
      ∧ (to_json 2 string_map (JValue.key_values
            [(JValue.string (bytes "a"), JValue.string (bytes "b"))])).bind
          (from_json false string_map)
        = Outcome.ok (JValue.key_values
            [(JValue.string (bytes "a"), JValue.string (bytes "b"))]) := by
  refine ⟨rfl, rfl, rfl, rfl, fun unchecked text => move_to_next_of_memchr unchecked 34 text,
    ?_, rfl, rfl⟩
  intro unchecked
  cases unchecked <;> rfl

/-! ## Hexadecimal digits, timestamps, civil dates and the string scans -/

set_option maxRecDepth 100000 in
theorem to_nibble_table : ∀ chr, chr < 256 →
    to_nibble false chr
      = if (48 ≤ chr ∧ chr ≤ 57) then Outcome.ok (chr - 48)
        else if (58 ≤ chr ∧ chr ≤ 70) then Outcome.ok (chr - 55)
        else if (91 ≤ chr ∧ chr ≤ 102) then Outcome.ok (chr - 87)
        else Outcome.failed ErrorReason.InvalidUTFEscape := by
  decide

/-- C35: under the checked policy `to_nibble` also succeeds on the seven bytes
`:` to `@` (0x3A to 0x40, with the values 3 to 9) and on the six bytes `[` to the
backtick (0x5B to 0x60, with the values 4 to 9), which are not hexadecimal
digits: it succeeds exactly on the bytes 0x30 to 0x46 and 0x5B to 0x66, 35
bytes.  On the 22 hexadecimal digits the value is the one of the digit.  The
escape `\u00:1` is accepted and read as the code point 0x31, so the string
`"\u00:1"` parses to `1`. -/
theorem C35_to_nibble_accepts_bytes_next_to_the_letters :
    to_nibble false 58 = Outcome.ok 3
      ∧ to_nibble false 64 = Outcome.ok 9
      ∧ to_nibble false 91 = Outcome.ok 4
      ∧ to_nibble false 92 = Outcome.ok 5
      ∧ to_nibble false 96 = Outcome.ok 9
      ∧ (∀ chr, chr < 256 →
          ((∃ n, to_nibble false chr = Outcome.ok n)
            ↔ (48 ≤ chr ∧ chr ≤ 70) ∨ (91 ≤ chr ∧ chr ≤ 102)))
      ∧ (∀ chr, chr < 256 → (to_nibble false chr).isFailed = true
          ∨ ∃ n, to_nibble false chr = Outcome.ok n)
      ∧ (∀ d, d < 10 → to_nibble false (48 + d) = Outcome.ok d)
      ∧ (∀ d, d < 6 → to_nibble false (65 + d) = Outcome.ok (10 + d)
          ∧ to_nibble false (97 + d) = Outcome.ok (10 + d))
      ∧ decode_utf16 false (Range.ofBytes (bytes "u00:1"))
          = Outcome.ok ([49], { data := [], first := 5, last := 5 })
      ∧ parse_value_StringEscaped EightBitModes.AllowFull false false
            (Range.ofBytes (bytes "\"\\u00:1\""))
          = Outcome.ok ([49], { data := [], first := 8, last := 8 }) := by
  have key := to_nibble_table
  refine ⟨by decide, by decide, by decide, by decide, by decide, ?_, ?_, by decide, by decide,
    by decide, by decide⟩
  · intro chr h
    rw [key chr h]
    constructor
    · intro ⟨n, hn⟩
      by_contra hc
      rw [if_neg (by omega), if_neg (by omega), if_neg (by omega)] at hn
      exact Outcome.noConfusion hn
    · intro hc
      split_ifs
      · exact ⟨_, rfl⟩
      · exact ⟨_, rfl⟩
      · exact ⟨_, rfl⟩
      · omega
  · intro chr h
    rw [key chr h]
    split_ifs
    · exact Or.inr ⟨_, rfl⟩
    · exact Or.inr ⟨_, rfl⟩
    · exact Or.inr ⟨_, rfl⟩
    · exact Or.inl rfl

/-- C39: the minute field of a time-zone offset is not examined.  The offsets
`+01:99` and `+0199`, whose minute field is above 61, are accepted, with the
result of the offset `+01:00`; the test `mn_offset <= 61` is made on the two
hour digits, which are read a second time.  An offset whose hour digits are
above 24 fails with `InvalidTimestamp`, whatever its minute field. -/
theorem C39_offset_minute_field_is_not_examined :
    parse_iso8601_timestamp (StrView.ofBytes (bytes "2020-01-01T12:00:00+01:99"))
        = Outcome.ok 259275914100000
      ∧ parse_iso8601_timestamp (StrView.ofBytes (bytes "2020-01-01T12:00:00+0199"))
        = Outcome.ok 259275914100000
      ∧ parse_iso8601_timestamp (StrView.ofBytes (bytes "2020-01-01T12:00:00+01:00"))
        = Outcome.ok 259275914100000
      ∧ parse_iso8601_timestamp (StrView.ofBytes (bytes "2020-01-01T12:00:00-24:99"))
        = parse_iso8601_timestamp (StrView.ofBytes (bytes "2020-01-01T12:00:00-24:00"))
      ∧ parse_iso8601_timestamp (StrView.ofBytes (bytes "2020-01-01T12:00:00-24:99"))
        = Outcome.ok 1577967840000
      ∧ parse_iso8601_timestamp (StrView.ofBytes (bytes "2020-01-01T12:00:00+25:00"))
        = Outcome.failed ErrorReason.InvalidTimestamp := by
  refine ⟨by decide, by decide, by decide, by decide, by decide, by decide⟩

theorem digits_value_cons (c : Nat) (cs : List Nat) :
    digits_value (c :: cs) = (c - 48) * 10 ^ cs.length + digits_value cs := by
  have := digits_value_append [c] cs
  simp only [List.singleton_append] at this
  rw [this]
  simp [digits_value]

theorem digits_value_lt (F : List Nat) (hF : ∀ c, c ∈ F → is_digit c = true) :
    digits_value F < 10 ^ F.length := by
  induction F with
  | nil => simp [digits_value]
  | cons c cs ih =>
    have hc : is_digit c = true := hF c (by simp)
    simp only [is_digit, Bool.and_eq_true, decide_eq_true_eq] at hc
    have h1 := ih (fun x hx => hF x (by simp [hx]))
    rw [digits_value_cons, List.length_cons, pow_succ]
    have h2 : (c - 48) * 10 ^ cs.length ≤ 9 * 10 ^ cs.length :=
      Nat.mul_le_mul_right _ (by omega)
    omega

theorem parse_number_loop_digits (F : List Nat) (hF : ∀ c, c ∈ F → is_digit c = true) :
    ∀ acc : Nat, acc * 10 ^ F.length + digits_value F < 18446744073709551616 →
      parse_number_loop 64 F acc = Outcome.ok (acc * 10 ^ F.length + digits_value F) := by
  induction F with
  | nil => intro acc _; simp [parse_number_loop, digits_value]
  | cons c cs ih =>
    intro acc hlt
    have hc : is_digit c = true := hF c (by simp)
    simp only [is_digit, Bool.and_eq_true, decide_eq_true_eq] at hc
    have hd : parse_digit c = c - 48 := by unfold parse_digit; omega
    rw [digits_value_cons] at hlt ⊢
    simp only [List.length_cons, pow_succ] at hlt ⊢
    have hpos : 0 < 10 ^ cs.length := pow_pos (by decide) _
    have h2 : (acc * 10 + (c - 48)) * 10 ^ cs.length
        = acc * (10 ^ cs.length * 10) + (c - 48) * 10 ^ cs.length := by ring
    have hsmall : acc * 10 + (c - 48) < 18446744073709551616 := by
      have h1 : (acc * 10 + (c - 48)) * 1 ≤ (acc * 10 + (c - 48)) * 10 ^ cs.length :=
        Nat.mul_le_mul_left _ hpos
      omega
    have hens : daw_json_ensure (decide (c - 48 < 10)) ErrorReason.InvalidNumber
        = Outcome.ok () := by
      have : c - 48 < 10 := by omega
      simp [daw_json_ensure, this]
    have hmod : (acc * 10 + (c - 48)) % 2 ^ 64 = acc * 10 + (c - 48) := by
      rw [show (2 : Nat) ^ 64 = 18446744073709551616 by norm_num]
      exact Nat.mod_eq_of_lt hsmall
    have step : parse_number_loop 64 (c :: cs) acc
        = parse_number_loop 64 cs (acc * 10 + (c - 48)) := by
      rw [parse_number_loop]
      simp only [hd, bind_eq_outcome_bind, hens, Outcome.bind_ok, hmod]
    have hlt2 : (acc * 10 + (c - 48)) * 10 ^ cs.length + digits_value cs
        < 18446744073709551616 := by omega
    have h3 := ih (fun x hx => hF x (by simp [hx])) (acc * 10 + (c - 48)) hlt2
    exact step.trans (h3.trans (congrArg Outcome.ok (by omega)))

theorem parse_number_fraction (F rest : List Nat) (hF : ∀ c, c ∈ F → is_digit c = true)
    (h1 : 1 ≤ F.length) (h9 : F.length ≤ 9) :
    parse_number 64 false ⟨F ++ rest, min F.length 9⟩ = Outcome.ok (digits_value F) := by
  obtain ⟨c, cs, rfl⟩ : ∃ c cs, F = c :: cs := by
    cases F with
    | nil => simp at h1
    | cons c cs => exact ⟨c, cs, rfl⟩
  have hc : is_digit c = true := hF c (by simp)
  have hcf := digit_facts c hc
  have hlt := digits_value_lt (c :: cs) hF
  have hpow : 10 ^ (c :: cs).length ≤ 10 ^ 9 := Nat.pow_le_pow_right (by decide) h9
  have hmin : min (c :: cs).length 9 = (c :: cs).length := Nat.min_eq_left h9
  have hloop := parse_number_loop_digits (c :: cs) hF 0 (by
    have : (10 : Nat) ^ 9 = 1000000000 := by norm_num
    omega)
  unfold parse_number
  have hempty : (⟨(c :: cs) ++ rest, min (c :: cs).length 9⟩ : StrView).empty = false := by
    rw [hmin]; rfl
  have hfront : (⟨(c :: cs) ++ rest, min (c :: cs).length 9⟩ : StrView).front = c := rfl
  have hlist : (⟨(c :: cs) ++ rest, min (c :: cs).length 9⟩ : StrView).toList = c :: cs := by
    rw [hmin]
    simp [StrView.toList]
  simp only [hempty, hfront, hcf.2.2.1, hcf.2.2.2, Bool.false_and, Bool.false_or,
    Bool.false_eq_true, if_false, Bool.not_false, daw_json_ensure, if_true,
    bind_eq_outcome_bind, Outcome.bind_ok, hlist, hloop]
  simp

/-- C40: for the time text `hh:mm:ss.F` with `hh <= 24`, `mm <= 59`, `ss <= 60`
and a fraction `F` of `k` decimal digits, `1 <= k <= 9`, `parse_iso_8601_time`
returns the fields `hh`, `mm`, `ss` and `nanosecond = F * 10 ^ (9 - k)` (`F`
read as a decimal number), which is below `10 ^ 9`. -/
theorem C40_fraction_scaled_to_nanoseconds (h1 h0 mi1 mi0 s1 s0 : Nat) (F rest : List Nat)
    (hh1 : h1 < 10) (hh0 : h0 < 10) (hm1 : mi1 < 10) (hm0 : mi0 < 10) (hs1 : s1 < 10)
    (hs0 : s0 < 10) (hhour : h1 * 10 + h0 ≤ 24) (hminute : mi1 * 10 + mi0 ≤ 59)
    (hsecond : s1 * 10 + s0 ≤ 60) (hF : ∀ c, c ∈ F → is_digit c = true)
    (hk1 : 1 ≤ F.length) (hk9 : F.length ≤ 9) :
    parse_iso_8601_time
        ⟨(h1 + 48) :: (h0 + 48) :: 58 :: (mi1 + 48) :: (mi0 + 48) :: 58 :: (s1 + 48)
          :: (s0 + 48) :: 46 :: (F ++ rest), F.length + 9⟩
      = Outcome.ok { hour := h1 * 10 + h0, minute := mi1 * 10 + mi0,
                     second := s1 * 10 + s0,
                     nanosecond := digits_value F * 10 ^ (9 - F.length) }
      ∧ digits_value F * 10 ^ (9 - F.length) < 10 ^ 9 := by
  have hlt := digits_value_lt F hF
  have hbound : digits_value F * 10 ^ (9 - F.length) < 10 ^ 9 := by
    have e : (10 : Nat) ^ 9 = 10 ^ F.length * 10 ^ (9 - F.length) := by
      rw [← pow_add]; congr 1; omega
    rw [e]
    exact Nat.mul_lt_mul_of_pos_right hlt (pow_pos (by decide) _)
  refine ⟨?_, hbound⟩
  unfold parse_iso_8601_time
  dsimp only
  have hn : is_number 58 = false := by decide
  have hn2 : is_number 46 = false := by decide
  have e1 : ∀ (a b : Nat) (l : List Nat) (n : Nat),
      StrView.drop ⟨a :: b :: 58 :: l, n + 3⟩ 2 = ⟨58 :: l, n + 1⟩ := by
    intro a b l n
    simp [StrView.drop]
  have e1b : ∀ (a b : Nat) (l : List Nat) (n : Nat),
      StrView.drop ⟨a :: b :: 46 :: l, n + 3⟩ 2 = ⟨46 :: l, n + 1⟩ := by
    intro a b l n
    simp [StrView.drop]
  have e2 : ∀ (l : List Nat) (n : Nat), (⟨58 :: l, n⟩ : StrView).front = 58 := fun _ _ => rfl
  have e2b : ∀ (l : List Nat) (n : Nat), (⟨46 :: l, n⟩ : StrView).front = 46 := fun _ _ => rfl
  have e3 : ∀ (l : List Nat) (n : Nat), StrView.drop ⟨58 :: l, n + 1⟩ 1 = ⟨l, n⟩ := by
    intro l n
    simp [StrView.drop]
  have e3b : ∀ (l : List Nat) (n : Nat), StrView.drop ⟨46 :: l, n + 1⟩ 1 = ⟨l, n⟩ := by
    intro l n
    simp [StrView.drop]
  have e6 : ∀ (l : List Nat) (n : Nat), (⟨l, n + 1⟩ : StrView).empty = false := fun _ _ => rfl
  have hsz : F.length + 9 = (F.length + 6) + 3 := by omega
  have hfrac := parse_number_fraction F rest hF hk1 hk9
  have hpow : pow10 ((9 + 2 ^ 64 - F.length) % 2 ^ 64) = 10 ^ (9 - F.length) := by
    unfold pow10
    congr 1
    have : (2 : Nat) ^ 64 = 18446744073709551616 := by norm_num
    omega
  have hmod : (digits_value F * 10 ^ (9 - F.length)) % 2 ^ 64
      = digits_value F * 10 ^ (9 - F.length) := by
    apply Nat.mod_eq_of_lt
    have : (10 : Nat) ^ 9 < 2 ^ 64 := by norm_num
    omega
  rw [hsz]
  simp only [StrView.pop_front, bind_eq_outcome_bind, ensure_bind,
    e1 _ _ _ (F.length + 6), e2, e3, hn, Bool.not_false, if_true,
    show F.length + 6 = (F.length + 3) + 3 from rfl, e1 _ _ _ (F.length + 3), e6,
    Bool.false_eq_true, if_false, parse_unsigned_two _ _ hh1 hh0,
    parse_unsigned_two _ _ hm1 hm0, parse_unsigned_two _ _ hs1 hs0, decide_eq_true_eq,
    hhour, hminute, hsecond,
    show F.length + 3 = F.length + 0 + 3 from rfl, e1b _ _ _ (F.length + 0), e2b, hn2,
    e3b, Nat.add_zero, hfrac, Outcome.bind_ok, hpow, hmod]


/-- C40 at the time text `12:34:56.5`: the fraction `5` is half a second,
500000000 nanoseconds. -/
theorem C40_fraction_scaled_to_nanoseconds_witness :
    (1 * 10 + 2 ≤ 24 ∧ 3 * 10 + 4 ≤ 59 ∧ 5 * 10 + 6 ≤ 60
        ∧ (∀ c, c ∈ [53] → is_digit c = true) ∧ 1 ≤ [53].length ∧ [53].length ≤ 9)
      ∧ parse_iso_8601_time (StrView.ofBytes (bytes "12:34:56.5"))
        = Outcome.ok { hour := 12, minute := 34, second := 56, nanosecond := 500000000 }
      ∧ 500000000 < 10 ^ 9 :=
  ⟨⟨by decide, by decide, by decide, by decide, by decide, by decide⟩,
    C40_fraction_scaled_to_nanoseconds 1 2 3 4 5 6 [53] [] (by decide) (by decide)
      (by decide) (by decide) (by decide) (by decide) (by decide) (by decide) (by decide)
      (by decide) (by decide) (by decide)⟩

theorem yoe_of_doe (Y doy doe : Nat) (hY : Y ≤ 399) (hdoy : doy ≤ 365)
    (hleap : doy = 365 → Y % 4 = 3 ∧ (Y % 100 ≠ 99 ∨ Y = 399))
    (hdoe : doe = 365 * Y + Y / 4 - Y / 100 + doy) :
    (doe - doe / 1460 + doe / 36524 - doe / 146096) / 365 = Y := by
  obtain ⟨c, hc⟩ : ∃ c, c = Y / 100 := ⟨_, rfl⟩
  have hc4 : c ≤ 3 := by omega
  have h1 : doe / 36524 - doe / 146096 = c := by
    interval_cases c <;> omega
  have h2 : doe / 146096 ≤ doe / 36524 := by omega
  obtain ⟨q, hq⟩ : ∃ q, q = Y / 4 := ⟨_, rfl⟩
  have h3 : doe / 1460 = q ∨ doe / 1460 = q + 1 := by omega
  have h4 : doe / 1460 = q + 1 → 365 * (Y % 4) + q + doy ≥ 1460 + c := by omega
  have h5 : doe / 1460 = q → 365 * (Y % 4) + q + doy < 1460 + c := by omega
  have h6 : doe - doe / 1460 + doe / 36524 - doe / 146096
      = doe - doe / 1460 + c := by omega
  rw [h6]
  omega

theorem mp_of_doy (mp d : Nat) (hmp : mp ≤ 11) (hd1 : 1 ≤ d)
    (hd : d ≤ (153 * (mp + 1) + 2) / 5 - (153 * mp + 2) / 5) :
    (5 * ((153 * mp + 2) / 5 + d - 1) + 2) / 153 = mp := by
  omega

theorem doy_ranges (doy : Nat) (h : doy ≤ 365) :
    (5 * doy + 2) / 153 ≤ 11
      ∧ (153 * ((5 * doy + 2) / 153) + 2) / 5 ≤ doy
      ∧ doy - (153 * ((5 * doy + 2) / 153) + 2) / 5 + 1 ≤ 31 := by
  omega

theorem doe_decompose : ∀ doe : Nat, doe ≤ 146096 →
    ∃ Y doy, Y ≤ 399 ∧ doy ≤ 365 ∧ (doy = 365 → Y % 4 = 3 ∧ (Y % 100 ≠ 99 ∨ Y = 399))
      ∧ doe = 365 * Y + Y / 4 - Y / 100 + doy := by
  intro doe
  induction doe with
  | zero => intro _; exact ⟨0, 0, by omega, by omega, by omega, by omega⟩
  | succ n ih =>
    intro h
    obtain ⟨Y, doy, hY, hdoy, hleap, hn⟩ := ih (by omega)
    by_cases hsame : doy + 1 ≤ 364 ∨ (doy + 1 = 365 ∧ Y % 4 = 3 ∧ (Y % 100 ≠ 99 ∨ Y = 399))
    · refine ⟨Y, doy + 1, hY, by omega, by omega, by omega⟩
    · have hY2 : Y + 1 ≤ 399 := by
        by_contra hc
        have : Y = 399 := by omega
        subst this
        omega
      refine ⟨Y + 1, 0, hY2, by omega, by omega, ?_⟩
      clear ih
      by_cases h4 : Y % 4 = 3
      · have hb : (Y + 1) / 4 = Y / 4 + 1 := by omega
        by_cases h100 : Y % 100 = 99
        · have hd : doy = 364 := by omega
          have hc : (Y + 1) / 100 = Y / 100 + 1 := by omega
          rw [hb, hc]
          omega
        · have hd : doy = 365 := by omega
          have hc : (Y + 1) / 100 = Y / 100 := by omega
          rw [hb, hc]
          omega
      · have hd : doy = 364 := by omega
        have h100 : Y % 100 ≠ 99 := by
          intro h
          have e : Y = 4 * (25 * (Y / 100) + 24) + 3 := by omega
          omega
        have hb : (Y + 1) / 4 = Y / 4 := by omega
        have hc : (Y + 1) / 100 = Y / 100 := by omega
        rw [hb, hc]
        omega

theorem tdiv_floor_146097 (z : Int) :
    Int.tdiv (if z ≥ 0 then z else z - 146096) 146097 = z / 146097 := by
  by_cases h : z ≥ 0
  · rw [if_pos h, Int.tdiv_eq_ediv h (by decide)]
  · rw [if_neg h]
    have e : z - 146096 = -(146096 - z) := by omega
    rw [e, Int.neg_tdiv, Int.tdiv_eq_ediv (by omega) (by decide)]
    omega

theorem civil_yoe_wrap (doe : Nat) (h : doe ≤ 146096) :
    (doe + 4294967296 - doe / 1460 + doe / 36524 + 4294967296 - doe / 146096) % 4294967296
      = doe - doe / 1460 + doe / 36524 - doe / 146096 := by
  omega

theorem civil_doy_wrap (doe Y doy : Nat)
    (h : doe = 365 * Y + Y / 4 - Y / 100 + doy) (hd : doy ≤ 365) :
    (doe + 4294967296 - (365 * Y + Y / 4 - Y / 100) % 4294967296) % 4294967296 = doy := by
  omega

theorem civil_day_wrap (doy mp : Nat) (hd : doy ≤ 365) (hmp : mp ≤ 11)
    (h : (153 * mp + 2) / 5 ≤ doy) :
    (doy + 4294967296 - (153 * mp + 2) % 4294967296 / 5 + 1) % 4294967296
      = doy - (153 * mp + 2) / 5 + 1 := by
  have h1 : (153 * mp + 2) % 4294967296 = 153 * mp + 2 := by omega
  rw [h1]
  have h2 : (153 * mp + 2) / 5 ≤ 365 := by omega
  omega

theorem civil_month_wrap (mp : Nat) (hmp : mp ≤ 11) :
    (((mp : Int) + (if (mp : Int) < 10 then 3 else -9)) % 4294967296).toNat
      = if mp < 10 then mp + 3 else mp - 9 := by
  split_ifs <;> omega

theorem civil_year_wrap (Y mp : Nat) (E : Int) (hY : Y ≤ 399) (hmp : mp ≤ 11)
    (hE1 : -14700 ≤ E) (hE2 : E ≤ 14700) :
    to_signed 32 ((Y : Int) + E * 400
        + (if (if mp < 10 then mp + 3 else mp - 9) ≤ 2 then 1 else 0))
      = Y + 400 * E + (if 10 ≤ mp then 1 else 0) := by
  rw [to_signed_32_of_range _ (by split_ifs <;> omega) (by split_ifs <;> omega)]
  split_ifs <;> omega

theorem civil_time_of_day (r : Int) (hr1 : 0 ≤ r) (hr2 : r < 86400000) :
    Int.tdiv r 3600000 = r / 3600000
      ∧ Int.tdiv (r - r / 3600000 * 3600000) 60000 = r % 3600000 / 60000
      ∧ Int.tdiv (r - r / 3600000 * 3600000 - r % 3600000 / 60000 * 60000) 1000
          = r % 60000 / 1000
      ∧ r - r / 3600000 * 3600000 - r % 3600000 / 60000 * 60000
          - r % 60000 / 1000 * 1000 = r % 1000
      ∧ (r / 3600000 % 4294967296).toNat = (r / 3600000).toNat
      ∧ (r % 3600000 / 60000 % 4294967296).toNat = (r % 3600000 / 60000).toNat
      ∧ (r % 60000 / 1000 % 4294967296).toNat = (r % 60000 / 1000).toNat
      ∧ (r % 1000 * 1000000 % 18446744073709551616).toNat = (r % 1000 * 1000000).toNat := by
  have t8 : (r % 1000 * 1000000 % 18446744073709551616).toNat
      = (r % 1000 * 1000000).toNat :=
    congrArg Int.toNat (by omega)
  have t7 : (r % 60000 / 1000 % 4294967296).toNat = (r % 60000 / 1000).toNat :=
    congrArg Int.toNat (by omega)
  have t6 : (r % 3600000 / 60000 % 4294967296).toNat = (r % 3600000 / 60000).toNat :=
    congrArg Int.toNat (by omega)
  have t5 : (r / 3600000 % 4294967296).toNat = (r / 3600000).toNat :=
    congrArg Int.toNat (by omega)
  have t4 : r - r / 3600000 * 3600000 - r % 3600000 / 60000 * 60000
      - r % 60000 / 1000 * 1000 = r % 1000 := by
    clear t5 t6 t7 t8; omega
  have t1 : Int.tdiv r 3600000 = r / 3600000 := by
    rw [Int.tdiv_eq_ediv hr1 (by clear t4 t5 t6 t7 t8; omega)]
  have t2 : Int.tdiv (r - r / 3600000 * 3600000) 60000 = r % 3600000 / 60000 := by
    clear t1 t4 t5 t6 t7 t8
    rw [Int.tdiv_eq_ediv (by omega) (by omega)]
    omega
  have t3 : Int.tdiv (r - r / 3600000 * 3600000 - r % 3600000 / 60000 * 60000) 1000
      = r % 60000 / 1000 := by
    clear t1 t2 t4 t5 t6 t7 t8
    rw [Int.tdiv_eq_ediv (by omega) (by omega)]
    omega
  exact ⟨t1, t2, t3, t4, t5, t6, t7, t8⟩

/-- The fields of `time_point_to_civil` in closed form, for a time point whose
day count `D` and remainder within the day are known and whose day number
`D + 719468` splits into the era `E`, the year of the era `Y` and the day of the
year `doy`. -/
theorem time_point_to_civil_closed (tp D E : Int) (Y doy : Nat)
    (hD1 : -2147483648 ≤ D) (hD2 : D ≤ 2146764179)
    (hdiv : Int.tdiv tp 86400000 = D)
    (hr1 : 0 ≤ tp - D * 86400000) (hr2 : tp - D * 86400000 < 86400000)
    (hY : Y ≤ 399) (hdoy : doy ≤ 365)
    (hleap : doy = 365 → Y % 4 = 3 ∧ (Y % 100 ≠ 99 ∨ Y = 399))
    (hz : D + 719468 = E * 146097 + ((365 * Y + Y / 4 - Y / 100 + doy : Nat) : Int)) :
    time_point_to_civil tp
      = { year := Y + 400 * E + (if 10 ≤ (5 * doy + 2) / 153 then 1 else 0)
          month := if (5 * doy + 2) / 153 < 10 then (5 * doy + 2) / 153 + 3
                   else (5 * doy + 2) / 153 - 9
          day := doy - (153 * ((5 * doy + 2) / 153) + 2) / 5 + 1
          hour := ((tp - D * 86400000) / 3600000).toNat
          minute := ((tp - D * 86400000) % 3600000 / 60000).toNat
          second := ((tp - D * 86400000) % 60000 / 1000).toNat
          nanosecond := ((tp - D * 86400000) % 1000 * 1000000).toNat } := by
  obtain ⟨doe, hdoe⟩ : ∃ doe, doe = 365 * Y + Y / 4 - Y / 100 + doy := ⟨_, rfl⟩
  rw [← hdoe] at hz
  have hdoeb : doe ≤ 146096 := by omega
  have hyoe := yoe_of_doe Y doy doe hY hdoy hleap hdoe
  obtain ⟨hmp, hmd, hd31⟩ := doy_ranges doy hdoy
  have hE : (D + 719468) / 146097 = E := by omega
  have hEb : -14700 ≤ E ∧ E ≤ 14700 := by omega
  have hera : Int.tdiv (if D + 719468 ≥ 0 then D + 719468
      else to_signed 32 (D + 719468 - 146096)) 146097 = E := by
    rw [← hE, ← tdiv_floor_146097 (D + 719468)]
    by_cases h : D + 719468 ≥ 0
    · rw [if_pos h, if_pos h]
    · rw [if_neg h, if_neg h, to_signed_32_of_range _ (by omega) (by omega)]
  have e1 : (2 : Int) ^ 32 = 4294967296 := by norm_num
  have e2 : (2 : Nat) ^ 32 = 4294967296 := by norm_num
  have e3 : (2 : Int) ^ 64 = 18446744073709551616 := by norm_num
  have hdoe2 : ((D + 719468 - E * 146097) % 4294967296).toNat = doe := by omega
  have hmp2 : (5 * doy + 2) % 4294967296 = 5 * doy + 2 := by omega
  obtain ⟨t1, t2, t3, t4, t5, t6, t7, t8⟩ := civil_time_of_day _ hr1 hr2
  unfold time_point_to_civil
  dsimp only
  rw [hdiv, to_signed_32_of_range D (by omega) (by omega),
    to_signed_32_of_range (D + 719468) (by omega) (by omega), hera,
    to_signed_32_of_range E (by omega) (by omega),
    to_signed_32_of_range (E * 146097) (by omega) (by omega),
    to_signed_32_of_range (E * 400) (by omega) (by omega), e1, e2, e3, hdoe2,
    civil_yoe_wrap doe hdoeb, hyoe, civil_doy_wrap doe Y doy hdoe hdoy, hmp2,
    civil_day_wrap doy _ hdoy hmp hmd,
    to_signed_32_of_range (((5 * doy + 2) / 153 : Nat) : Int) (by omega) (by omega),
    to_signed_32_of_range (Y : Int) (by omega) (by omega),
    civil_month_wrap _ hmp,
    to_signed_32_of_range ((Y : Int) + E * 400) (by omega) (by omega),
    civil_year_wrap Y _ E hY hmp hEb.1 hEb.2, t1, t2, t3, t4,
    to_signed_64_of_range _ (by omega) (by omega), t5, t6, t7, t8]

theorem civil_to_time_point_day_count (y : Int) (m d : Nat)
    (h1 : -2147483648 ≤ days_from_civil y m d) (h2 : days_from_civil y m d < 2147483648) :
    civil_to_time_point y m d 0 0 0 0 = days_from_civil y m d * 86400000 := by
  unfold civil_to_time_point
  dsimp only
  rw [to_signed_32_of_range _ h1 h2]
  have hz : to_signed 64 ((0 : Nat) : Int) / 1000000 = 0 := by decide
  rw [hz]
  simp only [Nat.cast_zero, zero_mul, add_zero]
  exact to_signed_64_of_range _ (by omega) (by omega)

/-- The day of the year (from the first of March on) of a valid date, with the
facts that `time_point_to_civil` needs to find the date again. -/
theorem valid_date_day_of_year (y : Int) (m d : Nat) (hv : valid_date y m d) :
    ∃ mp doy : Nat, (mp : Int) = (m : Int) + (if m > 2 then -3 else 9)
      ∧ doy = (153 * mp + 2) / 5 + d - 1
      ∧ mp ≤ 11 ∧ doy ≤ 365
      ∧ (doy = 365 → is_leap_year y = true ∧ m = 2)
      ∧ (5 * doy + 2) / 153 = mp
      ∧ doy - (153 * mp + 2) / 5 + 1 = d
      ∧ (if mp < 10 then mp + 3 else mp - 9) = m
      ∧ ((10 ≤ mp) ↔ m ≤ 2) := by
  obtain ⟨hm1, hm2, hd1, hd2⟩ := hv
  have hnum : (m = 2 → d ≤ 29) ∧ (m = 4 ∨ m = 6 ∨ m = 9 ∨ m = 11 → d ≤ 30) ∧ d ≤ 31
      ∧ (is_leap_year y = false → m = 2 → d ≤ 28) := by
    unfold days_in_month at hd2
    cases hl : is_leap_year y
    · rw [hl] at hd2
      simp only [Bool.false_eq_true, if_false] at hd2
      split_ifs at hd2 <;> omega
    · rw [hl] at hd2
      simp only [if_true] at hd2
      split_ifs at hd2 <;> simp <;> omega
  obtain ⟨n1, n2, n3, n4⟩ := hnum
  obtain ⟨mp, hmp⟩ : ∃ mp : Nat, mp = if m > 2 then m - 3 else m + 9 := ⟨_, rfl⟩
  have hmp11 : mp ≤ 11 := by rw [hmp]; split_ifs <;> omega
  have hlen : d ≤ (153 * (mp + 1) + 2) / 5 - (153 * mp + 2) / 5 := by
    rw [hmp]
    interval_cases m <;> simp <;> omega
  have hdoy : (153 * mp + 2) / 5 + d - 1 ≤ 365 := by
    rw [hmp]
    interval_cases m <;> simp <;> omega
  refine ⟨mp, (153 * mp + 2) / 5 + d - 1, by rw [hmp]; split_ifs <;> omega, rfl, hmp11,
    hdoy, ?_, mp_of_doy mp d hmp11 hd1 hlen, by omega, by rw [hmp]; split_ifs <;> omega,
    by rw [hmp]; split_ifs <;> omega⟩
  intro h365
  have hm2 : m = 2 := by
    rw [hmp] at h365
    interval_cases m <;> simp at h365 <;> omega
  refine ⟨?_, hm2⟩
  cases hl : is_leap_year y
  · have := n4 hl hm2
    rw [hmp] at h365
    subst hm2
    simp at h365
    omega
  · rfl

/-- C38 (as stated, refuted): the date 5879610-09-10 is a valid date whose day
count, 2146764180, fits in 32 bits, and `time_point_to_civil` returns the day 11
for its time point: `z += 719468` leaves the 32-bit range. -/
theorem C38_round_trip_fails_above_the_day_number_range :
    valid_date 5879610 9 10
      ∧ days_from_civil 5879610 9 10 = 2146764180
      ∧ (2146764180 : Int) < 2 ^ 31
      ∧ time_point_to_civil (civil_to_time_point 5879610 9 10 0 0 0 0)
        = { year := 5879610, month := 9, day := 11, hour := 0, minute := 0, second := 0,
            nanosecond := 0 } := by
  refine ⟨by decide, by decide, by decide, by decide⟩

/-- C38 (amended): for every valid proleptic Gregorian date `(y, m, d)` whose day
count is at least `-2 ^ 31` and, with 719468 added, below `2 ^ 31` (at most
2146764179), `time_point_to_civil( civil_to_time_point( y, m, d, 0, 0, 0, 0 ) )`
has the year `y`, the month `m`, the day `d` and the time of day zero.  The
years are those for which the 32-bit arithmetic of `civil_to_time_point` does
not overflow. -/
theorem C38_civil_round_trip_within_day_number_range (y : Int) (m d : Nat)
    (hy1 : -2147483248 ≤ y) (hy2 : y ≤ 2147483647) (hv : valid_date y m d)
    (h1 : -2147483648 ≤ days_from_civil y m d) (h2 : days_from_civil y m d ≤ 2146764179) :
    time_point_to_civil (civil_to_time_point y m d 0 0 0 0)
      = { year := y, month := m, day := d, hour := 0, minute := 0, second := 0,
          nanosecond := 0 } := by
  obtain ⟨mp, doy, hmp, hdoy, hmp11, hdoy365, hleap, hmpinv, hdinv, hminv, hm2⟩ :=
    valid_date_day_of_year y m d hv
  have hv2 := hv
  obtain ⟨hm1, hm12, hd1, hd2⟩ := hv2
  have hd31 : d ≤ 31 := by
    have : days_in_month y m ≤ 31 := by unfold days_in_month; split_ifs <;> omega
    omega
  obtain ⟨y2, hy2e⟩ : ∃ y2 : Int, y2 = y - (if m ≤ 2 then 1 else 0) := ⟨_, rfl⟩
  have hc := days_from_civil_closed y m d hy1 hy2 hm1 hm12 hd1 hd31 y2 hy2e (mp : Int) hmp
  rw [civil_to_time_point_day_count y m d h1 (by omega)]
  obtain ⟨D, hD⟩ : ∃ D : Int, D = days_from_civil y m d := ⟨_, rfl⟩
  rw [← hD] at h1 h2 hc ⊢
  obtain ⟨Y, hY⟩ := Int.eq_ofNat_of_zero_le (show 0 ≤ y2 % 400 by omega)
  have hY399 : Y ≤ 399 := by omega
  have hleapY : doy = 365 → Y % 4 = 3 ∧ (Y % 100 ≠ 99 ∨ Y = 399) := by
    intro h
    obtain ⟨hl, hm⟩ := hleap h
    have hy : y = y2 / 400 * 400 + Y + 1 := by
      rw [hm] at hy2e
      simp only [le_refl, if_true] at hy2e
      omega
    unfold is_leap_year at hl
    simp only [Bool.and_eq_true, Bool.or_eq_true, decide_eq_true_eq, ne_eq] at hl
    omega
  have hz : D + 719468 = y2 / 400 * 146097
      + ((365 * Y + Y / 4 - Y / 100 + doy : Nat) : Int) := by
    rw [hc, hY]
    have hdoyI : ((doy : Nat) : Int) = (153 * (mp : Int) + 2) / 5 + d - 1 := by
      rw [hdoy]; omega
    have hsub : Y / 100 ≤ 365 * Y + Y / 4 := by omega
    push_cast [Nat.cast_sub hsub]
    omega
  have hclosed := time_point_to_civil_closed (D * 86400000) D (y2 / 400) Y doy h1 h2
    (Int.mul_tdiv_cancel D (by decide)) (by omega) (by omega) hY399 hdoy365 hleapY hz
  rw [hclosed, hmpinv, hdinv, hminv]
  have hyear : (Y : Int) + 400 * (y2 / 400) + (if 10 ≤ mp then 1 else 0) = y := by
    by_cases hm : m ≤ 2
    · rw [if_pos (hm2.mpr hm)]
      rw [if_pos hm] at hy2e
      omega
    · rw [if_neg (fun h => hm (hm2.mp h))]
      rw [if_neg hm] at hy2e
      omega
  rw [hyear]
  have hr : D * 86400000 - D * 86400000 = 0 := by omega
  rw [hr]
  rfl

/-- C38 at the last date of the range, 5879610-09-09 with the day count
2146764179, and at the first one, -5877641-06-23 with the day count `-2 ^ 31`. -/
theorem C38_civil_round_trip_within_day_number_range_witness :
    (valid_date 5879610 9 9 ∧ days_from_civil 5879610 9 9 = 2146764179
        ∧ time_point_to_civil (civil_to_time_point 5879610 9 9 0 0 0 0)
          = { year := 5879610, month := 9, day := 9, hour := 0, minute := 0, second := 0,
              nanosecond := 0 })
      ∧ (valid_date (-5877641) 6 23 ∧ days_from_civil (-5877641) 6 23 = -2147483648
        ∧ time_point_to_civil (civil_to_time_point (-5877641) 6 23 0 0 0 0)
          = { year := -5877641, month := 6, day := 23, hour := 0, minute := 0, second := 0,
              nanosecond := 0 }) :=
  ⟨⟨by decide, by decide,
      C38_civil_round_trip_within_day_number_range 5879610 9 9 (by decide) (by decide)
        (by decide) (by decide) (by decide)⟩,
    ⟨by decide, by decide,
      C38_civil_round_trip_within_day_number_range (-5877641) 6 23 (by decide) (by decide)
        (by decide) (by decide) (by decide)⟩⟩

theorem time_point_to_civil_after_epoch (tp : Int) (h0 : 0 ≤ tp)
    (hD : tp / 86400000 ≤ 2146764179) :
    1 ≤ (time_point_to_civil tp).month ∧ (time_point_to_civil tp).month ≤ 12
      ∧ 1 ≤ (time_point_to_civil tp).day ∧ (time_point_to_civil tp).day ≤ 31
      ∧ (time_point_to_civil tp).hour ≤ 23
      ∧ (time_point_to_civil tp).minute ≤ 59
      ∧ (time_point_to_civil tp).second ≤ 59
      ∧ (time_point_to_civil tp).nanosecond < 1000000000 := by
  obtain ⟨D, hDe⟩ : ∃ D : Int, D = tp / 86400000 := ⟨_, rfl⟩
  rw [← hDe] at hD
  have hD0 : 0 ≤ D := by omega
  have hdiv : Int.tdiv tp 86400000 = D := by
    rw [Int.tdiv_eq_ediv h0 (by omega), hDe]
  obtain ⟨r, hr⟩ : ∃ r : Int, r = tp - D * 86400000 := ⟨_, rfl⟩
  have hr1 : 0 ≤ r := by omega
  have hr2 : r < 86400000 := by omega
  obtain ⟨doe, hdoe⟩ := Int.eq_ofNat_of_zero_le (show 0 ≤ (D + 719468) % 146097 by omega)
  have hdoeb : doe ≤ 146096 := by omega
  obtain ⟨Y, doy, hY, hdoy, hleap, hsplit⟩ := doe_decompose doe hdoeb
  have hz : D + 719468 = (D + 719468) / 146097 * 146097
      + ((365 * Y + Y / 4 - Y / 100 + doy : Nat) : Int) := by
    rw [← hsplit, ← hdoe]
    omega
  have hclosed := time_point_to_civil_closed tp D ((D + 719468) / 146097) Y doy (by omega) hD
    hdiv (by omega) (by omega) hY hdoy hleap hz
  obtain ⟨hmp, hmd, hd31⟩ := doy_ranges doy hdoy
  rw [hclosed, ← hr]
  dsimp only
  refine ⟨by split_ifs <;> omega, by split_ifs <;> omega, by omega, hd31, ?_, ?_, ?_, ?_⟩
  · have : r / 3600000 ≤ 23 := by omega
    omega
  · have : r % 3600000 / 60000 ≤ 59 := by omega
    omega
  · have : r % 60000 / 1000 ≤ 59 := by omega
    omega
  · have : r % 1000 * 1000000 < 1000000000 := by omega
    omega

/-- C37: for a time point before the epoch that is not a whole number of days the
fields are not in their civil ranges: `duration_cast` truncates towards zero, so
the day count is rounded up and the rest of the duration is negative.  One
millisecond before the epoch is returned as 1970-01-01 with the nanosecond
`2 ^ 64 - 10 ^ 6`, one second before it with the second `2 ^ 32 - 1`, one minute
and one hour before it with the minute and the hour `2 ^ 32 - 1`.  For every
time point at or after the epoch whose day number is a 32-bit value the month
is in 1..12, the day in 1..31, the hour in 0..23, the minute and the second in
0..59 and the nanosecond below `10 ^ 9`. -/
theorem C37_fields_before_the_epoch_out_of_range :
    time_point_to_civil (-1)
        = { year := 1970, month := 1, day := 1, hour := 0, minute := 0, second := 0,
            nanosecond := 18446744073708551616 }
      ∧ time_point_to_civil (-1000)
        = { year := 1970, month := 1, day := 1, hour := 0, minute := 0, second := 4294967295,
            nanosecond := 0 }
      ∧ time_point_to_civil (-60000)
        = { year := 1970, month := 1, day := 1, hour := 0, minute := 4294967295, second := 0,
            nanosecond := 0 }
      ∧ time_point_to_civil (-3600000)
        = { year := 1970, month := 1, day := 1, hour := 4294967295, minute := 0, second := 0,
            nanosecond := 0 }
      ∧ ∀ tp : Int, 0 ≤ tp → tp / 86400000 ≤ 2146764179 →
          1 ≤ (time_point_to_civil tp).month ∧ (time_point_to_civil tp).month ≤ 12
            ∧ 1 ≤ (time_point_to_civil tp).day ∧ (time_point_to_civil tp).day ≤ 31
            ∧ (time_point_to_civil tp).hour ≤ 23
            ∧ (time_point_to_civil tp).minute ≤ 59
            ∧ (time_point_to_civil tp).second ≤ 59
            ∧ (time_point_to_civil tp).nanosecond < 1000000000 :=
  ⟨by decide, by decide, by decide, by decide, time_point_to_civil_after_epoch⟩

theorem bool_escaped_step (Bi Bj p k : Bool) (hk : k = true → Bj = true) :
    (Bi && !(Bj && (p ^^ k)))
        = (Bi && ((!p) ^^ Bool.atLeastTwo (Bi && p && !Bj) Bi k))
      ∧ (Bool.atLeastTwo (Bi && p && !Bj) Bi k = true → Bi = true) := by
  revert hk
  cases Bi <;> cases Bj <;> cases p <;> cases k <;> decide

theorem bool_result_step (Bi Fi p k : Bool) (hk : k = true → Fi = true) :
    ((p ^^ ((Bi && p && !Fi) ^^ (Bi ^^ k))) && Bi)
        = (Bi && ((!p) ^^ Bool.atLeastTwo (Bi && p && !Fi) Bi k)) := by
  revert hk
  cases Bi <;> cases Fi <;> cases p <;> cases k <;> decide

theorem testBit_ones_32 (i : Nat) (h : i < 32) : Nat.testBit 0xFFFFFFFF i = true := by
  have e : (0xFFFFFFFF : Nat) = 2 ^ 32 - 1 := by norm_num
  rw [e, Nat.testBit_two_pow_sub_one]
  exact decide_eq_true h

theorem testBit_ones_16 (i : Nat) (h : i < 16) : Nat.testBit 0xFFFF i = true := by
  have e : (0xFFFF : Nat) = 2 ^ 16 - 1 := by norm_num
  rw [e, Nat.testBit_two_pow_sub_one]
  exact decide_eq_true h

theorem testBit_even_bits : ∀ i, i < 32 → Nat.testBit 0x55555555 i = decide (i % 2 = 0) := by
  decide

theorem testBit_carry_bit (carry : Bool) (i : Nat) :
    (if carry then 1 else 0 : Nat).testBit i = (decide (i = 0) && carry) := by
  cases carry
  · simp
  · cases i with
    | zero => rfl
    | succ n =>
      simp only [if_true, Nat.add_one_ne_zero, decide_False, Bool.false_and]
      exact Nat.testBit_lt_two_pow (Nat.one_lt_two_pow (Nat.succ_ne_zero n))

theorem parity_succ (i : Nat) :
    decide ((i + 1) % 2 = 1) = !decide (i % 2 = 1)
      ∧ decide ((i + 1) % 2 = 0) = decide (i % 2 = 1)
      ∧ decide (i % 2 = 0) = !decide (i % 2 = 1) := by
  rcases Nat.mod_two_eq_zero_or_one i with h | h
  · have : (i + 1) % 2 = 1 := by omega
    simp [h, this]
  · have : (i + 1) % 2 = 0 := by omega
    simp [h, this]

theorem find_escaped_branchless_bits (b : Nat) (carry : Bool) (hb : b < 65536) :
    (∀ i, i < 16 →
        (find_escaped_branchless (if carry then 1 else 0) b).2.testBit i = escaped_at b carry i)
      ∧ (find_escaped_branchless (if carry then 1 else 0) b).1
          = (if escaped_at b carry 16 then 1 else 0) := by
  obtain ⟨c, hc⟩ : ∃ c : Nat, c = if carry then 1 else 0 := ⟨_, rfl⟩
  obtain ⟨B, hBd⟩ : ∃ B, B = b &&& (c ^^^ 0xFFFFFFFF) := ⟨_, rfl⟩
  obtain ⟨F, hFd⟩ : ∃ F, F = ((B <<< 1) % 2 ^ 32) ||| c := ⟨_, rfl⟩
  obtain ⟨O, hOd⟩ : ∃ O, O = B &&& (0x55555555 ^^^ 0xFFFFFFFF) &&& (F ^^^ 0xFFFFFFFF) :=
    ⟨_, rfl⟩
  obtain ⟨S, hSd⟩ : ∃ S, S = (O + B) % 2 ^ 32 := ⟨_, rfl⟩
  have hfun : find_escaped_branchless c b
      = (S >>> 16, (0x55555555 ^^^ (((0x0000FFFF &&& S) <<< 1) % 2 ^ 32)) &&& F) := by
    rw [hSd, hOd, hFd, hBd]
    rfl
  rw [← hc, hfun]
  dsimp only
  -- bits of the operands
  have hcb : ∀ i, c.testBit i = (decide (i = 0) && carry) := by
    intro i; rw [hc]; exact testBit_carry_bit carry i
  have hBle : B ≤ b := by rw [hBd]; exact Nat.and_le_left
  have hB16 : ∀ i, 16 ≤ i → B.testBit i = false := by
    intro i hi
    apply Nat.testBit_lt_two_pow
    have : (2 : Nat) ^ 16 ≤ 2 ^ i := Nat.pow_le_pow_right (by decide) hi
    have e : (2 : Nat) ^ 16 = 65536 := by norm_num
    omega
  have hB : ∀ i, i < 32 → B.testBit i = (b.testBit i && !(decide (i = 0) && carry)) := by
    intro i hi
    rw [hBd, Nat.testBit_and, Nat.testBit_xor, hcb, testBit_ones_32 i hi]
    simp
  have hF : ∀ i, i < 32 →
      F.testBit i = ((decide (i ≥ 1) && B.testBit (i - 1)) || (decide (i = 0) && carry)) := by
    intro i hi
    rw [hFd, Nat.testBit_or, Nat.testBit_mod_two_pow, Nat.testBit_shiftLeft, hcb]
    simp [hi]
  have hO : ∀ i, i < 32 →
      O.testBit i = (B.testBit i && decide (i % 2 = 1) && !F.testBit i) := by
    intro i hi
    rw [hOd, Nat.testBit_and, Nat.testBit_and, Nat.testBit_xor, Nat.testBit_xor,
      testBit_ones_32 i hi, testBit_even_bits i hi, (parity_succ i).2.2]
    simp
  have hOle : O ≤ B := by
    rw [hOd]
    exact Nat.le_trans Nat.and_le_left Nat.and_le_left
  -- the sum
  obtain ⟨k, hkd⟩ : ∃ k : Nat → Bool,
      k = fun i => BitVec.carry i (BitVec.ofNat 32 O) (BitVec.ofNat 32 B) false := ⟨_, rfl⟩
  have hk0 : k 0 = false := by rw [hkd]; exact BitVec.carry_zero
  have hks : ∀ i, i < 32 → k (i + 1) = Bool.atLeastTwo (O.testBit i) (B.testBit i) (k i) := by
    intro i hi
    rw [hkd]
    dsimp only
    rw [BitVec.carry_succ, BitVec.getLsbD_ofNat, BitVec.getLsbD_ofNat]
    simp [hi]
  have hS : ∀ i, i < 32 → S.testBit i = (O.testBit i ^^ (B.testBit i ^^ k i)) := by
    intro i hi
    have e : S = (BitVec.ofNat 32 O + BitVec.ofNat 32 B).toNat := by
      rw [hSd, BitVec.toNat_add, BitVec.toNat_ofNat, BitVec.toNat_ofNat]
      omega
    have e2 : S.testBit i = (BitVec.ofNat 32 O + BitVec.ofNat 32 B).getLsbD i := by
      rw [e]; rfl
    rw [e2, BitVec.getLsbD_add hi, BitVec.getLsbD_ofNat, BitVec.getLsbD_ofNat, hkd]
    simp [hi]
  -- the invariant
  have hinv : ∀ i, i < 16 →
      escaped_at b carry (i + 1)
          = (B.testBit i && (decide ((i + 1) % 2 = 1) ^^ k (i + 1)))
        ∧ (k (i + 1) = true → B.testBit i = true) := by
    intro i
    induction i with
    | zero =>
      intro _
      have hO0 : O.testBit 0 = false := by rw [hO 0 (by decide)]; simp
      have hk1 : k 1 = false := by
        rw [hks 0 (by decide), hO0, hk0]
        cases B.testBit 0 <;> rfl
      refine ⟨?_, fun h => ?_⟩
      · show (b.testBit 0 && !carry) = _
        rw [hk1, hB 0 (by decide)]
        simp
      · rw [hk1] at h; exact Bool.noConfusion h
    | succ j ih =>
      intro hj
      obtain ⟨he, hkj⟩ := ih (by omega)
      have hBj : B.testBit (j + 1) = b.testBit (j + 1) := by
        rw [hB (j + 1) (by omega)]; simp
      have hFj : F.testBit (j + 1) = B.testBit j := by
        rw [hF (j + 1) (by omega)]; simp
      have hstep := bool_escaped_step (B.testBit (j + 1)) (B.testBit j)
        (decide ((j + 1) % 2 = 1)) (k (j + 1)) hkj
      have hk2 : k (j + 1 + 1) = Bool.atLeastTwo
          (B.testBit (j + 1) && decide ((j + 1) % 2 = 1) && !B.testBit j)
          (B.testBit (j + 1)) (k (j + 1)) := by
        rw [hks (j + 1) (by omega), hO (j + 1) (by omega), hFj]
      refine ⟨?_, ?_⟩
      · show (b.testBit (j + 1) && !escaped_at b carry (j + 1)) = _
        rw [he, ← hBj, hk2, (parity_succ (j + 1)).1]
        exact hstep.1
      · rw [hk2]; exact hstep.2
  constructor
  · intro i hi
    rw [Nat.testBit_and, Nat.testBit_xor, Nat.testBit_mod_two_pow, Nat.testBit_shiftLeft,
      Nat.testBit_and, testBit_even_bits i (by omega)]
    cases i with
    | zero =>
      rw [hF 0 (by decide)]
      simp [escaped_at]
    | succ j =>
      have hFj : F.testBit (j + 1) = B.testBit j := by
        rw [hF (j + 1) (by omega)]; simp
      have hkF : k j = true → F.testBit j = true := by
        intro h
        cases j with
        | zero => rw [hk0] at h; exact Bool.noConfusion h
        | succ n =>
          rw [hF (n + 1) (by omega)]
          simp [(hinv n (by omega)).2 h]
      have hr := bool_result_step (B.testBit j) (F.testBit j) (decide (j % 2 = 1)) (k j) hkF
      have h32 : decide (j + 1 < 32) = true := decide_eq_true (by omega)
      have h1 : decide (j + 1 ≥ 1) = true := decide_eq_true (by omega)
      rw [(hinv j (by omega)).1, hks j (by omega), hO j (by omega), (parity_succ j).1, ← hr,
        hFj, Nat.add_sub_cancel, hS j (by omega), hO j (by omega),
        testBit_ones_16 j (by omega), (parity_succ j).2.1, h32, h1]
      simp only [Bool.true_and]
  · have hS16 : S.testBit 16 = k 16 := by
      rw [hS 16 (by decide), hO 16 (by decide), hB16 16 (le_refl _)]
      simp
    have he16 : escaped_at b carry 16 = k 16 := by
      rw [(hinv 15 (by decide)).1]
      have h2 := (hinv 15 (by decide)).2
      cases hk : k 16
      · simp
      · rw [h2 hk]; rfl
    have hSlt : S < 131072 := by
      have : O + B < 131072 := by omega
      rw [hSd]
      have e : (2 : Nat) ^ 32 = 4294967296 := by norm_num
      omega
    have hdiv : S >>> 16 = S / 65536 := by
      rw [Nat.shiftRight_eq_div_pow]
    rw [he16, ← hS16, hdiv, Nat.testBit_to_div_mod]
    have e16 : (2 : Nat) ^ 16 = 65536 := by norm_num
    rw [e16]
    by_cases h : S / 65536 % 2 = 1
    · simp only [h, decide_True, if_true]; omega
    · simp only [h, decide_False, Bool.false_eq_true, if_false]; omega

/-- C34: for every 16-bit mask `b` of the backslashes of a window and every carry
`c` in {0, 1}, bit `i` (`i < 16`) of the mask that `find_escaped_branchless`
returns is set exactly when byte `i` is escaped, that is when byte `i - 1` is a
backslash that is not itself escaped (the byte before the window being such a
backslash exactly when `c = 1`), and the outgoing carry is 1 exactly when byte 15
is a backslash that is not itself escaped, 0 otherwise. -/
theorem C34_find_escaped_branchless_marks_escaped_bytes (b c : Nat) (hb : b < 2 ^ 16)
    (hc : c ≤ 1) :
    (∀ i, i < 16 →
        (find_escaped_branchless c b).2.testBit i = escaped_at b (decide (c = 1)) i)
      ∧ (find_escaped_branchless c b).1
          = (if b.testBit 15 && !escaped_at b (decide (c = 1)) 15 then 1 else 0) := by
  have hb2 : b < 65536 := by
    have e : (2 : Nat) ^ 16 = 65536 := by norm_num
    omega
  have hcc : c = if decide (c = 1) then 1 else 0 := by
    rcases Nat.le_one_iff_eq_zero_or_eq_one.mp hc with h | h <;> subst h <;> rfl
  have h := find_escaped_branchless_bits b (decide (c = 1)) hb2
  rw [← hcc] at h
  exact h

/-- C34 at the window with backslashes at the bytes 0, 1 and 15 and the carry 1:
the bytes 0 and 2 are escaped and the carry is 1. -/
theorem C34_find_escaped_branchless_marks_escaped_bytes_witness :
    (32771 < 2 ^ 16 ∧ 1 ≤ 1)
      ∧ find_escaped_branchless 1 32771 = (1, 65541)
      ∧ (∀ i, i < 16 →
          (find_escaped_branchless 1 32771).2.testBit i = escaped_at 32771 (decide (1 = 1)) i)
      ∧ (find_escaped_branchless 1 32771).1
          = (if Nat.testBit 32771 15 && !escaped_at 32771 (decide (1 = 1)) 15 then 1 else 0) :=
  ⟨⟨by decide, by decide⟩, by decide,
    C34_find_escaped_branchless_marks_escaped_bytes 32771 1 (by decide) (by decide)⟩

theorem mem_skip_scan_plain_run (unchecked : Bool) (fuel : Nat) :
    ∀ (xs tail : List Nat) (pos : Nat), (∀ c, c ∈ xs → c ≠ 34 ∧ c ≠ 92) →
      (mem_move_to_next_of unchecked [92, 34] (xs ++ tail)).bind (fun n =>
          mem_skip_until_end_of_string_loop unchecked fuel ((xs ++ tail).drop n) (pos + n))
        = (mem_move_to_next_of unchecked [92, 34] tail).bind (fun n =>
          mem_skip_until_end_of_string_loop unchecked fuel (tail.drop n)
            (pos + xs.length + n)) := by
  intro xs
  induction xs with
  | nil => intro tail pos _; simp
  | cons c cs ih =>
    intro tail pos h
    have hc := h c (by simp)
    rw [List.cons_append, mem_skip_scan_plain unchecked fuel c (cs ++ tail) pos hc.2 hc.1,
      ih tail (pos + 1) (fun x hx => h x (by simp [hx]))]
    simp only [List.length_cons]
    have e : pos + 1 + cs.length = pos + (cs.length + 1) := by omega
    rw [e]

theorem mem_skip_final_backslash (xs : List Nat) (first : Nat)
    (h : ∀ c, c ∈ xs → c ≠ 34 ∧ c ≠ 92) :
    mem_skip_until_end_of_string false (xs ++ [92]) first
      = Outcome.ok (first + (xs ++ [92]).length + 1) := by
  rw [mem_skip_scan_def false (xs ++ [92]) first (by simp),
    mem_skip_scan_plain_run false _ xs [92] first h]
  simp only [List.length_append, List.length_singleton]
  rw [mem_skip_scan_backslash false (xs.length + 1) [] (first + xs.length)]
  have e : List.drop 1 ([] : List Nat) = [] := rfl
  rw [e, mem_skip_scan_nil]
  congr 1

theorem mem_skip_without_keys (xs : List Nat) (first : Nat) (hne : xs ≠ [])
    (h : ∀ c, c ∈ xs → c ≠ 34 ∧ c ≠ 92) :
    mem_skip_until_end_of_string false xs first = Outcome.ok (first + xs.length) := by
  rw [mem_skip_scan_def false xs first hne]
  have := mem_skip_scan_plain_run false (xs.length + 1) xs [] first h
  rw [List.append_nil] at this
  rw [this, mem_skip_scan_nil]

/-- C31: under the checked policy both scalar overloads of
`mem_skip_until_end_of_string` return `last + 1` for the range `abc\` (from the
position 10 to `last = 14`): behind a backslash `first` is advanced twice, and
nothing brings it back to `last`.  The same holds for every range that has no
quote and no other backslash and ends in a backslash; a non-empty range
without quote and backslash gives `last`. -/
theorem C31_final_backslash_moves_past_last :
    mem_skip_until_end_of_string false (bytes "abc\\") 10 = Outcome.ok 15
      ∧ mem_skip_until_end_of_string_escape false (bytes "abc\\") 10 (-1)
        = Outcome.ok (15, -3)
      ∧ 10 + (bytes "abc\\").length < 15
      ∧ (∀ (xs : List Nat) (first : Nat), (∀ c, c ∈ xs → c ≠ 34 ∧ c ≠ 92) →
          mem_skip_until_end_of_string false (xs ++ [92]) first
            = Outcome.ok (first + (xs ++ [92]).length + 1))
      ∧ (∀ (xs : List Nat) (first : Nat), xs ≠ [] → (∀ c, c ∈ xs → c ≠ 34 ∧ c ≠ 92) →
          mem_skip_until_end_of_string false xs first = Outcome.ok (first + xs.length)) :=
  ⟨by decide, by decide, by decide, mem_skip_final_backslash,
    fun xs first hne h => mem_skip_without_keys xs first hne h⟩

theorem escape_loop_def (unchecked : Bool) (first_first n : Nat) (data : List Nat) (pos : Nat)
    (first_escape : Int) :
    mem_skip_until_end_of_string_escape_loop unchecked first_first (n + 1) data pos
        first_escape =
        if unchecked || !data.isEmpty then
          match data with
          | [] => Outcome.undefined
          | c :: _ =>
            if c == 34 then Outcome.ok (pos, first_escape)
            else
              Outcome.bind (mem_move_to_next_of unchecked [92, 34]
                (data.drop (if c == 92 then 2 else 1))) fun m =>
              mem_skip_until_end_of_string_escape_loop unchecked first_first n
                (data.drop ((if c == 92 then 2 else 1) + m))
                (pos + (if c == 92 then 2 else 1) + m)
                (if c == 92 && decide (first_escape < 0) then (first_first : Int) - (pos : Int)
                  else first_escape)
        else Outcome.ok (pos, first_escape) := by
  cases data <;> rfl

theorem escape_loop_never_positive (unchecked : Bool) (first_first : Nat) :
    ∀ (fuel : Nat) (data : List Nat) (pos : Nat) (first_escape : Int) (p : Nat) (fe : Int),
      first_first ≤ pos → first_escape ≤ 0 →
      mem_skip_until_end_of_string_escape_loop unchecked first_first fuel data pos first_escape
        = Outcome.ok (p, fe) →
      fe ≤ 0 := by
  intro fuel
  induction fuel with
  | zero =>
    intro data pos first_escape p fe _ _ h
    exact Outcome.noConfusion h
  | succ n ih =>
    intro data pos first_escape p fe hpos hfe h
    have e := escape_loop_def unchecked first_first n data pos first_escape
    rw [e] at h
    by_cases hcond : (unchecked || !data.isEmpty) = true
    · rw [if_pos hcond] at h
      cases data with
      | nil => exact Outcome.noConfusion h
      | cons c cs =>
        dsimp only at h
        by_cases hq : (c == 34) = true
        · rw [if_pos hq] at h
          injection h with h
          injection h with _ h2
          omega
        · rw [if_neg hq] at h
          cases hm : mem_move_to_next_of unchecked [92, 34]
              (List.drop (if (c == 92) = true then 2 else 1) (c :: cs)) with
          | ok m =>
            rw [hm, Outcome.bind_ok] at h
            refine ih _ _ _ p fe (by omega) ?_ h
            split_ifs <;> omega
          | failed r => rw [hm] at h; exact Outcome.noConfusion h
          | undefined => rw [hm] at h; exact Outcome.noConfusion h
    · rw [if_neg hcond] at h
      injection h with h
      injection h with _ h2
      omega

theorem escape_scan_never_positive (unchecked : Bool) (data : List Nat) (first : Nat)
    (first_escape : Int) (p : Nat) (fe : Int) (hfe : first_escape < 0)
    (h : mem_skip_until_end_of_string_escape unchecked data first first_escape
      = Outcome.ok (p, fe)) : fe ≤ 0 := by
  have e : mem_skip_until_end_of_string_escape unchecked data first first_escape =
      Outcome.bind (if !unchecked then
          daw_json_assert (!data.isEmpty) ErrorReason.UnexpectedEndOfData
        else Outcome.ok ()) fun _ =>
      Outcome.bind (mem_move_to_next_of unchecked [92, 34] data) fun n =>
      mem_skip_until_end_of_string_escape_loop unchecked first (data.length + 1) (data.drop n)
        (first + n) first_escape := by
    unfold mem_skip_until_end_of_string_escape
    cases unchecked <;> rfl
  rw [e] at h
  cases ha : (if (!unchecked) = true then
      daw_json_assert (!data.isEmpty) ErrorReason.UnexpectedEndOfData
      else Outcome.ok ()) with
  | ok u =>
    rw [ha, Outcome.bind_ok] at h
    cases hm : mem_move_to_next_of unchecked [92, 34] data with
    | ok m =>
      rw [hm, Outcome.bind_ok] at h
      exact escape_loop_never_positive unchecked first _ _ _ _ p fe (by omega) (by omega) h
    | failed r => rw [hm] at h; exact Outcome.noConfusion h
    | undefined => rw [hm] at h; exact Outcome.noConfusion h
  | failed r => rw [ha] at h; exact Outcome.noConfusion h
  | undefined => rw [ha] at h; exact Outcome.noConfusion h

theorem sse42_first_escape_examples :
    mem_skip_until_end_of_string_sse42_escape false
        (List.replicate 16 97 ++ bytes "ab\\n" ++ List.replicate 12 97 ++ [34]) 0 (-1)
        = Outcome.ok (32, 2)
      ∧ mem_skip_until_end_of_string_sse42_escape false (bytes "ab\\nc\"") 10 (-1)
        = Outcome.ok (15, -2) := by
  constructor <;> rfl

/-- C32: `first_escape` is set to `first_first - first`, the operands the wrong way
round.  For the body `ab\nc"` (from the position 10 on, `first_escape = -1` at
entry) the scalar overload leaves `first_escape = -2`, not the offset 2 of the
backslash, under both policies; being negative it is overwritten at every
later backslash (`-5` for `ab\nc\"d"`).  For every range and every negative
`first_escape` at entry the value on return is never positive, so it is the
offset of the first backslash only for the offset 0.  The SSE 4.2 overload
records the index of the backslash inside its 16-byte window (2 for a
backslash at the offset 18) and in its tail `first_first - first` as well.
Without a backslash `first_escape` is unchanged. -/
theorem C32_first_escape_is_not_the_offset :
    mem_skip_until_end_of_string_escape false (bytes "ab\\nc\"") 10 (-1) = Outcome.ok (15, -2)
      ∧ mem_skip_until_end_of_string_escape true (bytes "ab\\nc\"") 10 (-1)
        = Outcome.ok (15, -2)
      ∧ mem_skip_until_end_of_string_escape false (bytes "ab\\nc\\\"d\"") 10 (-1)
        = Outcome.ok (18, -5)
      ∧ mem_skip_until_end_of_string_escape false (bytes "\\nc\"") 10 (-1)
        = Outcome.ok (13, 0)
      ∧ mem_skip_until_end_of_string_escape false (bytes "abc\"") 10 (-1)
        = Outcome.ok (13, -1)
      ∧ (∀ (unchecked : Bool) (data : List Nat) (first : Nat) (first_escape : Int) (p : Nat)
          (fe : Int), first_escape < 0 →
          mem_skip_until_end_of_string_escape unchecked data first first_escape
            = Outcome.ok (p, fe) → fe ≤ 0)
      ∧ mem_skip_until_end_of_string_sse42_escape false
          (List.replicate 16 97 ++ bytes "ab\\n" ++ List.replicate 12 97 ++ [34]) 0 (-1)
        = Outcome.ok (32, 2)
      ∧ mem_skip_until_end_of_string_sse42_escape false (bytes "ab\\nc\"") 10 (-1)
        = Outcome.ok (15, -2) :=
  ⟨by decide, by decide, by decide, by decide, by decide, escape_scan_never_positive,
    sse42_first_escape_examples.1, sse42_first_escape_examples.2⟩

theorem sse42_scan_examples :
    mem_skip_until_end_of_string_sse42 false (List.replicate 15 97 ++ bytes "\\\"b\"") 0
        = Outcome.ok 16
      ∧ mem_skip_until_end_of_string_sse42 false (bytes "abc\\") 10 = Outcome.ok 14
      ∧ mem_skip_until_end_of_string_sse42 false
          (List.replicate 14 97 ++ bytes "\\\"b\"") 0 = Outcome.ok 17 := by
  refine ⟨?_, ?_, ?_⟩ <;> rfl

/-- C33: under the checked policy the SSE 4.2 overload and the scalar overload
return different positions.  On the 19 bytes `aaaaaaaaaaaaaaa\"b"` the backslash
is the last byte of the 16-byte window and the carry `prev_escapes` is not
used by the tail, so the SSE 4.2 overload returns the position 16 of the
escaped quote, the scalar overload the position 18 of the closing quote.  On
the range `abc\` the SSE 4.2 overload returns `last` (14), the scalar overload
`last + 1`.  With the backslash inside the window (14 bytes before it) both
return the closing quote. -/
theorem C33_sse42_scan_differs_from_scalar_scan :
    mem_skip_until_end_of_string_sse42 false (List.replicate 15 97 ++ bytes "\\\"b\"") 0
        = Outcome.ok 16
      ∧ mem_skip_until_end_of_string false (List.replicate 15 97 ++ bytes "\\\"b\"") 0
        = Outcome.ok 18
      ∧ mem_skip_until_end_of_string_sse42 false (bytes "abc\\") 10 = Outcome.ok 14
      ∧ mem_skip_until_end_of_string false (bytes "abc\\") 10 = Outcome.ok 15
      ∧ mem_skip_until_end_of_string_sse42 false
          (List.replicate 14 97 ++ bytes "\\\"b\"") 0 = Outcome.ok 17
      ∧ mem_skip_until_end_of_string false (List.replicate 14 97 ++ bytes "\\\"b\"") 0
        = Outcome.ok 17 :=
  ⟨sse42_scan_examples.1, by decide, sse42_scan_examples.2.1, by decide,
    sse42_scan_examples.2.2, by decide⟩

/-- C36: the checked `parse_string_known_stdstring` writes more bytes than the
body holds.  In the document `"\u123\\"\n\n\n\n"x` the string skipper ends the
body at the quote behind `\\`, so the body `\u123\\` has 7 bytes and the buffer
7 bytes.  `to_nibble` takes the backslash as the fourth digit of `\u123\`, the
next escape is then `\"`, the closing quote, and the escape branch, which does
not compare the cursor with the end of the body when the body has no opening
quote, goes on through the four `\n` behind it up to the next quote: 8 bytes are
written, the cursor ends at 17 with the end of the body at 8, and the final
check `result.size( ) >= sz` fails.  With one `\n` behind the closing quote 5
bytes are returned, two of them read behind the body.  The loops never write
more bytes than the cursor has moved, so the writes stay inside the buffer as
long as the cursor does not pass the end of the body. -/
theorem C36_fast_path_writes_more_bytes_than_the_body_holds :
    skip_string false (Range.ofBytes (bytes "\"\\u123\\\\\"\\n\\n\\n\\n\"x"))
        = Outcome.ok
          (⟨bytes "\\u123\\\\\"\\n\\n\\n\\n\"x", 1, 8, 0, 0, false⟩,
           { data := bytes "\\n\\n\\n\\n\"x", first := 9, last := 19 })
      ∧ Range.size (⟨bytes "\\u123\\\\\"\\n\\n\\n\\n\"x", 1, 8, 0, 0, false⟩ : Range) = 7
      ∧ parse_string_loop EightBitModes.AllowFull false false 19 false
          ⟨bytes "\\u123\\\\\"\\n\\n\\n\\n\"x", 1, 8, 0, 0, false⟩
        = Outcome.ok ([225, 136, 181, 34, 10, 10, 10, 10],
            { data := bytes "\"x", first := 17, last := 8, counter := 0 })
      ∧ parse_string_known_stdstring EightBitModes.AllowFull false
          ⟨bytes "\\u123\\\\\"\\n\\n\\n\\n\"x", 1, 8, 0, 0, false⟩
        = Outcome.failed ErrorReason.InvalidString
      ∧ parse_value_StringEscaped EightBitModes.AllowFull false false
          (Range.ofBytes (bytes "\"\\u123\\\\\"\\n\\n\\n\\n\"x"))
        = Outcome.failed ErrorReason.InvalidString
      ∧ parse_value_StringEscaped EightBitModes.AllowFull false false
          (Range.ofBytes (bytes "\"\\u123\\\\\"\\n\"x"))
        = Outcome.ok ([225, 136, 181, 34, 10],
            { data := bytes "\\n\"x", first := 9, last := 13 })
      ∧ (∀ (mode : EightBitModes) (has_quote : Bool) (fuel : Nat) (inner : Bool)
          (rng r : Range) (out : List Nat),
          parse_string_loop mode false has_quote fuel inner rng = Outcome.ok (out, r) →
          out.length + rng.first ≤ r.first) :=
  ⟨by decide, by decide, by decide, by decide, by decide, by decide,
    fun mode has_quote fuel inner rng r out h =>
      parse_string_loop_length mode has_quote fuel inner rng r out h⟩

/-! ## Checks that stay under the unchecked policy -/

theorem no_fail_Real {R : Type} (parse_real : Range → Outcome (R × Range))
    (hp : ∀ r, (parse_real r).isFailed = false) (las : LiteralAsStringOpt) (kb : Bool)
    (rng : Range) : (parse_value_Real parse_real las kb true rng).isFailed = false := by
  unfold parse_value_Real
  simp only [bind_eq_outcome_bind]
  repeat (first
    | split
    | with_reducible refine no_fail_bind ?_ ?_
    | intro _
    | with_reducible exact no_fail_ok _
    | with_reducible exact no_fail_undefined
    | with_reducible exact no_fail_assert_weak _ _
    | with_reducible exact no_fail_skip_quote _ _
    | with_reducible exact hp _)

theorem parse_value_Variant_no_base_type (pv : ValueParser) (alternatives : List Kind)
    (rng : Range) (h : variant_base_type rng.front = none) :
    parse_value_Variant pv alternatives rng = Outcome.failed ErrorReason.UnexpectedJsonType := by
  rw [parse_value_Variant_table, h]

theorem parse_value_Variant_no_alternative (pv : ValueParser) (alternatives : List Kind)
    (rng : Range) (bpt : JsonBaseParseTypes) (h : variant_base_type rng.front = some bpt)
    (hn : ∀ k, k ∈ alternatives → base_type_of k ≠ bpt) :
    parse_value_Variant pv alternatives rng = Outcome.failed ErrorReason.UnexpectedJsonType := by
  rw [parse_value_Variant_table, h]
  exact parse_variant_value_absent pv bpt alternatives rng hn

theorem parse_value_VariantTagged_not_found (pv : ValueParser)
    (find_range : Range → List Nat → Bool × Range) (tag_name : List Nat) (tag_member : Kind)
    (switcher : JValue → Nat) (alternatives : List Kind) (rng : Range)
    (h : (find_range rng tag_name).1 = false) :
    parse_value_VariantTagged pv find_range tag_name tag_member switcher alternatives rng
      = Outcome.failed ErrorReason.MissingMember := by
  unfold parse_value_VariantTagged
  cases hf : find_range rng tag_name with
  | mk found r2 =>
    rw [hf] at h
    simp only at h
    subst h
    rfl

theorem timestamp_without_T (sv : StrView) (hsz : sv.size ≤ sv.data.length)
    (h : ∀ c, c ∈ sv.toList → c ≠ 84) :
    parse_iso8601_timestamp sv = Outcome.failed ErrorReason.InvalidTimestamp := by
  unfold parse_iso8601_timestamp
  have htw : sv.toList.takeWhile (· != 84) = sv.toList := by
    rw [List.takeWhile_eq_self_iff]
    intro c hc
    simpa using h c hc
  have hlen : sv.toList.length = sv.size := by
    simp only [StrView.toList, List.length_take]
    omega
  have he : (sv.pop_front_until_char 84).2.empty = true := by
    simp only [StrView.pop_front_until_char, htw, StrView.drop, StrView.empty, beq_iff_eq]
    omega
  simp only [he, if_true]
  rfl

theorem parse_value_Date_without_T (unchecked : Bool) (body rest : List Nat) (f l cf : Nat)
    (ctr : Int) (nm : Bool) (hb : escaped_body body) (hT : ∀ c, c ∈ body → c ≠ 84)
    (hl : f + body.length + 2 ≤ l) :
    parse_value_Date unchecked ⟨34 :: body ++ 34 :: rest, f, l, cf, ctr, nm⟩
      = Outcome.failed ErrorReason.InvalidTimestamp := by
  obtain ⟨c, hs, -⟩ := skip_string_body unchecked hb rest f l cf ctr nm hl
  unfold parse_value_Date
  have hm : (⟨34 :: body ++ 34 :: rest, f, l, cf, ctr, nm⟩ : Range).has_more = true := by
    simp only [Range.has_more, decide_eq_true_eq]; omega
  simp only [bind_eq_outcome_bind, hm, assert_weak_true, Outcome.bind_ok, hs]
  rw [timestamp_without_T]
  · rfl
  · simp only [Range.size, List.length_append, List.length_cons]
    omega
  · intro x hx
    simp only [StrView.toList, Range.size] at hx
    have : List.take (f + 1 + body.length - (f + 1)) (body ++ 34 :: rest) = body := by
      rw [show f + 1 + body.length - (f + 1) = body.length by omega]
      simp
    rw [this] at hx
    exact hT x hx

/-- C9 (amended): under the unchecked policy the parsers of the kinds that check
with `daw_json_assert_weak` only (Signed and Unsigned numbers without range
check, booleans, nullable members, raw and escaped strings, and classes,
key-value maps and arrays of such kinds) never invoke the error handler,
whatever the input, the bounds and the recursion budget; neither does the Real
parser, as long as the number routine `parse_real` does not.  The checks written
with `daw_json_error`, `daw_json_ensure` or `daw_json_assert` stay: under the
unchecked policy too, the Variant parser fails whenever the byte at the cursor
selects no base kind, or a base kind for which the contract has no alternative,
the tagged Variant parser fails whenever the tag member is not found, and the
Date parser fails with `InvalidTimestamp` on every string that has no separator
`T` between its quotes. -/
theorem C9_unchecked_weak_checks_never_fail (fuel : Nat) (k : Kind)
    (hk : weakly_checked k) (known_bounds : Bool) (rng : Range) :
    (parse_value fuel true k known_bounds rng).isFailed = false
      ∧ (∀ (R : Type) (parse_real : Range → Outcome (R × Range)) (las : LiteralAsStringOpt),
          (∀ r, (parse_real r).isFailed = false) →
          (parse_value_Real parse_real las known_bounds true rng).isFailed = false)
      ∧ (∀ alternatives, variant_base_type rng.front = none →
          (parse_value (fuel + 1) true (Kind.Variant alternatives) known_bounds rng).isFailed
            = true)
      ∧ (∀ alternatives bpt, variant_base_type rng.front = some bpt →
          (∀ k2, k2 ∈ alternatives → base_type_of k2 ≠ bpt) →
          (parse_value (fuel + 1) true (Kind.Variant alternatives) known_bounds rng).isFailed
            = true)
      ∧ (∀ (find_range : Range → List Nat → Bool × Range) (tag_name : List Nat)
          (tag_member : Kind) (switcher : JValue → Nat) (alternatives : List Kind),
          (find_range rng tag_name).1 = false →
          (parse_value_VariantTagged (parse_value fuel true) find_range tag_name tag_member
            switcher alternatives rng).isFailed = true)
      ∧ (∀ (body rest : List Nat) (f l cf : Nat) (ctr : Int) (nm : Bool),
          escaped_body body → (∀ c, c ∈ body → c ≠ 84) → f + body.length + 2 ≤ l →
          parse_value (fuel + 1) true Kind.Date known_bounds
              ⟨34 :: body ++ 34 :: rest, f, l, cf, ctr, nm⟩
            = Outcome.failed ErrorReason.InvalidTimestamp) := by
  refine ⟨no_fail_parse_value fuel k hk known_bounds rng, ?_, ?_, ?_, ?_, ?_⟩
  · intro R parse_real las hp
    exact no_fail_Real parse_real hp las known_bounds rng
  · intro alternatives h
    show (parse_value_Variant (parse_value fuel true) alternatives rng).isFailed = true
    rw [parse_value_Variant_no_base_type _ _ _ h]
    rfl
  · intro alternatives bpt h hn
    show (parse_value_Variant (parse_value fuel true) alternatives rng).isFailed = true
    rw [parse_value_Variant_no_alternative _ _ _ bpt h hn]
    rfl
  · intro find_range tag_name tag_member switcher alternatives h
    rw [parse_value_VariantTagged_not_found _ _ _ _ _ _ _ h]
    rfl
  · intro body rest f l cf ctr nm hb hT hl
    show (parse_value_Date true _).bind _ = _
    rw [parse_value_Date_without_T true body rest f l cf ctr nm hb hT hl]
    rfl

/-- Witness of C9 (amended): the contract `MyClass2` on the malformed input
`{"a":x`, the Real parser with an integer parser in the place of `parse_real`,
the Variant parser of a contract without a class on the same input, the tagged
Variant parser with a search that finds nothing, and the Date parser on the
string `"2020"`. -/
theorem C9_unchecked_weak_checks_never_fail_witness :
    weakly_checked MyClass2
      ∧ (parse_value 5 true MyClass2 false
          (Range.ofBytes (bytes "\x7b\"a\":x"))).isFailed = false
      ∧ (parse_value_Real (fun r => parse_unsigned_integer 64 (2 ^ 64 - 1) false true r)
          LiteralAsStringOpt.Never false true
          (Range.ofBytes (bytes "\x7b\"a\":x"))).isFailed = false
      ∧ (parse_value 6 true (Kind.Variant [Kind.Bool LiteralAsStringOpt.Never]) false
          (Range.ofBytes (bytes "\x7b\"a\":x"))).isFailed = true
      ∧ (parse_value_VariantTagged (parse_value 5 true) (fun r _ => (false, r)) (bytes "type")
          (Kind.Unsigned 32 LiteralAsStringOpt.Never false) (fun _ => 0)
          [Kind.Bool LiteralAsStringOpt.Never]
          (Range.ofBytes (bytes "\x7b\"a\":x"))).isFailed = true
      ∧ parse_value 6 true Kind.Date false ⟨34 :: bytes "2020" ++ 34 :: [], 0, 6, 0, -1, false⟩
        = Outcome.failed ErrorReason.InvalidTimestamp :=
  ⟨weakly_checked_MyClass2,
   (C9_unchecked_weak_checks_never_fail 5 MyClass2 weakly_checked_MyClass2 false _).1,
   (C9_unchecked_weak_checks_never_fail 5 MyClass2 weakly_checked_MyClass2 false _).2.1 Nat
      (fun r => parse_unsigned_integer 64 (2 ^ 64 - 1) false true r) LiteralAsStringOpt.Never
      (fun _ => rfl),
   (C9_unchecked_weak_checks_never_fail 5 MyClass2 weakly_checked_MyClass2 false _).2.2.2.1
      [Kind.Bool LiteralAsStringOpt.Never] JsonBaseParseTypes.Class (by decide) (by decide),
   (C9_unchecked_weak_checks_never_fail 5 MyClass2 weakly_checked_MyClass2 false _).2.2.2.2.1
      (fun r _ => (false, r)) (bytes "type") (Kind.Unsigned 32 LiteralAsStringOpt.Never false)
      (fun _ => 0) [Kind.Bool LiteralAsStringOpt.Never] rfl,
   (C9_unchecked_weak_checks_never_fail 5 MyClass2 weakly_checked_MyClass2 false
      (Range.ofBytes [])).2.2.2.2.2 (bytes "2020") [] 0 6 0 (-1) false
      (escaped_body_plain_list _ (by decide)) (by decide) (by decide)⟩

/-! ## Day counts and the 32-bit `Days` -/

/-- C13 (as stated, refuted): the date 5881580-07-11 is a valid date with the
valid successor 5881580-07-12; its day count is `2 ^ 31 - 1`, the largest value
of the 32-bit `Days`, and the day count of its successor, `2 ^ 31`, becomes
`-2 ^ 31` in `Days`: the time point of the successor lies 4294967295 days before
that of the date.  For the year -2147483249, where `y - 399` leaves the 32-bit
range, the 64-bit day count of the first of March is not the one of the 28th of
February plus 1 either. -/
theorem C13_successor_day_count_wraps :
    valid_date 5881580 7 11
      ∧ next_date 5881580 7 11 = (5881580, 7, 12)
      ∧ valid_date 5881580 7 12
      ∧ civil_to_time_point 5881580 7 11 0 0 0 0 = 2147483647 * 86400000
      ∧ civil_to_time_point 5881580 7 12 0 0 0 0 = -2147483648 * 86400000
      ∧ valid_date (-2147483249) 2 28
      ∧ next_date (-2147483249) 2 28 = (-2147483249, 3, 1)
      ∧ valid_date (-2147483249) 3 1
      ∧ days_from_civil (-2147483249) 2 28 = 784351722566
      ∧ days_from_civil (-2147483249) 3 1 = -784352870042 := by
  refine ⟨by decide, by decide, by decide, by decide, by decide, by decide, by decide,
    by decide, by decide, by decide⟩

/-- C13 (amended): the day count computed by `civil_to_time_point` is the day
number of the proleptic Gregorian calendar relative to 1970-01-01 as long as it
fits the 32-bit `Days`.  The time point of 1970-01-01 is 0.  For every valid
calendar date whose year is one for which the 32-bit arithmetic of the code does
not overflow (from -2147483248 on, the next year being a 32-bit value) and whose
day count lies between `-2 ^ 31` and `2 ^ 31 - 2`, the date that follows it is
valid, its day count is the day count of the date plus 1, and the time points of
the two midnights are these day counts in milliseconds, one day apart. -/
theorem C13_day_count_is_gregorian_day_number (y : Int) (m d : Nat)
    (hy1 : -2147483248 ≤ y) (hy2 : y ≤ 2147483646) (hv : valid_date y m d)
    (h1 : -2147483648 ≤ days_from_civil y m d) (h2 : days_from_civil y m d ≤ 2147483646) :
    civil_to_time_point 1970 1 1 0 0 0 0 = 0
      ∧ valid_date (next_date y m d).1 (next_date y m d).2.1 (next_date y m d).2.2
      ∧ days_from_civil (next_date y m d).1 (next_date y m d).2.1 (next_date y m d).2.2
          = days_from_civil y m d + 1
      ∧ civil_to_time_point y m d 0 0 0 0 = days_from_civil y m d * 86400000
      ∧ civil_to_time_point (next_date y m d).1 (next_date y m d).2.1 (next_date y m d).2.2
          0 0 0 0
        = civil_to_time_point y m d 0 0 0 0 + 86400000 := by
  obtain ⟨-, hvn, hn⟩ := days_from_civil_successor y m d hy1 hy2 hv
  have e1 := civil_to_time_point_day_count y m d h1 (by omega)
  have e2 := civil_to_time_point_day_count (next_date y m d).1 (next_date y m d).2.1
    (next_date y m d).2.2 (by omega) (by omega)
  refine ⟨by decide, hvn, hn, e1, ?_⟩
  rw [e2, e1, hn]
  ring

/-- The last day of the year 1969 is followed by 1970-01-01, with the day count 0
and the time point 0, the leap day of the year -400 by the first of March, and
the date 5881580-07-10, whose day count is `2 ^ 31 - 2`, by the date with the
largest day count. -/
theorem C13_day_count_is_gregorian_day_number_witness :
    (valid_date 1969 12 31 ∧ next_date 1969 12 31 = (1970, 1, 1)
        ∧ days_from_civil 1969 12 31 = -1
        ∧ civil_to_time_point (next_date 1969 12 31).1 (next_date 1969 12 31).2.1
            (next_date 1969 12 31).2.2 0 0 0 0
          = civil_to_time_point 1969 12 31 0 0 0 0 + 86400000)
      ∧ (valid_date (-400) 2 29 ∧ next_date (-400) 2 29 = (-400, 3, 1)
        ∧ days_from_civil (-400) 2 29 = -865566
        ∧ days_from_civil (next_date (-400) 2 29).1 (next_date (-400) 2 29).2.1
            (next_date (-400) 2 29).2.2 = days_from_civil (-400) 2 29 + 1)
      ∧ (valid_date 5881580 7 10 ∧ next_date 5881580 7 10 = (5881580, 7, 11)
        ∧ days_from_civil 5881580 7 10 = 2147483646
        ∧ civil_to_time_point (next_date 5881580 7 10).1 (next_date 5881580 7 10).2.1
            (next_date 5881580 7 10).2.2 0 0 0 0
          = civil_to_time_point 5881580 7 10 0 0 0 0 + 86400000) :=
  ⟨⟨by decide, by decide, by decide,
      (C13_day_count_is_gregorian_day_number 1969 12 31 (by decide) (by decide)
        (by decide) (by decide) (by decide)).2.2.2.2⟩,
    ⟨by decide, by decide, by decide,
      (C13_day_count_is_gregorian_day_number (-400) 2 29 (by decide) (by decide)
        (by decide) (by decide) (by decide)).2.2.1⟩,
    ⟨by decide, by decide, by decide,
      (C13_day_count_is_gregorian_day_number 5881580 7 10 (by decide) (by decide)
        (by decide) (by decide) (by decide)).2.2.2.2⟩⟩

end DawJson
